import Mathlib

/-!
# VC8000 assembler and emulator: embedding and verified properties

A shallow embedding of the C++ sources under `VC800Assem/` (Instruction, SymbolTable,
TransStmt, Translation, Assembler, emulator) followed by theorems about them.

Conventions of the embedding
* `std::string` is `String`; character-level work is done on `String.data`.
* `int` / `long long` values are `Int`.  Where the source narrows a `long long` to `int`
  the model applies `wrap32`, `abs` on an `int` is `abs32`, and the `int` addition of
  `LocationNextInstruction` is `add32`: a sum that leaves the `int` range wraps (the
  language leaves signed overflow undefined; two's complement targets wrap).  The
  `long long` arithmetic of the emulator is the mathematical one, which is the source's as
  long as the result fits 64 bits.
* `m_memory[i]` and `m_registers[i]` are total maps `Int → Int`; the source vectors have
  indices `[0, MEMSZ)` and `[0, REGSZ)`, an access outside them is an out-of-bounds access.
* An uncaught C++ exception (`std::out_of_range`, `std::invalid_argument` thrown by
  `stoi` / `stoll`) is the value `none`.
* The static sink `Errors::m_ErrorMsgs` is an explicit `List String` threaded through the
  functions that record into it.
* The source file read by `FileAccess` is the list of lines that successive
  `GetNextLine` calls return.
* `SymTab.h` is not part of the sources at hand: the value of the constant
  `multiplyDefinedSymbol` is a field of the symbol table, fixed when the table is created.
-/

namespace VC8000

/-! ## Characters, numbers and strings (C and C++ library behaviour) -/

/-- C `isspace` in the "C" locale: the space, and the characters `\t \n \v \f \r`
(codes 9 to 13). -/
def isspace (c : Char) : Bool :=
  decide (c.toNat = 32) || (decide (9 ≤ c.toNat) && decide (c.toNat ≤ 13))

/-- C `isdigit`. -/
def isdigit (c : Char) : Bool := decide (48 ≤ c.toNat) && decide (c.toNat ≤ 57)

/-- C `toupper` in the "C" locale. -/
def toupper (c : Char) : Char :=
  if 97 ≤ c.toNat ∧ c.toNat ≤ 122 then Char.ofNat (c.toNat - 32) else c

/-- Value of a decimal digit character. -/
def digitVal (c : Char) : Nat := c.toNat - 48

/-- Accumulate the value of a run of decimal digits, most significant first. -/
def digitsValue (acc : Nat) : List Char → Nat
  | [] => acc
  | c :: cs => digitsValue (acc * 10 + digitVal c) cs

/-- The conversion shared by `strtol` / `strtoll`: skip leading white space, read an optional
sign, then the longest run of digits.  `none` when there is no digit (the C++ wrappers throw
`std::invalid_argument`). -/
def strtoInt (s : List Char) : Option Int :=
  let t := s.dropWhile isspace
  let neg : Bool := decide (t.head? = some '-')
  let u : List Char := if t.head? = some '-' ∨ t.head? = some '+' then t.tail else t
  let ds := u.takeWhile isdigit
  if ds.isEmpty then none
  else
    let v : Int := (digitsValue 0 ds : Nat)
    some (if neg then -v else v)

/-- C++ `std::stoi`: `none` stands for a thrown exception (no digits, or a value that does not
fit in a 32-bit `int`). -/
def stoi (s : String) : Option Int :=
  match strtoInt s.data with
  | none => none
  | some v => if -2147483648 ≤ v ∧ v ≤ 2147483647 then some v else none

/-- C++ `std::stoll`: `none` stands for a thrown exception (no digits, or a value that does not
fit in a 64-bit `long long`). -/
def stoll (s : String) : Option Int :=
  match strtoInt s.data with
  | none => none
  | some v => if -9223372036854775808 ≤ v ∧ v ≤ 9223372036854775807 then some v else none

/-- Narrowing of a `long long` to a 32-bit `int` (two's complement wrap). -/
def wrap32 (x : Int) : Int := (x + 2147483648) % 4294967296 - 2147483648

/-- The C library `abs` on an `int`: the magnitude.  The magnitude of `INT_MIN` does not fit
an `int`; the argument comes back unchanged then (two's complement negation). -/
def abs32 (x : Int) : Int := if x = -2147483648 then -2147483648 else |x|

/-- Addition of two `int` values.  A sum that does not fit an `int` comes back moved by 2^32
into the `int` range (two's complement wrap; the operands are `int` values, so the sum is off
by at most one such step). -/
def add32 (a b : Int) : Int :=
  if a + b > 2147483647 then a + b - 4294967296
  else if a + b < -2147483648 then a + b + 4294967296
  else a + b

/-- Decimal text of a natural number, as `operator<<` prints it. -/
def natToStr (n : Nat) : String := String.mk (Nat.toDigits 10 n)

/-- Decimal text of an integer, as `operator<<` and `std::to_string` print it. -/
def intToStr (v : Int) : String :=
  if v < 0 then "-" ++ natToStr v.natAbs else natToStr v.natAbs

/-- Text of a non-negative number under `setw(w) << setfill(c)`: padded on the left up to
width `w`, never truncated. -/
def padLeft (w : Nat) (c : Char) (s : String) : String :=
  String.mk (List.replicate (w - s.data.length) c) ++ s

/-- White-space separated tokens of a character sequence, in order (what successive
`istringstream >> string` extractions deliver).  `cur` is the token being read, reversed. -/
def tokensAux : List Char → List Char → List String
  | [], cur => if cur.isEmpty then [] else [String.mk cur.reverse]
  | c :: cs, cur =>
    if isspace c then
      (if cur.isEmpty then tokensAux cs [] else String.mk cur.reverse :: tokensAux cs [])
    else tokensAux cs (c :: cur)

/-- Tokens of a line. -/
def tokens (s : List Char) : List String := tokensAux s []

/-- Whether `pat` occurs as a contiguous run of characters in `text`. -/
def occursIn (pat : List Char) : List Char → Bool
  | [] => pat.isEmpty
  | c :: cs => pat.isPrefixOf (c :: cs) || occursIn pat cs

/-- Whether the message `msg` occurs in the text `text`. -/
def hasMsg (text msg : String) : Bool := occursIn msg.data text.data

/-! ## Errors.h -/

namespace Errors

/-- `Errors::RecordError`: `m_ErrorMsgs.push_back(a_emsg)`. -/
def RecordError (errs : List String) (a_emsg : String) : List String := errs ++ [a_emsg]

/-- `Errors::GetErrors`: every message followed by a newline, concatenated. -/
def GetErrors : List String → String
  | [] => ""
  | e :: es => (e ++ "\n") ++ GetErrors es

end Errors

/-! ## Instruction.h: the enumerations -/

/-- `Instruction::InstructionType`. -/
inductive InstructionType
  | ST_MachineLanguage
  | ST_AssemblerInstr
  | ST_Comment
  | ST_End
  | ST_Error
  deriving DecidableEq, Repr

/-- `Instruction::SymbolicOpCode`, in declaration order. -/
inductive SymbolicOpCode
  | OC_ERR | OC_ADD | OC_SUB | OC_MULT | OC_DIV | OC_LOAD | OC_STORE
  | OC_ADDR | OC_SUBR | OC_MULTR | OC_DIVR | OC_READ | OC_WRITE
  | OC_B | OC_BM | OC_BZ | OC_BP | OC_HALT
  | OC_ORG | OC_DC | OC_DS | OC_END | OC_COMM
  deriving DecidableEq, Repr

open SymbolicOpCode InstructionType

/-- The underlying integer of an enumerator (`(int)m_OpCode`). -/
def SymbolicOpCode.ord : SymbolicOpCode → Nat
  | OC_ERR => 0 | OC_ADD => 1 | OC_SUB => 2 | OC_MULT => 3 | OC_DIV => 4 | OC_LOAD => 5
  | OC_STORE => 6 | OC_ADDR => 7 | OC_SUBR => 8 | OC_MULTR => 9 | OC_DIVR => 10
  | OC_READ => 11 | OC_WRITE => 12 | OC_B => 13 | OC_BM => 14 | OC_BZ => 15 | OC_BP => 16
  | OC_HALT => 17 | OC_ORG => 18 | OC_DC => 19 | OC_DS => 20 | OC_END => 21 | OC_COMM => 22

/-- The enumerator with a given underlying integer, for the machine instructions `1..17`
(the values that pass the range check of `runProgram`). -/
def SymbolicOpCode.ofOrd (n : Int) : Option SymbolicOpCode :=
  if n = 1 then some OC_ADD else if n = 2 then some OC_SUB else if n = 3 then some OC_MULT
  else if n = 4 then some OC_DIV else if n = 5 then some OC_LOAD else if n = 6 then some OC_STORE
  else if n = 7 then some OC_ADDR else if n = 8 then some OC_SUBR else if n = 9 then some OC_MULTR
  else if n = 10 then some OC_DIVR else if n = 11 then some OC_READ
  else if n = 12 then some OC_WRITE else if n = 13 then some OC_B else if n = 14 then some OC_BM
  else if n = 15 then some OC_BZ else if n = 16 then some OC_BP else if n = 17 then some OC_HALT
  else none

/-! ## TransStmt.h / TransStmt.cpp -/

/-- `TransStmt::Contents`. -/
structure Contents where
  m_OpCode : SymbolicOpCode
  m_Reg1 : Int := 0
  m_Reg2 : Int := -1
  m_Addr : Int := -1
  m_Val : Int := -1
  m_InvalidOpCode : Bool := false
  m_InvalidReg1 : Bool := false
  m_InvalidReg2 : Bool := false
  m_InvalidAddr : Bool := false
  m_InvalidValue : Bool := false

/-- `TransStmt::Contents::SetErrorCodes`. -/
def Contents.SetErrorCodes (c : Contents) (a_opcode a_reg1 a_reg2 a_addr a_val : Bool) :
    Contents :=
  { c with m_InvalidOpCode := a_opcode, m_InvalidReg1 := a_reg1, m_InvalidReg2 := a_reg2,
           m_InvalidAddr := a_addr, m_InvalidValue := a_val }

/-- `TransStmt::Contents::GetContents`. -/
def Contents.GetContents (c : Contents) : String :=
  if c.m_InvalidOpCode || c.m_InvalidValue then "?????????"
  else
    let dc : String :=
      if c.m_OpCode = OC_DC then
        (if c.m_Val < 0 then "-" else "") ++ padLeft 9 '0' (intToStr (abs32 c.m_Val))
      else ""
    let ml : String :=
      if c.m_OpCode.ord ≤ OC_HALT.ord then
        padLeft 2 '0' (natToStr c.m_OpCode.ord)
          ++ (if c.m_InvalidReg1 then "?" else intToStr c.m_Reg1)
          ++ (if c.m_InvalidReg2 then "?" ++ "00000"
              else if c.m_Reg2 ≥ 0 then intToStr c.m_Reg2 ++ "00000" else "")
          ++ (if c.m_InvalidAddr then "??????"
              else if c.m_Addr ≥ 0 then padLeft 6 '0' (natToStr c.m_Addr.natAbs) else "")
      else ""
    dc ++ ml

/-- `TransStmt`. -/
structure TransStmt where
  m_Loc : Int := 0
  m_Contents : Contents
  m_OrigStmt : String
  m_pOrig : Bool := false
  m_ErrorMsg : String := ""

/-- The constructor `TransStmt::TransStmt`. -/
def TransStmt.new (a_oc : SymbolicOpCode) (a_loc : Int) (a_origStmt : String)
    (a_reg1 a_reg2 a_addr a_val : Int) : TransStmt :=
  { m_Loc := a_loc
    m_OrigStmt := a_origStmt
    m_Contents := { m_OpCode := a_oc, m_Reg1 := a_reg1, m_Reg2 := a_reg2, m_Addr := a_addr,
                    m_Val := a_val }
    m_pOrig := decide (a_oc = OC_COMM) || decide (a_oc = OC_END) }

/-- `TransStmt::GetLocation`. -/
def TransStmt.GetLocation (t : TransStmt) : Int := t.m_Loc

/-- `TransStmt::SetErrorMsg`. -/
def TransStmt.SetErrorMsg (t : TransStmt) (a_error : String) : TransStmt :=
  { t with m_ErrorMsg := a_error }

/-- `TransStmt::SetErrorCodes`. -/
def TransStmt.SetErrorCodes (t : TransStmt) (a_opcode a_reg1 a_reg2 a_addr a_val : Bool) :
    TransStmt :=
  { t with m_Contents := t.m_Contents.SetErrorCodes a_opcode a_reg1 a_reg2 a_addr a_val }

/-- `TransStmt::GetNumContents` (`none`: `stoll` threw). -/
def TransStmt.GetNumContents (t : TransStmt) : Option Int :=
  let str := t.m_Contents.GetContents
  if str.data.isEmpty then some 0
  else if str.data.contains '?' then some (-1)
  else stoll str

/-! ## SymTab.cpp -/

/-- `SymbolTable`: the `std::map<string, int>` as an association list with unique keys, and
the constant `multiplyDefinedSymbol` (declared in `SymTab.h`). -/
structure SymbolTable where
  multiplyDefinedSymbol : Int
  m_symbolTable : List (String × Int) := []

/-- `map::find`: the value stored under a key. -/
def mapFind (k : String) : List (String × Int) → Option Int
  | [] => none
  | (k1, v) :: r => if k1 = k then some v else mapFind k r

/-- Assignment through an iterator returned by `map::find`: overwrite the value under `k`. -/
def mapAssign (k : String) (v : Int) : List (String × Int) → List (String × Int)
  | [] => []
  | (k1, v1) :: r => if k1 = k then (k1, v) :: r else (k1, v1) :: mapAssign k v r

/-- `SymbolTable::AddSymbol`. -/
def SymbolTable.AddSymbol (st : SymbolTable) (a_symbol : String) (a_loc : Int) : SymbolTable :=
  match mapFind a_symbol st.m_symbolTable with
  | some _ =>
    { st with m_symbolTable := mapAssign a_symbol st.multiplyDefinedSymbol st.m_symbolTable }
  | none => { st with m_symbolTable := st.m_symbolTable ++ [(a_symbol, a_loc)] }

/-- `SymbolTable::LookupSymbol`: the returned flag and the value of the reference parameter
`a_loc` after the call. -/
def SymbolTable.LookupSymbol (st : SymbolTable) (a_symbol : String) (a_loc : Int) : Bool × Int :=
  match mapFind a_symbol st.m_symbolTable with
  | some v => (true, v)
  | none => (false, a_loc)

/-! ## Instruction.h / Instruction.cpp -/

/-- `Instruction`: the data members, with their in-class initialisers. -/
structure Instruction where
  m_Label : String := ""
  m_OpCode : String := ""
  m_Operand1 : String := ""
  m_Operand2 : String := ""
  m_instruction : String := ""
  m_NumOpCode : SymbolicOpCode := OC_ERR
  m_type : InstructionType := ST_Error
  m_IsNumericOperand1 : Bool := false
  m_Operand1NumericValue : Int := 0
  m_IsNumericOperand2 : Bool := false
  m_Operand2NumericValue : Int := 0
  m_InvalidOpCode : Bool := false
  m_InvalidReg1 : Bool := false
  m_InvalidReg2 : Bool := false
  m_InvalidAddr : Bool := false
  m_InvalidValue : Bool := false

namespace Instruction

/-- `Instruction::GetLabel`. -/
def GetLabel (i : Instruction) : String := i.m_Label

/-- `Instruction::isLabel`. -/
def isLabel (i : Instruction) : Bool := !i.m_Label.data.isEmpty

/-- `Instruction::LocationNextInstruction`.  The parameter, the member and the result are
`int`s, so the two sums are `int` additions (`add32`). -/
def LocationNextInstruction (i : Instruction) (a_loc : Int) : Int :=
  if i.m_NumOpCode = OC_ORG then i.m_Operand1NumericValue
  else if i.m_NumOpCode = OC_DS then
    if i.m_Operand1NumericValue < 1 ∨ i.m_Operand1NumericValue > 999999 then add32 a_loc 1
    else add32 a_loc i.m_Operand1NumericValue
  else if i.m_NumOpCode = OC_COMM ∨ i.m_NumOpCode = OC_END then a_loc
  else add32 a_loc 1

/-- `Instruction::DeleteComment`: erase from the first `;` on. -/
def DeleteComment (a_line : String) : String :=
  String.mk (a_line.data.takeWhile (fun c => c != ';'))

/-- `Instruction::ParseLineIntoFields`: the returned flag together with the label, op code,
operand 1 and operand 2 it stores through its reference parameters. -/
def ParseLineIntoFields (a_line : String) : Bool × String × String × String × String :=
  if a_line.data.isEmpty then (false, "", "", "", "")
  else
    let l : List Char := a_line.data.map (fun c => if c = ',' then ' ' else c)
    let ts := tokens l
    if l.head? = some ' ' ∨ l.head? = some '\t' then
      (!(ts.getD 3 "").data.isEmpty, "", ts.getD 0 "", ts.getD 1 "", ts.getD 2 "")
    else
      (!(ts.getD 4 "").data.isEmpty, ts.getD 0 "", ts.getD 1 "", ts.getD 2 "", ts.getD 3 "")

/-- `Instruction::isStrNumber`. -/
def isStrNumber (a_str : String) : Bool :=
  match a_str.data with
  | [] => false
  | c :: cs =>
    if c = '-' ∨ c = '+' then
      (if (c :: cs).length < 2 then false else cs.all isdigit)
    else (c :: cs).all isdigit

/-- The `opCodeMap` of `Instruction::RecordFields`. -/
def opCodeMap : List (String × SymbolicOpCode) :=
  [("ADD", OC_ADD), ("SUB", OC_SUB), ("MULT", OC_MULT), ("DIV", OC_DIV), ("LOAD", OC_LOAD),
   ("STORE", OC_STORE), ("ADDR", OC_ADDR), ("SUBR", OC_SUBR), ("MULTR", OC_MULTR),
   ("DIVR", OC_DIVR), ("READ", OC_READ), ("WRITE", OC_WRITE), ("B", OC_B), ("BM", OC_BM),
   ("BZ", OC_BZ), ("BP", OC_BP), ("HALT", OC_HALT), ("ORG", OC_ORG), ("DC", OC_DC),
   ("DS", OC_DS), ("END", OC_END)]

/-- `Instruction::RecordFields`: the returned format-error flag and the updated object;
`none` when `stoi` throws. -/
def RecordFields (i : Instruction) (a_line : String) : Option (Bool × Instruction) :=
  let i0 := { i with m_InvalidOpCode := false, m_InvalidAddr := false, m_InvalidReg1 := false,
                     m_InvalidReg2 := false, m_InvalidValue := false }
  let (isFormatError, label, opcode, operand1, operand2) := ParseLineIntoFields a_line
  let i1 := { i0 with m_Label := label, m_OpCode := opcode, m_Operand1 := operand1,
                      m_Operand2 := operand2 }
  if i1.m_OpCode.data.isEmpty ∧ i1.m_Label.data.isEmpty then
    some (isFormatError, { i1 with m_NumOpCode := OC_COMM, m_type := ST_Comment })
  else
    let n1 := isStrNumber i1.m_Operand1
    let v1 : Option Int := if n1 then stoi i1.m_Operand1 else some i1.m_Operand1NumericValue
    match v1 with
    | none => none
    | some x1 =>
      let n2 := isStrNumber i1.m_Operand2
      let v2 : Option Int := if n2 then stoi i1.m_Operand2 else some i1.m_Operand2NumericValue
      match v2 with
      | none => none
      | some x2 =>
        let i2 := { i1 with m_IsNumericOperand1 := n1, m_Operand1NumericValue := x1,
                            m_IsNumericOperand2 := n2, m_Operand2NumericValue := x2,
                            m_OpCode := String.mk (i1.m_OpCode.data.map toupper) }
        match opCodeMap.lookup i2.m_OpCode with
        | none =>
          some (isFormatError,
            { i2 with m_NumOpCode := OC_ERR, m_type := ST_Error, m_InvalidOpCode := true })
        | some oc =>
          let ty : InstructionType :=
            if oc.ord ≤ OC_HALT.ord then ST_MachineLanguage
            else if oc = OC_END then ST_End
            else ST_AssemblerInstr
          some (isFormatError, { i2 with m_NumOpCode := oc, m_type := ty })

/-- `Instruction::ParseInstruction`: the returned type, the updated object and the updated
error sink; `none` when `stoi` throws. -/
def ParseInstruction (i : Instruction) (errs : List String) (a_line : String) :
    Option (InstructionType × Instruction × List String) :=
  let i0 := { i with m_instruction := a_line }
  match RecordFields i0 (DeleteComment a_line) with
  | none => none
  | some (isFormatError, i1) =>
    let e1 := if isFormatError then Errors.RecordError errs "Error: extra operands." else errs
    let e2 := if i1.m_type = ST_Error then Errors.RecordError e1 "Error: invalid operation."
              else e1
    some (i1.m_type, i1, e2)

/-- `Instruction::RecordErrRegisterAddress`. -/
def RecordErrRegisterAddress (i : Instruction) (errs : List String) :
    Instruction × List String :=
  let (i1, e1) : Instruction × List String :=
    if i.m_Operand2.data.isEmpty then
      ({ i with m_InvalidAddr := true }, Errors.RecordError errs "Error: missing operands.")
    else if (i.m_Operand2.data.head?.map isdigit).getD false then
      ({ i with m_InvalidAddr := true },
        Errors.RecordError errs "Error: Operand 2 is a label and cannot begin with a digit.")
    else (i, errs)
  let (i2, e2) : Instruction × List String :=
    if i1.m_Operand2.data.length > 10 then
      ({ i1 with m_InvalidAddr := true },
        Errors.RecordError e1
          "Error: Operand 2 is too long. Labels are a maximum of 10 characters.")
    else (i1, e1)
  if i2.m_Operand1.data.isEmpty then ({ i2 with m_InvalidReg1 := true }, e2)
  else if !i2.m_IsNumericOperand1 ∨ i2.m_Operand1NumericValue > 9
      ∨ i2.m_Operand1NumericValue < 0 then
    ({ i2 with m_InvalidReg1 := true },
      Errors.RecordError e2 "Error: Operand 1 must be a register number between 0 and 9.")
  else (i2, e2)

/-- `Instruction::RecordErrRegisterRegister`. -/
def RecordErrRegisterRegister (i : Instruction) (errs : List String) :
    Instruction × List String :=
  let (i1, e1) : Instruction × List String :=
    if i.m_Operand2.data.isEmpty then
      ({ i with m_InvalidReg2 := true }, Errors.RecordError errs "Error: missing operands.")
    else if !i.m_IsNumericOperand2 ∨ i.m_Operand2NumericValue > 9
        ∨ i.m_Operand2NumericValue < 0 then
      ({ i with m_InvalidReg2 := true },
        Errors.RecordError errs "Error: Operand 2 must be a register number between 0 and 9.")
    else (i, errs)
  if i1.m_Operand1.data.isEmpty then ({ i1 with m_InvalidReg1 := true }, e1)
  else if !i1.m_IsNumericOperand1 ∨ i1.m_Operand1NumericValue > 9
      ∨ i1.m_Operand1NumericValue < 0 then
    ({ i1 with m_InvalidReg1 := true },
      Errors.RecordError e1 "Error: Operand 1 must be a register number between 0 and 9.")
  else (i1, e1)

/-- `Instruction::RecordErrHalt`. -/
def RecordErrHalt (i : Instruction) (errs : List String) : Instruction × List String :=
  if !i.m_Operand1.data.isEmpty ∨ !i.m_Operand2.data.isEmpty then
    (i, Errors.RecordError errs "Error: extra operands.")
  else (i, errs)

/-- `Instruction::RecordErrDC`. -/
def RecordErrDC (i : Instruction) (errs : List String) : Instruction × List String :=
  let e1 := if !i.m_Operand2.data.isEmpty then Errors.RecordError errs "Error: extra operands."
            else errs
  if !i.m_IsNumericOperand1 ∨ abs32 i.m_Operand1NumericValue > 999999999 then
    ({ i with m_InvalidValue := true },
      Errors.RecordError e1
        "Error: Operand 1 must be a value between -999,999,999 and 999,999,999.")
  else (i, e1)

/-- `Instruction::RecordErrDS`. -/
def RecordErrDS (i : Instruction) (errs : List String) : Instruction × List String :=
  let e1 := if !i.m_Operand2.data.isEmpty then Errors.RecordError errs "Error: extra operands."
            else errs
  if !i.m_IsNumericOperand1 ∨ i.m_Operand1NumericValue < 1
      ∨ i.m_Operand1NumericValue > 999999 then
    ({ i with m_InvalidValue := true },
      Errors.RecordError e1 "Error: Operand 1 must be a value between 1 and 999,999.")
  else (i, e1)

/-- The statement built at the end of `Instruction::Translate`. -/
def mkStmt (i : Instruction) (a_loc reg1 reg2 addr val : Int) : TransStmt :=
  (TransStmt.new i.m_NumOpCode a_loc i.m_instruction reg1 reg2 addr val).SetErrorCodes
    i.m_InvalidOpCode i.m_InvalidReg1 i.m_InvalidReg2 i.m_InvalidAddr i.m_InvalidValue

/-- The register-and-address cases of the `switch` in `Instruction::Translate`. -/
def TranslateRegAddr (i : Instruction) (errs : List String) (a_loc : Int) (a_st : SymbolTable) :
    TransStmt × Instruction × List String :=
  let (i1, e1) := i.RecordErrRegisterAddress errs
  let reg1 := i1.m_Operand1NumericValue
  -- `!m_InvalidAddr && !a_st.LookupSymbol(m_Operand2, addr)`: the lookup only runs when the
  -- flag is clear; `addr` was initialised to -1.
  let look : Bool × Int := a_st.LookupSymbol i1.m_Operand2 (-1)
  let addr : Int := if i1.m_InvalidAddr then -1 else look.2
  let (i2, e2) : Instruction × List String :=
    if !i1.m_InvalidAddr ∧ !look.1 then
      ({ i1 with m_InvalidAddr := true }, Errors.RecordError e1 "Error: label not found.")
    else (i1, e1)
  let (i3, e3) : Instruction × List String :=
    if addr = a_st.multiplyDefinedSymbol then
      ({ i2 with m_InvalidAddr := true },
        Errors.RecordError e2 "Error: multiply defined symbol.")
    else (i2, e2)
  (i3.mkStmt a_loc reg1 (-1) addr (-1), i3, e3)

/-- `Instruction::Translate`: the returned statement, the updated object (validity flags) and
the updated error sink. -/
def Translate (i : Instruction) (errs : List String) (a_loc : Int) (a_st : SymbolTable) :
    TransStmt × Instruction × List String :=
  match i.m_NumOpCode with
  | OC_ADD | OC_SUB | OC_MULT | OC_DIV | OC_LOAD | OC_STORE | OC_BM | OC_BZ | OC_BP
  | OC_READ | OC_WRITE | OC_B => i.TranslateRegAddr errs a_loc a_st
  | OC_ADDR | OC_SUBR | OC_MULTR | OC_DIVR =>
    let (i1, e1) := i.RecordErrRegisterRegister errs
    (i1.mkStmt a_loc i1.m_Operand1NumericValue i1.m_Operand2NumericValue (-1) (-1), i1, e1)
  | OC_HALT =>
    let (i1, e1) := i.RecordErrHalt errs
    (i1.mkStmt a_loc 0 (-1) 0 (-1), i1, e1)
  | OC_DC =>
    let (i1, e1) := i.RecordErrDC errs
    (i1.mkStmt a_loc (-1) (-1) (-1) i1.m_Operand1NumericValue, i1, e1)
  | OC_DS =>
    let (i1, e1) := i.RecordErrDS errs
    (i1.mkStmt a_loc (-1) (-1) (-1) (-1), i1, e1)
  | OC_ERR | OC_ORG | OC_END | OC_COMM => (i.mkStmt a_loc (-1) (-1) (-1) (-1), i, errs)

end Instruction

/-! ## Translation.h -/

/-- `Translation`: the vector `m_Stmts`. -/
abbrev Translation := List TransStmt

/-- `Translation::AddStatement`. -/
def Translation.AddStatement (t : Translation) (a_stmt : TransStmt) : Translation :=
  t ++ [a_stmt]

/-- `Translation::AddError`: set the error message of `m_Stmts.back()`.  (On an empty vector
`back()` is undefined in the source; the assembler only calls it after `AddStatement`.) -/
def Translation.AddError : Translation → String → Translation
  | [], _ => []
  | [s], a_error => [s.SetErrorMsg a_error]
  | s :: t :: r, a_error => s :: Translation.AddError (t :: r) a_error

/-! ## Assembler.h / Assembler.cpp -/

/-- `emulator`: memory, registers, and the streams and error sink its member functions use
(`m_ErrorMsgs` is the static `Errors::m_ErrorMsgs`, `cin` the white-space separated tokens
still to be read from standard input, `cout` the pieces of text written so far). -/
structure emulator where
  m_memory : Int → Int := fun _ => 0
  m_registers : Int → Int := fun _ => 0
  m_ErrorMsgs : List String := []
  cin : List String := []
  cout : List String := []

/-- `Assembler`: the data members, and the static error sink `Errors::m_ErrorMsgs`. -/
structure Assembler where
  m_facc : List String
  m_symtab : SymbolTable
  m_inst : Instruction := {}
  m_trans : Translation := []
  m_emul : emulator := {}
  m_ErrorMsgs : List String := []

namespace Assembler

/-- The assembler as constructed for a source file, before Pass I. -/
def new (multiplyDefinedSymbol : Int) (lines : List String) : Assembler :=
  { m_facc := lines, m_symtab := { multiplyDefinedSymbol := multiplyDefinedSymbol } }

/-- The body of the loop of `Assembler::PassI` for one line read, with the local `loc`:
the updated assembler, the updated `loc`, and whether the loop is left (`break` on an end
statement).  `none`: an exception left the function. -/
def PassIStep (a : Assembler) (loc : Int) (line : String) : Option (Assembler × Int × Bool) :=
  match a.m_inst.ParseInstruction a.m_ErrorMsgs line with
  | none => none
  | some (st, inst, errs) =>
    let a1 := { a with m_inst := inst, m_ErrorMsgs := errs }
    if st = ST_End then some (a1, loc, true)
    else if st = ST_Comment then some (a1, loc, false)
    else
      let a2 :=
        if inst.isLabel then { a1 with m_symtab := a1.m_symtab.AddSymbol inst.GetLabel loc }
        else a1
      some (a2, inst.LocationNextInstruction loc, false)

/-- The loop of `Assembler::PassI` over the lines still to be read. -/
def PassILoop (a : Assembler) (loc : Int) : List String → Option Assembler
  | [] => some a
  | line :: rest =>
    match a.PassIStep loc line with
    | none => none
    | some (a1, _, true) => some a1
    | some (a1, loc1, false) => PassILoop a1 loc1 rest

/-- `Assembler::PassI`. -/
def PassI (a : Assembler) : Option Assembler := a.PassILoop 0 a.m_facc

/-- The body of the loop of `Assembler::PassII` for one line read, with the locals `loc` and
`reachedEnd`.  `none`: an exception left the function. -/
def PassIIStep (a : Assembler) (loc : Int) (reachedEnd : Bool) (line : String) :
    Option (Assembler × Int × Bool) :=
  match a.m_inst.ParseInstruction a.m_ErrorMsgs line with
  | none => none
  | some (st, inst, errs) =>
    let (stmt, inst1, errs1) := inst.Translate errs loc a.m_symtab
    let trans1 := a.m_trans.AddStatement stmt
    let errs2 : List String :=
      if st = ST_End then
        (if reachedEnd then Errors.RecordError errs1 "Error: Multiple end statements."
         else errs1)
      else if reachedEnd ∧ st ≠ ST_Comment then
        Errors.RecordError errs1 "Error: Additional statement following end statement."
      else errs1
    let reachedEnd1 : Bool := if st = ST_End then true else reachedEnd
    let trans2 := trans1.AddError (Errors.GetErrors errs2)
    some ({ a with m_inst := inst1, m_trans := trans2, m_ErrorMsgs := [] },
      inst1.LocationNextInstruction loc, reachedEnd1)

/-- The loop of `Assembler::PassII` over the lines still to be read.  When no line is left
and no end statement was reached, the message is recorded in the sink and the loop is left. -/
def PassIILoop (a : Assembler) (loc : Int) (reachedEnd : Bool) : List String → Option Assembler
  | [] =>
    some (if !reachedEnd then
        { a with m_ErrorMsgs := Errors.RecordError a.m_ErrorMsgs "Error: Missing end statement." }
      else a)
  | line :: rest =>
    match a.PassIIStep loc reachedEnd line with
    | none => none
    | some (a1, loc1, reachedEnd1) => PassIILoop a1 loc1 reachedEnd1 rest

/-- `Assembler::PassII` (the final display of the translation is output only). -/
def PassII (a : Assembler) : Option Assembler :=
  PassIILoop { a with m_ErrorMsgs := [] } 0 false a.m_facc

/-- Pass I followed by Pass II on a fresh assembler for the given source lines. -/
def assemble (multiplyDefinedSymbol : Int) (lines : List String) : Option Assembler :=
  match (Assembler.new multiplyDefinedSymbol lines).PassI with
  | none => none
  | some a => a.PassII

end Assembler

/-! ## Emulator.h / Emulator.cpp -/

namespace emulator

/-- `emulator::MEMSZ`. -/
def MEMSZ : Int := 1000000

/-- `emulator::REGSZ`. -/
def REGSZ : Int := 10

/-- Assignment `v[i] = x` to an element of a vector. -/
def assign (v : Int → Int) (i x : Int) : Int → Int := fun j => if j = i then x else v j

/-- `emulator::insertMemory`. -/
def insertMemory (e : emulator) (a_location a_contents : Int) : Bool × emulator :=
  if a_location ≥ MEMSZ then
    (false, { e with m_ErrorMsgs :=
      Errors.RecordError e.m_ErrorMsgs "Error: location out of bounds." })
  else (true, { e with m_memory := assign e.m_memory a_location a_contents })

/-- `emulator::ExtractRegAddr`: the values stored into `a_reg` and `a_addr`. -/
def ExtractRegAddr (a_code : Int) : Int × Int :=
  (Int.tmod (Int.tdiv a_code 1000000) 10, Int.tmod a_code 1000000)

/-- `emulator::ExtractRegs`: the values stored into `a_reg1` and `a_reg2`; the parameter
`a_code` is an `int`. -/
def ExtractRegs (a_code : Int) : Int × Int :=
  let c := wrap32 a_code
  (Int.tmod (Int.tdiv c 1000000) 10, Int.tmod (Int.tdiv c 100000) 10)

/-- `emulator::isStrNumber`. -/
def isStrNumber (a_str : String) : Bool :=
  match a_str.data with
  | [] => false
  | c :: cs =>
    if c = '-' ∨ c = '+' then
      (if (c :: cs).length < 2 then false else cs.all isdigit)
    else (c :: cs).all isdigit

/-- `emulator::Add`.  The statements `sum % -1'000'000'000;` and `sum % 1'000'000'000;` compute
a value and discard it. -/
def Add (e : emulator) (a_reg a_addr a_loc : Int) : emulator × Int :=
  let reg_content := e.m_registers a_reg
  let addr_content := e.m_memory a_addr
  let sum := reg_content + addr_content
  ({ e with m_registers := assign e.m_registers a_reg sum }, a_loc + 1)

/-- `emulator::Subtract` (the two `%` statements discard their value). -/
def Subtract (e : emulator) (a_reg a_addr a_loc : Int) : emulator × Int :=
  let reg_content := e.m_registers a_reg
  let addr_content := e.m_memory a_addr
  let sub := reg_content - addr_content
  ({ e with m_registers := assign e.m_registers a_reg sub }, a_loc + 1)

/-- `emulator::Multiply` (the two `%` statements discard their value).  The product is taken
on unbounded integers: it is the `long long` product as long as that fits 64 bits. -/
def Multiply (e : emulator) (a_reg a_addr a_loc : Int) : emulator × Int :=
  let reg_content := e.m_registers a_reg
  let addr_content := e.m_memory a_addr
  let res := reg_content * addr_content
  ({ e with m_registers := assign e.m_registers a_reg res }, a_loc + 1)

/-- `emulator::Divide` (the two `%` statements discard their value). -/
def Divide (e : emulator) (a_reg a_addr a_loc : Int) : Bool × emulator × Int :=
  let reg_content := e.m_registers a_reg
  let addr_content := e.m_memory a_addr
  if addr_content = 0 then
    (false, { e with m_ErrorMsgs :=
      Errors.RecordError e.m_ErrorMsgs "Error: division by zero. Terminating program." }, a_loc)
  else
    let res := Int.tdiv reg_content addr_content
    (true, { e with m_registers := assign e.m_registers a_reg res }, a_loc + 1)

/-- `emulator::Load`. -/
def Load (e : emulator) (a_reg a_addr a_loc : Int) : emulator × Int :=
  let addr_content := e.m_memory a_addr
  ({ e with m_registers := assign e.m_registers a_reg addr_content }, a_loc + 1)

/-- `emulator::Store`. -/
def Store (e : emulator) (a_reg a_addr a_loc : Int) : emulator × Int :=
  let reg_content := e.m_registers a_reg
  ({ e with m_memory := assign e.m_memory a_addr reg_content }, a_loc + 1)

/-- `emulator::AddReg` (the two `%` statements discard their value). -/
def AddReg (e : emulator) (a_reg1 a_reg2 a_loc : Int) : emulator × Int :=
  let reg1_content := e.m_registers a_reg1
  let reg2_content := e.m_registers a_reg2
  let sum := reg1_content + reg2_content
  ({ e with m_registers := assign e.m_registers a_reg1 sum }, a_loc + 1)

/-- `emulator::SubReg` (the two `%` statements discard their value). -/
def SubReg (e : emulator) (a_reg1 a_reg2 a_loc : Int) : emulator × Int :=
  let reg1_content := e.m_registers a_reg1
  let reg2_content := e.m_registers a_reg2
  let sub := reg1_content - reg2_content
  ({ e with m_registers := assign e.m_registers a_reg1 sub }, a_loc + 1)

/-- `emulator::MultReg` (the two `%` statements discard their value).  The product is taken
on unbounded integers: it is the `long long` product as long as that fits 64 bits. -/
def MultReg (e : emulator) (a_reg1 a_reg2 a_loc : Int) : emulator × Int :=
  let reg1_content := e.m_registers a_reg1
  let reg2_content := e.m_registers a_reg2
  let res := reg1_content * reg2_content
  ({ e with m_registers := assign e.m_registers a_reg1 res }, a_loc + 1)

/-- `emulator::DivReg` (the two `%` statements discard their value). -/
def DivReg (e : emulator) (a_reg1 a_reg2 a_loc : Int) : Bool × emulator × Int :=
  let reg1_content := e.m_registers a_reg1
  let reg2_content := e.m_registers a_reg2
  if reg2_content = 0 then
    (false, { e with m_ErrorMsgs :=
      Errors.RecordError e.m_ErrorMsgs "Error: division by zero. Terminating program." }, a_loc)
  else
    let res := Int.tdiv reg1_content reg2_content
    (true, { e with m_registers := assign e.m_registers a_reg1 res }, a_loc + 1)

/-- The message recorded by `emulator::Read` for a rejected input. -/
def readErr : String :=
  "Error: input was not an integer between -999,999,999 and 999,999,999. Terminating program."

/-- `emulator::Read`; `none` when `stoll` throws.  At end of input `cin >> input` leaves
`input` empty. -/
def Read (e : emulator) (a_addr a_loc : Int) : Option (Bool × emulator × Int) :=
  let e1 := { e with cout := e.cout ++ ["? "] }
  let input : String := e1.cin.headD ""
  let e2 := { e1 with cin := e1.cin.tail }
  if !isStrNumber input then
    some (false, { e2 with m_ErrorMsgs := Errors.RecordError e2.m_ErrorMsgs readErr }, a_loc)
  else
    match stoll input with
    | none => none
    | some val =>
      if val > 999999999 ∨ val < -999999999 then
        some (false, { e2 with m_ErrorMsgs := Errors.RecordError e2.m_ErrorMsgs readErr }, a_loc)
      else some (true, { e2 with m_memory := assign e2.m_memory a_addr val }, a_loc + 1)

/-- `emulator::Write`. -/
def Write (e : emulator) (a_addr a_loc : Int) : emulator × Int :=
  let addr_content := e.m_memory a_addr
  ({ e with cout := e.cout ++ [intToStr addr_content ++ "\n"] }, a_loc + 1)

/-- `emulator::Branch`. -/
def Branch (e : emulator) (a_addr _a_loc : Int) : emulator × Int := (e, a_addr)

/-- `emulator::BranchMinus`. -/
def BranchMinus (e : emulator) (a_reg a_addr a_loc : Int) : emulator × Int :=
  if e.m_registers a_reg < 0 then (e, a_addr) else (e, a_loc + 1)

/-- `emulator::BranchZero`. -/
def BranchZero (e : emulator) (a_reg a_addr a_loc : Int) : emulator × Int :=
  if e.m_registers a_reg = 0 then (e, a_addr) else (e, a_loc + 1)

/-- `emulator::BranchPositive`. -/
def BranchPositive (e : emulator) (a_reg a_addr a_loc : Int) : emulator × Int :=
  if e.m_registers a_reg > 0 then (e, a_addr) else (e, a_loc + 1)

/-- A handler that cannot fail, followed by `break` and the final `return true`. -/
def ok (r : emulator × Int) : Option (Bool × emulator × Int) := some (true, r.1, r.2)

/-- `emulator::ExecuteInstruction`: the returned flag, the updated emulator and the updated
`a_loc`; `none` when an exception is thrown.  The `OC_DIV` case has no `break`: after a
successful `Divide` control falls through into the `OC_LOAD` case. -/
def ExecuteInstruction (e : emulator) (a_opcode : SymbolicOpCode) (a_code a_loc : Int) :
    Option (Bool × emulator × Int) :=
  let ra := ExtractRegAddr a_code
  let rr := ExtractRegs a_code
  match a_opcode with
  | OC_ADD => ok (e.Add ra.1 ra.2 a_loc)
  | OC_SUB => ok (e.Subtract ra.1 ra.2 a_loc)
  | OC_MULT => ok (e.Multiply ra.1 ra.2 a_loc)
  | OC_DIV =>
    match e.Divide ra.1 ra.2 a_loc with
    | (false, e1, loc1) => some (false, e1, loc1)
    | (true, e1, loc1) => ok (e1.Load ra.1 ra.2 loc1)
  | OC_LOAD => ok (e.Load ra.1 ra.2 a_loc)
  | OC_STORE => ok (e.Store ra.1 ra.2 a_loc)
  | OC_BM => ok (e.BranchMinus ra.1 ra.2 a_loc)
  | OC_BZ => ok (e.BranchZero ra.1 ra.2 a_loc)
  | OC_BP => ok (e.BranchPositive ra.1 ra.2 a_loc)
  | OC_READ =>
    match e.Read ra.2 a_loc with
    | none => none
    | some (false, e1, loc1) => some (false, e1, loc1)
    | some (true, e1, loc1) => some (true, e1, loc1)
  | OC_WRITE => ok (e.Write ra.2 a_loc)
  | OC_B => ok (e.Branch ra.2 a_loc)
  | OC_ADDR => ok (e.AddReg rr.1 rr.2 a_loc)
  | OC_SUBR => ok (e.SubReg rr.1 rr.2 a_loc)
  | OC_MULTR => ok (e.MultReg rr.1 rr.2 a_loc)
  | OC_DIVR =>
    match e.DivReg rr.1 rr.2 a_loc with
    | (false, e1, loc1) => some (false, e1, loc1)
    | (true, e1, loc1) => some (true, e1, loc1)
  | OC_ERR | OC_HALT | OC_ORG | OC_DC | OC_DS | OC_END | OC_COMM => some (true, e, a_loc)

/-- How a call of `runProgram` ends. -/
inductive RunResult
  | returned (success : Bool) (e : emulator)
  | threw
  | running (e : emulator) (loc : Int)

/-- The first loop of `emulator::runProgram`: load the statements into memory.  The result is
`none` when `GetNumContents` throws, otherwise the flag "every insertion succeeded" and the
emulator. -/
def loadLoop (e : emulator) : List TransStmt → Option (Bool × emulator)
  | [] => some (true, e)
  | stmt :: rest =>
    match stmt.GetNumContents with
    | none => none
    | some contents =>
      if contents = 0 then loadLoop e rest
      else
        match e.insertMemory stmt.GetLocation contents with
        | (false, e1) =>
          let errs := Errors.RecordError e1.m_ErrorMsgs
            "Program terminated due to error allocating memory."
          some (false, { e1 with m_ErrorMsgs := errs })
        | (true, e1) => loadLoop e1 rest

/-- One iteration of the second loop of `emulator::runProgram` at location `loc`: either
the function returns (left) or the loop goes on with a new emulator and location (right);
`none` when an exception is thrown. -/
def fetchExecute (e : emulator) (loc : Int) : Option ((Bool × emulator) ⊕ (emulator × Int)) :=
  let code := e.m_memory loc
  if code = 0 then
    let errs := Errors.RecordError e.m_ErrorMsgs
      "Error: missing halt statement. Terminating program."
    some (.inl (false, { e with m_ErrorMsgs := errs }))
  else if code < 0 then
    let errs := Errors.RecordError e.m_ErrorMsgs
      "Error: bad instruction reached. Terminating program."
    some (.inl (false, { e with m_ErrorMsgs := errs }))
  else
    let opcode : Int := wrap32 (Int.tdiv code 10000000)
    if opcode > 17 ∨ opcode < 1 then
      let errs := Errors.RecordError e.m_ErrorMsgs
        "Error: bad instruction reached. Terminating program."
      some (.inl (false, { e with m_ErrorMsgs := errs }))
    else if opcode = 17 then some (.inl (true, e))
    else
      -- `opcode` is in 1..16 here, so the enumerator exists
      match SymbolicOpCode.ofOrd opcode with
      | none => none
      | some oc =>
        match e.ExecuteInstruction oc code loc with
        | none => none
        | some (false, e1, _) => some (.inl (false, e1))
        | some (true, e1, loc1) => some (.inr (e1, loc1))

/-- The second loop of `emulator::runProgram`, run for at most `fuel` iterations. -/
def runLoop : Nat → emulator → Int → RunResult
  | 0, e, loc => .running e loc
  | fuel + 1, e, loc =>
    match e.fetchExecute loc with
    | none => .threw
    | some (.inl (success, e1)) => .returned success e1
    | some (.inr (e1, loc1)) => runLoop fuel e1 loc1

/-- `emulator::runProgram`, with at most `fuel` iterations of the execution loop. -/
def runProgram (e : emulator) (a_trans : Translation) (fuel : Nat) : RunResult :=
  match loadLoop { e with m_ErrorMsgs := [] } a_trans with
  | none => .threw
  | some (false, e1) => .returned false e1
  | some (true, e1) => runLoop fuel e1 100

end emulator

/-! ## Concrete inputs used in the theorems below -/

/-- An emulator whose register 0 holds 999999999 and whose memory cell 200 holds 1. -/
def addOverflowState : emulator :=
  { m_registers := fun i => if i = 0 then 999999999 else 0
    m_memory := fun i => if i = 200 then 1 else 0 }

/-- An emulator whose register 0 holds 10 and whose memory cell 200 holds 2. -/
def divState : emulator :=
  { m_registers := fun i => if i = 0 then 10 else 0
    m_memory := fun i => if i = 200 then 2 else 0 }

/-- An emulator whose memory holds the word `040000200` (DIV 0, 200) at 100 and the word
`100100000` (DIVR 0, 1) at 101, every other cell and every register being 0. -/
def divZeroState : emulator :=
  { m_memory := fun i => if i = 100 then 40000200 else if i = 101 then 100100000 else 0 }

/-- The message recorded for a division by zero. -/
def divZeroMsg : String := "Error: division by zero. Terminating program."

/-- The source of the first end-to-end scenario. -/
def writeScenario : List String := ["A DC 5", " LOAD 0 A", " WRITE 0 0", " HALT", " END"]

/-- The source of the second end-to-end scenario. -/
def undefScenario : List String := ["LOAD 0 UNDEF", " HALT", " END"]

/-- A source without an end statement. -/
def noEndSource : List String := [" HALT"]

/-- A source with a numeric operand too long for an `int`. -/
def longOperandSource : List String := [" DC 99999999999", " END"]

/-- A source in which the label `X` is defined twice and never referenced. -/
def twiceDefinedSource : List String := ["X DC 1", "X DC 2", " END"]

/-- A source whose ORG has no operand. -/
def bareOrgSource : List String := [" ORG", "X DC 5", " END"]

/-- A source in which `X` is defined twice and referenced once. -/
def multiplyDefinedSource : List String := ["X DC 1", "X DC 2", " LOAD 1 X", " END"]

/-- The translation of `writeScenario`, up to the error text of its second and third
statement and the address flag of the second (they depend on `multiplyDefinedSymbol`). -/
def writeScenarioTrans (loadErr : String) (loadInvalid : Bool) (writeErr : String) :
    Translation :=
  [ { m_Loc := 0, m_OrigStmt := "A DC 5", m_pOrig := false, m_ErrorMsg := "",
      m_Contents := { m_OpCode := OC_DC, m_Reg1 := -1, m_Reg2 := -1, m_Addr := -1, m_Val := 5 } },
    { m_Loc := 1, m_OrigStmt := " LOAD 0 A", m_pOrig := false, m_ErrorMsg := loadErr,
      m_Contents := { m_OpCode := OC_LOAD, m_Reg1 := 0, m_Reg2 := -1, m_Addr := 0, m_Val := -1,
                      m_InvalidAddr := loadInvalid } },
    { m_Loc := 2, m_OrigStmt := " WRITE 0 0", m_pOrig := false, m_ErrorMsg := writeErr,
      m_Contents := { m_OpCode := OC_WRITE, m_Reg1 := 0, m_Reg2 := -1, m_Addr := -1, m_Val := -1,
                      m_InvalidAddr := true } },
    { m_Loc := 3, m_OrigStmt := " HALT", m_pOrig := false, m_ErrorMsg := "",
      m_Contents := { m_OpCode := OC_HALT, m_Reg1 := 0, m_Reg2 := -1, m_Addr := 0, m_Val := -1 } },
    { m_Loc := 4, m_OrigStmt := " END", m_pOrig := true, m_ErrorMsg := "",
      m_Contents := { m_OpCode := OC_END, m_Reg1 := -1, m_Reg2 := -1, m_Addr := -1,
                      m_Val := -1 } } ]

/-- The message recorded by `RecordErrRegisterAddress` for an operand 2 that starts with a
digit, as it appears in an error text. -/
def digitLabelText : String := "Error: Operand 2 is a label and cannot begin with a digit.\n"

/-- The translation of `undefScenario`. -/
def undefScenarioTrans : Translation :=
  [ { m_Loc := 0, m_OrigStmt := "LOAD 0 UNDEF", m_pOrig := false,
      m_ErrorMsg := "Error: invalid operation.\n",
      m_Contents := { m_OpCode := OC_ERR, m_Reg1 := -1, m_Reg2 := -1, m_Addr := -1, m_Val := -1,
                      m_InvalidOpCode := true } },
    { m_Loc := 1, m_OrigStmt := " HALT", m_pOrig := false, m_ErrorMsg := "",
      m_Contents := { m_OpCode := OC_HALT, m_Reg1 := 0, m_Reg2 := -1, m_Addr := 0, m_Val := -1 } },
    { m_Loc := 2, m_OrigStmt := " END", m_pOrig := true, m_ErrorMsg := "",
      m_Contents := { m_OpCode := OC_END, m_Reg1 := -1, m_Reg2 := -1, m_Addr := -1,
                      m_Val := -1 } } ]

/-- A source without errors: the program starts at location 100 and its data follow it. -/
def cleanSource : List String :=
  [" ORG 100", " LOAD 0 A", " WRITE 0 A", " HALT", "A DC 5", " END"]

/-! ## Line-level views used to state properties of the two passes -/

/-- `ParseInstruction` applied to a line by a freshly constructed `Instruction`, with an empty
error sink. -/
def parseLine (line : String) : Option (InstructionType × Instruction × List String) :=
  Instruction.ParseInstruction {} [] line

/-- The line is classified as an end statement. -/
def isEndLine (line : String) : Bool :=
  match parseLine line with
  | some (st, _, _) => decide (st = ST_End)
  | none => false

/-- The line carries the label `X`. -/
def definesLabel (X : String) (line : String) : Bool :=
  match parseLine line with
  | some (_, i, _) => decide (i.m_Label = X)
  | none => false

/-- The op codes of the register-and-address family of `Instruction::Translate`. -/
def isRegAddrOp (oc : SymbolicOpCode) : Bool :=
  match oc with
  | OC_ADD | OC_SUB | OC_MULT | OC_DIV | OC_LOAD | OC_STORE | OC_BM | OC_BZ | OC_BP
  | OC_READ | OC_WRITE | OC_B => true
  | _ => false

/-- The line is a register-and-address instruction whose operand 2 is `X`. -/
def refersTo (X : String) (line : String) : Bool :=
  match parseLine line with
  | some (_, i, _) => isRegAddrOp i.m_NumOpCode && decide (i.m_Operand2 = X)
  | none => false

/-- The line is an ORG statement whose operand 1 is not numeric. -/
def isBareOrgLine (line : String) : Bool :=
  match parseLine line with
  | some (_, i, _) => decide (i.m_NumOpCode = OC_ORG) && !i.m_IsNumericOperand1
  | none => false

/-- The lines that precede the first end statement. -/
def beforeEnd (lines : List String) : List String := lines.takeWhile (fun l => !isEndLine l)

/-- The number of lines before the first end statement that carry the label `X`. -/
def defCount (X : String) (lines : List String) : Nat :=
  ((beforeEnd lines).filter (definesLabel X)).length

/-- Two `Instruction` objects hold the same parse of a line: every member that
`ParseInstruction` assigns from the text agrees; the numeric-operand members agree as far as
the text determines them (they are left as they were on a comment line, and the numeric value
is left as it was when the operand is not numeric). -/
def SameParse (i j : Instruction) : Prop :=
  i.m_Label = j.m_Label ∧ i.m_OpCode = j.m_OpCode ∧ i.m_Operand1 = j.m_Operand1 ∧
  i.m_Operand2 = j.m_Operand2 ∧ i.m_NumOpCode = j.m_NumOpCode ∧ i.m_type = j.m_type ∧
  i.m_InvalidOpCode = j.m_InvalidOpCode ∧ i.m_InvalidReg1 = false ∧ j.m_InvalidReg1 = false ∧
  i.m_InvalidReg2 = false ∧ j.m_InvalidReg2 = false ∧ i.m_InvalidAddr = false ∧
  j.m_InvalidAddr = false ∧ i.m_InvalidValue = false ∧ j.m_InvalidValue = false ∧
  (i.m_NumOpCode ≠ OC_COMM →
    i.m_IsNumericOperand1 = j.m_IsNumericOperand1 ∧
    i.m_IsNumericOperand2 = j.m_IsNumericOperand2 ∧
    (i.m_IsNumericOperand1 = true → i.m_Operand1NumericValue = j.m_Operand1NumericValue) ∧
    (i.m_IsNumericOperand2 = true → i.m_Operand2NumericValue = j.m_Operand2NumericValue))

/-- Two `Instruction` objects that differ at most in their validity flags. -/
def SameButFlags (i j : Instruction) : Prop :=
  j.m_Label = i.m_Label ∧ j.m_Operand1 = i.m_Operand1 ∧ j.m_Operand2 = i.m_Operand2 ∧
  j.m_instruction = i.m_instruction ∧ j.m_NumOpCode = i.m_NumOpCode ∧ j.m_type = i.m_type ∧
  j.m_IsNumericOperand1 = i.m_IsNumericOperand1 ∧
  j.m_Operand1NumericValue = i.m_Operand1NumericValue ∧
  j.m_IsNumericOperand2 = i.m_IsNumericOperand2 ∧
  j.m_Operand2NumericValue = i.m_Operand2NumericValue

/-- The messages of the end-statement check in the loop of `PassII`, for a line of type `st`
read when the latch is `reachedEnd`. -/
def endCheckMsgs (st : InstructionType) (reachedEnd : Bool) : List String :=
  if st = ST_End then
    (if reachedEnd then ["Error: Multiple end statements."] else [])
  else if reachedEnd ∧ st ≠ ST_Comment then
    ["Error: Additional statement following end statement."]
  else []

/-- The statement `s` is what one iteration of the loop of `PassII` appends for `line`, in
some state of the loop whose symbol table is `T` and whose sink is empty. -/
def EmittedFor (T : SymbolTable) (line : String) (s : TransStmt) : Prop :=
  ∃ (a a1 : Assembler) (loc loc1 : Int) (re re1 : Bool),
    a.m_symtab = T ∧ a.m_ErrorMsgs = [] ∧ a.PassIIStep loc re line = some (a1, loc1, re1) ∧
    a1.m_trans = a.m_trans ++ [s]

/-- A label as the register-and-address instructions accept it for operand 2: not empty, at
most 10 characters, not starting with a digit. -/
def wellFormedLabel (X : String) : Bool :=
  !X.data.isEmpty && decide (X.data.length ≤ 10) && !((X.data.head?.map isdigit).getD false)

/-! ## Views used to state properties of the symbol table and of the locations -/

/-- The table after a sequence of `AddSymbol` calls, made in order on the table `st`. -/
def addAll (st : SymbolTable) (calls : List (String × Int)) : SymbolTable :=
  calls.foldl (fun t c => t.AddSymbol c.1 c.2) st

/-- The calls of a sequence that add the name `n`, in order. -/
def callsFor (n : String) (calls : List (String × Int)) : List (String × Int) :=
  calls.filter (fun c => decide (c.1 = n))

/-- The location of the next instruction as the specification words it: the operand value for
ORG; for DS the location advanced by the operand value when that value is in 1..999999 and by
one otherwise; the same location for a comment and for END; the location advanced by one for
every other operation code. -/
def LocationNextInstruction_spec (oc : SymbolicOpCode) (v loc : Int) : Int :=
  match oc with
  | OC_ORG => v
  | OC_DS => if 1 ≤ v ∧ v ≤ 999999 then loc + v else loc + 1
  | OC_COMM => loc
  | OC_END => loc
  | _ => loc + 1

/-- A source that moves to the largest `int` location and places two statements there. -/
def topLocationSource : List String := [" ORG 2147483647", "X DC 1", "Y DC 2", " END"]

/-- An `Instruction` object that holds a DS with the operand value 7. -/
def dsSevenInst : Instruction :=
  { m_NumOpCode := OC_DS, m_IsNumericOperand1 := true, m_Operand1NumericValue := 7 }

/-! ## Views and inputs used to state properties of the emulator -/

/-- A value in the word range of the machine. -/
def inWordRange (x : Int) : Bool := decide (-999999999 ≤ x) && decide (x ≤ 999999999)

/-- Every register and every memory cell holds a value in the word range. -/
def wordsInRange (e : emulator) : Prop :=
  (∀ r : Int, inWordRange (e.m_registers r) = true) ∧
  (∀ a : Int, inWordRange (e.m_memory a) = true)

/-- An emulator whose registers 0 and 1 hold 999999999 and -1 and whose memory cells 200, 201
and 202 hold 1, -1 and 2; every other register and cell holds 0. -/
def wordEdgeState : emulator :=
  { m_registers := fun i => if i = 0 then 999999999 else if i = 1 then -1 else 0
    m_memory := fun i => if i = 200 then 1 else if i = 201 then -1 else if i = 202 then 2 else 0 }

/-- An emulator whose memory holds, from location 100 on, the words `050000105` (LOAD 0, 105),
`030000106` (MULT 0, 106), `060000103` (STORE 0, 103), the constant 1 and `170000000` (HALT),
followed by the constants 100000000 and 429496731; every other cell and every register holds
0. -/
def wideCellState : emulator :=
  { m_memory := fun i =>
      if i = 100 then 50000105 else if i = 101 then 30000106 else if i = 102 then 60000103
      else if i = 103 then 1 else if i = 104 then 170000000 else if i = 105 then 100000000
      else if i = 106 then 429496731 else 0 }

/-- The non-zero numeric contents of the statements of a translation placed at location `L`,
in translation order. -/
def loadsAt (t : List TransStmt) (L : Int) : List Int :=
  t.filterMap (fun s =>
    if s.GetLocation = L then s.GetNumContents.filter (fun c => c != 0) else none)

/-- The memory in which every cell holds the last non-zero contents that the translation
places at it, and a cell at which it places none holds what it held in `m`. -/
def loadedMemory (m : Int → Int) (t : List TransStmt) : Int → Int :=
  fun L => ((loadsAt t L).getLast?).getD (m L)

/-- A statement with non-zero numeric contents whose location is 1000000 or more. -/
def loadsOutOfBounds (s : TransStmt) : Bool :=
  (s.GetNumContents.filter (fun c => c != 0)).isSome && decide (s.GetLocation ≥ 1000000)

/-- A translation of three statements: DC 7 at 5, DC 8 at 5 and DC 9 at 1000000. -/
def loadBeyondTrans : List TransStmt :=
  [TransStmt.new OC_DC 5 "" (-1) (-1) (-1) 7, TransStmt.new OC_DC 5 "" (-1) (-1) (-1) 8,
   TransStmt.new OC_DC 1000000 "" (-1) (-1) (-1) 9]

/-- A translation of three statements: DC 7 at 5, DC 8 at 5 and END at 6. -/
def loadTwiceTrans : List TransStmt :=
  [TransStmt.new OC_DC 5 "" (-1) (-1) (-1) 7, TransStmt.new OC_DC 5 "" (-1) (-1) (-1) 8,
   TransStmt.new OC_END 6 "" (-1) (-1) (-1) (-1)]

/-! ## Views used to state the validity checks of `Translate` -/

/-- The operation codes of the register-and-register family. -/
def isRegRegOp (oc : SymbolicOpCode) : Bool :=
  match oc with
  | OC_ADDR | OC_SUBR | OC_MULTR | OC_DIVR => true
  | _ => false

/-- An operand that does not name a register: it is absent, or not a signed decimal integer,
or its value is outside 0..9. -/
def badRegister (op : String) : Prop :=
  op.data = [] ∨ Instruction.isStrNumber op = false ∨ ∃ v, stoi op = some v ∧ (v < 0 ∨ 9 < v)

/-- An operand that is not a well-formed label: it is absent, or begins with a digit, or is
longer than 10 characters. -/
def malformedLabel (op : String) : Bool :=
  op.data.isEmpty || (op.data.head?.map isdigit).getD false || decide (10 < op.data.length)

/-- The parse of the line " LOAD 1 X" by a fresh object. -/
def loadLineParse : InstructionType × Instruction × List String :=
  (parseLine " LOAD 1 X").getD (ST_Error, {}, [])

/-- The parse of the line " ADDR 3 12" by a fresh object. -/
def addrLineParse : InstructionType × Instruction × List String :=
  (parseLine " ADDR 3 12").getD (ST_Error, {}, [])

/-- A symbol table with the sentinel -999 in which `X` is bound to 5. -/
def oneSymbolTable : SymbolTable :=
  { multiplyDefinedSymbol := -999, m_symbolTable := [("X", 5)] }

/-- The parse of the line " DC -2147483648" by a fresh object. -/
def intMinParse : InstructionType × Instruction × List String :=
  (parseLine " DC -2147483648").getD (ST_Error, {}, [])

/-! ## Inputs and views for the assembler directives and HALT -/

/-- The parse of the line " DS 0 7" by a fresh object. -/
def dsLineParse : InstructionType × Instruction × List String :=
  (parseLine " DS 0 7").getD (ST_Error, {}, [])

/-- The parse of the line " HALT 3" by a fresh object. -/
def haltLineParse : InstructionType × Instruction × List String :=
  (parseLine " HALT 3").getD (ST_Error, {}, [])

/-! ## Views used to state properties of the parse of a line -/

/-- The classification that belongs to a numeric op code: Error for ERR, MachineLanguage for
the ordinals 1..17, AssemblerInstr for ORG, DC and DS, End for END, Comment for COMM. -/
def classOf (oc : SymbolicOpCode) : InstructionType :=
  match oc with
  | OC_ERR => ST_Error
  | OC_ORG => ST_AssemblerInstr
  | OC_DC => ST_AssemblerInstr
  | OC_DS => ST_AssemblerInstr
  | OC_END => ST_End
  | OC_COMM => ST_Comment
  | _ => ST_MachineLanguage

/-- The ordered list of the 21 mnemonics. -/
def mnemonics : List String :=
  ["ADD", "SUB", "MULT", "DIV", "LOAD", "STORE", "ADDR", "SUBR", "MULTR", "DIVR", "READ",
   "WRITE", "B", "BM", "BZ", "BP", "HALT", "ORG", "DC", "DS", "END"]

/-- Two texts are equal when letter case is ignored. -/
def equalsIgnoringCase (a b : String) : Bool :=
  decide (a.data.map toupper = b.data.map toupper)

/-- The line without its comment: the characters that precede the first ';'. -/
def stripped (line : String) : String := Instruction.DeleteComment line

/-- The tokens of a line: the comment is removed, commas count as spaces, and the rest is
split at white space. -/
def lineTokens (line : String) : List String :=
  tokens ((stripped line).data.map (fun c => if c = ',' then ' ' else c))

/-- The op code token of a line as `ParseLineIntoFields` picks it, before it is converted to
upper case. -/
def opcodeToken (line : String) : String :=
  (Instruction.ParseLineIntoFields (stripped line)).2.2.1

/-- The line, once its comment is removed, begins with a space, a tab or a comma: it has no
label field. -/
def startsBlank (line : String) : Bool :=
  match (stripped line).data.head? with
  | some c => decide (c = ' ') || decide (c = '\t') || decide (c = ',')
  | none => false

/-- The parse of the line " DC abc" by a fresh object. -/
def dcTextParse : InstructionType × Instruction × List String :=
  (parseLine " DC abc").getD (ST_Error, {}, [])

/-- The parse of the line " JUMP 1 X" by a fresh object. -/
def jumpLineParse : InstructionType × Instruction × List String :=
  (parseLine " JUMP 1 X").getD (ST_Error, {}, [])

/-! ## Views used to state the end-statement check of Pass II -/

/-- The line is classified as a comment or blank line. -/
def isCommentLine (line : String) : Bool :=
  match parseLine line with
  | some (st, _, _) => decide (st = ST_Comment)
  | none => false

/-- The texts that `ParseInstruction` and `Translate` can record for a line. -/
def lineMsgs : List String :=
  ["Error: extra operands.", "Error: invalid operation.", "Error: missing operands.",
   "Error: Operand 2 is a label and cannot begin with a digit.",
   "Error: Operand 2 is too long. Labels are a maximum of 10 characters.",
   "Error: Operand 1 must be a register number between 0 and 9.",
   "Error: Operand 2 must be a register number between 0 and 9.",
   "Error: label not found.", "Error: multiply defined symbol.",
   "Error: Operand 1 must be a value between -999,999,999 and 999,999,999.",
   "Error: Operand 1 must be a value between 1 and 999,999."]

/-- Every message of `l` was in `errs` already or is one of `lineMsgs`. -/
def KnownMsgs (errs l : List String) : Prop := ∀ m ∈ l, m ∈ errs ∨ m ∈ lineMsgs

/-- The source with an END, a comment, a second END and a further statement after a first
statement. -/
def twoEndSource : List String := [" HALT", " END", "; done", " END", " HALT"]

/-! ## Views used to state the safety of the emulator -/

/-- The test made by the execution loop of `emulator::runProgram` before a word is dispatched
to `ExecuteInstruction`: the cell is positive and its leading part, cast to the enumeration,
is an op code from `OC_ADD` to `OC_HALT`. -/
def passesOpcodeCheck (code : Int) : Bool :=
  decide (0 < code) && decide (1 ≤ wrap32 (Int.tdiv code 10000000))
    && decide (wrap32 (Int.tdiv code 10000000) ≤ 17)

/-- The indices at which the handler that `emulator::ExecuteInstruction` calls for `a_opcode`
subscripts `m_registers`, for the word `a_code`. -/
def regIndices (a_opcode : SymbolicOpCode) (a_code : Int) : List Int :=
  match a_opcode with
  | OC_ADD | OC_SUB | OC_MULT | OC_DIV | OC_LOAD | OC_STORE | OC_BM | OC_BZ | OC_BP =>
    [(emulator.ExtractRegAddr a_code).1]
  | OC_ADDR | OC_SUBR | OC_MULTR | OC_DIVR =>
    [(emulator.ExtractRegs a_code).1, (emulator.ExtractRegs a_code).2]
  | _ => []

/-- The indices at which the handler that `emulator::ExecuteInstruction` calls for `a_opcode`
subscripts `m_memory`, for the word `a_code`. -/
def memIndices (a_opcode : SymbolicOpCode) (a_code : Int) : List Int :=
  match a_opcode with
  | OC_ADD | OC_SUB | OC_MULT | OC_DIV | OC_LOAD | OC_STORE | OC_READ | OC_WRITE =>
    [(emulator.ExtractRegAddr a_code).2]
  | _ => []

/-- The value of a token made of the sign `sign` (empty, `+` or `-`) and the decimal digits
`digits`. -/
def signedValue (sign digits : List Char) : Int :=
  if sign = ['-'] then -((digitsValue 0 digits : Nat) : Int)
  else ((digitsValue 0 digits : Nat) : Int)

/-- The emulator after `emulator::Read` has prompted, taken a token and rejected it. -/
def readRejected (e : emulator) : emulator :=
  { e with cout := e.cout ++ ["? "], cin := e.cin.tail,
           m_ErrorMsgs := e.m_ErrorMsgs ++ [emulator.readErr] }

/-- The emulator after `emulator::Read` has prompted, taken a token and stored its value `v`
at `a_addr`. -/
def readStored (e : emulator) (a_addr v : Int) : emulator :=
  { e with cout := e.cout ++ ["? "], cin := e.cin.tail,
           m_memory := emulator.assign e.m_memory a_addr v }

/-- An emulator whose next input token is the nineteen digits of 2^63. -/
def longTokenState : emulator := { cin := ["9223372036854775808"] }

/-! ## Views used to state what a reused `Instruction` object carries over -/

/-- The `Instruction` object after a freshly constructed one has parsed the line `prev`. -/
def afterLine (prev : String) : Instruction :=
  ((parseLine prev).getD (ST_Error, {}, [])).2.1

/-- `ParseInstruction(line)` followed by `LocationNextInstruction(loc)` on the object `i`:
the returned location; `none` when `stoi` throws. -/
def parseThenLocation (i : Instruction) (line : String) (loc : Int) : Option Int :=
  (Instruction.ParseInstruction i [] line).map (fun r => r.2.1.LocationNextInstruction loc)

/-! ## Views used to state which messages Pass II attaches to a line -/

/-- The messages recorded while parsing a line (by a fresh object into an empty sink). -/
def parseMsgs (line : String) : List String :=
  match parseLine line with
  | some (_, _, e) => e
  | none => []

/-- The messages recorded while translating a line with the symbol table `T` (into an empty
sink). -/
def translateMsgs (T : SymbolTable) (line : String) : List String :=
  match parseLine line with
  | some (_, i, _) => (i.Translate [] 0 T).2.2
  | none => []

/-- The messages recorded by the end-statement check of Pass II for a line read when the
latch is `reachedEnd`. -/
def endMsgs (reachedEnd : Bool) (line : String) : List String :=
  match parseLine line with
  | some (st, _, _) => endCheckMsgs st reachedEnd
  | none => []

/-- The messages recorded for one line in Pass II, in the order in which they are recorded. -/
def lineErrors (T : SymbolTable) (reachedEnd : Bool) (line : String) : List String :=
  parseMsgs line ++ translateMsgs T line ++ endMsgs reachedEnd line

/-- A source whose lines draw different messages. -/
def mixedErrorSource : List String := ["X DC 1", "X DC 2 3 4", " LOAD 12 X", " END", " FOO"]

/-- An assembler that holds `mixedErrorSource` together with the symbol table and the error
sink that Pass I leaves for it. -/
def mixedErrorState : Assembler :=
  { m_facc := mixedErrorSource
    m_symtab := { multiplyDefinedSymbol := -999, m_symbolTable := [("X", -999)] }
    m_ErrorMsgs := ["Error: extra operands."] }

/-- The five validity flags of an `Instruction`. -/
def validityFlags (i : Instruction) : Bool × Bool × Bool × Bool × Bool :=
  (i.m_InvalidOpCode, i.m_InvalidReg1, i.m_InvalidReg2, i.m_InvalidAddr, i.m_InvalidValue)

/-- The five error codes of the contents of a statement. -/
def errorCodes (c : Contents) : Bool × Bool × Bool × Bool × Bool :=
  (c.m_InvalidOpCode, c.m_InvalidReg1, c.m_InvalidReg2, c.m_InvalidAddr, c.m_InvalidValue)

/-- What `Translate` delivers for a line: the encoded contents string of the statement, the
error codes stored in it, the validity flags left in the object, and the error sink. -/
def translationView (r : TransStmt × Instruction × List String) :
    String × (Bool × Bool × Bool × Bool × Bool) × (Bool × Bool × Bool × Bool × Bool)
      × List String :=
  (r.1.m_Contents.GetContents, errorCodes r.1.m_Contents, validityFlags r.2.1, r.2.2)

/-- `ParseInstruction(line)` followed by `Translate(loc, table)` on the object `i` with the
sink `errs`: the view of the result; `none` when `stoi` throws. -/
def translateLine (i : Instruction) (errs : List String) (line : String) (loc : Int)
    (T : SymbolTable) :
    Option (String × (Bool × Bool × Bool × Bool × Bool) × (Bool × Bool × Bool × Bool × Bool)
      × List String) :=
  (Instruction.ParseInstruction i errs line).map
    (fun r => translationView (r.2.1.Translate r.2.2 loc T))

/-! ## Inputs and views for locations outside the memory -/

/-- A symbol table that binds `X` to the location 1000000. -/
def farSymbolTable : SymbolTable :=
  { multiplyDefinedSymbol := -999, m_symbolTable := [("X", 1000000)] }

/-- A symbol table that binds `X` to the location -5. -/
def negSymbolTable : SymbolTable :=
  { multiplyDefinedSymbol := -999, m_symbolTable := [("X", -5)] }

/-- A source that defines `X` at the location 1000000 and refers to it at 100. -/
def farLabelSource : List String :=
  [" ORG 1000000", "X DS 1", " ORG 100", " LOAD 1 X", " HALT", " END"]

/-- A source that places a constant at the location -5. -/
def negOrgSource : List String := [" ORG -5", " DC 7", " END"]

/-- A source that places an ADD in the last memory cell and branches to it. -/
def lastCellSource : List String :=
  [" ORG 100", " B 0 X", " ORG 999999", "X ADD 0 X", " END"]

/-- An emulator whose last memory cell, 999999, holds the word `010000000` (ADD 0, 0). -/
def lastCellState : emulator :=
  { m_memory := fun i => if i = 999999 then 10000000 else 0 }

/-- The location and the numeric contents of the statements of a translation. -/
def loadList (t : Translation) : List (Int × Option Int) :=
  t.map (fun s => (s.GetLocation, s.GetNumContents))

/-- The instruction pointer with which a run that has not returned goes on. -/
def runPointer : emulator.RunResult → Option Int
  | .running _ loc => some loc
  | _ => none

/-! ## Theorems -/

theorem digitChar_spec (m : Nat) (h : m < 10) :
    isdigit (Nat.digitChar m) = true ∧ digitVal (Nat.digitChar m) = m := by
  interval_cases m <;> decide

theorem digitsValue_append (acc : Nat) (xs ys : List Char) :
    digitsValue acc (xs ++ ys) = digitsValue (digitsValue acc xs) ys := by
  induction xs generalizing acc with
  | nil => rfl
  | cons c cs ih => exact ih (acc * 10 + digitVal c)

theorem digitsValue_single (acc : Nat) (c : Char) :
    digitsValue acc [c] = acc * 10 + digitVal c := rfl

/-- What `Nat.toDigitsCore` produces in base ten, given enough fuel. -/
theorem toDigitsCore_spec (fuel : Nat) : ∀ (n : Nat) (ds : List Char), n < fuel →
    ∃ L : List Char, Nat.toDigitsCore 10 fuel n ds = L ++ ds ∧ L ≠ [] ∧
      (∀ c ∈ L, isdigit c = true) ∧
      (∀ acc, digitsValue acc L = acc * 10 ^ L.length + n) ∧
      (∀ w, 0 < w → n < 10 ^ w → L.length ≤ w) := by
  induction fuel with
  | zero => intro n ds h; omega
  | succ fuel ih =>
    intro n ds h
    have hd := digitChar_spec (n % 10) (Nat.mod_lt _ (by decide))
    generalize hdc : Nat.digitChar (n % 10) = d at hd
    by_cases h0 : n / 10 = 0
    · refine ⟨[d], ?_, List.cons_ne_nil _ _, ?_, ?_, ?_⟩
      · rw [Nat.toDigitsCore]
        simp only [hdc, h0, if_true]
        rfl
      · intro c hc
        rw [List.mem_singleton] at hc
        rw [hc]; exact hd.1
      · intro acc
        rw [digitsValue_single, hd.2, List.length_singleton, pow_one]
        omega
      · intro w hw _
        rw [List.length_singleton]; omega
    · obtain ⟨L, hL, hne, hdig, hval, hlen⟩ :=
        ih (n / 10) (d :: ds) (by omega)
      refine ⟨L ++ [d], ?_, ?_, ?_, ?_, ?_⟩
      · rw [Nat.toDigitsCore]
        simp only [hdc, h0, if_false, hL]
        rw [List.append_assoc]; rfl
      · intro hnil
        exact hne (List.append_eq_nil.mp hnil).1
      · intro c hc
        rw [List.mem_append, List.mem_singleton] at hc
        rcases hc with hc | hc
        · exact hdig c hc
        · rw [hc]; exact hd.1
      · intro acc
        rw [digitsValue_append, hval, digitsValue_single, hd.2, List.length_append,
          List.length_singleton, pow_succ]
        have : (acc * 10 ^ L.length + n / 10) * 10 = acc * (10 ^ L.length * 10) + (n / 10) * 10 := by
          ring
        omega
      · intro w hw hn
        rw [List.length_append, List.length_singleton]
        cases w with
        | zero => omega
        | succ w =>
          have hw0 : 0 < w := by
            rcases Nat.eq_zero_or_pos w with h1 | h1
            · subst h1; rw [pow_one] at hn; omega
            · exact h1
          have h2 : n / 10 < 10 ^ w := by
            rw [pow_succ] at hn
            omega
          have := hlen w hw0 h2
          omega


theorem digitsValue_zeros (k acc : Nat) :
    digitsValue acc (List.replicate k '0') = acc * 10 ^ k := by
  induction k generalizing acc with
  | zero => show acc = acc * 10 ^ 0; omega
  | succ k ih =>
    show digitsValue (acc * 10 + digitVal '0') (List.replicate k '0') = _
    rw [ih, pow_succ]
    have : digitVal '0' = 0 := by decide
    rw [this]
    ring

/-- The text of `setw(w) << setfill('0') << n` for `n < 10 ^ w`: exactly `w` decimal digits
whose value is `n`. -/
theorem field_spec (w n : Nat) (hw : 0 < w) (hn : n < 10 ^ w) :
    (padLeft w '0' (natToStr n)).data.length = w ∧
    (∀ c ∈ (padLeft w '0' (natToStr n)).data, isdigit c = true) ∧
    (∀ acc, digitsValue acc (padLeft w '0' (natToStr n)).data = acc * 10 ^ w + n) := by
  obtain ⟨L, hL, _, hdig, hval, hlen⟩ := toDigitsCore_spec (n + 1) n [] (by omega)
  rw [List.append_nil] at hL
  have hdata : (padLeft w '0' (natToStr n)).data = List.replicate (w - L.length) '0' ++ L := by
    show (String.mk _ ++ natToStr n).data = _
    rw [String.data_append]
    show List.replicate (w - (Nat.toDigitsCore 10 (n + 1) n []).length) '0'
      ++ Nat.toDigitsCore 10 (n + 1) n [] = _
    rw [hL]
  have hl := hlen w hw hn
  rw [hdata]
  refine ⟨?_, ?_, ?_⟩
  · rw [List.length_append, List.length_replicate]; omega
  · intro c hc
    rw [List.mem_append] at hc
    rcases hc with hc | hc
    · rw [(List.mem_replicate.mp hc).2]; decide
    · exact hdig c hc
  · intro acc
    rw [digitsValue_append, digitsValue_zeros, hval, mul_assoc, ← pow_add]
    congr 3
    omega

theorem isdigit_not_space (c : Char) (h : isdigit c = true) : isspace c = false := by
  simp only [isdigit, isspace, Bool.and_eq_true, decide_eq_true_eq, Bool.or_eq_false_iff,
    Bool.and_eq_false_imp, decide_eq_false_iff_not] at *
  omega

theorem isdigit_ne (c d : Char) (h : isdigit c = true) (hd : isdigit d = false) : c ≠ d := by
  intro e; rw [e, hd] at h; exact Bool.noConfusion h

/-- `strtoInt` on a non-empty run of digits. -/
theorem strtoInt_digits (l : List Char) (hne : l ≠ []) (hd : ∀ c ∈ l, isdigit c = true) :
    strtoInt l = some ((digitsValue 0 l : Nat) : Int) := by
  obtain ⟨c, cs, rfl⟩ := List.exists_cons_of_ne_nil hne
  have hc := hd c (List.mem_cons_self _ _)
  have h1 : List.dropWhile isspace (c :: cs) = c :: cs := by
    rw [List.dropWhile_cons_of_neg]
    rw [isdigit_not_space c hc]; exact Bool.false_ne_true
  have h2 : List.takeWhile isdigit (c :: cs) = c :: cs :=
    List.takeWhile_eq_self_iff.mpr hd
  have hm : c ≠ '-' := isdigit_ne c '-' hc (by decide)
  have hp : c ≠ '+' := isdigit_ne c '+' hc (by decide)
  unfold strtoInt
  simp only [h1, List.head?_cons, Option.some.injEq, hm, hp, or_self, if_false, h2,
    List.isEmpty_cons, decide_False, Bool.false_eq_true]

theorem stoll_digits (s : String) (hne : s.data ≠ []) (hd : ∀ c ∈ s.data, isdigit c = true)
    (hv : digitsValue 0 s.data ≤ 9223372036854775807) :
    stoll s = some ((digitsValue 0 s.data : Nat) : Int) := by
  unfold stoll
  rw [strtoInt_digits s.data hne hd]
  simp only
  rw [if_pos]
  constructor <;> omega


theorem natToStr_one (n : Nat) (h : n < 10) :
    (natToStr n).data = (padLeft 1 '0' (natToStr n)).data := by
  interval_cases n <;> rfl

theorem intToStr_nat (n : Nat) : intToStr (n : Int) = natToStr n := by
  unfold intToStr
  rw [if_neg (by omega)]
  rfl

/-- Contents of a flag-free machine-language statement with register 1 and address. -/
theorem getContents_regAddr (oc : SymbolicOpCode) (loc val : Int) (orig : String) (r a : Nat)
    (hoc : oc.ord ≤ 17) :
    (TransStmt.new oc loc orig r (-1) a val).m_Contents.GetContents.data =
      (padLeft 2 '0' (natToStr oc.ord)).data ++ ((natToStr r).data
        ++ (padLeft 6 '0' (natToStr a)).data) := by
  have hdc : oc ≠ OC_DC := by intro h; rw [h] at hoc; revert hoc; decide
  have hh : oc.ord ≤ OC_HALT.ord := hoc
  simp only [TransStmt.new, Contents.GetContents, Bool.or_self, Bool.false_eq_true, if_false,
    hdc, hh, if_true, intToStr_nat, ge_iff_le, Int.natCast_nonneg, Int.natAbs_ofNat,
    String.data_append, List.append_assoc]
  rw [if_neg (by decide)]
  rfl

/-- Contents of a flag-free machine-language statement with two registers. -/
theorem getContents_regReg (oc : SymbolicOpCode) (loc val : Int) (orig : String) (r1 r2 : Nat)
    (hoc : oc.ord ≤ 17) :
    (TransStmt.new oc loc orig r1 r2 (-1) val).m_Contents.GetContents.data =
      (padLeft 2 '0' (natToStr oc.ord)).data ++ ((natToStr r1).data
        ++ ((natToStr r2).data ++ (padLeft 5 '0' (natToStr 0)).data)) := by
  have hdc : oc ≠ OC_DC := by intro h; rw [h] at hoc; revert hoc; decide
  have hh : oc.ord ≤ OC_HALT.ord := hoc
  simp only [TransStmt.new, Contents.GetContents, Bool.or_self, Bool.false_eq_true, if_false,
    hdc, hh, if_true, intToStr_nat, ge_iff_le, Int.natCast_nonneg, Int.natAbs_ofNat,
    String.data_append, List.append_assoc]
  rw [if_neg (by decide)]
  rfl

/-- `GetNumContents` of a statement whose contents are a non-empty run of digits. -/
theorem getNumContents_digits (t : TransStmt) (l : List Char)
    (h : t.m_Contents.GetContents.data = l) (hne : l ≠ [])
    (hd : ∀ c ∈ l, isdigit c = true) (hv : digitsValue 0 l ≤ 9223372036854775807) :
    t.GetNumContents = some ((digitsValue 0 l : Nat) : Int) := by
  subst h
  have hq : t.m_Contents.GetContents.data.contains '?' = false := by
    rw [List.contains_eq_any_beq, List.any_eq_false]
    intro c hc hb
    have := hd c hc
    rw [beq_iff_eq] at hb
    rw [← hb] at this
    revert this; decide
  have he : t.m_Contents.GetContents.data.isEmpty = false := by
    cases hl : t.m_Contents.GetContents.data with
    | nil => exact absurd hl hne
    | cons c cs => rfl
  unfold TransStmt.GetNumContents
  simp only [he, hq, Bool.false_eq_true, if_false]
  exact stoll_digits _ hne hd hv

theorem ord_decode (oc : SymbolicOpCode) (h : 1 ≤ oc.ord ∧ oc.ord ≤ 17) (rest : Int)
    (h0 : 0 ≤ rest) (h1 : rest < 10000000) :
    SymbolicOpCode.ofOrd (wrap32 (Int.tdiv ((oc.ord : Int) * 10000000 + rest) 10000000))
      = some oc := by
  have hd : Int.tdiv ((oc.ord : Int) * 10000000 + rest) 10000000 = oc.ord := by
    rw [Int.tdiv_eq_ediv (by omega) (by omega)]
    omega
  rw [hd]
  cases oc <;> first | rfl | (exfalso; revert h; decide)

/-- C1 (register+address and register+register encode/decode round trip): for a machine
instruction with no validity flag set, register 1 in 0..9 and either an address in 0..999999
(opcode ordinals 1..6 and 11..16) or a register 2 in 0..9 (ordinals 7..10),
`TransStmt::GetNumContents` is `o*10^7 + reg1*10^6 + addr` (resp. `+ reg2*10^5`), and the
emulator's decode (`code / 10000000`, `ExtractRegAddr`, `ExtractRegs`) gives the fields back. -/
theorem C1_encode_decode_roundtrip (oc : SymbolicOpCode) (loc val : Int) (orig : String)
    (reg1 reg2 a : Int) (hr1 : 0 ≤ reg1 ∧ reg1 ≤ 9) :
    (((1 ≤ oc.ord ∧ oc.ord ≤ 6) ∨ (11 ≤ oc.ord ∧ oc.ord ≤ 16)) → 0 ≤ a ∧ a ≤ 999999 →
      (TransStmt.new oc loc orig reg1 (-1) a val).GetNumContents
          = some ((oc.ord : Int) * 10000000 + reg1 * 1000000 + a) ∧
        SymbolicOpCode.ofOrd
          (wrap32 (Int.tdiv ((oc.ord : Int) * 10000000 + reg1 * 1000000 + a) 10000000))
          = some oc ∧
        emulator.ExtractRegAddr ((oc.ord : Int) * 10000000 + reg1 * 1000000 + a) = (reg1, a)) ∧
    ((7 ≤ oc.ord ∧ oc.ord ≤ 10) → 0 ≤ reg2 ∧ reg2 ≤ 9 →
      (TransStmt.new oc loc orig reg1 reg2 (-1) val).GetNumContents
          = some ((oc.ord : Int) * 10000000 + reg1 * 1000000 + reg2 * 100000) ∧
        SymbolicOpCode.ofOrd
          (wrap32 (Int.tdiv ((oc.ord : Int) * 10000000 + reg1 * 1000000 + reg2 * 100000)
            10000000)) = some oc ∧
        emulator.ExtractRegs ((oc.ord : Int) * 10000000 + reg1 * 1000000 + reg2 * 100000)
          = (reg1, reg2)) := by
  obtain ⟨r1, rfl⟩ := Int.eq_ofNat_of_zero_le hr1.1
  have hr : r1 < 10 := by omega
  have f2 := field_spec 2 oc.ord (by decide)
  have f1 := field_spec 1 r1 (by decide) (by omega)
  rw [← natToStr_one r1 hr] at f1
  constructor
  · intro hoc ha
    obtain ⟨n, rfl⟩ := Int.eq_ofNat_of_zero_le ha.1
    have hoc17 : oc.ord ≤ 17 := by omega
    have f2 := f2 (by omega)
    have f6 := field_spec 6 n (by decide) (by omega)
    have hdata := getContents_regAddr oc loc val orig r1 n hoc17
    refine ⟨?_, ?_, ?_⟩
    · rw [getNumContents_digits _ _ hdata]
      · rw [digitsValue_append, digitsValue_append, f2.2.2, f1.2.2, f6.2.2]
        refine congrArg some ?_
        push_cast
        ring
      · intro h
        have := congrArg List.length h
        rw [List.length_append, f2.1, List.length_nil] at this
        omega
      · intro c hc
        rw [List.mem_append, List.mem_append] at hc
        rcases hc with hc | hc | hc
        · exact f2.2.1 c hc
        · exact f1.2.1 c hc
        · exact f6.2.1 c hc
      · rw [digitsValue_append, digitsValue_append, f2.2.2, f1.2.2, f6.2.2]
        omega
    · have := ord_decode oc (by omega) ((r1 : Int) * 1000000 + n) (by omega) (by omega)
      rw [← add_assoc] at this
      exact this
    · unfold emulator.ExtractRegAddr
      rw [Int.tdiv_eq_ediv (by omega) (by omega), Int.tmod_eq_emod (by omega) (by omega),
        Int.tmod_eq_emod (by omega) (by omega)]
      rw [Prod.mk.injEq]
      constructor <;> omega
  · intro hoc hr2
    obtain ⟨r2, rfl⟩ := Int.eq_ofNat_of_zero_le hr2.1
    have hoc17 : oc.ord ≤ 17 := by omega
    have f2 := f2 (by omega)
    have g1 := field_spec 1 r2 (by decide) (by omega)
    rw [← natToStr_one r2 (by omega)] at g1
    have f5 := field_spec 5 0 (by decide) (by decide)
    have hdata := getContents_regReg oc loc val orig r1 r2 hoc17
    refine ⟨?_, ?_, ?_⟩
    · rw [getNumContents_digits _ _ hdata]
      · rw [digitsValue_append, digitsValue_append, digitsValue_append, f2.2.2, f1.2.2,
          g1.2.2, f5.2.2]
        refine congrArg some ?_
        push_cast
        ring
      · intro h
        have := congrArg List.length h
        rw [List.length_append, f2.1, List.length_nil] at this
        omega
      · intro c hc
        rw [List.mem_append, List.mem_append, List.mem_append] at hc
        rcases hc with hc | hc | hc | hc
        · exact f2.2.1 c hc
        · exact f1.2.1 c hc
        · exact g1.2.1 c hc
        · exact f5.2.1 c hc
      · rw [digitsValue_append, digitsValue_append, digitsValue_append, f2.2.2, f1.2.2,
          g1.2.2, f5.2.2]
        omega
    · have := ord_decode oc (by omega) ((r1 : Int) * 1000000 + r2 * 100000) (by omega)
        (by omega)
      rw [← add_assoc] at this
      exact this
    · unfold emulator.ExtractRegs
      have hw : wrap32 ((oc.ord : Int) * 10000000 + r1 * 1000000 + r2 * 100000)
          = (oc.ord : Int) * 10000000 + r1 * 1000000 + r2 * 100000 := by
        unfold wrap32; omega
      simp only [hw]
      rw [Int.tdiv_eq_ediv (by omega) (by omega), Int.tdiv_eq_ediv (by omega) (by omega),
        Int.tmod_eq_emod (by omega) (by omega), Int.tmod_eq_emod (by omega) (by omega)]
      rw [Prod.mk.injEq]
      constructor <;> omega

/-- The round trip of C1 at LOAD 3, 123456 and at DIVR 3, 8. -/
theorem C1_encode_decode_roundtrip_witness :
    (0 ≤ (3 : Int) ∧ (3 : Int) ≤ 9) ∧
    ((TransStmt.new OC_LOAD 7 "" 3 (-1) 123456 (-1)).GetNumContents = some 53123456 ∧
      emulator.ExtractRegAddr 53123456 = (3, 123456)) ∧
    ((TransStmt.new OC_DIVR 7 "" 3 8 (-1) (-1)).GetNumContents = some 103800000 ∧
      emulator.ExtractRegs 103800000 = (3, 8)) := by
  have h := C1_encode_decode_roundtrip
  have h1 := (h OC_LOAD 7 (-1) "" 3 8 123456 (by omega)).1 (by decide) (by omega)
  have h2 := (h OC_DIVR 7 (-1) "" 3 8 123456 (by omega)).2 (by decide) (by omega)
  exact ⟨by omega, ⟨h1.1, h1.2.2⟩, ⟨h2.1, h2.2.2⟩⟩

/-- C4 (ADD overflow): with register 0 holding 999999999 and memory cell 200 holding 1, the
instruction word `010000200` (ADD 0, 200) executed at location 100 succeeds and moves to 101,
but register 0 then holds the unreduced sum 1000000000, not `(r + m) mod 1000000000 = 0`:
the remainder computed in `emulator::Add` is discarded. -/
theorem C4_add_overflow_sum_not_reduced :
    ∃ e1 : emulator,
      addOverflowState.ExecuteInstruction OC_ADD 10000200 100 = some (true, e1, 101) ∧
      e1.m_registers 0 = 1000000000 ∧
      e1.m_registers 0 ≠ (999999999 + 1) % 1000000000 := by
  refine ⟨_, rfl, ?_, ?_⟩ <;> decide

/-- C5 (division by zero is fatal and atomic): a DIV whose addressed cell is 0, and a DIVR
whose second register is 0, make `ExecuteInstruction` return false; the run loop then returns
false; the only change to the emulator is the recorded "division by zero" message: registers,
memory and the instruction location are as before. -/
theorem C5_division_by_zero_fatal (e : emulator) (code loc : Int) :
    (e.m_memory (emulator.ExtractRegAddr code).2 = 0 →
      e.ExecuteInstruction OC_DIV code loc
        = some (false, { e with m_ErrorMsgs := e.m_ErrorMsgs ++ [divZeroMsg] }, loc)) ∧
    (e.m_registers (emulator.ExtractRegs code).2 = 0 →
      e.ExecuteInstruction OC_DIVR code loc
        = some (false, { e with m_ErrorMsgs := e.m_ErrorMsgs ++ [divZeroMsg] }, loc)) ∧
    (∀ fuel : Nat, e.m_memory loc = code → 0 < code →
      (wrap32 (Int.tdiv code 10000000) = 4 ∧ e.m_memory (emulator.ExtractRegAddr code).2 = 0) ∨
      (wrap32 (Int.tdiv code 10000000) = 10 ∧ e.m_registers (emulator.ExtractRegs code).2 = 0) →
      emulator.runLoop (fuel + 1) e loc
        = .returned false { e with m_ErrorMsgs := e.m_ErrorMsgs ++ [divZeroMsg] }) := by
  have hdiv : e.m_memory (emulator.ExtractRegAddr code).2 = 0 →
      e.ExecuteInstruction OC_DIV code loc
        = some (false, { e with m_ErrorMsgs := e.m_ErrorMsgs ++ [divZeroMsg] }, loc) := by
    intro h
    simp only [emulator.ExecuteInstruction, emulator.Divide, h, if_true, Errors.RecordError,
      divZeroMsg]
  have hdivr : e.m_registers (emulator.ExtractRegs code).2 = 0 →
      e.ExecuteInstruction OC_DIVR code loc
        = some (false, { e with m_ErrorMsgs := e.m_ErrorMsgs ++ [divZeroMsg] }, loc) := by
    intro h
    simp only [emulator.ExecuteInstruction, emulator.DivReg, h, if_true, Errors.RecordError,
      divZeroMsg]
  refine ⟨hdiv, hdivr, ?_⟩
  intro fuel hmem hpos hcase
  subst hmem
  have h0 : ¬ e.m_memory loc = 0 := by omega
  have h1 : ¬ e.m_memory loc < 0 := by omega
  have h4 : SymbolicOpCode.ofOrd 4 = some OC_DIV := rfl
  have h10 : SymbolicOpCode.ofOrd 10 = some OC_DIVR := rfl
  rcases hcase with ⟨hop, hz⟩ | ⟨hop, hz⟩
  · have hex := hdiv hz
    have hf : e.fetchExecute loc
        = some (.inl (false, { e with m_ErrorMsgs := e.m_ErrorMsgs ++ [divZeroMsg] })) := by
      unfold emulator.fetchExecute
      simp only [h0, h1, if_false, hop]
      rw [if_neg (by decide), if_neg (by decide)]
      simp only [h4, hex]
    simp only [emulator.runLoop, hf]
  · have hex := hdivr hz
    have hf : e.fetchExecute loc
        = some (.inl (false, { e with m_ErrorMsgs := e.m_ErrorMsgs ++ [divZeroMsg] })) := by
      unfold emulator.fetchExecute
      simp only [h0, h1, if_false, hop]
      rw [if_neg (by decide), if_neg (by decide)]
      simp only [h10, hex]
    simp only [emulator.runLoop, hf]

/-- The statement of C5 at a DIV and a DIVR whose divisors are 0. -/
theorem C5_division_by_zero_fatal_witness :
    divZeroState.m_memory (emulator.ExtractRegAddr 40000200).2 = 0 ∧
    divZeroState.m_registers (emulator.ExtractRegs 100100000).2 = 0 ∧
    divZeroState.ExecuteInstruction OC_DIV 40000200 100
      = some (false, { divZeroState with m_ErrorMsgs := [divZeroMsg] }, 100) ∧
    divZeroState.ExecuteInstruction OC_DIVR 100100000 101
      = some (false, { divZeroState with m_ErrorMsgs := [divZeroMsg] }, 101) ∧
    emulator.runLoop 1 divZeroState 100
      = .returned false { divZeroState with m_ErrorMsgs := [divZeroMsg] } ∧
    emulator.runLoop 1 divZeroState 101
      = .returned false { divZeroState with m_ErrorMsgs := [divZeroMsg] } := by
  have hm : divZeroState.m_memory (emulator.ExtractRegAddr 40000200).2 = 0 := by decide
  have hr : divZeroState.m_registers (emulator.ExtractRegs 100100000).2 = 0 := by decide
  have h1 := C5_division_by_zero_fatal divZeroState 40000200 100
  have h2 := C5_division_by_zero_fatal divZeroState 100100000 101
  exact ⟨hm, hr, h1.1 hm, h2.2.1 hr,
    h1.2.2 0 (by decide) (by decide) (Or.inl ⟨by decide, hm⟩),
    h2.2.2 0 (by decide) (by decide) (Or.inr ⟨by decide, hr⟩)⟩

/-- C6 (successful DIV): with register 0 holding 10 and memory cell 200 holding 2, the
instruction word `040000200` (DIV 0, 200) executed at location 100 does not leave the quotient
5 in register 0 and does not stop at 101: after `Divide` succeeds, control falls through into
the LOAD case, so register 0 ends up holding the divisor 2 and the location is 102. -/
theorem C6_div_falls_through_into_load :
    ∃ e1 : emulator,
      divState.ExecuteInstruction OC_DIV 40000200 100 = some (true, e1, 102) ∧
      e1.m_registers 0 = 2 ∧
      Int.tdiv (divState.m_registers 0) (divState.m_memory 200) = 5 ∧
      e1.m_registers 0 ≠ Int.tdiv (divState.m_registers 0) (divState.m_memory 200) := by
  refine ⟨_, rfl, ?_, ?_, ?_⟩ <;> decide

/-- The translation of `writeScenario`, whatever the value of `multiplyDefinedSymbol`. -/
theorem writeScenario_trans (mds : Int) :
    ∃ a le li we, Assembler.assemble mds writeScenario = some a ∧
      a.m_trans = writeScenarioTrans le li we ∧ a.m_emul = {} ∧
      ((le = "Error: multiply defined symbol.\n" ∧ li = true ∧ we = digitLabelText) ∨
       (le = "" ∧ li = false ∧ we = digitLabelText) ∨
       (le = "" ∧ li = false ∧ we = digitLabelText ++ "Error: multiply defined symbol.\n")) := by
  rcases mds with n | n
  · rcases n with _ | k
    · exact ⟨_, _, _, _, rfl, rfl, rfl, Or.inl ⟨rfl, rfl, rfl⟩⟩
    · exact ⟨_, _, _, _, rfl, rfl, rfl, Or.inr (Or.inl ⟨rfl, rfl, rfl⟩)⟩
  · rcases n with _ | k
    · exact ⟨_, _, _, _, rfl, rfl, rfl, Or.inr (Or.inr ⟨rfl, rfl, rfl⟩)⟩
    · exact ⟨_, _, _, _, rfl, rfl, rfl, Or.inr (Or.inl ⟨rfl, rfl, rfl⟩)⟩

/-- C3, the claim as stated fails: whatever the value of `multiplyDefinedSymbol`, assembling
"A DC 5", " LOAD 0 A", " WRITE 0 0", " HALT", " END" does not leave every translated
statement without error text. -/
theorem C3_scenario_has_error_text :
    ¬ ∃ (mds : Int) (a : Assembler), Assembler.assemble mds writeScenario = some a ∧
        ∀ s ∈ a.m_trans, s.m_ErrorMsg = "" := by
  rintro ⟨mds, a, ha, hall⟩
  obtain ⟨a1, le, li, we, ha1, ht, _, hc⟩ := writeScenario_trans mds
  rw [ha] at ha1
  cases ha1
  rw [ht] at hall
  simp only [writeScenarioTrans, List.forall_mem_cons] at hall
  have h3 : we = "" := hall.2.2.1
  rcases hc with ⟨_, _, hw⟩ | ⟨_, _, hw⟩ | ⟨_, _, hw⟩ <;>
    · rw [h3] at hw
      revert hw
      decide

/-- C3, amended: for the five source lines "A DC 5", " LOAD 0 A", " WRITE 0 0", " HALT",
" END", Pass I followed by Pass II completes and places the five statements at locations
0..4; the statement of " WRITE 0 0" carries the error "Operand 2 is a label and cannot begin
with a digit" and has numeric contents -1; `runProgram` on the resulting translation finds
nothing at the start location 100: it writes nothing and returns false with "missing halt
statement" recorded. -/
theorem C3_write_scenario (mds : Int) :
    ∃ a : Assembler, Assembler.assemble mds writeScenario = some a ∧
      a.m_trans.map (fun s => s.m_Loc) = [0, 1, 2, 3, 4] ∧
      (∃ s, a.m_trans[2]? = some s ∧ s.m_OrigStmt = " WRITE 0 0" ∧
        hasMsg s.m_ErrorMsg "Operand 2 is a label and cannot begin with a digit" = true ∧
        s.GetNumContents = some (-1)) ∧
      ∀ fuel : Nat, ∃ e : emulator,
        a.m_emul.runProgram a.m_trans (fuel + 1) = .returned false e ∧
        e.cout = [] ∧
        e.m_ErrorMsgs = ["Error: missing halt statement. Terminating program."] := by
  obtain ⟨a, le, li, we, ha, ht, he, hc⟩ := writeScenario_trans mds
  refine ⟨a, ha, ?_, ?_, ?_⟩
  · rw [ht]; rfl
  · rw [ht]
    rcases hc with ⟨h1, h2, h3⟩ | ⟨h1, h2, h3⟩ | ⟨h1, h2, h3⟩ <;>
      · subst h1 h2 h3
        exact ⟨_, rfl, rfl, by decide, by decide⟩
  · intro fuel
    rw [ht, he]
    rcases hc with ⟨h1, h2, h3⟩ | ⟨h1, h2, h3⟩ | ⟨h1, h2, h3⟩ <;>
      · subst h1 h2 h3
        exact ⟨_, rfl, rfl, rfl⟩

/-- The translation of `undefScenario`, whatever the value of `multiplyDefinedSymbol`. -/
theorem undefScenario_trans (mds : Int) :
    ∃ a, Assembler.assemble mds undefScenario = some a ∧ a.m_trans = undefScenarioTrans :=
  ⟨_, rfl, rfl⟩

/-- C10, the claim as stated fails: whatever the value of `multiplyDefinedSymbol`, assembling
"LOAD 0 UNDEF", " HALT", " END" does not attach "label not found" to the first statement. -/
theorem C10_no_label_not_found :
    ¬ ∃ (mds : Int) (a : Assembler) (s : TransStmt),
        Assembler.assemble mds undefScenario = some a ∧ a.m_trans[0]? = some s ∧
        hasMsg s.m_ErrorMsg "label not found" = true := by
  rintro ⟨mds, a, s, ha, hs, hm⟩
  obtain ⟨a1, ha1, ht⟩ := undefScenario_trans mds
  rw [ha] at ha1
  cases ha1
  rw [ht] at hs
  cases hs
  revert hm
  decide

/-- C10, amended: for the three source lines "LOAD 0 UNDEF", " HALT", " END", Pass I followed
by Pass II completes with three statements; line 1 starts in column 1, so "LOAD" is its label
and "0" its op code: its statement carries exactly the error "invalid operation" (and not
"label not found"), its contents are "?????????" and its numeric contents are -1. -/
theorem C10_undef_scenario (mds : Int) :
    ∃ (a : Assembler) (s : TransStmt), Assembler.assemble mds undefScenario = some a ∧
      a.m_trans.length = 3 ∧ a.m_trans[0]? = some s ∧ s.m_OrigStmt = "LOAD 0 UNDEF" ∧
      s.m_ErrorMsg = "Error: invalid operation.\n" ∧
      hasMsg s.m_ErrorMsg "label not found" = false ∧
      s.m_Contents.GetContents = "?????????" ∧ s.GetNumContents = some (-1) := by
  obtain ⟨a, ha, ht⟩ := undefScenario_trans mds
  refine ⟨a, undefScenarioTrans.head (List.cons_ne_nil _ _), ha, ?_⟩
  rw [ht]
  exact ⟨rfl, rfl, rfl, rfl, by decide, by decide, by decide⟩

/-- C8 (missing END): for the one-line source " HALT", Pass I followed by Pass II completes
with one translated statement; "Missing end statement" is recorded once in the error sink, but
the loop is left before `AddError` is called: the statement of the last line has no error
text. -/
theorem C8_missing_end_not_attached (mds : Int) :
    ∃ (a : Assembler) (s : TransStmt), Assembler.assemble mds noEndSource = some a ∧
      a.m_trans = [s] ∧ s.m_OrigStmt = " HALT" ∧ s.m_ErrorMsg = "" ∧
      a.m_ErrorMsgs = ["Error: Missing end statement."] :=
  ⟨_, _, rfl, rfl, rfl, rfl, rfl⟩

/-- C9 (assembly never aborts): for the source " DC 99999999999", " END" the call of `stoi`
in `RecordFields` throws during Pass I: neither Pass I nor the assembly as a whole runs to
completion, and no translation is produced. -/
theorem C9_long_operand_aborts (mds : Int) :
    Instruction.ParseInstruction {} [] " DC 99999999999" = none ∧
    (Assembler.new mds longOperandSource).PassI = none ∧
    Assembler.assemble mds longOperandSource = none :=
  ⟨rfl, rfl, rfl⟩

theorem RecordFields_congr (i j : Instruction) (line : String) :
    match Instruction.RecordFields i line, Instruction.RecordFields j line with
    | none, none => True
    | some (f, i1), some (g, j1) =>
      f = g ∧ SameParse i1 j1 ∧ i1.m_instruction = i.m_instruction ∧
        j1.m_instruction = j.m_instruction
    | _, _ => False := by
  unfold Instruction.RecordFields
  generalize Instruction.ParseLineIntoFields line = flds
  obtain ⟨fe, label, opcode, op1, op2⟩ := flds
  simp only
  by_cases hc : opcode.data.isEmpty = true ∧ label.data.isEmpty = true
  · simp only [hc, and_self, if_true]
    simp [SameParse]
  · simp only [hc, if_false]
    cases h1 : Instruction.isStrNumber op1 <;> cases h2 : Instruction.isStrNumber op2 <;>
      simp only [Bool.false_eq_true, if_false, if_true] <;>
      cases hs1 : stoi op1 <;> cases hs2 : stoi op2 <;> (try simp only []) <;>
      cases hl : List.lookup (String.mk (List.map toupper opcode.data)) Instruction.opCodeMap <;>
      (try simp only []) <;> simp [SameParse]

/-- `ParseInstruction` in terms of the result of `RecordFields`. -/
theorem ParseInstruction_eq (i : Instruction) (errs : List String) (line : String) :
    Instruction.ParseInstruction i errs line =
      (Instruction.RecordFields { i with m_instruction := line }
          (Instruction.DeleteComment line)).map
        (fun p => (p.2.m_type, p.2,
          errs ++ ((if p.1 = true then ["Error: extra operands."] else [])
            ++ (if p.2.m_type = ST_Error then ["Error: invalid operation."] else [])))) := by
  unfold Instruction.ParseInstruction
  simp only
  cases Instruction.RecordFields { i with m_instruction := line }
      (Instruction.DeleteComment line) with
  | none => rfl
  | some p =>
    obtain ⟨f, i1⟩ := p
    cases f <;> by_cases hty : i1.m_type = ST_Error <;>
      simp [hty, Errors.RecordError]

/-- `ParseInstruction` on any object and error sink agrees with `parseLine`: it throws on the
same lines, returns the same type, appends the same messages, and leaves the same parse. -/
theorem ParseInstruction_parseLine (i : Instruction) (errs : List String) (line : String) :
    match Instruction.ParseInstruction i errs line, parseLine line with
    | none, none => True
    | some (st, i1, e1), some (st0, i0, e0) =>
      st = st0 ∧ SameParse i1 i0 ∧ e1 = errs ++ e0 ∧ i1.m_instruction = line ∧ i1.m_type = st
    | _, _ => False := by
  have h := RecordFields_congr { i with m_instruction := line }
    { ({} : Instruction) with m_instruction := line } (Instruction.DeleteComment line)
  unfold parseLine
  rw [ParseInstruction_eq i errs line, ParseInstruction_eq {} [] line]
  revert h
  generalize Instruction.RecordFields { i with m_instruction := line }
      (Instruction.DeleteComment line) = rI
  generalize Instruction.RecordFields { ({} : Instruction) with m_instruction := line }
      (Instruction.DeleteComment line) = rJ
  intro h
  cases rI with
  | none =>
    cases rJ with
    | none => trivial
    | some q => exact h
  | some p =>
    cases rJ with
    | none => exact h
    | some q =>
      obtain ⟨f, i1⟩ := p
      obtain ⟨g, j1⟩ := q
      simp only at h
      obtain ⟨hfg, hs, hi, _⟩ := h
      subst hfg
      have ht : i1.m_type = j1.m_type := hs.2.2.2.2.2.1
      simp only [Option.map_some', ht, List.nil_append]
      exact ⟨trivial, hs, trivial, hi, trivial⟩

/-- The parse of a line, as seen from any object and sink. -/
theorem parse_some (i : Instruction) (errs : List String) (line : String)
    (st : InstructionType) (i1 : Instruction) (e1 : List String)
    (h : Instruction.ParseInstruction i errs line = some (st, i1, e1)) :
    ∃ i0 e0, parseLine line = some (st, i0, e0) ∧ SameParse i1 i0 ∧ e1 = errs ++ e0 ∧
      i1.m_instruction = line ∧ i1.m_type = st := by
  have := ParseInstruction_parseLine i errs line
  rw [h] at this
  cases hp : parseLine line with
  | none => rw [hp] at this; exact this.elim
  | some r =>
    obtain ⟨st0, i0, e0⟩ := r
    rw [hp] at this
    simp only at this
    obtain ⟨h1, h2, h3, h4, h5⟩ := this
    subst h1
    exact ⟨i0, e0, rfl, h2, h3, h4, h5⟩

/-- A line that `parseLine` accepts is accepted from any object and sink. -/
theorem parse_total (i : Instruction) (errs : List String) (line : String)
    (h : (parseLine line).isSome = true) :
    ∃ st i1 e1, Instruction.ParseInstruction i errs line = some (st, i1, e1) := by
  have := ParseInstruction_parseLine i errs line
  cases hp : Instruction.ParseInstruction i errs line with
  | some r => exact ⟨r.1, r.2.1, r.2.2, rfl⟩
  | none =>
    rw [hp] at this
    cases hq : parseLine line with
    | none => rw [hq] at h; exact Bool.noConfusion h
    | some r => rw [hq] at this; exact this.elim

/-! ### The symbol table -/

theorem mapFind_mapAssign_self (k : String) (v : Int) (t : List (String × Int))
    (h : (mapFind k t).isSome = true) : mapFind k (mapAssign k v t) = some v := by
  induction t with
  | nil => exact Bool.noConfusion h
  | cons p r ih =>
    obtain ⟨k1, v1⟩ := p
    by_cases hk : k1 = k
    · simp [mapAssign, mapFind, hk]
    · simp only [mapFind, hk, if_false] at h
      simp [mapAssign, mapFind, hk, ih h]

theorem mapFind_mapAssign_other (k k2 : String) (v : Int) (t : List (String × Int))
    (hne : k2 ≠ k) : mapFind k (mapAssign k2 v t) = mapFind k t := by
  induction t with
  | nil => rfl
  | cons p r ih =>
    obtain ⟨k1, v1⟩ := p
    by_cases hk : k1 = k2
    · have : ¬ k1 = k := by rw [hk]; exact hne
      simp [mapAssign, mapFind, hk, hne]
    · by_cases hk1 : k1 = k
      · subst hk1
        simp [mapAssign, mapFind, hk]
      · simp [mapAssign, mapFind, hk, hk1, ih]

theorem mapFind_append (k k2 : String) (v : Int) (t : List (String × Int)) :
    mapFind k (t ++ [(k2, v)]) =
      match mapFind k t with
      | some x => some x
      | none => if k2 = k then some v else none := by
  induction t with
  | nil => rfl
  | cons p r ih =>
    obtain ⟨k1, v1⟩ := p
    by_cases hk : k1 = k
    · simp [mapFind, hk]
    · simp [mapFind, hk, ih]

theorem AddSymbol_sentinel (st : SymbolTable) (k : String) (loc : Int) :
    (st.AddSymbol k loc).multiplyDefinedSymbol = st.multiplyDefinedSymbol := by
  unfold SymbolTable.AddSymbol
  cases mapFind k st.m_symbolTable <;> rfl

/-- `AddSymbol` of a name: a first definition records the location, a later one the
sentinel. -/
theorem mapFind_AddSymbol_self (st : SymbolTable) (k : String) (loc : Int) :
    mapFind k (st.AddSymbol k loc).m_symbolTable =
      match mapFind k st.m_symbolTable with
      | none => some loc
      | some _ => some st.multiplyDefinedSymbol := by
  unfold SymbolTable.AddSymbol
  cases h : mapFind k st.m_symbolTable with
  | none => simp [mapFind_append, h]
  | some x => simp [mapFind_mapAssign_self k _ _ (by rw [h]; rfl)]

/-- `AddSymbol` of one name leaves the entry of any other name as it was. -/
theorem mapFind_AddSymbol_other (st : SymbolTable) (k k2 : String) (loc : Int) (hne : k2 ≠ k) :
    mapFind k (st.AddSymbol k2 loc).m_symbolTable = mapFind k st.m_symbolTable := by
  unfold SymbolTable.AddSymbol
  cases h : mapFind k2 st.m_symbolTable with
  | none =>
    simp only [mapFind_append, hne, if_false]
    cases mapFind k st.m_symbolTable <;> rfl
  | some x => simp [mapFind_mapAssign_other k k2 _ _ hne]

/-! ### Error texts -/

theorem isPrefixOf_append (p t s : List Char) (h : p.isPrefixOf t = true) :
    p.isPrefixOf (t ++ s) = true := by
  induction p generalizing t with
  | nil => simp [List.isPrefixOf]
  | cons c cs ih =>
    cases t with
    | nil => simp [List.isPrefixOf] at h
    | cons d ds =>
      simp only [List.isPrefixOf, Bool.and_eq_true, List.cons_append] at h ⊢
      exact ⟨h.1, ih ds h.2⟩

theorem occursIn_append_right (p t s : List Char) (h : occursIn p t = true) :
    occursIn p (t ++ s) = true := by
  induction t with
  | nil =>
    simp only [occursIn, List.isEmpty_iff] at h
    subst h
    cases s <;> simp [occursIn, List.isPrefixOf]
  | cons c cs ih =>
    simp only [occursIn, Bool.or_eq_true, List.cons_append] at h ⊢
    rcases h with h | h
    · exact Or.inl (isPrefixOf_append _ (c :: cs) s h)
    · exact Or.inr (ih h)

theorem occursIn_append_left (p t s : List Char) (h : occursIn p t = true) :
    occursIn p (s ++ t) = true := by
  induction s with
  | nil => exact h
  | cons c cs ih =>
    simp only [occursIn, Bool.or_eq_true, List.cons_append]
    exact Or.inr ih

/-- A text that occurs in a recorded message occurs in the error text built from the sink. -/
theorem hasMsg_GetErrors (l : List String) (m pat : String) (hm : m ∈ l)
    (hp : occursIn pat.data m.data = true) : hasMsg (Errors.GetErrors l) pat = true := by
  induction l with
  | nil => cases hm
  | cons e es ih =>
    unfold hasMsg
    simp only [Errors.GetErrors, String.data_append]
    rcases List.mem_cons.mp hm with h | h
    · subst h
      exact occursIn_append_right _ _ _ (occursIn_append_right _ _ _ hp)
    · exact occursIn_append_left _ _ _ (ih h)

/-- The error text is empty only when the sink is. -/
theorem GetErrors_eq_empty (l : List String) (h : Errors.GetErrors l = "") : l = [] := by
  cases l with
  | nil => rfl
  | cons e es =>
    exfalso
    have := congrArg (fun s => s.data.length) h
    simp only [Errors.GetErrors, String.data_append, List.length_append] at this
    have h1 : ("\n" : String).data.length = 1 := rfl
    have h0 : ("" : String).data.length = 0 := rfl
    rw [h1, h0] at this
    omega

/-! ### `Translation::AddError` -/

theorem AddError_append (t : Translation) (s : TransStmt) (e : String) :
    Translation.AddError (t ++ [s]) e = t ++ [s.SetErrorMsg e] := by
  induction t with
  | nil => rfl
  | cons x r ih =>
    cases r with
    | nil => rfl
    | cons y r2 =>
      show x :: Translation.AddError ((y :: r2) ++ [s]) e = _
      rw [ih]
      rfl

/-! ### `Instruction::Translate` -/

theorem RecordErrRegisterAddress_spec (i : Instruction) (errs : List String) :
    SameButFlags i (i.RecordErrRegisterAddress errs).1 ∧
    ∃ extra, (i.RecordErrRegisterAddress errs).2 = errs ++ extra := by
  unfold Instruction.RecordErrRegisterAddress SameButFlags Errors.RecordError
  simp only
  split_ifs <;> simp

theorem RecordErrRegisterRegister_spec (i : Instruction) (errs : List String) :
    SameButFlags i (i.RecordErrRegisterRegister errs).1 ∧
    ∃ extra, (i.RecordErrRegisterRegister errs).2 = errs ++ extra := by
  unfold Instruction.RecordErrRegisterRegister SameButFlags Errors.RecordError
  simp only
  split_ifs <;> simp

theorem RecordErrHalt_spec (i : Instruction) (errs : List String) :
    SameButFlags i (i.RecordErrHalt errs).1 ∧
    ∃ extra, (i.RecordErrHalt errs).2 = errs ++ extra := by
  unfold Instruction.RecordErrHalt SameButFlags Errors.RecordError
  split_ifs <;> simp

theorem RecordErrDC_spec (i : Instruction) (errs : List String) :
    SameButFlags i (i.RecordErrDC errs).1 ∧
    ∃ extra, (i.RecordErrDC errs).2 = errs ++ extra := by
  unfold Instruction.RecordErrDC SameButFlags Errors.RecordError
  simp only
  split_ifs <;> simp

theorem RecordErrDS_spec (i : Instruction) (errs : List String) :
    SameButFlags i (i.RecordErrDS errs).1 ∧
    ∃ extra, (i.RecordErrDS errs).2 = errs ++ extra := by
  unfold Instruction.RecordErrDS SameButFlags Errors.RecordError
  simp only
  split_ifs <;> simp

theorem mkStmt_loc (i : Instruction) (loc r1 r2 ad v : Int) :
    (i.mkStmt loc r1 r2 ad v).m_Loc = loc ∧
    (i.mkStmt loc r1 r2 ad v).m_OrigStmt = i.m_instruction ∧
    (i.mkStmt loc r1 r2 ad v).m_ErrorMsg = "" := ⟨rfl, rfl, rfl⟩

theorem TranslateRegAddr_spec (i : Instruction) (errs : List String) (loc : Int)
    (T : SymbolTable) :
    (i.TranslateRegAddr errs loc T).1.m_Loc = loc ∧
    (i.TranslateRegAddr errs loc T).1.m_OrigStmt = i.m_instruction ∧
    SameButFlags i (i.TranslateRegAddr errs loc T).2.1 ∧
    ∃ extra, (i.TranslateRegAddr errs loc T).2.2 = errs ++ extra := by
  obtain ⟨hs, extra, he⟩ := RecordErrRegisterAddress_spec i errs
  unfold Instruction.TranslateRegAddr
  generalize i.RecordErrRegisterAddress errs = r at hs he
  obtain ⟨i1, e1⟩ := r
  simp only at hs he
  subst he
  simp only [Errors.RecordError]
  unfold SameButFlags at hs ⊢
  refine ⟨rfl, ?_, ?_, ?_⟩
  · split_ifs <;> simp [Instruction.mkStmt, TransStmt.new, TransStmt.SetErrorCodes, hs]
  · split_ifs <;> simp [hs]
  · split_ifs <;> simp

/-- `Translate` places the statement at the given location with the original text of the
line, changes nothing but validity flags in the object, and only appends to the sink. -/
theorem Translate_spec (i : Instruction) (errs : List String) (loc : Int) (T : SymbolTable) :
    (i.Translate errs loc T).1.m_Loc = loc ∧
    (i.Translate errs loc T).1.m_OrigStmt = i.m_instruction ∧
    SameButFlags i (i.Translate errs loc T).2.1 ∧
    ∃ extra, (i.Translate errs loc T).2.2 = errs ++ extra := by
  have hra := TranslateRegAddr_spec i errs loc T
  have hrr := RecordErrRegisterRegister_spec i errs
  have hh := RecordErrHalt_spec i errs
  have hdc := RecordErrDC_spec i errs
  have hds := RecordErrDS_spec i errs
  have hrefl : SameButFlags i i := ⟨rfl, rfl, rfl, rfl, rfl, rfl, rfl, rfl, rfl, rfl⟩
  unfold Instruction.Translate
  cases hoc : i.m_NumOpCode <;> simp only [] <;>
    first
    | exact hra
    | exact ⟨rfl, rfl, hrefl, [], (List.append_nil _).symm⟩
    | exact ⟨rfl, hrr.1.2.2.2.1, hrr.1, hrr.2⟩
    | exact ⟨rfl, hh.1.2.2.2.1, hh.1, hh.2⟩
    | exact ⟨rfl, hdc.1.2.2.2.1, hdc.1, hdc.2⟩
    | exact ⟨rfl, hds.1.2.2.2.1, hds.1, hds.2⟩

theorem LocationNextInstruction_congr (i j : Instruction) (loc : Int) (h : SameButFlags i j) :
    j.LocationNextInstruction loc = i.LocationNextInstruction loc := by
  unfold Instruction.LocationNextInstruction
  rw [h.2.2.2.2.1, h.2.2.2.2.2.2.2.1]

/-! ### One iteration of each pass -/

/-- What one iteration of the loop of `PassII` does, started with an empty sink. -/
theorem PassIIStep_spec (a a1 : Assembler) (loc loc1 : Int) (re re1 : Bool) (line : String)
    (h0 : a.m_ErrorMsgs = []) (h : a.PassIIStep loc re line = some (a1, loc1, re1)) :
    ∃ st i0 e0 i1, parseLine line = some (st, i0, e0) ∧ SameParse i1 i0 ∧
      i1.m_instruction = line ∧ i1.m_type = st ∧
      a1.m_trans = a.m_trans ++ [(i1.Translate e0 loc a.m_symtab).1.SetErrorMsg
        (Errors.GetErrors ((i1.Translate e0 loc a.m_symtab).2.2 ++ endCheckMsgs st re))] ∧
      a1.m_inst = (i1.Translate e0 loc a.m_symtab).2.1 ∧
      a1.m_symtab = a.m_symtab ∧ a1.m_ErrorMsgs = [] ∧ a1.m_facc = a.m_facc ∧
      a1.m_emul = a.m_emul ∧
      loc1 = i1.LocationNextInstruction loc ∧ re1 = (decide (st = ST_End) || re) := by
  unfold Assembler.PassIIStep at h
  rw [h0] at h
  cases hp : a.m_inst.ParseInstruction [] line with
  | none => rw [hp] at h; cases h
  | some r =>
    obtain ⟨st, i1, e1⟩ := r
    obtain ⟨i0, e0, hpl, hsame, he, hinstr, hty⟩ := parse_some _ _ _ _ _ _ hp
    rw [List.nil_append] at he
    subst he
    rw [hp] at h
    simp only [Option.some.injEq, Prod.mk.injEq] at h
    obtain ⟨ha1, hloc, hre⟩ := h
    have hspec := Translate_spec i1 e1 loc a.m_symtab
    refine ⟨st, i0, e1, i1, hpl, hsame, hinstr, hty, ?_, ?_, ?_, ?_, ?_, ?_, ?_, ?_⟩
    · rw [← ha1]
      simp only [Translation.AddStatement, AddError_append]
      congr 3
      unfold endCheckMsgs Errors.RecordError
      split_ifs <;> simp
    · rw [← ha1]
    · rw [← ha1]
    · rw [← ha1]
    · rw [← ha1]
    · rw [← ha1]
    · rw [← hloc]
      exact LocationNextInstruction_congr _ _ _ hspec.2.2.1
    · rw [← hre]
      by_cases hst : st = ST_End <;> simp [hst]

theorem lookup_mem {α : Type} (k : String) (l : List (String × α)) (v : α)
    (h : l.lookup k = some v) : v ∈ l.map Prod.snd := by
  induction l with
  | nil => cases h
  | cons p r ih =>
    obtain ⟨k1, v1⟩ := p
    simp only [List.lookup] at h
    cases hk : (k == k1) with
    | true =>
      rw [hk] at h
      simp only [Option.some.injEq] at h
      subst h
      simp
    | false =>
      rw [hk] at h
      simp only [List.map_cons, List.mem_cons]
      exact Or.inr (ih h)

theorem opCodeMap_range (k : String) (oc : SymbolicOpCode)
    (h : Instruction.opCodeMap.lookup k = some oc) : oc ≠ OC_ERR ∧ oc ≠ OC_COMM := by
  have hm := lookup_mem k _ oc h
  revert hm
  cases oc <;> decide

/-- Type, op code and label recorded by `RecordFields`: a comment has the op code `OC_COMM`
and no label, and the op code flag is set only for `OC_ERR`. -/
theorem RecordFields_facts (i : Instruction) (line : String) (f : Bool) (i1 : Instruction)
    (h : Instruction.RecordFields i line = some (f, i1)) :
    (i1.m_type = ST_Comment → i1.m_NumOpCode = OC_COMM ∧ i1.m_Label.data.isEmpty = true) ∧
    (i1.m_NumOpCode = OC_COMM → i1.m_type = ST_Comment) ∧
    (i1.m_InvalidOpCode = true → i1.m_NumOpCode = OC_ERR) := by
  unfold Instruction.RecordFields at h
  generalize Instruction.ParseLineIntoFields line = flds at h
  obtain ⟨fe, label, opcode, op1, op2⟩ := flds
  simp only at h
  by_cases hc : opcode.data.isEmpty = true ∧ label.data.isEmpty = true
  · simp only [hc, and_self, if_true, Option.some.injEq, Prod.mk.injEq] at h
    obtain ⟨_, rfl⟩ := h
    simp [hc.2]
  · simp only [hc, if_false] at h
    revert h
    cases (if Instruction.isStrNumber op1 = true then stoi op1
      else some i.m_Operand1NumericValue) with
    | none => intro h; cases h
    | some x1 =>
      cases (if Instruction.isStrNumber op2 = true then stoi op2
        else some i.m_Operand2NumericValue) with
      | none => intro h; cases h
      | some x2 =>
        simp only
        cases hl : List.lookup (String.mk (List.map toupper opcode.data))
            Instruction.opCodeMap with
        | none =>
          intro h
          simp only [Option.some.injEq, Prod.mk.injEq] at h
          obtain ⟨_, rfl⟩ := h
          simp
        | some oc =>
          intro h
          simp only [Option.some.injEq, Prod.mk.injEq] at h
          obtain ⟨_, rfl⟩ := h
          have hr := opCodeMap_range _ _ hl
          simp only [hr.2, false_and, false_implies, true_and, Bool.false_eq_true]
          constructor
          · split_ifs <;> simp
          · trivial

/-- The same facts for the parse that `parseLine` returns. -/
theorem parseLine_facts (line : String) (st : InstructionType) (i0 : Instruction)
    (e0 : List String) (h : parseLine line = some (st, i0, e0)) :
    i0.m_type = st ∧
    (st = ST_Comment → i0.m_NumOpCode = OC_COMM ∧ i0.m_Label.data.isEmpty = true) ∧
    (i0.m_NumOpCode = OC_COMM → st = ST_Comment) ∧
    (i0.m_InvalidOpCode = true → i0.m_NumOpCode = OC_ERR) := by
  unfold parseLine at h
  rw [ParseInstruction_eq] at h
  cases hr : Instruction.RecordFields { ({} : Instruction) with m_instruction := line }
      (Instruction.DeleteComment line) with
  | none => rw [hr] at h; cases h
  | some p =>
    obtain ⟨f, i1⟩ := p
    rw [hr] at h
    simp only [Option.map_some', Option.some.injEq, Prod.mk.injEq] at h
    obtain ⟨h1, h2, _⟩ := h
    subst h2
    subst h1
    exact ⟨rfl, RecordFields_facts _ _ _ _ hr⟩

/-- What one iteration of the loop of `PassI` does. -/
theorem PassIStep_spec (a a1 : Assembler) (loc loc1 : Int) (stop : Bool) (line : String)
    (h : a.PassIStep loc line = some (a1, loc1, stop)) :
    ∃ st i0 e0, parseLine line = some (st, i0, e0) ∧ SameParse a1.m_inst i0 ∧
      stop = decide (st = ST_End) ∧
      a1.m_symtab = (if st = ST_End ∨ st = ST_Comment ∨ i0.m_Label.data.isEmpty = true
        then a.m_symtab else a.m_symtab.AddSymbol i0.m_Label loc) ∧
      loc1 = (if st = ST_End ∨ st = ST_Comment then loc
        else a1.m_inst.LocationNextInstruction loc) ∧
      a1.m_facc = a.m_facc ∧ a1.m_trans = a.m_trans ∧ a1.m_emul = a.m_emul := by
  unfold Assembler.PassIStep at h
  cases hp : a.m_inst.ParseInstruction a.m_ErrorMsgs line with
  | none => rw [hp] at h; cases h
  | some r =>
    obtain ⟨st, i1, e1⟩ := r
    obtain ⟨i0, e0, hpl, hsame, _, _, _⟩ := parse_some _ _ _ _ _ _ hp
    have hlab : i1.m_Label = i0.m_Label := hsame.1
    rw [hp] at h
    simp only at h
    refine ⟨st, i0, e0, hpl, ?_⟩
    by_cases hE : st = ST_End
    · simp only [hE, if_true, Option.some.injEq, Prod.mk.injEq] at h
      obtain ⟨rfl, rfl, rfl⟩ := h
      simp [hE, hsame]
    · by_cases hC : st = ST_Comment
      · simp only [hE, hC, if_true, if_false, Option.some.injEq, Prod.mk.injEq] at h
        obtain ⟨rfl, rfl, rfl⟩ := h
        simp [hC, hsame]
      · simp only [hE, hC, if_false, Option.some.injEq, Prod.mk.injEq] at h
        obtain ⟨rfl, rfl, rfl⟩ := h
        by_cases hl : i0.m_Label.data.isEmpty = true
        · have : i1.isLabel = false := by
            unfold Instruction.isLabel; rw [hlab, hl]; rfl
          simp [hE, hC, hl, this, hsame]
        · have : i1.isLabel = true := by
            unfold Instruction.isLabel; rw [hlab]
            simpa using hl
          simp [hE, hC, hl, this, hsame, Instruction.GetLabel, hlab]

/-! ### The loops of the two passes -/

/-- Pass I leaves the file, the translation and the emulator as they were, and keeps the
sentinel of the symbol table. -/
theorem PassILoop_frame : ∀ (lines : List String) (a a1 : Assembler) (loc : Int),
    a.PassILoop loc lines = some a1 →
    a1.m_facc = a.m_facc ∧ a1.m_trans = a.m_trans ∧ a1.m_emul = a.m_emul ∧
    a1.m_symtab.multiplyDefinedSymbol = a.m_symtab.multiplyDefinedSymbol := by
  intro lines
  induction lines with
  | nil =>
    intro a a1 loc h
    simp only [Assembler.PassILoop, Option.some.injEq] at h
    subst h
    exact ⟨rfl, rfl, rfl, rfl⟩
  | cons line rest ih =>
    intro a a1 loc h
    unfold Assembler.PassILoop at h
    cases hs : a.PassIStep loc line with
    | none => rw [hs] at h; cases h
    | some r =>
      obtain ⟨a2, loc2, stop⟩ := r
      obtain ⟨st, i0, e0, _, _, _, hsym, _, hf, ht, he⟩ := PassIStep_spec _ _ _ _ _ _ hs
      have hm : a2.m_symtab.multiplyDefinedSymbol = a.m_symtab.multiplyDefinedSymbol := by
        rw [hsym]
        split_ifs
        · rfl
        · exact AddSymbol_sentinel _ _ _
      rw [hs] at h
      cases stop with
      | true =>
        simp only [Option.some.injEq] at h
        subst h
        exact ⟨hf, ht, he, hm⟩
      | false =>
        simp only at h
        obtain ⟨h1, h2, h3, h4⟩ := ih _ _ _ h
        exact ⟨h1.trans hf, h2.trans ht, h3.trans he, h4.trans hm⟩

/-- Pass I runs to completion when every line can be parsed. -/
theorem PassILoop_total : ∀ (lines : List String) (a : Assembler) (loc : Int),
    (∀ l ∈ lines, (parseLine l).isSome = true) → ∃ a1, a.PassILoop loc lines = some a1 := by
  intro lines
  induction lines with
  | nil => intro a loc _; exact ⟨a, rfl⟩
  | cons line rest ih =>
    intro a loc hall
    obtain ⟨st, i1, e1, hp⟩ := parse_total a.m_inst a.m_ErrorMsgs line
      (hall line (List.mem_cons_self _ _))
    have hstep : ∃ r, a.PassIStep loc line = some r := by
      unfold Assembler.PassIStep
      rw [hp]
      simp only
      split_ifs <;> exact ⟨_, rfl⟩
    obtain ⟨⟨a2, loc2, stop⟩, hs⟩ := hstep
    unfold Assembler.PassILoop
    rw [hs]
    cases stop with
    | true => exact ⟨a2, rfl⟩
    | false => exact ih a2 loc2 (fun l hl => hall l (List.mem_cons_of_mem _ hl))

/-- Pass II runs to completion when every line can be parsed. -/
theorem PassIILoop_total : ∀ (lines : List String) (a : Assembler) (loc : Int) (re : Bool),
    (∀ l ∈ lines, (parseLine l).isSome = true) → ∃ a1, a.PassIILoop loc re lines = some a1 := by
  intro lines
  induction lines with
  | nil => intro a loc re _; exact ⟨_, rfl⟩
  | cons line rest ih =>
    intro a loc re hall
    obtain ⟨st, i1, e1, hp⟩ := parse_total a.m_inst a.m_ErrorMsgs line
      (hall line (List.mem_cons_self _ _))
    have hstep : ∃ r, a.PassIIStep loc re line = some r := by
      unfold Assembler.PassIIStep
      rw [hp]
      exact ⟨_, rfl⟩
    obtain ⟨⟨a2, loc2, re2⟩, hs⟩ := hstep
    unfold Assembler.PassIILoop
    rw [hs]
    exact ih a2 loc2 re2 (fun l hl => hall l (List.mem_cons_of_mem _ hl))

/-- Pass II appends one statement per line, each the one its iteration emits, and leaves the
symbol table as it was. -/
theorem PassIILoop_emitted : ∀ (lines : List String) (a a1 : Assembler) (loc : Int)
    (re : Bool), a.m_ErrorMsgs = [] → a.PassIILoop loc re lines = some a1 →
    a1.m_symtab = a.m_symtab ∧
    ∃ new, a1.m_trans = a.m_trans ++ new ∧ List.Forall₂ (EmittedFor a.m_symtab) lines new := by
  intro lines
  induction lines with
  | nil =>
    intro a a1 loc re _ h
    simp only [Assembler.PassIILoop, Option.some.injEq] at h
    subst h
    refine ⟨?_, [], ?_, List.Forall₂.nil⟩
    · split_ifs <;> rfl
    · split_ifs <;> simp
  | cons line rest ih =>
    intro a a1 loc re h0 h
    unfold Assembler.PassIILoop at h
    cases hs : a.PassIIStep loc re line with
    | none => rw [hs] at h; cases h
    | some r =>
      obtain ⟨a2, loc2, re2⟩ := r
      rw [hs] at h
      simp only at h
      obtain ⟨st, i0, e0, i1, _, _, _, _, htr, _, hsym, herr, _, _, _, _⟩ :=
        PassIIStep_spec _ _ _ _ _ _ _ h0 hs
      obtain ⟨hsym1, new, hnew, hall⟩ := ih a2 a1 loc2 re2 herr h
      refine ⟨hsym1.trans hsym, (i1.Translate e0 loc a.m_symtab).1.SetErrorMsg
        (Errors.GetErrors ((i1.Translate e0 loc a.m_symtab).2.2 ++ endCheckMsgs st re)) :: new,
        ?_, List.Forall₂.cons ?_ ?_⟩
      · rw [hnew, htr, List.append_assoc]
        rfl
      · exact ⟨a, a2, loc, loc2, re, re2, rfl, h0, hs, htr⟩
      · rw [hsym] at hall
        exact hall

/-! ### Counting the definitions of a label -/

theorem beforeEnd_cons (line : String) (rest : List String) :
    beforeEnd (line :: rest) = if isEndLine line = true then [] else line :: beforeEnd rest := by
  unfold beforeEnd
  cases h : isEndLine line <;> simp [List.takeWhile, h]

theorem defCount_cons (X line : String) (rest : List String) :
    defCount X (line :: rest) =
      if isEndLine line = true then 0
      else (if definesLabel X line = true then 1 else 0) + defCount X rest := by
  unfold defCount
  rw [beforeEnd_cons]
  cases h : isEndLine line
  · cases hd : definesLabel X line <;> simp [List.filter, hd]
    omega
  · simp

/-- The entry of a label after Pass I, by the number of lines before the first end statement
that define it: untouched when there is none, the sentinel when there are two or more, or one
on top of an existing entry. -/
theorem PassILoop_count (X : String) (hX : X.data.isEmpty = false) :
    ∀ (lines : List String) (a a1 : Assembler) (loc : Int),
    a.PassILoop loc lines = some a1 →
    (defCount X lines = 0 →
      mapFind X a1.m_symtab.m_symbolTable = mapFind X a.m_symtab.m_symbolTable) ∧
    ((mapFind X a.m_symtab.m_symbolTable).isSome = true → 1 ≤ defCount X lines →
      mapFind X a1.m_symtab.m_symbolTable = some a.m_symtab.multiplyDefinedSymbol) ∧
    (2 ≤ defCount X lines →
      mapFind X a1.m_symtab.m_symbolTable = some a.m_symtab.multiplyDefinedSymbol) := by
  intro lines
  induction lines with
  | nil =>
    intro a a1 loc h
    simp only [Assembler.PassILoop, Option.some.injEq] at h
    subst h
    have : defCount X [] = 0 := rfl
    rw [this]
    exact ⟨fun _ => rfl, fun _ h => absurd h (by omega), fun h => absurd h (by omega)⟩
  | cons line rest ih =>
    intro a a1 loc h
    unfold Assembler.PassILoop at h
    cases hs : a.PassIStep loc line with
    | none => rw [hs] at h; cases h
    | some r =>
      obtain ⟨a2, loc2, stop⟩ := r
      obtain ⟨st, i0, e0, hpl, _, hstop, hsym, _, _, _, _⟩ := PassIStep_spec _ _ _ _ _ _ hs
      have hfacts := parseLine_facts _ _ _ _ hpl
      have hend : isEndLine line = decide (st = ST_End) := by
        unfold isEndLine; rw [hpl]
      have hdef : definesLabel X line = decide (i0.m_Label = X) := by
        unfold definesLabel; rw [hpl]
      rw [hs] at h
      rw [defCount_cons, hend]
      by_cases hE : st = ST_End
      · -- the end statement: the loop is left, nothing was added
        subst hstop
        simp only [hE, decide_True] at h
        simp only [Option.some.injEq] at h
        subst h
        simp only [hE, decide_True, if_true, true_or] at hsym ⊢
        rw [hsym]
        exact ⟨fun _ => rfl, fun _ h => absurd h (by omega), fun h => absurd h (by omega)⟩
      · subst hstop
        simp only [hE, decide_False] at h
        obtain ⟨ih0, ih1, ih2⟩ := ih a2 a1 loc2 h
        have hm : a2.m_symtab.multiplyDefinedSymbol = a.m_symtab.multiplyDefinedSymbol := by
          rw [hsym]
          split_ifs
          · rfl
          · exact AddSymbol_sentinel _ _ _
        rw [hm] at ih1 ih2
        simp only [hE, decide_False, Bool.false_eq_true, if_false, false_or] at hsym ⊢
        rw [hdef]
        by_cases hL : i0.m_Label = X
        · -- the line defines X
          have hne : i0.m_Label.data.isEmpty = false := by rw [hL]; exact hX
          have hC : st ≠ ST_Comment := by
            intro hc
            have := (hfacts.2.1 hc).2
            rw [hne] at this
            exact Bool.noConfusion this
          simp only [hC, hne, Bool.false_eq_true, or_self, if_false] at hsym
          have hfind : mapFind X a2.m_symtab.m_symbolTable =
              match mapFind X a.m_symtab.m_symbolTable with
              | none => some loc
              | some _ => some a.m_symtab.multiplyDefinedSymbol := by
            rw [hsym, hL]
            exact mapFind_AddSymbol_self _ _ _
          have hsome : (mapFind X a2.m_symtab.m_symbolTable).isSome = true := by
            rw [hfind]
            cases mapFind X a.m_symtab.m_symbolTable <;> rfl
          simp only [hL, decide_True, if_true]
          refine ⟨fun h => absurd h (by omega), ?_, ?_⟩
          · intro hs0 _
            have hfind2 : mapFind X a2.m_symtab.m_symbolTable
                = some a.m_symtab.multiplyDefinedSymbol := by
              rw [hfind]
              cases hq : mapFind X a.m_symtab.m_symbolTable with
              | none => rw [hq] at hs0; exact Bool.noConfusion hs0
              | some v => rfl
            rcases Nat.eq_zero_or_pos (defCount X rest) with h0 | h1
            · rw [ih0 h0, hfind2]
            · exact ih1 hsome h1
          · intro h2
            exact ih1 hsome (by omega)
        · -- the line does not define X
          have hsame : mapFind X a2.m_symtab.m_symbolTable
              = mapFind X a.m_symtab.m_symbolTable := by
            rw [hsym]
            split_ifs
            · rfl
            · exact mapFind_AddSymbol_other _ _ _ _ hL
          simp only [hL, decide_False, Bool.false_eq_true, if_false, Nat.zero_add]
          rw [hsame] at ih0 ih1
          exact ⟨ih0, ih1, ih2⟩

/-! ### References to a multiply defined label -/

theorem Translate_regAddr (i : Instruction) (errs : List String) (loc : Int) (T : SymbolTable)
    (h : isRegAddrOp i.m_NumOpCode = true) :
    i.Translate errs loc T = i.TranslateRegAddr errs loc T := by
  unfold Instruction.Translate
  revert h
  cases i.m_NumOpCode <;> first | (intro _; rfl) | (intro h; exact Bool.noConfusion h)

theorem RecordErrRegisterAddress_flags (i : Instruction) (errs : List String) :
    (i.RecordErrRegisterAddress errs).1.m_InvalidOpCode = i.m_InvalidOpCode ∧
    (i.RecordErrRegisterAddress errs).1.m_InvalidValue = i.m_InvalidValue ∧
    (i.RecordErrRegisterAddress errs).1.m_InvalidReg2 = i.m_InvalidReg2 ∧
    (wellFormedLabel i.m_Operand2 = true →
      (i.RecordErrRegisterAddress errs).1.m_InvalidAddr = i.m_InvalidAddr) := by
  unfold Instruction.RecordErrRegisterAddress wellFormedLabel
  simp only
  refine ⟨?_, ?_, ?_, ?_⟩
  · split_ifs <;> rfl
  · split_ifs <;> rfl
  · split_ifs <;> rfl
  · intro hw
    simp only [Bool.and_eq_true, Bool.not_eq_true', decide_eq_true_eq] at hw
    obtain ⟨⟨h1, h2⟩, h3⟩ := hw
    have h2' : ¬ i.m_Operand2.data.length > 10 := by omega
    simp only [h1, h3, Bool.false_eq_true, if_false, h2']
    split_ifs <;> rfl

/-- A register-and-address instruction whose operand 2 is a well-formed label bound to the
sentinel: `Translate` records "multiply defined symbol" and sets the address flag. -/
theorem TranslateRegAddr_multiply (i : Instruction) (errs : List String) (loc : Int)
    (T : SymbolTable) (hX : wellFormedLabel i.m_Operand2 = true) (hA : i.m_InvalidAddr = false)
    (hf : mapFind i.m_Operand2 T.m_symbolTable = some T.multiplyDefinedSymbol) :
    "Error: multiply defined symbol." ∈ (i.TranslateRegAddr errs loc T).2.2 ∧
    (i.TranslateRegAddr errs loc T).1.m_Contents.m_InvalidAddr = true ∧
    (i.TranslateRegAddr errs loc T).1.m_Contents.m_InvalidOpCode = i.m_InvalidOpCode ∧
    (i.TranslateRegAddr errs loc T).1.m_Contents.m_InvalidValue = i.m_InvalidValue ∧
    (i.TranslateRegAddr errs loc T).1.m_Contents.m_InvalidReg2 = i.m_InvalidReg2 ∧
    (i.TranslateRegAddr errs loc T).1.m_Contents.m_Reg2 = -1 ∧
    (i.TranslateRegAddr errs loc T).1.m_Contents.m_OpCode = i.m_NumOpCode := by
  obtain ⟨f1, f2, f3, f4⟩ := RecordErrRegisterAddress_flags i errs
  have f4 := f4 hX
  obtain ⟨hs, _⟩ := RecordErrRegisterAddress_spec i errs
  unfold Instruction.TranslateRegAddr
  generalize i.RecordErrRegisterAddress errs = r at hs f1 f2 f3 f4
  obtain ⟨i1, e1⟩ := r
  simp only at hs f1 f2 f3 f4
  have hop : i1.m_Operand2 = i.m_Operand2 := hs.2.2.1
  have hoc : i1.m_NumOpCode = i.m_NumOpCode := hs.2.2.2.2.1
  have hA1 : i1.m_InvalidAddr = false := f4.trans hA
  have hlook : T.LookupSymbol i.m_Operand2 (-1) = (true, T.multiplyDefinedSymbol) := by
    unfold SymbolTable.LookupSymbol; rw [hf]
  simp only [hop, hlook, hA1, Bool.false_eq_true, if_false, Bool.not_true, Bool.not_false,
    and_false, if_true, Errors.RecordError, Instruction.mkStmt, TransStmt.new,
    TransStmt.SetErrorCodes, Contents.SetErrorCodes, f1, f2, f3, hoc]
  simp

/-- The contents of a register-and-address statement whose only possible invalid fields are
register 1 and the address, the address being invalid: op code, register 1, "??????". -/
theorem GetContents_invalidAddr (c : Contents) (h1 : c.m_InvalidOpCode = false)
    (h2 : c.m_InvalidValue = false) (h3 : c.m_InvalidReg2 = false) (h4 : c.m_Reg2 = -1)
    (h5 : c.m_InvalidAddr = true) (h6 : isRegAddrOp c.m_OpCode = true) :
    c.GetContents = padLeft 2 '0' (natToStr c.m_OpCode.ord)
      ++ (if c.m_InvalidReg1 = true then "?" else intToStr c.m_Reg1) ++ "??????" := by
  have hdc : c.m_OpCode ≠ OC_DC := by
    intro h; rw [h] at h6; exact Bool.noConfusion h6
  have hml : c.m_OpCode.ord ≤ OC_HALT.ord := by
    revert h6; cases c.m_OpCode <;> decide
  unfold Contents.GetContents
  have hneg : ¬ ((-1 : Int) ≥ 0) := by decide
  simp only [h1, h2, h3, h4, h5, Bool.or_self, Bool.false_eq_true, if_false, hdc, hml, if_true,
    hneg]
  apply String.ext
  simp only [String.data_append]
  simp

theorem forall₂_index {α β : Type} (R : α → β → Prop) :
    ∀ (l1 : List α) (l2 : List β), List.Forall₂ R l1 l2 →
    l2.length = l1.length ∧
    ∀ (k : Nat) (hk : k < l1.length), ∃ s, l2[k]? = some s ∧ R (l1[k]) s := by
  intro l1 l2 h
  induction h with
  | nil => exact ⟨rfl, fun k hk => absurd hk (Nat.not_lt_zero _)⟩
  | @cons x y r1 r2 hab _ ih =>
    refine ⟨by simp [ih.1], ?_⟩
    intro k hk
    cases k with
    | zero => exact ⟨y, List.getElem?_cons_zero, hab⟩
    | succ k =>
      obtain ⟨s, hs, hr⟩ := ih.2 k (Nat.lt_of_succ_lt_succ hk)
      exact ⟨s, by simpa using hs, by simpa using hr⟩

/-- The statement emitted for a line that refers to a label bound to the sentinel. -/
theorem emitted_multiply (T : SymbolTable) (line : String) (s : TransStmt) (X : String)
    (hem : EmittedFor T line s) (href : refersTo X line = true)
    (hX : wellFormedLabel X = true)
    (hf : mapFind X T.m_symbolTable = some T.multiplyDefinedSymbol) :
    s.m_OrigStmt = line ∧ hasMsg s.m_ErrorMsg "multiply defined symbol" = true ∧
    s.m_Contents.m_InvalidAddr = true ∧
    s.m_Contents.GetContents = padLeft 2 '0' (natToStr s.m_Contents.m_OpCode.ord)
      ++ (if s.m_Contents.m_InvalidReg1 = true then "?" else intToStr s.m_Contents.m_Reg1)
      ++ "??????" := by
  obtain ⟨a, a1, loc, loc1, re, re1, hT, h0, hstep, htr⟩ := hem
  obtain ⟨st, i0, e0, i1, hpl, hsame, hinstr, _, htr2, _⟩ :=
    PassIIStep_spec _ _ _ _ _ _ _ h0 hstep
  rw [htr2] at htr
  have hs := List.append_cancel_left htr
  simp only [List.cons.injEq, and_true] at hs
  subst hT
  unfold refersTo at href
  rw [hpl] at href
  simp only [Bool.and_eq_true, decide_eq_true_eq] at href
  obtain ⟨hop0, hX0⟩ := href
  have hfacts := parseLine_facts _ _ _ _ hpl
  obtain ⟨_, _, _, hO2, hNO, _, hOpF, _, _, hR2, _, hIA, _, hIV, _, _⟩ := hsame
  have hop : isRegAddrOp i1.m_NumOpCode = true := by rw [hNO]; exact hop0
  have hO2X : i1.m_Operand2 = X := hO2.trans hX0
  have hIO1 : i1.m_InvalidOpCode = false := by
    cases hq : i1.m_InvalidOpCode with
    | false => rfl
    | true =>
      have := hfacts.2.2.2 (hOpF ▸ hq)
      rw [this] at hop0
      exact Bool.noConfusion hop0
  have hT := Translate_spec i1 e0 loc a.m_symtab
  rw [Translate_regAddr _ _ _ _ hop] at hs hT
  obtain ⟨m1, m2, m3, m4, m5, m6, m7⟩ := TranslateRegAddr_multiply i1 e0 loc a.m_symtab
    (by rw [hO2X]; exact hX) hIA (by rw [hO2X]; exact hf)
  rw [← hs]
  refine ⟨?_, ?_, m2, ?_⟩
  · exact hT.2.1.trans hinstr
  · exact hasMsg_GetErrors _ "Error: multiply defined symbol." _
      (List.mem_append_left _ m1) (by decide)
  · exact GetContents_invalidAddr _ (m3.trans hIO1) (m4.trans hIV) (m5.trans hR2) m6 m2
      (by
        show isRegAddrOp (i1.TranslateRegAddr e0 loc a.m_symtab).1.m_Contents.m_OpCode = true
        rw [m7]; exact hop)

/-- C7 (multiply-defined symbols are reported at every reference): for every source whose
lines can all be parsed, and every well-formed label `X` (not empty, at most 10 characters,
not starting with a digit) carried by two or more lines before the first end statement,
Pass I followed by Pass II completes with one statement per line, and the statement of every
register-and-address instruction line whose operand 2 is `X` has "multiply defined symbol"
in its error text, has its address flag set, and has contents made of the op code, the
register-1 field and "??????". -/
theorem C7_multiply_defined_reported (mds : Int) (lines : List String) (X : String)
    (hparse : ∀ l ∈ lines, (parseLine l).isSome = true)
    (hX : wellFormedLabel X = true) (hdef : 2 ≤ defCount X lines) :
    ∃ a : Assembler, Assembler.assemble mds lines = some a ∧
      a.m_trans.length = lines.length ∧
      ∀ (k : Nat) (hk : k < lines.length), refersTo X (lines[k]) = true →
        ∃ s, a.m_trans[k]? = some s ∧ s.m_OrigStmt = lines[k] ∧
          hasMsg s.m_ErrorMsg "multiply defined symbol" = true ∧
          s.m_Contents.m_InvalidAddr = true ∧
          s.m_Contents.GetContents = padLeft 2 '0' (natToStr s.m_Contents.m_OpCode.ord)
            ++ (if s.m_Contents.m_InvalidReg1 = true then "?" else intToStr s.m_Contents.m_Reg1)
            ++ "??????" := by
  have hXne : X.data.isEmpty = false := by
    unfold wellFormedLabel at hX
    simp only [Bool.and_eq_true, Bool.not_eq_true'] at hX
    exact hX.1.1
  obtain ⟨a1, h1⟩ := PassILoop_total lines (Assembler.new mds lines) 0 hparse
  obtain ⟨hfacc, htrans, _, hmds⟩ := PassILoop_frame _ _ _ _ h1
  have hfind := (PassILoop_count X hXne lines _ _ _ h1).2.2 hdef
  rw [← hmds] at hfind
  obtain ⟨a2, h2⟩ := PassIILoop_total lines { a1 with m_ErrorMsgs := [] } 0 false hparse
  obtain ⟨hsym, new, hnew, hall⟩ := PassIILoop_emitted _ _ _ _ _ rfl h2
  have htr2 : a2.m_trans = new := by
    rw [hnew]
    show a1.m_trans ++ new = new
    rw [htrans]
    rfl
  obtain ⟨hlen, hidx⟩ := forall₂_index _ _ _ hall
  refine ⟨a2, ?_, ?_, ?_⟩
  · unfold Assembler.assemble
    show (match Assembler.PassILoop (Assembler.new mds lines) 0 lines with
      | none => none
      | some a => a.PassII) = some a2
    rw [h1]
    show Assembler.PassIILoop { a1 with m_ErrorMsgs := [] } 0 false a1.m_facc = some a2
    have hl : a1.m_facc = lines := hfacc
    rw [← hl] at h2
    exact h2
  · rw [htr2]; exact hlen
  · intro k hk href
    obtain ⟨s, hs, hem⟩ := hidx k hk
    rw [htr2]
    exact ⟨s, hs, emitted_multiply _ _ _ X hem href hX hfind⟩

/-- The statement of C7 at the source "X DC 1", "X DC 2", " LOAD 1 X", " END". -/
theorem C7_multiply_defined_reported_witness :
    (∀ l ∈ multiplyDefinedSource, (parseLine l).isSome = true) ∧
    wellFormedLabel "X" = true ∧ 2 ≤ defCount "X" multiplyDefinedSource ∧
    refersTo "X" " LOAD 1 X" = true ∧
    ∃ a : Assembler, Assembler.assemble (-999) multiplyDefinedSource = some a ∧
      ∃ s, a.m_trans[2]? = some s ∧ s.m_OrigStmt = " LOAD 1 X" ∧
        hasMsg s.m_ErrorMsg "multiply defined symbol" = true ∧
        s.m_Contents.m_InvalidAddr = true := by
  have hp : ∀ l ∈ multiplyDefinedSource, (parseLine l).isSome = true := by decide
  have hw : wellFormedLabel "X" = true := by decide
  have hd : 2 ≤ defCount "X" multiplyDefinedSource := by decide
  have hr : refersTo "X" " LOAD 1 X" = true := by decide
  obtain ⟨a, ha, _, hall⟩ := C7_multiply_defined_reported (-999) multiplyDefinedSource "X" hp hw hd
  obtain ⟨s, h1, h2, h3, h4, _⟩ := hall 2 (by decide) hr
  exact ⟨hp, hw, hd, hr, a, ha, s, h1, h2, h3, h4⟩

/-! ### Locations in the two passes -/

/-- A DS statement whose operand 1 is not numeric gets an error message. -/
theorem Translate_DS_error (i : Instruction) (errs : List String) (loc : Int) (T : SymbolTable)
    (h : i.m_NumOpCode = OC_DS) (hn : i.m_IsNumericOperand1 = false) :
    (i.Translate errs loc T).2.2 ≠ [] := by
  unfold Instruction.Translate
  rw [h]
  simp only [Instruction.RecordErrDS, hn, Bool.not_false, true_or, if_true, Errors.RecordError]
  simp

/-- Two objects holding the same parse of a line advance the location alike, provided an ORG
or DS on that line has a numeric operand 1. -/
theorem LocationNextInstruction_sameParse (j1 j2 i0 : Instruction) (loc : Int)
    (h1 : SameParse j1 i0) (h2 : SameParse j2 i0)
    (hnum : i0.m_NumOpCode = OC_ORG ∨ i0.m_NumOpCode = OC_DS → i0.m_IsNumericOperand1 = true) :
    j1.LocationNextInstruction loc = j2.LocationNextInstruction loc := by
  obtain ⟨_, _, _, _, a5, _, _, _, _, _, _, _, _, _, _, a16⟩ := h1
  obtain ⟨_, _, _, _, b5, _, _, _, _, _, _, _, _, _, _, b16⟩ := h2
  unfold Instruction.LocationNextInstruction
  rw [a5, b5]
  by_cases ho : i0.m_NumOpCode = OC_ORG ∨ i0.m_NumOpCode = OC_DS
  · have hn := hnum ho
    have hc : i0.m_NumOpCode ≠ OC_COMM := by
      rcases ho with ho | ho <;> rw [ho] <;> decide
    obtain ⟨a1, _, a3, _⟩ := a16 (a5 ▸ hc)
    obtain ⟨b1, _, b3, _⟩ := b16 (b5 ▸ hc)
    rw [a3 (a1.trans hn), b3 (b1.trans hn)]
  · have h1 : ¬ i0.m_NumOpCode = OC_ORG := fun h => ho (Or.inl h)
    have h2 : ¬ i0.m_NumOpCode = OC_DS := fun h => ho (Or.inr h)
    simp only [h1, h2, if_false]

theorem defCount_pos (X : String) (lines : List String) (k : Nat)
    (hk : k < (beforeEnd lines).length)
    (hd : definesLabel X ((beforeEnd lines)[k]) = true) : 1 ≤ defCount X lines := by
  unfold defCount
  have hm : (beforeEnd lines)[k] ∈ (beforeEnd lines).filter (definesLabel X) :=
    List.mem_filter.mpr ⟨List.getElem_mem _, hd⟩
  exact List.length_pos_of_mem hm

/-- The two loops run side by side from the same location: a label defined exactly once before
the first end statement is bound by Pass I to the location of the statement that Pass II
emits for its line, provided Pass II attaches no error text and no ORG before the end
statement lacks a numeric operand 1. -/
theorem passes_agree (X : String) (hX : X.data.isEmpty = false) :
    ∀ (lines : List String) (aI aI1 aII aII1 : Assembler) (loc : Int) (re : Bool)
      (new : Translation),
    aI.PassILoop loc lines = some aI1 → aII.m_ErrorMsgs = [] →
    aII.PassIILoop loc re lines = some aII1 → aII1.m_trans = aII.m_trans ++ new →
    (∀ s ∈ new, s.m_ErrorMsg = "") →
    (∀ l ∈ beforeEnd lines, isBareOrgLine l = false) →
    mapFind X aI.m_symtab.m_symbolTable = none → defCount X lines = 1 →
    ∀ (k : Nat) (hk : k < (beforeEnd lines).length),
      definesLabel X ((beforeEnd lines)[k]) = true →
      ∃ s, new[k]? = some s ∧ s.m_OrigStmt = (beforeEnd lines)[k] ∧
        mapFind X aI1.m_symtab.m_symbolTable = some s.m_Loc := by
  intro lines
  induction lines with
  | nil =>
    intro aI aI1 aII aII1 loc re new _ _ _ _ _ _ _ _ k hk
    exact absurd hk (Nat.not_lt_zero _)
  | cons line rest ih =>
    intro aI aI1 aII aII1 loc re new hI h0 hII hnew hclean horg hnone hcount k hk hdef
    unfold Assembler.PassILoop at hI
    unfold Assembler.PassIILoop at hII
    cases hsI : aI.PassIStep loc line with
    | none => rw [hsI] at hI; cases hI
    | some rI =>
    cases hsII : aII.PassIIStep loc re line with
    | none => rw [hsII] at hII; cases hII
    | some rII =>
    obtain ⟨aI2, locI, stop⟩ := rI
    obtain ⟨aII2, locII, re2⟩ := rII
    rw [hsI] at hI
    rw [hsII] at hII
    simp only at hII
    obtain ⟨st, i0, e0, hpl, hsameI, hstop, hsymI, hlocI, _, _, _⟩ :=
      PassIStep_spec _ _ _ _ _ _ hsI
    obtain ⟨st', i0', e0', i1, hpl', hsameII, hinstr, _, htr, _, _, herr2, _, _, hlocII, _⟩ :=
      PassIIStep_spec _ _ _ _ _ _ _ h0 hsII
    rw [hpl] at hpl'
    simp only [Option.some.injEq, Prod.mk.injEq] at hpl'
    obtain ⟨hst, hi0, he0⟩ := hpl'
    subst hst hi0 he0
    have hfacts := parseLine_facts _ _ _ _ hpl
    have hend : isEndLine line = decide (st = ST_End) := by
      unfold isEndLine; rw [hpl]
    have hdl : definesLabel X line = decide (i0.m_Label = X) := by
      unfold definesLabel; rw [hpl]
    by_cases hE : st = ST_End
    · have hlen : (beforeEnd (line :: rest)).length = 0 := by
        rw [beforeEnd_cons, hend]; simp [hE]
      omega
    · have hbe : beforeEnd (line :: rest) = line :: beforeEnd rest := by
        rw [beforeEnd_cons, hend]; simp [hE]
      subst hstop
      simp only [hE, decide_False] at hI
      -- the statement emitted for this line
      obtain ⟨_, new2, hnew2, _⟩ := PassIILoop_emitted _ _ _ _ _ herr2 hII
      rw [htr, List.append_assoc] at hnew2
      rw [hnew2] at hnew
      have hnew3 := (List.append_cancel_left hnew).symm
      simp only [List.singleton_append] at hnew3
      have hTs := Translate_spec i1 e0 loc aII.m_symtab
      -- its error text is empty, so nothing was recorded for this line
      have hcl0 := hclean _ (by rw [hnew3]; exact List.mem_cons_self _ _)
      have hnil := GetErrors_eq_empty _ hcl0
      have hTnil : (i1.Translate e0 loc aII.m_symtab).2.2 = [] :=
        (List.append_eq_nil.mp hnil).1
      -- both passes move to the same location
      have hnum : i0.m_NumOpCode = OC_ORG ∨ i0.m_NumOpCode = OC_DS →
          i0.m_IsNumericOperand1 = true := by
        intro ho
        have hc : i0.m_NumOpCode ≠ OC_COMM := by
          rcases ho with ho | ho <;> rw [ho] <;> decide
        have hoc1 : i1.m_NumOpCode = i0.m_NumOpCode := hsameII.2.2.2.2.1
        have hn1 : i1.m_IsNumericOperand1 = i0.m_IsNumericOperand1 :=
          (hsameII.2.2.2.2.2.2.2.2.2.2.2.2.2.2.2 (hoc1 ▸ hc)).1
        rcases ho with ho | ho
        · have hb := horg line (by rw [hbe]; exact List.mem_cons_self _ _)
          unfold isBareOrgLine at hb
          rw [hpl] at hb
          simpa [ho] using hb
        · cases hq : i0.m_IsNumericOperand1 with
          | true => rfl
          | false =>
            exact absurd hTnil
              (Translate_DS_error i1 e0 loc aII.m_symtab (hoc1.trans ho) (hn1.trans hq))
      have hloc : locI = locII := by
        rw [hlocI, hlocII]
        by_cases hC : st = ST_Comment
        · have hcomm := (hfacts.2.1 hC).1
          have hoc1 : i1.m_NumOpCode = OC_COMM := hsameII.2.2.2.2.1.trans hcomm
          simp [hC, Instruction.LocationNextInstruction, hoc1]
        · simp only [hE, hC, or_self, if_false]
          exact LocationNextInstruction_sameParse _ _ _ _ hsameI hsameII hnum
      subst hloc
      have hclean2 : ∀ s ∈ new2, s.m_ErrorMsg = "" := fun s hs =>
        hclean s (by rw [hnew3]; exact List.mem_cons_of_mem _ hs)
      have horg2 : ∀ l ∈ beforeEnd rest, isBareOrgLine l = false := fun l hl =>
        horg l (by rw [hbe]; exact List.mem_cons_of_mem _ hl)
      rw [defCount_cons, hend] at hcount
      simp only [hE, decide_False, Bool.false_eq_true, if_false, hdl] at hcount
      have hk1 : k < (line :: beforeEnd rest).length := by rw [← hbe]; exact hk
      have hget : (beforeEnd (line :: rest))[k] = (line :: beforeEnd rest)[k] :=
        List.getElem_of_eq hbe hk
      rw [hget] at hdef ⊢
      cases k with
      | zero =>
        simp only [List.getElem_cons_zero] at hdef ⊢
        rw [hdl] at hdef
        have hL : i0.m_Label = X := of_decide_eq_true hdef
        have hne : i0.m_Label.data.isEmpty = false := by rw [hL]; exact hX
        have hC : st ≠ ST_Comment := by
          intro hc
          have := (hfacts.2.1 hc).2
          rw [hne] at this
          exact Bool.noConfusion this
        simp only [hE, hC, hne, Bool.false_eq_true, or_self, if_false] at hsymI
        have hfind : mapFind X aI2.m_symtab.m_symbolTable = some loc := by
          rw [hsymI, hL, mapFind_AddSymbol_self, hnone]
        simp only [hL, decide_True, if_true] at hcount
        have hrest : defCount X rest = 0 := by omega
        have hfinal := (PassILoop_count X hX rest _ _ _ hI).1 hrest
        refine ⟨(i1.Translate e0 loc aII.m_symtab).1.SetErrorMsg
          (Errors.GetErrors ((i1.Translate e0 loc aII.m_symtab).2.2 ++ endCheckMsgs st re)),
          by rw [hnew3]; exact List.getElem?_cons_zero, hTs.2.1.trans hinstr, ?_⟩
        rw [hfinal, hfind]
        exact congrArg some hTs.1.symm
      | succ k =>
        simp only [List.getElem_cons_succ] at hdef ⊢
        have hk2 : k < (beforeEnd rest).length := by
          rw [hbe] at hk
          exact Nat.lt_of_succ_lt_succ hk
        have hpos := defCount_pos X rest k hk2 hdef
        have hL : ¬ i0.m_Label = X := by
          intro hL
          simp only [hL, decide_True, if_true] at hcount
          omega
        simp only [hL, decide_False, Bool.false_eq_true, if_false, Nat.zero_add] at hcount
        have hnone2 : mapFind X aI2.m_symtab.m_symbolTable = none := by
          rw [hsymI]
          split_ifs
          · exact hnone
          · rw [mapFind_AddSymbol_other _ _ _ _ hL]; exact hnone
        obtain ⟨s, hs1, hs2, hs3⟩ := ih aI2 aI1 aII2 aII1 locI re2 new2 hI herr2 hII
          (by rw [hnew2, htr, List.append_assoc]) hclean2 horg2 hnone2 hcount k hk2 hdef
        exact ⟨s, by rw [hnew3]; simpa using hs1, hs2, hs3⟩

/-- The translation of `twiceDefinedSource`, whatever the value of `multiplyDefinedSymbol`:
three statements at locations 0, 1, 2 without error text, and `X` bound to the sentinel. -/
theorem twiceDefined_trans (mds : Int) :
    ∃ a, Assembler.assemble mds twiceDefinedSource = some a ∧
      a.m_trans.map (fun s => (s.m_Loc, s.m_ErrorMsg)) = [(0, ""), (1, ""), (2, "")] ∧
      a.m_symtab.m_symbolTable = [("X", mds)] :=
  ⟨_, rfl, rfl, rfl⟩

/-- The translation of `bareOrgSource`, whatever the value of `multiplyDefinedSymbol`: in
Pass I the ORG without operand moves to the value 0 left in the object, in Pass II to the
value 5 left there by the DC of Pass I; no statement has error text, the label is bound to 0
and its statement is placed at 5. -/
theorem bareOrg_trans (mds : Int) :
    ∃ a, Assembler.assemble mds bareOrgSource = some a ∧
      a.m_trans.map (fun s => (s.m_Loc, s.m_OrigStmt, s.m_ErrorMsg))
        = [(0, " ORG", ""), (5, "X DC 5", ""), (6, " END", "")] ∧
      a.m_symtab.m_symbolTable = [("X", 0)] :=
  ⟨_, rfl, rfl, rfl⟩

/-- C2, the claim as stated fails: in "X DC 1", "X DC 2", " END" the label X is defined on
two lines before the end statement; whatever the value of `multiplyDefinedSymbol`, both passes
complete and no statement gets error text, yet the one symbol-table entry of X cannot equal
the locations 0 and 1 of both defining statements. -/
theorem C2_twice_defined_label_disagrees :
    beforeEnd twiceDefinedSource = ["X DC 1", "X DC 2"] ∧
    definesLabel "X" "X DC 1" = true ∧ definesLabel "X" "X DC 2" = true ∧
    (∀ mds : Int, ∃ a, Assembler.assemble mds twiceDefinedSource = some a ∧
      ∀ s ∈ a.m_trans, s.m_ErrorMsg = "") ∧
    ¬ ∃ (mds : Int) (a : Assembler) (s0 s1 : TransStmt),
        Assembler.assemble mds twiceDefinedSource = some a ∧
        a.m_trans[0]? = some s0 ∧ a.m_trans[1]? = some s1 ∧
        mapFind "X" a.m_symtab.m_symbolTable = some s0.m_Loc ∧
        mapFind "X" a.m_symtab.m_symbolTable = some s1.m_Loc := by
  refine ⟨by decide, by decide, by decide, ?_, ?_⟩
  · intro mds
    obtain ⟨a, ha, ht, _⟩ := twiceDefined_trans mds
    refine ⟨a, ha, ?_⟩
    intro s hs
    have hm : (s.m_Loc, s.m_ErrorMsg) ∈ a.m_trans.map (fun s => (s.m_Loc, s.m_ErrorMsg)) :=
      List.mem_map_of_mem _ hs
    rw [ht] at hm
    simp only [List.mem_cons, Prod.mk.injEq, List.mem_singleton, List.not_mem_nil,
      or_false] at hm
    rcases hm with h | h | h <;> exact h.2
  · rintro ⟨mds, a, s0, s1, ha, h0, h1, hf0, hf1⟩
    obtain ⟨a1, ha1, ht, _⟩ := twiceDefined_trans mds
    rw [ha] at ha1
    cases ha1
    have e0 := congrArg (fun l => l[0]?) ht
    have e1 := congrArg (fun l => l[1]?) ht
    simp only [List.getElem?_map, h0, h1, Option.map_some'] at e0 e1
    have l0 : s0.m_Loc = 0 := by
      have := congrArg (fun o => o.map Prod.fst) e0
      simpa using this
    have l1 : s1.m_Loc = 1 := by
      have := congrArg (fun o => o.map Prod.fst) e1
      simpa using this
    rw [hf0, l0, l1] at hf1
    simp at hf1

/-- C2, amended: for every source on which Pass I and Pass II complete and Pass II attaches
no error text to any statement, and in which no ORG before the first end statement lacks a
numeric operand 1, every label defined on exactly one line before the first end statement
has a symbol-table location equal to the location of the statement that Pass II emits for
its defining line. -/
theorem C2_location_agreement (mds : Int) (lines : List String) (a : Assembler) (X : String)
    (k : Nat) (ha : Assembler.assemble mds lines = some a)
    (hclean : ∀ s ∈ a.m_trans, s.m_ErrorMsg = "")
    (horg : ∀ l ∈ beforeEnd lines, isBareOrgLine l = false)
    (hk : k < (beforeEnd lines).length) (hX : X.data.isEmpty = false)
    (hdef : definesLabel X ((beforeEnd lines)[k]) = true) (honce : defCount X lines = 1) :
    ∃ s, a.m_trans[k]? = some s ∧ s.m_OrigStmt = (beforeEnd lines)[k] ∧
      mapFind X a.m_symtab.m_symbolTable = some s.m_Loc := by
  unfold Assembler.assemble at ha
  cases h1 : (Assembler.new mds lines).PassI with
  | none => rw [h1] at ha; cases ha
  | some a1 =>
    rw [h1] at ha
    simp only at ha
    have h1' : (Assembler.new mds lines).PassILoop 0 lines = some a1 := h1
    obtain ⟨hfacc, htrans, _, _⟩ := PassILoop_frame _ _ _ _ h1'
    have hl : a1.m_facc = lines := hfacc
    have h2 : Assembler.PassIILoop { a1 with m_ErrorMsgs := [] } 0 false lines = some a :=
      Eq.mp (congrArg
        (fun L => Assembler.PassIILoop { a1 with m_ErrorMsgs := [] } 0 false L = some a) hl) ha
    obtain ⟨hsym, new, hnew, _⟩ := PassIILoop_emitted _ _ _ _ _ rfl h2
    have htr : a.m_trans = new := by
      rw [hnew]
      show a1.m_trans ++ new = new
      rw [htrans]
      rfl
    obtain ⟨s, hs1, hs2, hs3⟩ := passes_agree X hX lines _ a1 _ a 0 false new h1' rfl h2 hnew
      (by rw [← htr]; exact hclean) horg rfl honce k hk hdef
    refine ⟨s, by rw [htr]; exact hs1, hs2, ?_⟩
    rw [hsym]
    exact hs3

/-- The statement of C2 at the label A of the source " ORG 100", " LOAD 0 A", " WRITE 0 A",
" HALT", "A DC 5", " END": A is bound to 103, the location of the statement of "A DC 5". -/
theorem C2_location_agreement_witness :
    ∃ (a : Assembler) (s : TransStmt), Assembler.assemble (-999) cleanSource = some a ∧
      (∀ t ∈ a.m_trans, t.m_ErrorMsg = "") ∧ defCount "A" cleanSource = 1 ∧
      a.m_trans[4]? = some s ∧ s.m_OrigStmt = "A DC 5" ∧ s.m_Loc = 103 ∧
      mapFind "A" a.m_symtab.m_symbolTable = some s.m_Loc := by
  have ha : Assembler.assemble (-999) cleanSource
      = some ((Assembler.assemble (-999) cleanSource).getD (Assembler.new 0 [])) := rfl
  have hclean : ∀ t ∈ ((Assembler.assemble (-999) cleanSource).getD (Assembler.new 0 [])).m_trans,
      t.m_ErrorMsg = "" := by decide
  have honce : defCount "A" cleanSource = 1 := by decide
  obtain ⟨s, h1, h2, h3⟩ := C2_location_agreement (-999) cleanSource _ "A" 4 ha hclean
    (by decide) (by decide) (by decide) (by decide) honce
  have hloc : s.m_Loc = 103 := by
    have h4 : ((Assembler.assemble (-999) cleanSource).getD (Assembler.new 0 [])).m_trans[4]?.map
        (fun t => t.m_Loc) = some 103 := by decide
    rw [h1] at h4
    simpa using h4
  exact ⟨_, s, ha, hclean, honce, h1, h2, hloc, h3⟩

/-! ### Sequences of `AddSymbol` calls -/

theorem addAll_sentinel (st : SymbolTable) (calls : List (String × Int)) :
    (addAll st calls).multiplyDefinedSymbol = st.multiplyDefinedSymbol := by
  induction calls generalizing st with
  | nil => rfl
  | cons c r ih =>
    show (addAll (st.AddSymbol c.1 c.2) r).multiplyDefinedSymbol = _
    rw [ih, AddSymbol_sentinel]

/-- The entry of a name after a sequence of calls, from its entry before and the calls that
add it. -/
theorem mapFind_addAll (st : SymbolTable) (calls : List (String × Int)) (n : String) :
    mapFind n (addAll st calls).m_symbolTable =
      match mapFind n st.m_symbolTable, callsFor n calls with
      | some v, [] => some v
      | some _, _ :: _ => some st.multiplyDefinedSymbol
      | none, [] => none
      | none, [c] => some c.2
      | none, _ :: _ :: _ => some st.multiplyDefinedSymbol := by
  induction calls generalizing st with
  | nil =>
    show mapFind n st.m_symbolTable = _
    cases mapFind n st.m_symbolTable <;> rfl
  | cons c r ih =>
    obtain ⟨k, l⟩ := c
    have hstep : addAll st ((k, l) :: r) = addAll (st.AddSymbol k l) r := rfl
    rw [hstep, ih, AddSymbol_sentinel]
    by_cases hc : k = n
    · subst hc
      have hf : callsFor k ((k, l) :: r) = (k, l) :: callsFor k r := by
        simp [callsFor, List.filter_cons]
      rw [hf, mapFind_AddSymbol_self]
      cases mapFind k st.m_symbolTable <;> cases callsFor k r <;> rfl
    · have hf : callsFor n ((k, l) :: r) = callsFor n r := by
        simp [callsFor, List.filter_cons, hc]
      rw [hf, mapFind_AddSymbol_other st n k l hc]

/-- C11 (symbol table semantics): after any sequence of `AddSymbol` calls on an empty table,
`LookupSymbol n` reports not-found and leaves the output location as it was when no call added
`n`; reports the location of the call when exactly one call added `n`; reports the
multiply-defined sentinel when two or more calls added `n`.  Names are compared for equality of
their text (a table in which only "a" was added does not know "A"), and an `AddSymbol` of
another name leaves the answer for `n` as it was. -/
theorem C11_symbol_table_semantics (mds : Int) (calls : List (String × Int)) (n : String)
    (out : Int) :
    ((addAll { multiplyDefinedSymbol := mds } calls).LookupSymbol n out =
      match callsFor n calls with
      | [] => (false, out)
      | [c] => (true, c.2)
      | _ :: _ :: _ => (true, mds)) ∧
    (∀ (st : SymbolTable) (k : String) (loc : Int),
      (st.AddSymbol k loc).LookupSymbol n out =
        if k = n then
          (true, if (st.LookupSymbol n out).1 then st.multiplyDefinedSymbol else loc)
        else st.LookupSymbol n out) ∧
    (addAll { multiplyDefinedSymbol := mds } [("a", 5)]).LookupSymbol "A" out = (false, out) := by
  refine ⟨?_, ?_, rfl⟩
  · unfold SymbolTable.LookupSymbol
    rw [mapFind_addAll]
    show (match (match (none : Option Int), callsFor n calls with
      | some v, [] => some v
      | some _, _ :: _ => some mds
      | none, [] => none
      | none, [c] => some c.2
      | none, _ :: _ :: _ => some mds) with
      | some v => (true, v)
      | none => (false, out)) = _
    rcases callsFor n calls with _ | ⟨c, _ | ⟨d, r⟩⟩ <;> rfl
  · intro st k loc
    unfold SymbolTable.LookupSymbol
    by_cases hk : k = n
    · subst hk
      rw [mapFind_AddSymbol_self, if_pos rfl]
      cases mapFind k st.m_symbolTable <;> rfl
    · rw [mapFind_AddSymbol_other st n k loc hk, if_neg hk]

/-- `add32` is the sum narrowed to an `int`, for operands that are `int` values. -/
theorem add32_eq_wrap32 (a b : Int) (ha : -2147483648 ≤ a ∧ a ≤ 2147483647)
    (hb : -2147483648 ≤ b ∧ b ≤ 2147483647) : add32 a b = wrap32 (a + b) := by
  unfold add32 wrap32
  split_ifs <;> omega

/-- `add32` is the sum when the sum fits an `int`. -/
theorem add32_fits (a b : Int) (h : -2147483648 ≤ a + b ∧ a + b ≤ 2147483647) :
    add32 a b = a + b := by
  unfold add32
  rw [if_neg (by omega), if_neg (by omega)]

/-- C12, the claim as stated fails: the line " DC 1" (another op code than ORG, DS, COMM and
END) parsed and then asked for the location after 2147483647, the largest `int`, does not
return `loc + 1 = 2147483648` as the reference definition has it, but -2147483648; the source
" ORG 2147483647", "X DC 1", "Y DC 2", " END" assembles without error text and places the
statement of the third line there. -/
theorem C12_location_overflows :
    (afterLine " DC 1").m_NumOpCode = OC_DC ∧
    (afterLine " DC 1").LocationNextInstruction 2147483647 = -2147483648 ∧
    LocationNextInstruction_spec (afterLine " DC 1").m_NumOpCode
      (afterLine " DC 1").m_Operand1NumericValue 2147483647 = 2147483648 ∧
    (afterLine " DC 1").LocationNextInstruction 2147483647
      ≠ LocationNextInstruction_spec (afterLine " DC 1").m_NumOpCode
          (afterLine " DC 1").m_Operand1NumericValue 2147483647 ∧
    (Assembler.assemble (-999) topLocationSource).map
        (fun a => a.m_trans.map (fun s => (s.m_Loc, s.m_OrigStmt, s.m_ErrorMsg)))
      = some [(0, " ORG 2147483647", ""), (2147483647, "X DC 1", ""),
          (-2147483648, "Y DC 2", ""), (-2147483647, " END", "")] := by
  refine ⟨by decide, by decide, by decide, by decide, ?_⟩
  decide

/-- C12 (location of the next instruction): for every operation code, recorded operand value
and location that is an `int`, whenever the location that the reference definition
`LocationNextInstruction_spec` gives does not exceed 2147483647, the largest `int`,
`LocationNextInstruction` returns that location. -/
theorem C12_location_next_instruction (i : Instruction) (loc : Int)
    (hloc : -2147483648 ≤ loc ∧ loc ≤ 2147483647)
    (hfit : LocationNextInstruction_spec i.m_NumOpCode i.m_Operand1NumericValue loc
      ≤ 2147483647) :
    i.LocationNextInstruction loc
      = LocationNextInstruction_spec i.m_NumOpCode i.m_Operand1NumericValue loc := by
  unfold Instruction.LocationNextInstruction
  unfold LocationNextInstruction_spec at hfit ⊢
  cases hoc : i.m_NumOpCode <;> rw [hoc] at hfit <;> simp only [] at hfit <;>
    simp only [reduceCtorEq, if_false, if_true, or_self, or_true, true_or] <;>
    first
    | rfl
    | exact add32_fits _ _ (by omega)
    | (split_ifs at hfit ⊢ <;> first | exact add32_fits _ _ (by omega) | omega)

/-- The statement of C12 at a DS with the operand value 7 and the location 100. -/
theorem C12_location_next_instruction_witness :
    ((-2147483648 : Int) ≤ 100 ∧ (100 : Int) ≤ 2147483647) ∧
    LocationNextInstruction_spec dsSevenInst.m_NumOpCode dsSevenInst.m_Operand1NumericValue 100
      ≤ 2147483647 ∧
    dsSevenInst.LocationNextInstruction 100 = 107 :=
  ⟨by decide, by decide,
    (C12_location_next_instruction dsSevenInst 100 (by decide) (by decide)).trans
      (by decide)⟩

/-! ### Arithmetic and the word range -/

theorem wordEdgeState_inRange : wordsInRange wordEdgeState := by
  constructor
  · intro r
    show inWordRange (if r = 0 then 999999999 else if r = 1 then -1 else 0) = true
    split_ifs <;> decide
  · intro a
    show inWordRange
      (if a = 200 then 1 else if a = 201 then -1 else if a = 202 then 2 else 0) = true
    split_ifs <;> decide

/-- C13 (word range after arithmetic): in `wordEdgeState` every register and every memory cell
holds a value in [-999999999, 999999999]; each of the words `010000200` (ADD 0, 200),
`020000201` (SUB 0, 201), `030000202` (MULT 0, 202), `070000000` (ADDR 0, 0), `080100000`
(SUBR 0, 1) and `090000000` (MULTR 0, 0) executes successfully and leaves in register 0 a
value above 999999999: the remainder computed in the handlers is discarded. -/
theorem C13_arithmetic_leaves_word_range :
    wordsInRange wordEdgeState ∧
    (∃ e1, wordEdgeState.ExecuteInstruction OC_ADD 10000200 100 = some (true, e1, 101) ∧
      e1.m_registers 0 = 1000000000 ∧ inWordRange (e1.m_registers 0) = false) ∧
    (∃ e1, wordEdgeState.ExecuteInstruction OC_SUB 20000201 100 = some (true, e1, 101) ∧
      e1.m_registers 0 = 1000000000 ∧ inWordRange (e1.m_registers 0) = false) ∧
    (∃ e1, wordEdgeState.ExecuteInstruction OC_MULT 30000202 100 = some (true, e1, 101) ∧
      e1.m_registers 0 = 1999999998 ∧ inWordRange (e1.m_registers 0) = false) ∧
    (∃ e1, wordEdgeState.ExecuteInstruction OC_ADDR 70000000 100 = some (true, e1, 101) ∧
      e1.m_registers 0 = 1999999998 ∧ inWordRange (e1.m_registers 0) = false) ∧
    (∃ e1, wordEdgeState.ExecuteInstruction OC_SUBR 80100000 100 = some (true, e1, 101) ∧
      e1.m_registers 0 = 1000000000 ∧ inWordRange (e1.m_registers 0) = false) ∧
    (∃ e1, wordEdgeState.ExecuteInstruction OC_MULTR 90000000 100 = some (true, e1, 101) ∧
      e1.m_registers 0 = 999999998000000001 ∧ inWordRange (e1.m_registers 0) = false) := by
  refine ⟨wordEdgeState_inRange, ⟨_, rfl, ?_, ?_⟩, ⟨_, rfl, ?_, ?_⟩, ⟨_, rfl, ?_, ?_⟩,
    ⟨_, rfl, ?_, ?_⟩, ⟨_, rfl, ?_, ?_⟩, ⟨_, rfl, ?_, ?_⟩⟩ <;> decide

/-! ### One iteration of the execution loop -/

/-- What one iteration of the execution loop does on a cell that holds no executable word:
the four outcomes, for every cell whose leading part `code / 10000000` fits an `int`. -/
theorem fetchExecute_outcomes (e : emulator) (ip : Int) :
    (e.m_memory ip = 0 →
      e.fetchExecute ip = some (.inl (false, { e with m_ErrorMsgs :=
        e.m_ErrorMsgs ++ ["Error: missing halt statement. Terminating program."] }))) ∧
    (e.m_memory ip < 0 →
      e.fetchExecute ip = some (.inl (false, { e with m_ErrorMsgs :=
        e.m_ErrorMsgs ++ ["Error: bad instruction reached. Terminating program."] }))) ∧
    (0 < e.m_memory ip → e.m_memory ip < 21474836480000000 →
      Int.tdiv (e.m_memory ip) 10000000 < 1 ∨ 17 < Int.tdiv (e.m_memory ip) 10000000 →
      e.fetchExecute ip = some (.inl (false, { e with m_ErrorMsgs :=
        e.m_ErrorMsgs ++ ["Error: bad instruction reached. Terminating program."] }))) ∧
    (Int.tdiv (e.m_memory ip) 10000000 = 17 → e.fetchExecute ip = some (.inl (true, e))) := by
  refine ⟨?_, ?_, ?_, ?_⟩
  · intro h
    unfold emulator.fetchExecute
    simp only [h, if_true, Errors.RecordError]
  · intro h
    have h0 : ¬ e.m_memory ip = 0 := by omega
    unfold emulator.fetchExecute
    simp only [h0, h, if_true, if_false, Errors.RecordError]
  · intro hpos hlt hq
    have h0 : ¬ e.m_memory ip = 0 := by omega
    have h1 : ¬ e.m_memory ip < 0 := by omega
    have hdiv : Int.tdiv (e.m_memory ip) 10000000 = e.m_memory ip / 10000000 :=
      Int.tdiv_eq_ediv (by omega) (by omega)
    have hw : wrap32 (Int.tdiv (e.m_memory ip) 10000000) = Int.tdiv (e.m_memory ip) 10000000 := by
      unfold wrap32
      rw [hdiv]
      omega
    have hbad : wrap32 (Int.tdiv (e.m_memory ip) 10000000) > 17
        ∨ wrap32 (Int.tdiv (e.m_memory ip) 10000000) < 1 := by
      rw [hw]; omega
    unfold emulator.fetchExecute
    simp only [h0, h1, if_false, hbad, if_true, Errors.RecordError]
  · intro h17
    have hpos : 0 < e.m_memory ip := by
      by_contra hn
      have hle : e.m_memory ip ≤ 0 := by omega
      have : Int.tdiv (e.m_memory ip) 10000000 ≤ 0 := by
        rcases Int.eq_ofNat_of_zero_le (show 0 ≤ -e.m_memory ip by omega) with ⟨n, hn⟩
        have hm : e.m_memory ip = -(n : Int) := by omega
        rw [hm, Int.neg_tdiv]
        have : 0 ≤ Int.tdiv (n : Int) 10000000 := Int.tdiv_nonneg (by omega) (by omega)
        omega
      omega
    have h0 : ¬ e.m_memory ip = 0 := by omega
    have h1 : ¬ e.m_memory ip < 0 := by omega
    have hw : wrap32 (Int.tdiv (e.m_memory ip) 10000000) = 17 := by rw [h17]; rfl
    unfold emulator.fetchExecute
    simp only [h0, h1, if_false, hw]
    rw [if_neg (by decide), if_pos trivial]

/-- C14 (fetch outcomes): started at 100 in `wideCellState`, whose cells and registers all
hold words, three iterations of the execution loop (LOAD, MULT, STORE) leave the unreduced
product 42949673100000000 in cell 103 and arrive there.  Its leading part
`42949673100000000 / 10000000 = 4294967310` is outside 1..17, yet the next iteration does not
return false with "bad instruction reached": narrowed to an `int` the leading part is 14, the
word is executed as a BM and the loop goes on at 104, where the HALT makes the run return
true. -/
theorem C14_wide_cell_is_executed :
    wordsInRange wideCellState ∧
    ∃ e : emulator,
      emulator.runLoop 3 wideCellState 100 = .running e 103 ∧
      e.m_memory 103 = 42949673100000000 ∧
      Int.tdiv (e.m_memory 103) 10000000 = 4294967310 ∧
      wrap32 (Int.tdiv (e.m_memory 103) 10000000) = 14 ∧
      e.fetchExecute 103 = some (.inr (e, 104)) ∧
      emulator.runLoop 5 wideCellState 100 = .returned true e := by
  refine ⟨⟨?_, ?_⟩, _, rfl, ?_, ?_, ?_, rfl, rfl⟩
  · intro r; rfl
  · intro a
    show inWordRange
      (if a = 100 then 50000105 else if a = 101 then 30000106 else if a = 102 then 60000103
        else if a = 103 then 1 else if a = 104 then 170000000 else if a = 105 then 100000000
        else if a = 106 then 429496731 else 0) = true
    split_ifs <;> decide
  · decide
  · decide
  · decide

/-! ### The load phase -/

theorem loadsAt_cons (s : TransStmt) (r : List TransStmt) (L c : Int)
    (hc : s.GetNumContents = some c) :
    loadsAt (s :: r) L = (if s.GetLocation = L ∧ c ≠ 0 then [c] else []) ++ loadsAt r L := by
  unfold loadsAt
  rw [List.filterMap_cons, hc]
  by_cases hL : s.GetLocation = L
  · by_cases h0 : c = 0
    · simp [hL, h0, Option.filter]
    · simp [hL, h0, Option.filter]
  · simp [hL]

theorem getLast_getD_cons (c x : Int) (l : List Int) :
    ((c :: l).getLast?).getD x = (l.getLast?).getD c := by
  cases l with
  | nil => rfl
  | cons d l => rw [List.getLast?_cons_cons]; simp [List.getLast?_eq_getLast, Option.getD]

/-- The load loop: it fails at the first statement with non-zero contents placed at 1000000
or more, recording the two messages and leaving everything but memory and the sink as it was;
without such a statement it succeeds and each cell holds the last non-zero contents placed at
it, or what it held before. -/
theorem loadLoop_spec (t : List TransStmt) :
    ∀ e : emulator, (∀ s ∈ t, s.GetNumContents.isSome = true) →
    if (t.any loadsOutOfBounds) = true then
      ∃ e1, emulator.loadLoop e t = some (false, e1) ∧
        e1.m_ErrorMsgs = e.m_ErrorMsgs ++ ["Error: location out of bounds.",
          "Program terminated due to error allocating memory."] ∧
        e1.m_registers = e.m_registers ∧ e1.cin = e.cin ∧ e1.cout = e.cout
    else
      emulator.loadLoop e t = some (true, { e with m_memory := loadedMemory e.m_memory t })
    := by
  induction t with
  | nil =>
    intro e _
    rw [if_neg (by simp)]
    rfl
  | cons s r ih =>
    intro e hnum
    have hs := hnum s (List.mem_cons_self _ _)
    have hr : ∀ x ∈ r, x.GetNumContents.isSome = true :=
      fun x hx => hnum x (List.mem_cons_of_mem _ hx)
    obtain ⟨c, hc⟩ := Option.isSome_iff_exists.mp hs
    by_cases h0 : c = 0
    · -- contents 0: the statement is skipped
      subst h0
      have hob : loadsOutOfBounds s = false := by
        simp [loadsOutOfBounds, hc, Option.filter]
      have hl : emulator.loadLoop e (s :: r) = emulator.loadLoop e r := by
        simp only [emulator.loadLoop, hc, if_true]
      have hla : loadedMemory e.m_memory (s :: r) = loadedMemory e.m_memory r := by
        funext L
        unfold loadedMemory
        rw [loadsAt_cons s r L 0 hc]; simp
      rw [List.any_cons, hob, Bool.false_or, hl, hla]
      exact ih e hr
    · by_cases hb : s.GetLocation ≥ 1000000
      · -- the insertion fails
        have hob : loadsOutOfBounds s = true := by
          simp [loadsOutOfBounds, hc, Option.filter, h0, hb]
        rw [List.any_cons, hob, Bool.true_or, if_pos rfl]
        refine ⟨{ e with m_ErrorMsgs := e.m_ErrorMsgs ++ ["Error: location out of bounds.",
          "Program terminated due to error allocating memory."] }, ?_, rfl, rfl, rfl, rfl⟩
        simp only [emulator.loadLoop, hc, h0, if_false, emulator.insertMemory, emulator.MEMSZ,
          hb, if_true, Errors.RecordError, List.append_assoc, List.singleton_append]
      · -- the insertion succeeds
        have hob : loadsOutOfBounds s = false := by
          simp [loadsOutOfBounds, hc, Option.filter, h0, hb]
        have hl : emulator.loadLoop e (s :: r) = emulator.loadLoop
            { e with m_memory := emulator.assign e.m_memory s.GetLocation c } r := by
          simp only [emulator.loadLoop, hc, h0, if_false, emulator.insertMemory,
            emulator.MEMSZ, hb]
        rw [List.any_cons, hob, Bool.false_or, hl]
        have hi := ih { e with m_memory := emulator.assign e.m_memory s.GetLocation c } hr
        by_cases hany : (r.any loadsOutOfBounds) = true
        · rw [if_pos hany] at hi ⊢
          exact hi
        · rw [if_neg hany] at hi ⊢
          rw [hi]
          refine congrArg some ?_
          rw [Prod.mk.injEq]
          refine ⟨rfl, ?_⟩
          have hm : loadedMemory (emulator.assign e.m_memory s.GetLocation c) r
              = loadedMemory e.m_memory (s :: r) := by
            funext L
            unfold loadedMemory
            rw [loadsAt_cons s r L c hc]
            by_cases hL : s.GetLocation = L
            · have hcond : s.GetLocation = L ∧ c ≠ 0 := ⟨hL, h0⟩
              rw [if_pos hcond, List.singleton_append, getLast_getD_cons]
              simp [emulator.assign, hL]
            · have hcond : ¬ (s.GetLocation = L ∧ c ≠ 0) := fun h => hL h.1
              have hL2 : ¬ L = s.GetLocation := fun h => hL h.symm
              rw [if_neg hcond, List.nil_append]
              simp [emulator.assign, hL2]
          show ({ e with m_memory := _ } : emulator) = _
          rw [← hm]

theorem loadsAt_ne_nil (t : List TransStmt) (L : Int) (h : loadsAt t L ≠ []) :
    ∃ s ∈ t, s.GetLocation = L ∧ (s.GetNumContents.filter (fun c => c != 0)).isSome = true := by
  obtain ⟨c, hc⟩ := List.exists_mem_of_ne_nil _ h
  unfold loadsAt at hc
  rw [List.mem_filterMap] at hc
  obtain ⟨s, hs, hsc⟩ := hc
  by_cases hL : s.GetLocation = L
  · rw [if_pos hL] at hsc
    exact ⟨s, hs, hL, by rw [hsc]; rfl⟩
  · rw [if_neg hL] at hsc
    cases hsc

/-- C15 (load phase): for a translation whose statements all have numeric contents and a
non-negative location, the load loop of `runProgram` fails if and only if some statement with
non-zero numeric contents has a location of 1000000 or more; `runProgram` then returns false
before executing anything, with "Error: location out of bounds." recorded and registers, input
and output as they were.  Otherwise the load succeeds: every cell targeted by a statement with
non-zero numeric contents holds the contents of the last such statement in translation order,
every other cell holds what it held, only cells in 0..999999 differ, and execution starts from
that memory. -/
theorem C15_load_phase (e : emulator) (t : Translation)
    (hnum : ∀ s ∈ t, s.GetNumContents.isSome = true) (hloc : ∀ s ∈ t, 0 ≤ s.GetLocation) :
    ((∃ e1, emulator.loadLoop { e with m_ErrorMsgs := [] } t = some (false, e1))
      ↔ ∃ s ∈ t, loadsOutOfBounds s = true) ∧
    ((∃ s ∈ t, loadsOutOfBounds s = true) →
      ∀ fuel, ∃ e1, e.runProgram t fuel = .returned false e1 ∧
        e1.m_ErrorMsgs = ["Error: location out of bounds.",
          "Program terminated due to error allocating memory."] ∧
        e1.m_registers = e.m_registers ∧ e1.cin = e.cin ∧ e1.cout = e.cout) ∧
    ((¬ ∃ s ∈ t, loadsOutOfBounds s = true) →
      emulator.loadLoop { e with m_ErrorMsgs := [] } t
        = some (true, { e with m_ErrorMsgs := [], m_memory := loadedMemory e.m_memory t }) ∧
      (∀ fuel, e.runProgram t fuel = emulator.runLoop fuel
        { e with m_ErrorMsgs := [], m_memory := loadedMemory e.m_memory t } 100) ∧
      (∀ L, loadedMemory e.m_memory t L = ((loadsAt t L).getLast?).getD (e.m_memory L)) ∧
      (∀ L, loadedMemory e.m_memory t L ≠ e.m_memory L → 0 ≤ L ∧ L < 1000000)) := by
  have hspec := loadLoop_spec t { e with m_ErrorMsgs := [] } hnum
  have hany : (t.any loadsOutOfBounds = true) ↔ ∃ s ∈ t, loadsOutOfBounds s = true := by
    rw [List.any_eq_true]
  by_cases hob : t.any loadsOutOfBounds = true
  · rw [if_pos hob] at hspec
    obtain ⟨e1, h1, h2, h3, h4, h5⟩ := hspec
    refine ⟨⟨fun _ => hany.mp hob, fun _ => ⟨e1, h1⟩⟩, ?_, fun hn => absurd (hany.mp hob) hn⟩
    intro _ fuel
    refine ⟨e1, ?_, h2, h3, h4, h5⟩
    unfold emulator.runProgram
    rw [h1]
  · rw [if_neg hob] at hspec
    have hno : ¬ ∃ s ∈ t, loadsOutOfBounds s = true := fun h => hob (hany.mpr h)
    refine ⟨⟨?_, fun h => absurd h hno⟩, fun h => absurd h hno, ?_⟩
    · rintro ⟨e1, h1⟩
      rw [hspec] at h1
      simp only [Option.some.injEq, Prod.mk.injEq] at h1
      exact absurd h1.1 (by decide)
    · intro _
      refine ⟨hspec, ?_, fun L => rfl, ?_⟩
      · intro fuel
        unfold emulator.runProgram
        rw [hspec]
      · intro L hL
        have hne : loadsAt t L ≠ [] := by
          intro hnil
          apply hL
          unfold loadedMemory
          rw [hnil]
          rfl
        obtain ⟨s, hs, hsL, hsc⟩ := loadsAt_ne_nil t L hne
        have h0 := hloc s hs
        have hnb : ¬ s.GetLocation ≥ 1000000 := by
          intro hge
          apply hno
          exact ⟨s, hs, by simp [loadsOutOfBounds, hsc, hge]⟩
        rw [hsL] at h0 hnb
        exact ⟨h0, by omega⟩

/-- The statement of C15 at a translation that places 7 and then 8 at location 5, and at one
that also places 9 at location 1000000. -/
theorem C15_load_phase_witness :
    ((∀ s ∈ loadTwiceTrans, s.GetNumContents.isSome = true) ∧
      (∀ s ∈ loadTwiceTrans, 0 ≤ s.GetLocation) ∧
      (¬ ∃ s ∈ loadTwiceTrans, loadsOutOfBounds s = true) ∧
      emulator.loadLoop {} loadTwiceTrans
        = some (true, { m_memory := loadedMemory (fun _ => 0) loadTwiceTrans }) ∧
      loadedMemory (fun _ => 0) loadTwiceTrans 5 = 8 ∧
      loadedMemory (fun _ => 0) loadTwiceTrans 6 = 0) ∧
    ((∀ s ∈ loadBeyondTrans, s.GetNumContents.isSome = true) ∧
      (∀ s ∈ loadBeyondTrans, 0 ≤ s.GetLocation) ∧
      (∃ s ∈ loadBeyondTrans, loadsOutOfBounds s = true) ∧
      ∃ e1, emulator.runProgram {} loadBeyondTrans 0 = .returned false e1 ∧
        e1.m_ErrorMsgs = ["Error: location out of bounds.",
          "Program terminated due to error allocating memory."]) := by
  have hn1 : ∀ s ∈ loadTwiceTrans, s.GetNumContents.isSome = true := by decide
  have hl1 : ∀ s ∈ loadTwiceTrans, 0 ≤ s.GetLocation := by decide
  have hb1 : ¬ ∃ s ∈ loadTwiceTrans, loadsOutOfBounds s = true := by decide
  have hn2 : ∀ s ∈ loadBeyondTrans, s.GetNumContents.isSome = true := by decide
  have hl2 : ∀ s ∈ loadBeyondTrans, 0 ≤ s.GetLocation := by decide
  have hb2 : ∃ s ∈ loadBeyondTrans, loadsOutOfBounds s = true := by decide
  have h1 := (C15_load_phase {} loadTwiceTrans hn1 hl1).2.2 hb1
  obtain ⟨e1, h2, h3, _⟩ := (C15_load_phase {} loadBeyondTrans hn2 hl2).2.1 hb2 0
  exact ⟨⟨hn1, hl1, hb1, h1.1, by decide, by decide⟩, hn2, hl2, hb2, e1, h2, h3⟩

/-! ### What a parse records about the operands -/

/-- After `RecordFields` the four operand flags are clear; on a line that is not a comment
each numeric flag tells whether the operand is a signed decimal integer, and the recorded
value of such an operand is what `stoi` returns for it. -/
theorem RecordFields_operands (i : Instruction) (line : String) (f : Bool) (i1 : Instruction)
    (h : Instruction.RecordFields i line = some (f, i1)) :
    i1.m_InvalidReg1 = false ∧ i1.m_InvalidReg2 = false ∧ i1.m_InvalidAddr = false ∧
    i1.m_InvalidValue = false ∧
    (i1.m_NumOpCode ≠ OC_COMM →
      (i1.m_NumOpCode ≠ OC_ERR → i1.m_InvalidOpCode = false) ∧
      i1.m_IsNumericOperand1 = Instruction.isStrNumber i1.m_Operand1 ∧
      (Instruction.isStrNumber i1.m_Operand1 = true →
        stoi i1.m_Operand1 = some i1.m_Operand1NumericValue) ∧
      i1.m_IsNumericOperand2 = Instruction.isStrNumber i1.m_Operand2 ∧
      (Instruction.isStrNumber i1.m_Operand2 = true →
        stoi i1.m_Operand2 = some i1.m_Operand2NumericValue)) := by
  unfold Instruction.RecordFields at h
  generalize Instruction.ParseLineIntoFields line = flds at h
  obtain ⟨fe, label, opcode, op1, op2⟩ := flds
  simp only at h
  by_cases hc : opcode.data.isEmpty = true ∧ label.data.isEmpty = true
  · simp only [hc, and_self, if_true, Option.some.injEq, Prod.mk.injEq] at h
    obtain ⟨_, rfl⟩ := h
    simp
  · simp only [hc, if_false] at h
    revert h
    cases hv1 : (if Instruction.isStrNumber op1 = true then stoi op1
      else some i.m_Operand1NumericValue) with
    | none => intro h; cases h
    | some x1 =>
      cases hv2 : (if Instruction.isStrNumber op2 = true then stoi op2
        else some i.m_Operand2NumericValue) with
      | none => intro h; cases h
      | some x2 =>
        have h1 : Instruction.isStrNumber op1 = true → stoi op1 = some x1 := by
          intro hn; rw [if_pos hn] at hv1; exact hv1
        have h2 : Instruction.isStrNumber op2 = true → stoi op2 = some x2 := by
          intro hn; rw [if_pos hn] at hv2; exact hv2
        simp only
        cases hl : List.lookup (String.mk (List.map toupper opcode.data))
            Instruction.opCodeMap with
        | none =>
          intro h
          simp only [Option.some.injEq, Prod.mk.injEq] at h
          obtain ⟨_, rfl⟩ := h
          exact ⟨rfl, rfl, rfl, rfl, fun _ => ⟨fun hne => absurd rfl hne, rfl, h1, rfl, h2⟩⟩
        | some oc =>
          intro h
          simp only [Option.some.injEq, Prod.mk.injEq] at h
          obtain ⟨_, rfl⟩ := h
          exact ⟨rfl, rfl, rfl, rfl, fun _ => ⟨fun _ => rfl, rfl, h1, rfl, h2⟩⟩

/-- The facts of `RecordFields_operands` for the object that `ParseInstruction` returns. -/
theorem ParseInstruction_operands (i : Instruction) (errs : List String) (line : String)
    (st : InstructionType) (i1 : Instruction) (e1 : List String)
    (h : Instruction.ParseInstruction i errs line = some (st, i1, e1)) :
    i1.m_InvalidReg1 = false ∧ i1.m_InvalidReg2 = false ∧ i1.m_InvalidAddr = false ∧
    i1.m_InvalidValue = false ∧
    (i1.m_NumOpCode ≠ OC_COMM →
      (i1.m_NumOpCode ≠ OC_ERR → i1.m_InvalidOpCode = false) ∧
      i1.m_IsNumericOperand1 = Instruction.isStrNumber i1.m_Operand1 ∧
      (Instruction.isStrNumber i1.m_Operand1 = true →
        stoi i1.m_Operand1 = some i1.m_Operand1NumericValue) ∧
      i1.m_IsNumericOperand2 = Instruction.isStrNumber i1.m_Operand2 ∧
      (Instruction.isStrNumber i1.m_Operand2 = true →
        stoi i1.m_Operand2 = some i1.m_Operand2NumericValue)) := by
  rw [ParseInstruction_eq] at h
  cases hr : Instruction.RecordFields { i with m_instruction := line }
      (Instruction.DeleteComment line) with
  | none => rw [hr] at h; cases h
  | some p =>
    obtain ⟨f, i2⟩ := p
    rw [hr] at h
    simp only [Option.map_some', Option.some.injEq, Prod.mk.injEq] at h
    obtain ⟨_, h2, _⟩ := h
    subst h2
    exact RecordFields_operands _ _ _ _ hr

/-! ### The validity checks of the register-and-address family -/

/-- The checks of `RecordErrRegisterAddress` on an object whose flags are clear: the address
flag tells that operand 2 is not a well-formed label, the register flag that operand 1 is
absent, not numeric or outside 0..9; "label not found" is not among the recorded messages. -/
theorem RecordErrRegisterAddress_checks (i : Instruction) (errs : List String)
    (hA : i.m_InvalidAddr = false) (hR : i.m_InvalidReg1 = false) :
    (i.RecordErrRegisterAddress errs).1.m_InvalidAddr = malformedLabel i.m_Operand2 ∧
    ((i.RecordErrRegisterAddress errs).1.m_InvalidReg1 = true ↔
      (i.m_Operand1.data = [] ∨ i.m_IsNumericOperand1 = false
        ∨ i.m_Operand1NumericValue > 9 ∨ i.m_Operand1NumericValue < 0)) ∧
    (i.RecordErrRegisterAddress errs).2.count "Error: label not found."
      = errs.count "Error: label not found." := by
  unfold Instruction.RecordErrRegisterAddress malformedLabel Errors.RecordError
  simp only
  refine ⟨?_, ?_, ?_⟩
  · split_ifs <;> simp_all
  · split_ifs <;> simp_all
  · split_ifs <;> simp [List.count_append, List.count_cons]

/-- The statement built by the register-and-address cases of `Translate` from an object whose
flags are clear: its address and register flags, its fields, and how often "label not found"
is recorded. -/
theorem TranslateRegAddr_checks (i : Instruction) (errs : List String) (loc : Int)
    (T : SymbolTable) (hA : i.m_InvalidAddr = false) (hR : i.m_InvalidReg1 = false) :
    ((i.TranslateRegAddr errs loc T).1.m_Contents.m_InvalidAddr = true ↔
      (malformedLabel i.m_Operand2 = true ∨ mapFind i.m_Operand2 T.m_symbolTable = none
        ∨ mapFind i.m_Operand2 T.m_symbolTable = some T.multiplyDefinedSymbol)) ∧
    ((i.TranslateRegAddr errs loc T).1.m_Contents.m_InvalidReg1 = true ↔
      (i.m_Operand1.data = [] ∨ i.m_IsNumericOperand1 = false
        ∨ i.m_Operand1NumericValue > 9 ∨ i.m_Operand1NumericValue < 0)) ∧
    (i.TranslateRegAddr errs loc T).2.1.m_InvalidAddr
      = (i.TranslateRegAddr errs loc T).1.m_Contents.m_InvalidAddr ∧
    (i.TranslateRegAddr errs loc T).2.1.m_InvalidReg1
      = (i.TranslateRegAddr errs loc T).1.m_Contents.m_InvalidReg1 ∧
    (i.TranslateRegAddr errs loc T).1.m_Contents.m_Reg1 = i.m_Operand1NumericValue ∧
    (i.TranslateRegAddr errs loc T).1.m_Contents.m_OpCode = i.m_NumOpCode ∧
    (i.TranslateRegAddr errs loc T).1.m_Contents.m_InvalidOpCode = i.m_InvalidOpCode ∧
    (i.TranslateRegAddr errs loc T).1.m_Contents.m_InvalidValue = i.m_InvalidValue ∧
    (i.TranslateRegAddr errs loc T).2.2.count "Error: label not found."
      = errs.count "Error: label not found."
        + (if malformedLabel i.m_Operand2 = false
              ∧ mapFind i.m_Operand2 T.m_symbolTable = none then 1 else 0) := by
  obtain ⟨c1, c2, c3⟩ := RecordErrRegisterAddress_checks i errs hA hR
  obtain ⟨f1, f2, _, _⟩ := RecordErrRegisterAddress_flags i errs
  obtain ⟨hs, _⟩ := RecordErrRegisterAddress_spec i errs
  unfold Instruction.TranslateRegAddr
  generalize i.RecordErrRegisterAddress errs = r at hs f1 f2 c1 c2 c3
  obtain ⟨i1, e1⟩ := r
  simp only at hs f1 f2 c1 c2 c3
  have hop : i1.m_Operand2 = i.m_Operand2 := hs.2.2.1
  have hoc : i1.m_NumOpCode = i.m_NumOpCode := hs.2.2.2.2.1
  have hv : i1.m_Operand1NumericValue = i.m_Operand1NumericValue := hs.2.2.2.2.2.2.2.1
  simp only [SymbolTable.LookupSymbol, Errors.RecordError, Instruction.mkStmt, TransStmt.new,
    TransStmt.SetErrorCodes, Contents.SetErrorCodes, hop]
  cases hfl : i1.m_InvalidAddr with
  | true =>
    have hm : malformedLabel i.m_Operand2 = true := by rw [← c1]; exact hfl
    by_cases hmds : (-1 : Int) = T.multiplyDefinedSymbol
    · simp [hm, hmds, c2, c3, f1, f2, hoc, hv, hfl, List.count_append, List.count_cons]
    · simp [hm, hmds, c2, c3, f1, f2, hoc, hv, hfl, List.count_append, List.count_cons]
  | false =>
    have hm : malformedLabel i.m_Operand2 = false := by rw [← c1]; exact hfl
    cases hf : mapFind i.m_Operand2 T.m_symbolTable with
    | none =>
      by_cases hmds : (-1 : Int) = T.multiplyDefinedSymbol
      · simp [hm, hmds, c2, c3, f1, f2, hoc, hv, hfl, List.count_append, List.count_cons]
      · simp [hm, hmds, c2, c3, f1, f2, hoc, hv, hfl, List.count_append, List.count_cons]
    | some v =>
      by_cases hmds : v = T.multiplyDefinedSymbol
      · simp [hm, hmds, c2, c3, f1, f2, hoc, hv, hfl, List.count_append, List.count_cons]
      · simp [hm, hmds, c2, c3, f1, f2, hoc, hv, hfl, List.count_append, List.count_cons]

theorem badRegister_iff (op : String) (n : Bool) (v : Int)
    (hn : n = Instruction.isStrNumber op)
    (hv : Instruction.isStrNumber op = true → stoi op = some v) :
    (op.data = [] ∨ n = false ∨ v > 9 ∨ v < 0) ↔ badRegister op := by
  unfold badRegister
  subst hn
  cases hnum : Instruction.isStrNumber op with
  | false => simp
  | true =>
    have hs := hv hnum
    constructor
    · rintro (h | h | h | h)
      · exact Or.inl h
      · exact absurd h (by decide)
      · exact Or.inr (Or.inr ⟨v, hs, Or.inr h⟩)
      · exact Or.inr (Or.inr ⟨v, hs, Or.inl h⟩)
    · rintro (h | h | ⟨w, hw, h⟩)
      · exact Or.inl h
      · exact absurd h (by decide)
      · rw [hs] at hw
        cases hw
        rcases h with h | h
        · exact Or.inr (Or.inr (Or.inr h))
        · exact Or.inr (Or.inr (Or.inl h))

/-- C16 (address validity, register-and-address family): for every line that parses to an
operation of the family and every symbol table, the statement `Translate` builds has its
invalid-address flag set if and only if operand 2 is absent, or begins with a digit, or is
longer than 10 characters, or is not a name of the table, or is bound to the multiply-defined
sentinel; "Error: label not found." is recorded once when operand 2 is well formed and not a
name of the table, and not at all otherwise. -/
theorem C16_address_validity (i0 : Instruction) (errs0 : List String) (line : String)
    (st : InstructionType) (i : Instruction) (e : List String)
    (h : Instruction.ParseInstruction i0 errs0 line = some (st, i, e))
    (hop : isRegAddrOp i.m_NumOpCode = true) (T : SymbolTable) (loc : Int) :
    ((i.Translate e loc T).1.m_Contents.m_InvalidAddr = true ↔
      (i.m_Operand2.data = [] ∨ (i.m_Operand2.data.head?.map isdigit).getD false = true
        ∨ 10 < i.m_Operand2.data.length
        ∨ mapFind i.m_Operand2 T.m_symbolTable = none
        ∨ mapFind i.m_Operand2 T.m_symbolTable = some T.multiplyDefinedSymbol)) ∧
    (i.Translate e loc T).2.1.m_InvalidAddr
      = (i.Translate e loc T).1.m_Contents.m_InvalidAddr ∧
    (i.Translate e loc T).2.2.count "Error: label not found."
      = e.count "Error: label not found."
        + (if (¬ i.m_Operand2.data = [] ∧ (i.m_Operand2.data.head?.map isdigit).getD false = false
              ∧ i.m_Operand2.data.length ≤ 10)
              ∧ mapFind i.m_Operand2 T.m_symbolTable = none then 1 else 0) := by
  obtain ⟨hR1, _, hA, _, _⟩ := ParseInstruction_operands i0 errs0 line st i e h
  obtain ⟨c1, _, c3, _, _, _, _, _, c9⟩ := TranslateRegAddr_checks i e loc T hA hR1
  rw [Translate_regAddr i e loc T hop]
  have hm : malformedLabel i.m_Operand2 = true ↔
      (i.m_Operand2.data = [] ∨ (i.m_Operand2.data.head?.map isdigit).getD false = true
        ∨ 10 < i.m_Operand2.data.length) := by
    unfold malformedLabel
    simp [List.isEmpty_iff, or_assoc]
  have hw : malformedLabel i.m_Operand2 = false ↔
      (¬ i.m_Operand2.data = [] ∧ (i.m_Operand2.data.head?.map isdigit).getD false = false
        ∧ i.m_Operand2.data.length ≤ 10) := by
    unfold malformedLabel
    simp [List.isEmpty_iff, and_assoc]
  refine ⟨?_, c3, ?_⟩
  · rw [c1, hm]
    simp only [or_assoc]
  · rw [c9]
    simp only [hw]

/-- The statement of C16 at the line " LOAD 1 X" and a table that binds `X` to 5. -/
theorem C16_address_validity_witness :
    Instruction.ParseInstruction {} [] " LOAD 1 X"
      = some (loadLineParse.1, loadLineParse.2.1, loadLineParse.2.2) ∧
    isRegAddrOp loadLineParse.2.1.m_NumOpCode = true ∧
    loadLineParse.2.1.m_Operand2 = "X" ∧
    (loadLineParse.2.1.Translate loadLineParse.2.2 100 oneSymbolTable).1.m_Contents.m_InvalidAddr
      = false ∧
    (loadLineParse.2.1.Translate loadLineParse.2.2 100
      { multiplyDefinedSymbol := -999 }).1.m_Contents.m_InvalidAddr = true ∧
    (loadLineParse.2.1.Translate loadLineParse.2.2 100
      { multiplyDefinedSymbol := -999 }).2.2.count "Error: label not found." = 1 := by
  have hp : Instruction.ParseInstruction {} [] " LOAD 1 X"
      = some (loadLineParse.1, loadLineParse.2.1, loadLineParse.2.2) := rfl
  have hop : isRegAddrOp loadLineParse.2.1.m_NumOpCode = true := rfl
  have h1 := C16_address_validity {} [] " LOAD 1 X" _ _ _ hp hop oneSymbolTable 100
  have h2 := C16_address_validity {} [] " LOAD 1 X" _ _ _ hp hop
    { multiplyDefinedSymbol := -999 } 100
  refine ⟨hp, hop, rfl, ?_, ?_, ?_⟩
  · cases hf : (loadLineParse.2.1.Translate loadLineParse.2.2 100
        oneSymbolTable).1.m_Contents.m_InvalidAddr with
    | false => rfl
    | true =>
      have := h1.1.mp hf
      revert this
      decide
  · exact h2.1.mpr (Or.inr (Or.inr (Or.inr (Or.inl rfl))))
  · rw [h2.2.2]
    decide

/-- The contents of a statement of the register-and-address family whose op code, value and
register 1 are valid: the two digits of the op code, the text of register 1, and the rest. -/
theorem GetContents_reg1 (c : Contents) (h1 : c.m_InvalidOpCode = false)
    (h2 : c.m_InvalidValue = false) (h3 : c.m_InvalidReg1 = false)
    (h6 : isRegAddrOp c.m_OpCode = true) :
    ∃ rest : List Char, c.GetContents.data =
      (padLeft 2 '0' (natToStr c.m_OpCode.ord)).data ++ ((intToStr c.m_Reg1).data ++ rest) := by
  have hdc : c.m_OpCode ≠ OC_DC := by
    intro h; rw [h] at h6; exact Bool.noConfusion h6
  have hml : c.m_OpCode.ord ≤ OC_HALT.ord := by
    revert h6; cases c.m_OpCode <;> decide
  unfold Contents.GetContents
  simp only [h1, h2, h3, Bool.or_self, Bool.false_eq_true, if_false, hdc, hml, if_true]
  refine ⟨((if c.m_InvalidReg2 = true then "?" ++ "00000"
      else if c.m_Reg2 ≥ 0 then intToStr c.m_Reg2 ++ "00000" else "")
    ++ (if c.m_InvalidAddr = true then "??????"
      else if c.m_Addr ≥ 0 then padLeft 6 '0' (natToStr c.m_Addr.natAbs) else "")).data, ?_⟩
  simp only [String.data_append, List.append_assoc]
  rfl

theorem intToStr_digit (v : Nat) (h : v ≤ 9) : (intToStr (v : Int)).data = [Nat.digitChar v] := by
  rw [intToStr_nat]
  interval_cases v <;> rfl

/-- C17 (register-1 validity, register-and-address family): for every line that parses to an
operation of the family and every symbol table, the statement `Translate` builds has its
invalid-register1 flag set if and only if operand 1 is absent, or is not a signed decimal
integer, or has a value outside 0..9; when the flag is not set, operand 1 has a value in 0..9
and the third character of the encoded contents is the decimal digit of that value. -/
theorem C17_register1_validity (i0 : Instruction) (errs0 : List String) (line : String)
    (st : InstructionType) (i : Instruction) (e : List String)
    (h : Instruction.ParseInstruction i0 errs0 line = some (st, i, e))
    (hop : isRegAddrOp i.m_NumOpCode = true) (T : SymbolTable) (loc : Int) :
    ((i.Translate e loc T).1.m_Contents.m_InvalidReg1 = true ↔ badRegister i.m_Operand1) ∧
    (i.Translate e loc T).2.1.m_InvalidReg1
      = (i.Translate e loc T).1.m_Contents.m_InvalidReg1 ∧
    ((i.Translate e loc T).1.m_Contents.m_InvalidReg1 = false →
      ∃ v : Nat, stoi i.m_Operand1 = some (v : Int) ∧ v ≤ 9 ∧
        (i.Translate e loc T).1.m_Contents.GetContents.data[2]? = some (Nat.digitChar v)) := by
  have hcomm : i.m_NumOpCode ≠ OC_COMM := by
    intro hc; rw [hc] at hop; exact Bool.noConfusion hop
  have herr : i.m_NumOpCode ≠ OC_ERR := by
    intro hc; rw [hc] at hop; exact Bool.noConfusion hop
  obtain ⟨hR1, _, hA, hV, hrest⟩ := ParseInstruction_operands i0 errs0 line st i e h
  obtain ⟨hO, hn1, hv1, _, _⟩ := hrest hcomm
  obtain ⟨_, c2, _, c4, c5, c6, c7, c8, _⟩ := TranslateRegAddr_checks i e loc T hA hR1
  have hbad := badRegister_iff i.m_Operand1 i.m_IsNumericOperand1 i.m_Operand1NumericValue
    hn1 hv1
  rw [Translate_regAddr i e loc T hop]
  refine ⟨c2.trans hbad, c4, ?_⟩
  intro hfl
  have hgood : ¬ (i.m_Operand1.data = [] ∨ i.m_IsNumericOperand1 = false
      ∨ i.m_Operand1NumericValue > 9 ∨ i.m_Operand1NumericValue < 0) := by
    intro hb
    rw [c2.mpr hb] at hfl
    exact Bool.noConfusion hfl
  have hnum : Instruction.isStrNumber i.m_Operand1 = true := by
    rw [← hn1]
    cases hb : i.m_IsNumericOperand1 with
    | true => rfl
    | false => exact absurd (Or.inr (Or.inl hb)) hgood
  have hlo : 0 ≤ i.m_Operand1NumericValue := by
    by_contra hc
    exact hgood (Or.inr (Or.inr (Or.inr (by omega))))
  have hhi : i.m_Operand1NumericValue ≤ 9 := by
    by_contra hc
    exact hgood (Or.inr (Or.inr (Or.inl (by omega))))
  obtain ⟨v, hv⟩ := Int.eq_ofNat_of_zero_le hlo
  have hv9 : v ≤ 9 := by omega
  refine ⟨v, by rw [hv1 hnum, hv], hv9, ?_⟩
  obtain ⟨rest, hg⟩ := GetContents_reg1 (i.TranslateRegAddr e loc T).1.m_Contents
    (by rw [c7]; exact hO herr) (by rw [c8]; exact hV) hfl (by rw [c6]; exact hop)
  have hlen := (field_spec 2 (i.TranslateRegAddr e loc T).1.m_Contents.m_OpCode.ord
    (by decide) (by
      have : (i.TranslateRegAddr e loc T).1.m_Contents.m_OpCode.ord ≤ 22 := by
        cases (i.TranslateRegAddr e loc T).1.m_Contents.m_OpCode <;> decide
      omega)).1
  rw [hg, c5, hv, intToStr_digit v hv9, List.getElem?_append_right (by omega), hlen]
  simp

/-- The statement of C17 at the line " LOAD 1 X" and a table that binds `X` to 5. -/
theorem C17_register1_validity_witness :
    Instruction.ParseInstruction {} [] " LOAD 1 X"
      = some (loadLineParse.1, loadLineParse.2.1, loadLineParse.2.2) ∧
    isRegAddrOp loadLineParse.2.1.m_NumOpCode = true ∧
    (loadLineParse.2.1.Translate loadLineParse.2.2 100 oneSymbolTable).1.m_Contents.m_InvalidReg1
      = false ∧
    ∃ v : Nat, stoi loadLineParse.2.1.m_Operand1 = some (v : Int) ∧ v ≤ 9 ∧
      (loadLineParse.2.1.Translate loadLineParse.2.2 100
        oneSymbolTable).1.m_Contents.GetContents.data[2]? = some (Nat.digitChar v) := by
  have hp : Instruction.ParseInstruction {} [] " LOAD 1 X"
      = some (loadLineParse.1, loadLineParse.2.1, loadLineParse.2.2) := rfl
  have hop : isRegAddrOp loadLineParse.2.1.m_NumOpCode = true := rfl
  have hfl : (loadLineParse.2.1.Translate loadLineParse.2.2 100
      oneSymbolTable).1.m_Contents.m_InvalidReg1 = false := rfl
  exact ⟨hp, hop, hfl,
    (C17_register1_validity {} [] " LOAD 1 X" _ _ _ hp hop oneSymbolTable 100).2.2 hfl⟩

/-! ### The validity checks of the register-and-register family -/

/-- The checks of `RecordErrRegisterRegister` on an object whose flags are clear: each
register flag tells that its own operand is absent, not numeric or outside 0..9; the other
flags are left as they were. -/
theorem RecordErrRegisterRegister_checks (i : Instruction) (errs : List String)
    (hR1 : i.m_InvalidReg1 = false) (hR2 : i.m_InvalidReg2 = false) :
    ((i.RecordErrRegisterRegister errs).1.m_InvalidReg1 = true ↔
      (i.m_Operand1.data = [] ∨ i.m_IsNumericOperand1 = false
        ∨ i.m_Operand1NumericValue > 9 ∨ i.m_Operand1NumericValue < 0)) ∧
    ((i.RecordErrRegisterRegister errs).1.m_InvalidReg2 = true ↔
      (i.m_Operand2.data = [] ∨ i.m_IsNumericOperand2 = false
        ∨ i.m_Operand2NumericValue > 9 ∨ i.m_Operand2NumericValue < 0)) ∧
    (i.RecordErrRegisterRegister errs).1.m_InvalidAddr = i.m_InvalidAddr ∧
    (i.RecordErrRegisterRegister errs).1.m_InvalidOpCode = i.m_InvalidOpCode ∧
    (i.RecordErrRegisterRegister errs).1.m_InvalidValue = i.m_InvalidValue := by
  unfold Instruction.RecordErrRegisterRegister
  simp only
  refine ⟨?_, ?_, ?_, ?_, ?_⟩
  · split_ifs <;> simp_all
  · split_ifs <;> simp_all
  · split_ifs <;> rfl
  · split_ifs <;> rfl
  · split_ifs <;> rfl

theorem Translate_regReg (i : Instruction) (errs : List String) (loc : Int) (T : SymbolTable)
    (h : isRegRegOp i.m_NumOpCode = true) :
    i.Translate errs loc T =
      ((i.RecordErrRegisterRegister errs).1.mkStmt loc
          (i.RecordErrRegisterRegister errs).1.m_Operand1NumericValue
          (i.RecordErrRegisterRegister errs).1.m_Operand2NumericValue (-1) (-1),
        (i.RecordErrRegisterRegister errs).1, (i.RecordErrRegisterRegister errs).2) := by
  unfold Instruction.Translate
  revert h
  cases i.m_NumOpCode <;> first | (intro _; rfl) | (intro h; exact Bool.noConfusion h)

/-- C18 (register-and-register family): for every line that parses to ADDR, SUBR, MULTR or
DIVR and every symbol table, the statement `Translate` builds has its invalid-register1 flag
set if and only if operand 1 is absent, not a signed decimal integer or outside 0..9, and its
invalid-register2 flag set if and only if operand 2 is absent, not a signed decimal integer or
outside 0..9; each condition mentions its own operand only; the invalid-address flag is not
set. -/
theorem C18_register_register_validity (i0 : Instruction) (errs0 : List String)
    (line : String) (st : InstructionType) (i : Instruction) (e : List String)
    (h : Instruction.ParseInstruction i0 errs0 line = some (st, i, e))
    (hop : isRegRegOp i.m_NumOpCode = true) (T : SymbolTable) (loc : Int) :
    ((i.Translate e loc T).1.m_Contents.m_InvalidReg1 = true ↔ badRegister i.m_Operand1) ∧
    ((i.Translate e loc T).1.m_Contents.m_InvalidReg2 = true ↔ badRegister i.m_Operand2) ∧
    (i.Translate e loc T).1.m_Contents.m_InvalidAddr = false ∧
    (i.Translate e loc T).2.1.m_InvalidReg1
      = (i.Translate e loc T).1.m_Contents.m_InvalidReg1 ∧
    (i.Translate e loc T).2.1.m_InvalidReg2
      = (i.Translate e loc T).1.m_Contents.m_InvalidReg2 ∧
    (i.Translate e loc T).2.1.m_InvalidAddr = false := by
  have hcomm : i.m_NumOpCode ≠ OC_COMM := by
    intro hc; rw [hc] at hop; exact Bool.noConfusion hop
  obtain ⟨hR1, hR2, hA, _, hrest⟩ := ParseInstruction_operands i0 errs0 line st i e h
  obtain ⟨_, hn1, hv1, hn2, hv2⟩ := hrest hcomm
  obtain ⟨c1, c2, c3, _, _⟩ := RecordErrRegisterRegister_checks i e hR1 hR2
  have hb1 := badRegister_iff i.m_Operand1 i.m_IsNumericOperand1 i.m_Operand1NumericValue
    hn1 hv1
  have hb2 := badRegister_iff i.m_Operand2 i.m_IsNumericOperand2 i.m_Operand2NumericValue
    hn2 hv2
  rw [Translate_regReg i e loc T hop]
  exact ⟨c1.trans hb1, c2.trans hb2, c3.trans hA, rfl, rfl, c3.trans hA⟩

/-- The statement of C18 at the line " ADDR 3 12": register 1 is valid, register 2 is not. -/
theorem C18_register_register_validity_witness :
    Instruction.ParseInstruction {} [] " ADDR 3 12"
      = some (addrLineParse.1, addrLineParse.2.1, addrLineParse.2.2) ∧
    isRegRegOp addrLineParse.2.1.m_NumOpCode = true ∧
    ¬ badRegister addrLineParse.2.1.m_Operand1 ∧
    badRegister addrLineParse.2.1.m_Operand2 ∧
    (addrLineParse.2.1.Translate addrLineParse.2.2 100 oneSymbolTable).1.m_Contents.m_InvalidAddr
      = false := by
  have hp : Instruction.ParseInstruction {} [] " ADDR 3 12"
      = some (addrLineParse.1, addrLineParse.2.1, addrLineParse.2.2) := rfl
  have hop : isRegRegOp addrLineParse.2.1.m_NumOpCode = true := rfl
  have hc := C18_register_register_validity {} [] " ADDR 3 12" _ _ _ hp hop oneSymbolTable 100
  refine ⟨hp, hop, ?_, hc.2.1.mp rfl, hc.2.2.1⟩
  intro hb
  have := hc.1.mpr hb
  revert this
  decide

/-! ### The validity check and the encoding of DC -/

theorem abs32_int_min : abs32 (-2147483648) = -2147483648 := rfl

/-- `abs32` is the magnitude on every value but `INT_MIN`. -/
theorem abs32_eq (v : Int) (h : v ≠ -2147483648) : abs32 v = |v| := by
  unfold abs32
  rw [if_neg h]

theorem abs32_range (v : Int) (h : v ≠ -2147483648) :
    abs32 v > 999999999 ↔ (v < -999999999 ∨ 999999999 < v) := by
  rw [abs32_eq v h]
  constructor
  · intro hgt
    rcases abs_cases v with ⟨h1, _⟩ | ⟨h1, _⟩ <;> omega
  · intro hr
    rcases abs_cases v with ⟨h1, _⟩ | ⟨h1, _⟩ <;> omega

/-- The check of `RecordErrDC` on an object whose value flag is clear, and how often it
records "extra operands". -/
theorem RecordErrDC_checks (i : Instruction) (errs : List String)
    (hV : i.m_InvalidValue = false) :
    ((i.RecordErrDC errs).1.m_InvalidValue = true ↔
      (i.m_IsNumericOperand1 = false ∨ abs32 i.m_Operand1NumericValue > 999999999)) ∧
    (i.RecordErrDC errs).2.count "Error: extra operands."
      = errs.count "Error: extra operands." + (if i.m_Operand2.data = [] then 0 else 1) := by
  unfold Instruction.RecordErrDC Errors.RecordError
  simp only
  refine ⟨?_, ?_⟩
  · split_ifs <;> simp_all
  · split_ifs <;> simp_all [List.count_append, List.count_cons]

/-- DC validity away from `INT_MIN`: for every line that parses to DC with an operand 1 whose
value is not -2147483648, the invalid-value flag of the statement `Translate` builds is set if
and only if operand 1 is not a signed decimal integer or its value is outside
[-999999999, 999999999]; a non-empty operand 2 is recorded once as "extra operands". -/
theorem Translate_DC_validity (i0 : Instruction) (errs0 : List String) (line : String)
    (st : InstructionType) (i : Instruction) (e : List String)
    (h : Instruction.ParseInstruction i0 errs0 line = some (st, i, e))
    (hop : i.m_NumOpCode = OC_DC) (hmin : stoi i.m_Operand1 ≠ some (-2147483648))
    (T : SymbolTable) (loc : Int) :
    ((i.Translate e loc T).1.m_Contents.m_InvalidValue = true ↔
      (Instruction.isStrNumber i.m_Operand1 = false
        ∨ ∃ v, stoi i.m_Operand1 = some v ∧ (v < -999999999 ∨ 999999999 < v))) ∧
    (i.Translate e loc T).2.2.count "Error: extra operands."
      = e.count "Error: extra operands." + (if i.m_Operand2.data = [] then 0 else 1) := by
  have hcomm : i.m_NumOpCode ≠ OC_COMM := by rw [hop]; decide
  obtain ⟨_, _, _, hV, hrest⟩ := ParseInstruction_operands i0 errs0 line st i e h
  obtain ⟨_, hn1, hv1, _, _⟩ := hrest hcomm
  obtain ⟨c1, c2⟩ := RecordErrDC_checks i e hV
  have ht : i.Translate e loc T =
      ((i.RecordErrDC e).1.mkStmt loc (-1) (-1) (-1) (i.RecordErrDC e).1.m_Operand1NumericValue,
        (i.RecordErrDC e).1, (i.RecordErrDC e).2) := by
    unfold Instruction.Translate
    rw [hop]
  rw [ht]
  refine ⟨?_, c2⟩
  show (i.RecordErrDC e).1.m_InvalidValue = true ↔ _
  rw [c1, hn1]
  cases hnum : Instruction.isStrNumber i.m_Operand1 with
  | false => simp
  | true =>
    have hs := hv1 hnum
    have hne : i.m_Operand1NumericValue ≠ -2147483648 := by
      intro hc; rw [hc] at hs; exact hmin hs
    rw [abs32_range _ hne, hs]
    simp

/-- C19 (DC validity): the line " DC -2147483648" parses to a DC whose operand 1 is a signed
decimal integer with the value -2147483648, outside [-999999999, 999999999]; the
invalid-value flag of the statement `Translate` builds is nevertheless not set, because `abs`
of that value is the negative value again; its contents are the text "--2147483648", which
has no numeric value. -/
theorem C19_dc_int_min_not_flagged :
    Instruction.ParseInstruction {} [] " DC -2147483648"
      = some (intMinParse.1, intMinParse.2.1, intMinParse.2.2) ∧
    intMinParse.2.1.m_NumOpCode = OC_DC ∧
    Instruction.isStrNumber intMinParse.2.1.m_Operand1 = true ∧
    stoi intMinParse.2.1.m_Operand1 = some (-2147483648) ∧
    (-2147483648 : Int) < -999999999 ∧
    (intMinParse.2.1.Translate intMinParse.2.2 0 oneSymbolTable).1.m_Contents.m_InvalidValue
      = false ∧
    (intMinParse.2.1.Translate intMinParse.2.2 0 oneSymbolTable).1.m_Contents.GetContents
      = "--2147483648" ∧
    (intMinParse.2.1.Translate intMinParse.2.2 0 oneSymbolTable).1.GetNumContents = none ∧
    (intMinParse.2.1.Translate intMinParse.2.2 0 oneSymbolTable).2.2 = [] := by
  refine ⟨rfl, rfl, ?_, ?_, ?_, ?_, ?_, ?_, ?_⟩ <;> decide

/-- `strtoInt` on a minus sign followed by a non-empty run of digits. -/
theorem strtoInt_neg_digits (l : List Char) (hne : l ≠ [])
    (hd : ∀ c ∈ l, isdigit c = true) :
    strtoInt ('-' :: l) = some (-((digitsValue 0 l : Nat) : Int)) := by
  have h1 : List.dropWhile isspace ('-' :: l) = '-' :: l := by
    rw [List.dropWhile_cons_of_neg]
    decide
  have h2 : List.takeWhile isdigit l = l := List.takeWhile_eq_self_iff.mpr hd
  have h3 : l.isEmpty = false := by
    cases l with
    | nil => exact absurd rfl hne
    | cons c cs => rfl
  unfold strtoInt
  simp only [h1, List.head?_cons, true_or, if_true, List.tail_cons, h2, h3, decide_True,
    Bool.false_eq_true, if_false]

/-- C20 (DC encoding round trip): for every constant `v` in [-999999999, 999999999], the
contents of a DC statement without error flags and with value `v` are nine decimal digits
whose value is the magnitude of `v`, preceded by '-' exactly when `v` is negative, and
`GetNumContents` returns `v`. -/
theorem C20_dc_roundtrip (v loc r1 r2 ad : Int) (orig : String)
    (hlo : -999999999 ≤ v) (hhi : v ≤ 999999999) :
    (∃ ds : List Char, ds.length = 9 ∧ (∀ c ∈ ds, isdigit c = true) ∧
      digitsValue 0 ds = v.natAbs ∧
      (TransStmt.new OC_DC loc orig r1 r2 ad v).m_Contents.GetContents.data
        = (if v < 0 then ['-'] else []) ++ ds) ∧
    (TransStmt.new OC_DC loc orig r1 r2 ad v).GetNumContents = some v := by
  obtain ⟨hlen, hdig, hval⟩ := field_spec 9 v.natAbs (by decide) (by omega)
  have hval0 := hval 0
  rw [Nat.zero_mul, Nat.zero_add] at hval0
  have hmin : v ≠ -2147483648 := by omega
  have habs : intToStr (abs32 v) = natToStr v.natAbs := by
    rw [abs32_eq v hmin, Int.abs_eq_natAbs, intToStr_nat]
  have hg : (TransStmt.new OC_DC loc orig r1 r2 ad v).m_Contents.GetContents.data
      = (if v < 0 then ['-'] else []) ++ (padLeft 9 '0' (natToStr v.natAbs)).data := by
    have hnot : ¬ OC_DC.ord ≤ OC_HALT.ord := by decide
    unfold Contents.GetContents TransStmt.new
    simp only [Bool.or_self, Bool.false_eq_true, if_false, if_true, hnot, habs,
      String.data_append]
    split_ifs
    · rw [List.append_nil]
    · rw [List.append_nil]
  refine ⟨⟨_, hlen, hdig, hval0, hg⟩, ?_⟩
  have hne : (padLeft 9 '0' (natToStr v.natAbs)).data ≠ [] := by
    intro h0; rw [h0] at hlen; exact absurd hlen (by decide)
  have hq : ∀ c ∈ (padLeft 9 '0' (natToStr v.natAbs)).data, c ≠ '?' :=
    fun c hc => isdigit_ne c '?' (hdig c hc) (by decide)
  by_cases hv : v < 0
  · rw [if_pos hv] at hg
    unfold TransStmt.GetNumContents
    have hdata : (TransStmt.new OC_DC loc orig r1 r2 ad v).m_Contents.GetContents
        = String.mk ('-' :: (padLeft 9 '0' (natToStr v.natAbs)).data) := by
      apply String.ext; rw [hg]; rfl
    rw [hdata]
    have hnoq : ('-' :: (padLeft 9 '0' (natToStr v.natAbs)).data).contains '?' = false := by
      rw [List.contains_eq_any_beq, List.any_eq_false]
      intro c hc hb
      rw [beq_iff_eq] at hb
      rcases List.mem_cons.mp hc with h1 | h1
      · rw [h1] at hb; exact absurd hb (by decide)
      · exact hq c h1 hb.symm
    simp only [List.isEmpty_cons, Bool.false_eq_true, if_false, hnoq,
      stoll, strtoInt_neg_digits _ hne hdig, hval0]
    have hna : ((v.natAbs : Nat) : Int) = -v := Int.ofNat_natAbs_of_nonpos (by omega)
    rw [hna, if_pos (by omega)]
    refine congrArg some ?_
    omega
  · rw [if_neg hv, List.nil_append] at hg
    rw [getNumContents_digits (TransStmt.new OC_DC loc orig r1 r2 ad v) _ hg hne hdig
      (by rw [hval0]; omega), hval0]
    refine congrArg some ?_
    exact Int.natAbs_of_nonneg (by omega)

/-- The statement of C20 at the constants -12 and 999999999. -/
theorem C20_dc_roundtrip_witness :
    (TransStmt.new OC_DC 5 "" (-1) (-1) (-1) (-12)).m_Contents.GetContents = "-000000012" ∧
    (TransStmt.new OC_DC 5 "" (-1) (-1) (-1) (-12)).GetNumContents = some (-12) ∧
    (TransStmt.new OC_DC 5 "" (-1) (-1) (-1) 999999999).GetNumContents = some 999999999 :=
  ⟨by decide,
    (C20_dc_roundtrip (-12) 5 (-1) (-1) (-1) "" (by decide) (by decide)).2,
    (C20_dc_roundtrip 999999999 5 (-1) (-1) (-1) "" (by decide) (by decide)).2⟩

/-! ### The validity check of DS and the translation of HALT -/

/-- The check of `RecordErrDS` on an object whose value flag is clear, and how often it
records "extra operands". -/
theorem RecordErrDS_checks (i : Instruction) (errs : List String)
    (hV : i.m_InvalidValue = false) :
    ((i.RecordErrDS errs).1.m_InvalidValue = true ↔
      (i.m_IsNumericOperand1 = false ∨ i.m_Operand1NumericValue < 1
        ∨ i.m_Operand1NumericValue > 999999)) ∧
    (i.RecordErrDS errs).2.count "Error: extra operands."
      = errs.count "Error: extra operands." + (if i.m_Operand2.data = [] then 0 else 1) := by
  unfold Instruction.RecordErrDS Errors.RecordError
  simp only
  refine ⟨?_, ?_⟩
  · split_ifs <;> simp_all
  · split_ifs <;> simp_all [List.count_append, List.count_cons]

/-- C21 (DS validity): for every line that parses to DS and every symbol table, the statement
`Translate` builds has its invalid-value flag set if and only if operand 1 is not a signed
decimal integer or its value is outside 1..999999; a non-empty operand 2 is recorded once as
"extra operands". -/
theorem C21_ds_validity (i0 : Instruction) (errs0 : List String) (line : String)
    (st : InstructionType) (i : Instruction) (e : List String)
    (h : Instruction.ParseInstruction i0 errs0 line = some (st, i, e))
    (hop : i.m_NumOpCode = OC_DS) (T : SymbolTable) (loc : Int) :
    ((i.Translate e loc T).1.m_Contents.m_InvalidValue = true ↔
      (Instruction.isStrNumber i.m_Operand1 = false
        ∨ ∃ v, stoi i.m_Operand1 = some v ∧ (v < 1 ∨ 999999 < v))) ∧
    (i.Translate e loc T).2.1.m_InvalidValue
      = (i.Translate e loc T).1.m_Contents.m_InvalidValue ∧
    (i.Translate e loc T).2.2.count "Error: extra operands."
      = e.count "Error: extra operands." + (if i.m_Operand2.data = [] then 0 else 1) := by
  have hcomm : i.m_NumOpCode ≠ OC_COMM := by rw [hop]; decide
  obtain ⟨_, _, _, hV, hrest⟩ := ParseInstruction_operands i0 errs0 line st i e h
  obtain ⟨_, hn1, hv1, _, _⟩ := hrest hcomm
  obtain ⟨c1, c2⟩ := RecordErrDS_checks i e hV
  have ht : i.Translate e loc T =
      ((i.RecordErrDS e).1.mkStmt loc (-1) (-1) (-1) (-1),
        (i.RecordErrDS e).1, (i.RecordErrDS e).2) := by
    unfold Instruction.Translate
    rw [hop]
  rw [ht]
  refine ⟨?_, rfl, c2⟩
  show (i.RecordErrDS e).1.m_InvalidValue = true ↔ _
  rw [c1, hn1]
  cases hnum : Instruction.isStrNumber i.m_Operand1 with
  | false => simp
  | true =>
    rw [hv1 hnum]
    simp

/-- The statement of C21 at the line " DS 0 7". -/
theorem C21_ds_validity_witness :
    Instruction.ParseInstruction {} [] " DS 0 7"
      = some (dsLineParse.1, dsLineParse.2.1, dsLineParse.2.2) ∧
    dsLineParse.2.1.m_NumOpCode = OC_DS ∧
    (dsLineParse.2.1.Translate dsLineParse.2.2 0 oneSymbolTable).1.m_Contents.m_InvalidValue
      = true ∧
    (dsLineParse.2.1.Translate dsLineParse.2.2 0 oneSymbolTable).2.2.count
      "Error: extra operands." = 1 := by
  have hp : Instruction.ParseInstruction {} [] " DS 0 7"
      = some (dsLineParse.1, dsLineParse.2.1, dsLineParse.2.2) := rfl
  have hop : dsLineParse.2.1.m_NumOpCode = OC_DS := rfl
  have hc := C21_ds_validity {} [] " DS 0 7" _ _ _ hp hop oneSymbolTable 0
  refine ⟨hp, hop, hc.1.mpr (Or.inr ⟨0, by decide, Or.inl (by decide)⟩), ?_⟩
  rw [hc.2.2]
  decide

/-- C22 (HALT translation): for every line that parses to HALT, whatever its operands and the
symbol table, `Translate` sets no validity flag, the contents of the statement are exactly
"170000000" with the numeric value 170000000, and "extra operands" is recorded once when
operand 1 or operand 2 is not empty and not at all otherwise. -/
theorem C22_halt_translation (i0 : Instruction) (errs0 : List String) (line : String)
    (st : InstructionType) (i : Instruction) (e : List String)
    (h : Instruction.ParseInstruction i0 errs0 line = some (st, i, e))
    (hop : i.m_NumOpCode = OC_HALT) (T : SymbolTable) (loc : Int) :
    ((i.Translate e loc T).1.m_Contents.m_InvalidOpCode = false ∧
      (i.Translate e loc T).1.m_Contents.m_InvalidReg1 = false ∧
      (i.Translate e loc T).1.m_Contents.m_InvalidReg2 = false ∧
      (i.Translate e loc T).1.m_Contents.m_InvalidAddr = false ∧
      (i.Translate e loc T).1.m_Contents.m_InvalidValue = false) ∧
    ((i.Translate e loc T).2.1.m_InvalidOpCode = false ∧
      (i.Translate e loc T).2.1.m_InvalidReg1 = false ∧
      (i.Translate e loc T).2.1.m_InvalidReg2 = false ∧
      (i.Translate e loc T).2.1.m_InvalidAddr = false ∧
      (i.Translate e loc T).2.1.m_InvalidValue = false) ∧
    (i.Translate e loc T).1.m_Contents.GetContents = "170000000" ∧
    (i.Translate e loc T).1.GetNumContents = some 170000000 ∧
    (i.Translate e loc T).2.2.count "Error: extra operands."
      = e.count "Error: extra operands."
        + (if i.m_Operand1.data = [] ∧ i.m_Operand2.data = [] then 0 else 1) := by
  have hcomm : i.m_NumOpCode ≠ OC_COMM := by rw [hop]; decide
  have herr : i.m_NumOpCode ≠ OC_ERR := by rw [hop]; decide
  obtain ⟨hR1, hR2, hA, hV, hrest⟩ := ParseInstruction_operands i0 errs0 line st i e h
  obtain ⟨hO, _⟩ := hrest hcomm
  have hO := hO herr
  have hrec : (i.RecordErrHalt e).1 = i := by
    unfold Instruction.RecordErrHalt
    split_ifs <;> rfl
  have ht : i.Translate e loc T =
      (i.mkStmt loc 0 (-1) 0 (-1), i, (i.RecordErrHalt e).2) := by
    unfold Instruction.Translate
    rw [hop]
    simp only [hrec]
  have hc : (i.mkStmt loc 0 (-1) 0 (-1)).m_Contents
      = { m_OpCode := OC_HALT, m_Reg1 := 0, m_Reg2 := -1, m_Addr := 0, m_Val := -1 } := by
    simp only [Instruction.mkStmt, TransStmt.new, TransStmt.SetErrorCodes,
      Contents.SetErrorCodes, hop, hO, hR1, hR2, hA, hV]
  rw [ht]
  refine ⟨?_, ⟨hO, hR1, hR2, hA, hV⟩, ?_, ?_, ?_⟩
  · show (i.mkStmt loc 0 (-1) 0 (-1)).m_Contents.m_InvalidOpCode = false ∧ _
    rw [hc]
    exact ⟨rfl, rfl, rfl, rfl, rfl⟩
  · show (i.mkStmt loc 0 (-1) 0 (-1)).m_Contents.GetContents = _
    rw [hc]
    decide
  · unfold TransStmt.GetNumContents
    show (let str := (i.mkStmt loc 0 (-1) 0 (-1)).m_Contents.GetContents; _) = _
    rw [hc]
    decide
  · show (i.RecordErrHalt e).2.count "Error: extra operands." = _
    unfold Instruction.RecordErrHalt Errors.RecordError
    split_ifs <;> simp_all [List.count_append, List.count_cons]

/-- The statement of C22 at the line " HALT 3". -/
theorem C22_halt_translation_witness :
    Instruction.ParseInstruction {} [] " HALT 3"
      = some (haltLineParse.1, haltLineParse.2.1, haltLineParse.2.2) ∧
    haltLineParse.2.1.m_NumOpCode = OC_HALT ∧
    (haltLineParse.2.1.Translate haltLineParse.2.2 100 oneSymbolTable).1.m_Contents.GetContents
      = "170000000" ∧
    (haltLineParse.2.1.Translate haltLineParse.2.2 100 oneSymbolTable).2.2.count
      "Error: extra operands." = 1 := by
  have hp : Instruction.ParseInstruction {} [] " HALT 3"
      = some (haltLineParse.1, haltLineParse.2.1, haltLineParse.2.2) := rfl
  have hop : haltLineParse.2.1.m_NumOpCode = OC_HALT := rfl
  have hc := C22_halt_translation {} [] " HALT 3" _ _ _ hp hop oneSymbolTable 100
  refine ⟨hp, hop, hc.2.2.1, ?_⟩
  rw [hc.2.2.2.2]
  decide

/-! ### What `RecordFields` records -/

/-- The members that `RecordFields` assigns, in terms of the fields that
`ParseLineIntoFields` delivers. -/
theorem RecordFields_fields (i0 : Instruction) (l : String) (f : Bool) (i : Instruction)
    (h : Instruction.RecordFields i0 l = some (f, i)) :
    f = (Instruction.ParseLineIntoFields l).1 ∧
    i.m_Label = (Instruction.ParseLineIntoFields l).2.1 ∧
    i.m_Operand1 = (Instruction.ParseLineIntoFields l).2.2.2.1 ∧
    i.m_Operand2 = (Instruction.ParseLineIntoFields l).2.2.2.2 ∧
    i.m_type = classOf i.m_NumOpCode ∧
    i.m_InvalidOpCode = decide (i.m_NumOpCode = OC_ERR) ∧
    (i.m_NumOpCode = OC_COMM ↔
      ((Instruction.ParseLineIntoFields l).2.2.1.data = [] ∧
        (Instruction.ParseLineIntoFields l).2.1.data = [])) ∧
    (i.m_NumOpCode ≠ OC_COMM →
      i.m_OpCode = String.mk ((Instruction.ParseLineIntoFields l).2.2.1.data.map toupper) ∧
      i.m_NumOpCode = (Instruction.opCodeMap.lookup i.m_OpCode).getD OC_ERR) ∧
    (i.m_NumOpCode = OC_COMM → i.m_OpCode = (Instruction.ParseLineIntoFields l).2.2.1) := by
  unfold Instruction.RecordFields at h
  generalize Instruction.ParseLineIntoFields l = flds at h ⊢
  obtain ⟨fe, label, opcode, op1, op2⟩ := flds
  simp only at h ⊢
  by_cases hc : opcode.data.isEmpty = true ∧ label.data.isEmpty = true
  · simp only [hc, and_self, if_true, Option.some.injEq, Prod.mk.injEq] at h
    obtain ⟨rfl, rfl⟩ := h
    have h1 := List.isEmpty_iff.mp hc.1
    have h2 := List.isEmpty_iff.mp hc.2
    simp [classOf, h1, h2]
  · simp only [hc, if_false] at h
    have hc2 : ¬ (opcode.data = [] ∧ label.data = []) := by
      rw [← List.isEmpty_iff, ← List.isEmpty_iff]; exact hc
    revert h
    cases (if Instruction.isStrNumber op1 = true then stoi op1
      else some i0.m_Operand1NumericValue) with
    | none => intro h; cases h
    | some x1 =>
      cases (if Instruction.isStrNumber op2 = true then stoi op2
        else some i0.m_Operand2NumericValue) with
      | none => intro h; cases h
      | some x2 =>
        simp only
        cases hl : List.lookup (String.mk (List.map toupper opcode.data))
            Instruction.opCodeMap with
        | none =>
          intro h
          simp only [Option.some.injEq, Prod.mk.injEq] at h
          obtain ⟨rfl, rfl⟩ := h
          simp [classOf, hl, hc2]
        | some oc =>
          intro h
          simp only [Option.some.injEq, Prod.mk.injEq] at h
          obtain ⟨rfl, rfl⟩ := h
          have hr := opCodeMap_range _ _ hl
          simp only [hl, Option.getD_some, hr.2, hr.1, decide_False, false_iff, hc2,
            not_false_eq_true, true_and, and_self, false_implies, and_true, ne_eq,
            forall_const]
          revert hr
          cases oc <;> simp [classOf, SymbolicOpCode.ord]

/-! ### Tokens -/

theorem tokensAux_nonempty : ∀ (l cur : List Char), ∀ t ∈ tokensAux l cur, t.data ≠ [] := by
  intro l
  induction l with
  | nil =>
    intro cur t ht
    unfold tokensAux at ht
    cases cur with
    | nil => simp at ht
    | cons c cs =>
      simp only [List.isEmpty_cons, Bool.false_eq_true, if_false, List.mem_singleton] at ht
      rw [ht]
      simp
  | cons c cs ih =>
    intro cur t ht
    unfold tokensAux at ht
    by_cases hs : isspace c = true
    · rw [if_pos hs] at ht
      cases cur with
      | nil =>
        simp only [List.isEmpty_nil, if_true] at ht
        exact ih [] t ht
      | cons d ds =>
        simp only [List.isEmpty_cons, Bool.false_eq_true, if_false, List.mem_cons] at ht
        rcases ht with ht | ht
        · rw [ht]; simp
        · exact ih [] t ht
    · rw [if_neg hs] at ht
      exact ih (c :: cur) t ht

/-- Every token has at least one character. -/
theorem tokens_nonempty (l : List Char) : ∀ t ∈ tokens l, t.data ≠ [] :=
  tokensAux_nonempty l []

/-- The `k`-th token, or the empty text, is empty exactly when there is no `k`-th token. -/
theorem tokens_getD_empty (l : List Char) (k : Nat) :
    ((tokens l).getD k "").data.isEmpty = decide ((tokens l).length ≤ k) := by
  by_cases hk : k < (tokens l).length
  · have hmem : (tokens l)[k] ∈ tokens l := List.getElem_mem _
    have hne := tokens_nonempty l _ hmem
    rw [List.getD_eq_getElem _ _ hk]
    have h1 : ¬ (tokens l).length ≤ k := by omega
    rw [decide_eq_false h1]
    cases hd : ((tokens l)[k]).data with
    | nil => exact absurd hd hne
    | cons c cs => rfl
  · have h1 : (tokens l).length ≤ k := by omega
    rw [List.getD_eq_default _ _ h1, decide_eq_true h1]
    rfl

theorem tokensAux_cur_ne_nil : ∀ (l cur : List Char), cur ≠ [] → tokensAux l cur ≠ [] := by
  intro l
  induction l with
  | nil =>
    intro cur hc
    unfold tokensAux
    cases cur with
    | nil => exact absurd rfl hc
    | cons c cs => simp
  | cons c cs ih =>
    intro cur hc
    unfold tokensAux
    by_cases hs : isspace c = true
    · rw [if_pos hs]
      cases cur with
      | nil => exact absurd rfl hc
      | cons d ds => simp
    · rw [if_neg hs]
      exact ih (c :: cur) (List.cons_ne_nil _ _)

/-- A sequence that begins with a character that is not white space has a first token. -/
theorem tokens_ne_nil (c : Char) (cs : List Char) (h : isspace c = false) :
    tokens (c :: cs) ≠ [] := by
  unfold tokens tokensAux
  rw [if_neg (by rw [h]; exact Bool.false_ne_true)]
  exact tokensAux_cur_ne_nil cs [c] (List.cons_ne_nil _ _)

/-- The fields that `ParseLineIntoFields` delivers for the comment-free part of a line, in
terms of its tokens: without a label field the tokens are op code, operand 1, operand 2 and a
fourth token is the format error; with a label field they are label, op code, operand 1,
operand 2 and a fifth token is the format error. -/
theorem ParseLineIntoFields_tokens (line : String) :
    Instruction.ParseLineIntoFields (stripped line) =
      if startsBlank line = true then
        (decide (4 ≤ (lineTokens line).length), "", (lineTokens line).getD 0 "",
          (lineTokens line).getD 1 "", (lineTokens line).getD 2 "")
      else
        (decide (5 ≤ (lineTokens line).length), (lineTokens line).getD 0 "",
          (lineTokens line).getD 1 "", (lineTokens line).getD 2 "",
          (lineTokens line).getD 3 "") := by
  unfold Instruction.ParseLineIntoFields startsBlank lineTokens
  cases hd : (stripped line).data with
  | nil =>
    simp only [List.isEmpty_nil, if_true, List.head?_nil, Bool.false_eq_true, if_false,
      List.map_nil]
    rfl
  | cons c cs =>
    have h3 := tokens_getD_empty (List.map (fun c => if c = ',' then ' ' else c) (c :: cs)) 3
    have h4 := tokens_getD_empty (List.map (fun c => if c = ',' then ' ' else c) (c :: cs)) 4
    simp only [List.isEmpty_cons, Bool.false_eq_true, if_false, List.map_cons, List.head?_cons,
      Option.some.injEq] at h3 h4 ⊢
    have f3 : ∀ n : Nat, (!decide (n ≤ 3)) = decide (4 ≤ n) := by
      intro n; by_cases h : n ≤ 3 <;> simp [h] <;> omega
    have f4 : ∀ n : Nat, (!decide (n ≤ 4)) = decide (5 ≤ n) := by
      intro n; by_cases h : n ≤ 4 <;> simp [h] <;> omega
    rw [h3, h4, f3, f4]
    by_cases hcomma : c = ','
    · subst hcomma
      simp
    · by_cases hsp : c = ' '
      · subst hsp; simp
      · by_cases htab : c = '\t'
        · subst htab; simp
        · simp [hcomma, hsp, htab]

/-! ### What `ParseInstruction` records -/

/-- The result of `ParseInstruction` in terms of `RecordFields` on the comment-free part of the
line. -/
theorem ParseInstruction_fields (i0 : Instruction) (errs0 : List String) (line : String)
    (st : InstructionType) (i : Instruction) (e : List String)
    (h : Instruction.ParseInstruction i0 errs0 line = some (st, i, e)) :
    ∃ f, Instruction.RecordFields { i0 with m_instruction := line } (stripped line)
        = some (f, i) ∧
      st = i.m_type ∧
      e = errs0 ++ ((if f = true then ["Error: extra operands."] else [])
        ++ (if i.m_type = ST_Error then ["Error: invalid operation."] else [])) := by
  rw [ParseInstruction_eq] at h
  unfold stripped
  cases hr : Instruction.RecordFields { i0 with m_instruction := line }
      (Instruction.DeleteComment line) with
  | none => rw [hr] at h; cases h
  | some p =>
    obtain ⟨f, i2⟩ := p
    rw [hr] at h
    simp only [Option.map_some', Option.some.injEq, Prod.mk.injEq] at h
    obtain ⟨h1, h2, h3⟩ := h
    subst h2
    exact ⟨f, rfl, h1.symm, h3.symm⟩

/-- The op code of each mnemonic: the `k`-th mnemonic of the ordered list, in any letter case
already converted to upper case, is mapped to the op code with ordinal `k + 1`. -/
theorem mnemonics_codes : ∀ k : Fin 21,
    (Instruction.opCodeMap.lookup
      (String.mk ((mnemonics.getD k.val "").data.map toupper))).map SymbolicOpCode.ord
      = some (k.val + 1) := by
  decide

/-- C25 (classification): whenever `ParseInstruction` returns, the classification it returns is
the one that belongs to the recorded numeric op code (ERR: Error, ordinals 1..17:
MachineLanguage, ORG, DC, DS: AssemblerInstr, END: End, COMM: Comment), and an op code token
that equals the `k`-th of the 21 mnemonics when letter case is ignored gets the numeric op
code with ordinal `k` (counted from 1: ADD = 1, HALT = 17, END = 21). -/
theorem C25_classification (i0 : Instruction) (errs0 : List String) (line : String)
    (st : InstructionType) (i : Instruction) (e : List String)
    (h : Instruction.ParseInstruction i0 errs0 line = some (st, i, e)) :
    st = classOf i.m_NumOpCode ∧ i.m_type = classOf i.m_NumOpCode ∧
    (∀ (k : Nat) (m : String), mnemonics[k]? = some m →
      equalsIgnoringCase (opcodeToken line) m = true → i.m_NumOpCode.ord = k + 1) ∧
    (classOf OC_ERR = ST_Error ∧
      (∀ oc : SymbolicOpCode, 1 ≤ oc.ord ∧ oc.ord ≤ 17 → classOf oc = ST_MachineLanguage) ∧
      classOf OC_ORG = ST_AssemblerInstr ∧ classOf OC_DC = ST_AssemblerInstr ∧
      classOf OC_DS = ST_AssemblerInstr ∧ classOf OC_END = ST_End ∧
      classOf OC_COMM = ST_Comment) := by
  obtain ⟨f, hr, hst, _⟩ := ParseInstruction_fields i0 errs0 line st i e h
  obtain ⟨_, _, _, _, hty, _, hcomm, hop, _⟩ := RecordFields_fields _ _ _ _ hr
  refine ⟨hst.trans hty, hty, ?_, rfl, ?_, rfl, rfl, rfl, rfl, rfl⟩
  · intro k m hm heq
    have hk : k < 21 := by
      have := (List.getElem?_eq_some.mp hm).1
      exact this
    have hmk : mnemonics.getD k "" = m := by
      rw [List.getD_eq_getElem?_getD, hm]; rfl
    have hcode := mnemonics_codes ⟨k, hk⟩
    simp only [hmk] at hcode
    unfold equalsIgnoringCase opcodeToken at heq
    rw [decide_eq_true_eq] at heq
    have hne : (Instruction.ParseLineIntoFields (stripped line)).2.2.1.data ≠ [] := by
      intro h0
      rw [h0] at heq
      have hnone : List.lookup (String.mk (List.map toupper [])) Instruction.opCodeMap
          = none := by decide
      rw [← heq, hnone] at hcode
      cases hcode
    have hnc : i.m_NumOpCode ≠ OC_COMM := fun hc => hne (hcomm.mp hc).1
    obtain ⟨ho, hn⟩ := hop hnc
    rw [hn, ho, heq]
    cases hl : List.lookup (String.mk (List.map toupper m.data)) Instruction.opCodeMap with
    | none => rw [hl] at hcode; cases hcode
    | some oc =>
      rw [hl] at hcode
      simp only [Option.map_some', Option.some.injEq] at hcode
      exact hcode
  · intro oc hoc
    revert hoc
    cases oc <;> simp [SymbolicOpCode.ord, classOf]

/-- The statement of C25 at the line "x mUlt 1 y". -/
theorem C25_classification_witness :
    Instruction.ParseInstruction {} [] "x mUlt 1 y"
      = some (ST_MachineLanguage,
          ((parseLine "x mUlt 1 y").getD (ST_Error, {}, [])).2.1, []) ∧
    mnemonics[2]? = some "MULT" ∧
    equalsIgnoringCase (opcodeToken "x mUlt 1 y") "MULT" = true ∧
    ((parseLine "x mUlt 1 y").getD (ST_Error, {}, [])).2.1.m_NumOpCode.ord = 2 + 1 := by
  have hp : Instruction.ParseInstruction {} [] "x mUlt 1 y"
      = some (ST_MachineLanguage,
          ((parseLine "x mUlt 1 y").getD (ST_Error, {}, [])).2.1, []) := rfl
  have hm : mnemonics[2]? = some "MULT" := rfl
  have he : equalsIgnoringCase (opcodeToken "x mUlt 1 y") "MULT" = true := by decide
  exact ⟨hp, hm, he, (C25_classification {} [] "x mUlt 1 y" _ _ _ hp).2.2.1 2 "MULT" hm he⟩

/-- The recorded op code text is the op code token converted to upper case. -/
theorem RecordFields_opcode (i0 : Instruction) (l : String) (f : Bool) (i : Instruction)
    (h : Instruction.RecordFields i0 l = some (f, i)) :
    i.m_OpCode = String.mk ((Instruction.ParseLineIntoFields l).2.2.1.data.map toupper) := by
  obtain ⟨_, _, _, _, _, _, hcomm, hop, hco⟩ := RecordFields_fields i0 l f i h
  by_cases hc : i.m_NumOpCode = OC_COMM
  · rw [hco hc, (hcomm.mp hc).1]
    apply String.ext
    exact (hcomm.mp hc).1
  · exact (hop hc).1

theorem stripped_cons (line : String) (c : Char) (rest : List Char)
    (h : line.data = c :: rest) (hc : c ≠ ';') :
    (stripped line).data = c :: rest.takeWhile (fun d => d != ';') := by
  unfold stripped Instruction.DeleteComment
  rw [h, List.takeWhile_cons_of_pos]
  simpa using hc

/-- C26 (label rule): whenever `ParseInstruction` returns on a line whose first character is a
space or a tab, the recorded label is empty and the recorded op code is the first token (in
upper case); on a line whose first character is neither white space, a comma nor ';', a first
token exists and is the recorded label, and the recorded op code is the second token (in upper
case; empty when there is none). -/
theorem C26_label_rule (i0 : Instruction) (errs0 : List String) (line : String)
    (st : InstructionType) (i : Instruction) (e : List String)
    (h : Instruction.ParseInstruction i0 errs0 line = some (st, i, e)) :
    (∀ (c : Char) (rest : List Char), line.data = c :: rest → c = ' ' ∨ c = '\t' →
      i.m_Label = "" ∧
      i.m_OpCode = String.mk (((lineTokens line).getD 0 "").data.map toupper)) ∧
    (∀ (c : Char) (rest : List Char), line.data = c :: rest → isspace c = false →
      c ≠ ',' → c ≠ ';' →
      lineTokens line ≠ [] ∧ i.m_Label = (lineTokens line).getD 0 "" ∧
      i.m_OpCode = String.mk (((lineTokens line).getD 1 "").data.map toupper)) := by
  obtain ⟨f, hr, _, _⟩ := ParseInstruction_fields i0 errs0 line st i e h
  obtain ⟨_, hlab, _, _, _, _, _, _, _⟩ := RecordFields_fields _ _ _ _ hr
  have hopc := RecordFields_opcode _ _ _ _ hr
  have hplf := ParseLineIntoFields_tokens line
  constructor
  · intro c rest hl hc
    have hsemi : c ≠ ';' := by rcases hc with hc | hc <;> rw [hc] <;> decide
    have hs := stripped_cons line c rest hl hsemi
    have hb : startsBlank line = true := by
      unfold startsBlank
      rw [hs]
      rcases hc with hc | hc <;> rw [hc] <;> rfl
    rw [if_pos hb] at hplf
    rw [hplf] at hlab hopc
    exact ⟨hlab, hopc⟩
  · intro c rest hl hsp hcomma hsemi
    have hs := stripped_cons line c rest hl hsemi
    have h1 : c ≠ ' ' := by intro hc; rw [hc] at hsp; revert hsp; decide
    have h2 : c ≠ '\t' := by intro hc; rw [hc] at hsp; revert hsp; decide
    have hb : ¬ startsBlank line = true := by
      unfold startsBlank
      rw [hs]
      simp [h1, h2, hcomma]
    rw [if_neg hb] at hplf
    rw [hplf] at hlab hopc
    refine ⟨?_, hlab, hopc⟩
    unfold lineTokens
    rw [hs, List.map_cons, if_neg hcomma]
    exact tokens_ne_nil c _ hsp

/-- The statement of C26 at the lines " add 1 x" and "lab add 1 x". -/
theorem C26_label_rule_witness :
    (((parseLine " add 1 x").getD (ST_Error, {}, [])).2.1.m_Label = "" ∧
      ((parseLine " add 1 x").getD (ST_Error, {}, [])).2.1.m_OpCode = "ADD" ∧
      (lineTokens " add 1 x").getD 0 "" = "add") ∧
    (((parseLine "lab add 1 x").getD (ST_Error, {}, [])).2.1.m_Label = "lab" ∧
      ((parseLine "lab add 1 x").getD (ST_Error, {}, [])).2.1.m_OpCode = "ADD" ∧
      lineTokens "lab add 1 x" = ["lab", "add", "1", "x"]) := by
  have hp1 : Instruction.ParseInstruction {} [] " add 1 x"
      = some (ST_MachineLanguage, ((parseLine " add 1 x").getD (ST_Error, {}, [])).2.1, []) :=
    rfl
  have hp2 : Instruction.ParseInstruction {} [] "lab add 1 x"
      = some (ST_MachineLanguage, ((parseLine "lab add 1 x").getD (ST_Error, {}, [])).2.1, []) :=
    rfl
  have h1 := (C26_label_rule {} [] " add 1 x" _ _ _ hp1).1 ' ' " add 1 x".data.tail rfl
    (Or.inl rfl)
  have h2 := (C26_label_rule {} [] "lab add 1 x" _ _ _ hp2).2 'l' "lab add 1 x".data.tail rfl
    (by decide) (by decide) (by decide)
  refine ⟨⟨h1.1, ?_, by decide⟩, h2.2.1.trans (by decide), ?_, by decide⟩
  · rw [h1.2]; decide
  · rw [h2.2.2]; decide

/-! ### Comments -/

/-- `RecordFields` does not look at the recorded original statement and leaves it as it is. -/
theorem RecordFields_instruction (i : Instruction) (s l : String) :
    Instruction.RecordFields { i with m_instruction := s } l =
      (Instruction.RecordFields i l).map (fun p => (p.1, { p.2 with m_instruction := s })) := by
  unfold Instruction.RecordFields
  generalize Instruction.ParseLineIntoFields l = flds
  obtain ⟨fe, label, opcode, op1, op2⟩ := flds
  simp only
  by_cases hc : opcode.data.isEmpty = true ∧ label.data.isEmpty = true
  · simp only [hc, and_self, if_true, Option.map_some']
  · simp only [hc, if_false]
    cases (if Instruction.isStrNumber op1 = true then stoi op1
      else some i.m_Operand1NumericValue) with
    | none => rfl
    | some x1 =>
      cases (if Instruction.isStrNumber op2 = true then stoi op2
        else some i.m_Operand2NumericValue) with
      | none => rfl
      | some x2 =>
        simp only
        cases List.lookup (String.mk (List.map toupper opcode.data)) Instruction.opCodeMap with
        | none => rfl
        | some oc => rfl

theorem stripped_idem (line : String) : stripped (stripped line) = stripped line := by
  unfold stripped Instruction.DeleteComment
  apply String.ext
  show List.takeWhile _ (List.takeWhile _ line.data) = List.takeWhile _ line.data
  exact List.takeWhile_idem

/-- The comment-free part of a line is the part that precedes its first ';'. -/
theorem stripped_spec (line : String) :
    ';' ∉ (stripped line).data ∧
    ∃ rest, line.data = (stripped line).data ++ rest ∧ (rest = [] ∨ rest.head? = some ';') := by
  unfold stripped Instruction.DeleteComment
  show ';' ∉ List.takeWhile (fun c => c != ';') line.data ∧
    ∃ rest, line.data = List.takeWhile (fun c => c != ';') line.data ++ rest ∧ _
  constructor
  · intro hm
    have := List.mem_takeWhile_imp hm
    revert this
    decide
  · refine ⟨List.dropWhile (fun c => c != ';') line.data,
      (List.takeWhile_append_dropWhile _ _).symm, ?_⟩
    induction line.data with
    | nil => exact Or.inl rfl
    | cons c cs ih =>
      by_cases hc : c = ';'
      · right
        subst hc
        rfl
      · have hb : (c != ';') = true := by simpa using hc
        simp only [List.dropWhile_cons, hb, if_true]
        exact ih

/-- C27 (comment stripping): on every line `ParseInstruction` does what it does on the part of
the line that precedes the first ';' (the whole line when there is none): it throws on both or
on neither, returns the same classification and the same errors, and records the same members
(label, op code, operands, numeric op code and all others) except that the recorded original
statement is the whole line. -/
theorem C27_comment_stripping (i0 : Instruction) (errs0 : List String) (line : String) :
    Instruction.ParseInstruction i0 errs0 line =
      (Instruction.ParseInstruction i0 errs0 (stripped line)).map
        (fun r => (r.1, { r.2.1 with m_instruction := line }, r.2.2)) ∧
    (∀ st i e, Instruction.ParseInstruction i0 errs0 line = some (st, i, e) →
      i.m_instruction = line) ∧
    (';' ∉ (stripped line).data ∧
      ∃ rest, line.data = (stripped line).data ++ rest ∧ (rest = [] ∨ rest.head? = some ';')) := by
  have hmain : Instruction.ParseInstruction i0 errs0 line =
      (Instruction.ParseInstruction i0 errs0 (stripped line)).map
        (fun r => (r.1, { r.2.1 with m_instruction := line }, r.2.2)) := by
    rw [ParseInstruction_eq, ParseInstruction_eq]
    have hid : Instruction.DeleteComment (stripped line) = stripped line := stripped_idem line
    rw [hid, RecordFields_instruction i0 line, RecordFields_instruction i0 (stripped line)]
    show Option.map _ (Option.map _ (Instruction.RecordFields i0 (stripped line))) = _
    cases Instruction.RecordFields i0 (stripped line) with
    | none => rfl
    | some p => rfl
  refine ⟨hmain, ?_, stripped_spec line⟩
  intro st i e h
  rw [hmain] at h
  cases hp : Instruction.ParseInstruction i0 errs0 (stripped line) with
  | none => rw [hp] at h; cases h
  | some r =>
    rw [hp] at h
    simp only [Option.map_some', Option.some.injEq, Prod.mk.injEq] at h
    rw [← h.2.1]

/-- The statement of C27 at the line " add 1 x ; sum". -/
theorem C27_comment_stripping_witness :
    stripped " add 1 x ; sum" = " add 1 x " ∧
    Instruction.ParseInstruction {} [] " add 1 x ; sum" =
      (Instruction.ParseInstruction {} [] " add 1 x ").map
        (fun r => (r.1, { r.2.1 with m_instruction := " add 1 x ; sum" }, r.2.2)) ∧
    ((parseLine " add 1 x ; sum").getD (ST_Error, {}, [])).2.1.m_instruction
      = " add 1 x ; sum" := by
  have hs : stripped " add 1 x ; sum" = " add 1 x " := by decide
  have hc := C27_comment_stripping {} [] " add 1 x ; sum"
  have h1 := hc.1
  rw [hs] at h1
  exact ⟨hs, h1, hc.2.1 ST_MachineLanguage
    ((parseLine " add 1 x ; sum").getD (ST_Error, {}, [])).2.1 [] rfl⟩

/-- A line has no label field and no op code field exactly when it has no token. -/
theorem fields_empty_iff (line : String) :
    ((Instruction.ParseLineIntoFields (stripped line)).2.2.1.data = [] ∧
      (Instruction.ParseLineIntoFields (stripped line)).2.1.data = []) ↔ lineTokens line = [] := by
  have h0 := tokens_getD_empty
    ((stripped line).data.map (fun c => if c = ',' then ' ' else c)) 0
  rw [ParseLineIntoFields_tokens]
  unfold lineTokens at h0 ⊢
  generalize tokens ((stripped line).data.map (fun c => if c = ',' then ' ' else c)) = ts
    at h0 ⊢
  have h0 : (ts.getD 0 "").data = [] ↔ ts.length ≤ 0 := by
    rw [← List.isEmpty_iff, h0, decide_eq_true_iff]
  by_cases hb : startsBlank line = true
  · rw [if_pos hb]
    constructor
    · intro h
      have := h0.mp h.1
      exact List.length_eq_zero.mp (by omega)
    · intro h
      subst h
      exact ⟨rfl, rfl⟩
  · rw [if_neg hb]
    constructor
    · intro h
      have := h0.mp h.2
      exact List.length_eq_zero.mp (by omega)
    · intro h
      subst h
      exact ⟨rfl, rfl⟩

/-- C29 (comment and blank lines): a line that has no token once everything from the first
';' is removed and commas are taken as spaces is parsed without exception as Comment with the
op code COMM, with an empty label and without any error recorded; and whenever
`ParseInstruction` returns, the classification is Comment exactly when the line has no token,
and so is the op code COMM. -/
theorem C29_comment_classification (i0 : Instruction) (errs0 : List String) (line : String) :
    (lineTokens line = [] →
      ∃ i, Instruction.ParseInstruction i0 errs0 line = some (ST_Comment, i, errs0) ∧
        i.m_NumOpCode = OC_COMM ∧ i.m_Label = "") ∧
    (∀ st i e, Instruction.ParseInstruction i0 errs0 line = some (st, i, e) →
      (st = ST_Comment ↔ lineTokens line = []) ∧
      (i.m_NumOpCode = OC_COMM ↔ lineTokens line = [])) := by
  have hiff : ∀ st i e, Instruction.ParseInstruction i0 errs0 line = some (st, i, e) →
      (st = ST_Comment ↔ lineTokens line = []) ∧
      (i.m_NumOpCode = OC_COMM ↔ lineTokens line = []) := by
    intro st i e h
    obtain ⟨f, hr, hst, _⟩ := ParseInstruction_fields i0 errs0 line st i e h
    obtain ⟨_, _, _, _, hty, _, hcomm, _, _⟩ := RecordFields_fields _ _ _ _ hr
    have h2 : i.m_NumOpCode = OC_COMM ↔ lineTokens line = [] :=
      hcomm.trans (fields_empty_iff line)
    refine ⟨?_, h2⟩
    rw [← h2, hst, hty]
    cases i.m_NumOpCode <;> simp [classOf]
  refine ⟨?_, hiff⟩
  intro hno
  have hf := (fields_empty_iff line).mpr hno
  have hplf := ParseLineIntoFields_tokens line
  rw [hno] at hplf
  have hflds : Instruction.ParseLineIntoFields (stripped line) = (false, "", "", "", "") := by
    rw [hplf]
    split_ifs <;> rfl
  have hrf : ∀ j : Instruction, ∃ i, Instruction.RecordFields j (stripped line)
      = some (false, i) ∧ i.m_NumOpCode = OC_COMM ∧ i.m_Label = "" ∧ i.m_type = ST_Comment := by
    intro j
    unfold Instruction.RecordFields
    rw [hflds]
    exact ⟨_, rfl, rfl, rfl, rfl⟩
  obtain ⟨i, hi, h1, h2, h3⟩ := hrf { i0 with m_instruction := line }
  refine ⟨i, ?_, h1, h2⟩
  rw [ParseInstruction_eq]
  show Option.map _ (Instruction.RecordFields _ (stripped line)) = _
  rw [hi]
  simp [h3]

/-- The statement of C29 at the line "  , ; only a comment". -/
theorem C29_comment_classification_witness :
    lineTokens "  , ; only a comment" = [] ∧
    ∃ i, Instruction.ParseInstruction {} ["earlier"] "  , ; only a comment"
        = some (ST_Comment, i, ["earlier"]) ∧ i.m_NumOpCode = OC_COMM ∧ i.m_Label = "" :=
  ⟨by decide,
    (C29_comment_classification {} ["earlier"] "  , ; only a comment").1 (by decide)⟩

/-! ### Extra operands -/

/-- `RecordFields` looks at a line only through the fields that `ParseLineIntoFields`
delivers: two lines with the same label, op code and operand fields are recorded alike, up to
the format-error flag. -/
theorem RecordFields_same_fields (j : Instruction) (l l2 : String)
    (h : (Instruction.ParseLineIntoFields l2).2 = (Instruction.ParseLineIntoFields l).2) :
    Instruction.RecordFields j l2 =
      (Instruction.RecordFields j l).map
        (fun p => ((Instruction.ParseLineIntoFields l2).1, p.2)) := by
  unfold Instruction.RecordFields
  generalize Instruction.ParseLineIntoFields l = flds at h ⊢
  generalize Instruction.ParseLineIntoFields l2 = flds2 at h ⊢
  obtain ⟨fe, label, opcode, op1, op2⟩ := flds
  obtain ⟨fe2, rest⟩ := flds2
  simp only at h
  subst h
  simp only
  by_cases hc : opcode.data.isEmpty = true ∧ label.data.isEmpty = true
  · simp only [hc, and_self, if_true, Option.map_some']
  · simp only [hc, if_false]
    cases (if Instruction.isStrNumber op1 = true then stoi op1
      else some j.m_Operand1NumericValue) with
    | none => rfl
    | some x1 =>
      cases (if Instruction.isStrNumber op2 = true then stoi op2
        else some j.m_Operand2NumericValue) with
      | none => rfl
      | some x2 =>
        simp only
        cases List.lookup (String.mk (List.map toupper opcode.data)) Instruction.opCodeMap with
        | none => rfl
        | some oc => rfl

theorem count_extra (errs0 : List String) (f : Bool) (p : Prop) [Decidable p] :
    (errs0 ++ ((if f = true then ["Error: extra operands."] else [])
        ++ (if p then ["Error: invalid operation."] else []))).count "Error: extra operands."
      = errs0.count "Error: extra operands." + (if f = true then 1 else 0) := by
  cases f <;> by_cases hp : p <;> simp [List.count_append, List.count_cons, hp]

theorem getD_take_four (ts : List String) (k : Nat) (hk : k < 4) :
    (ts.take 4).getD k "" = ts.getD k "" := by
  rw [List.getD_eq_getElem?_getD, List.getD_eq_getElem?_getD, List.getElem?_take_of_lt hk]

/-- C28, the claim as stated fails: the line " ADD 1 X Y" has four tokens and no fifth one,
yet `ParseInstruction` records "Error: extra operands." for it: without a label field the
fourth token is already the extra one. -/
theorem C28_fourth_token_is_extra :
    lineTokens " ADD 1 X Y" = ["ADD", "1", "X", "Y"] ∧
    (lineTokens " ADD 1 X Y")[4]? = none ∧
    Instruction.ParseInstruction {} [] " ADD 1 X Y"
      = some (ST_MachineLanguage, ((parseLine " ADD 1 X Y").getD (ST_Error, {}, [])).2.1,
          ["Error: extra operands."]) :=
  ⟨by decide, by decide, rfl⟩

/-- C28 (extra operands, amended): whenever `ParseInstruction` returns, it has recorded
"Error: extra operands." once if the line without its comment has a fifth token, or has a
fourth token and begins with a space, a tab or a comma (no label field), and not at all
otherwise; and on every line that begins in the same way and consists of the first four tokens
only, `ParseInstruction` returns the same classification and records the same members apart
from the original statement. -/
theorem C28_extra_operands (i0 : Instruction) (errs0 : List String) (line : String)
    (st : InstructionType) (i : Instruction) (e : List String)
    (h : Instruction.ParseInstruction i0 errs0 line = some (st, i, e)) :
    e.count "Error: extra operands." = errs0.count "Error: extra operands."
      + (if 5 ≤ (lineTokens line).length
            ∨ (startsBlank line = true ∧ 4 ≤ (lineTokens line).length) then 1 else 0) ∧
    (∀ line2 : String, startsBlank line2 = startsBlank line →
      lineTokens line2 = (lineTokens line).take 4 →
      ∃ e2, Instruction.ParseInstruction i0 errs0 line2
        = some (st, { i with m_instruction := line2 }, e2)) := by
  obtain ⟨f, hr, hst, he⟩ := ParseInstruction_fields i0 errs0 line st i e h
  obtain ⟨hf, _, _, _, _, _, _, _, _⟩ := RecordFields_fields _ _ _ _ hr
  have hplf := ParseLineIntoFields_tokens line
  constructor
  · have hfc : f = true ↔ (5 ≤ (lineTokens line).length
        ∨ (startsBlank line = true ∧ 4 ≤ (lineTokens line).length)) := by
      rw [hf, hplf]
      by_cases hb : startsBlank line = true
      · rw [if_pos hb]
        simp only [decide_eq_true_eq]
        constructor
        · intro h4; exact Or.inr ⟨hb, h4⟩
        · rintro (h5 | ⟨_, h4⟩)
          · omega
          · exact h4
      · rw [if_neg hb]
        simp only [decide_eq_true_eq]
        constructor
        · exact Or.inl
        · rintro (h5 | ⟨hb2, _⟩)
          · exact h5
          · exact absurd hb2 hb
    rw [he, count_extra]
    by_cases hc : 5 ≤ (lineTokens line).length
        ∨ (startsBlank line = true ∧ 4 ≤ (lineTokens line).length)
    · rw [if_pos hc, if_pos (hfc.mpr hc)]
    · rw [if_neg hc, if_neg (fun hft => hc (hfc.mp hft))]
  · intro line2 hb2 ht2
    have hplf2 := ParseLineIntoFields_tokens line2
    rw [hb2, ht2, getD_take_four _ 0 (by decide), getD_take_four _ 1 (by decide),
      getD_take_four _ 2 (by decide), getD_take_four _ 3 (by decide)] at hplf2
    have hsame : (Instruction.ParseLineIntoFields (stripped line2)).2
        = (Instruction.ParseLineIntoFields (stripped line)).2 := by
      rw [hplf, hplf2]
      split_ifs <;> rfl
    have hrf := RecordFields_same_fields { i0 with m_instruction := line } (stripped line)
      (stripped line2) hsame
    rw [hr] at hrf
    have hrf2 := RecordFields_instruction { i0 with m_instruction := line } line2
      (stripped line2)
    rw [hrf] at hrf2
    rw [ParseInstruction_eq]
    show ∃ e2, Option.map _ (Instruction.RecordFields _ (stripped line2)) = _
    have hobj : ({ ({ i0 with m_instruction := line } : Instruction) with
        m_instruction := line2 } : Instruction) = { i0 with m_instruction := line2 } := rfl
    rw [hobj] at hrf2
    rw [hrf2]
    simp only [Option.map_some']
    exact ⟨_, congrArg some (Prod.ext hst.symm rfl)⟩

/-- The statement of C28 at the line "L ADD 1 X Y" and its first four tokens "L ADD 1 X". -/
theorem C28_extra_operands_witness :
    Instruction.ParseInstruction {} [] "L ADD 1 X Y"
      = some (ST_MachineLanguage, ((parseLine "L ADD 1 X Y").getD (ST_Error, {}, [])).2.1,
          ["Error: extra operands."]) ∧
    startsBlank "L ADD 1 X" = startsBlank "L ADD 1 X Y" ∧
    lineTokens "L ADD 1 X" = (lineTokens "L ADD 1 X Y").take 4 ∧
    ∃ e2, Instruction.ParseInstruction {} [] "L ADD 1 X"
      = some (ST_MachineLanguage,
          { ((parseLine "L ADD 1 X Y").getD (ST_Error, {}, [])).2.1 with
            m_instruction := "L ADD 1 X" }, e2) := by
  have hp : Instruction.ParseInstruction {} [] "L ADD 1 X Y"
      = some (ST_MachineLanguage, ((parseLine "L ADD 1 X Y").getD (ST_Error, {}, [])).2.1,
          ["Error: extra operands."]) := rfl
  have hb : startsBlank "L ADD 1 X" = startsBlank "L ADD 1 X Y" := by decide
  have ht : lineTokens "L ADD 1 X" = (lineTokens "L ADD 1 X Y").take 4 := by decide
  exact ⟨hp, hb, ht, (C28_extra_operands {} [] "L ADD 1 X Y" _ _ _ hp).2 "L ADD 1 X" hb ht⟩

/-! ### The contents of a translated statement -/

theorem TranslateRegAddr_basic (i : Instruction) (errs : List String) (loc : Int)
    (T : SymbolTable) :
    (i.TranslateRegAddr errs loc T).1.m_Contents.m_OpCode = i.m_NumOpCode ∧
    (i.TranslateRegAddr errs loc T).1.m_Contents.m_InvalidOpCode = i.m_InvalidOpCode ∧
    (i.TranslateRegAddr errs loc T).1.m_Contents.m_InvalidValue = i.m_InvalidValue ∧
    (i.TranslateRegAddr errs loc T).1.m_Contents.m_InvalidReg2 = i.m_InvalidReg2 ∧
    (i.TranslateRegAddr errs loc T).1.m_Contents.m_Reg2 = -1 ∧
    (i.TranslateRegAddr errs loc T).1.m_Contents.m_Reg1 = i.m_Operand1NumericValue := by
  obtain ⟨f1, f2, f3, _⟩ := RecordErrRegisterAddress_flags i errs
  obtain ⟨hs, _⟩ := RecordErrRegisterAddress_spec i errs
  unfold Instruction.TranslateRegAddr
  generalize i.RecordErrRegisterAddress errs = r at hs f1 f2 f3
  obtain ⟨i1, e1⟩ := r
  simp only at hs f1 f2 f3
  have hoc : i1.m_NumOpCode = i.m_NumOpCode := hs.2.2.2.2.1
  have hv : i1.m_Operand1NumericValue = i.m_Operand1NumericValue := hs.2.2.2.2.2.2.2.1
  simp only [Instruction.mkStmt, TransStmt.new, TransStmt.SetErrorCodes, Contents.SetErrorCodes]
  refine ⟨?_, ?_, ?_, ?_, ?_, ?_⟩ <;>
    first
    | (split_ifs <;> simp [hoc, hv, f1, f2, f3])
    | simp [hoc, hv, f1, f2, f3]

theorem RecordErrDC_flags (i : Instruction) (errs : List String) :
    (i.RecordErrDC errs).1.m_InvalidOpCode = i.m_InvalidOpCode ∧
    (i.RecordErrDC errs).1.m_NumOpCode = i.m_NumOpCode ∧
    (i.RecordErrDC errs).1.m_Operand1NumericValue = i.m_Operand1NumericValue := by
  unfold Instruction.RecordErrDC
  simp only
  refine ⟨?_, ?_, ?_⟩ <;> split_ifs <;> rfl

theorem RecordErrDS_flags (i : Instruction) (errs : List String) :
    (i.RecordErrDS errs).1.m_InvalidOpCode = i.m_InvalidOpCode ∧
    (i.RecordErrDS errs).1.m_NumOpCode = i.m_NumOpCode := by
  unfold Instruction.RecordErrDS
  simp only
  refine ⟨?_, ?_⟩ <;> split_ifs <;> rfl

theorem RecordErrRegisterRegister_flags (i : Instruction) (errs : List String) :
    (i.RecordErrRegisterRegister errs).1.m_InvalidOpCode = i.m_InvalidOpCode ∧
    (i.RecordErrRegisterRegister errs).1.m_InvalidValue = i.m_InvalidValue ∧
    (i.RecordErrRegisterRegister errs).1.m_InvalidAddr = i.m_InvalidAddr ∧
    (i.RecordErrRegisterRegister errs).1.m_NumOpCode = i.m_NumOpCode := by
  unfold Instruction.RecordErrRegisterRegister
  simp only
  refine ⟨?_, ?_, ?_, ?_⟩ <;> split_ifs <;> rfl

theorem RecordErrHalt_fst (i : Instruction) (errs : List String) :
    (i.RecordErrHalt errs).1 = i := by
  unfold Instruction.RecordErrHalt
  split_ifs <;> rfl

/-- The op code and the op code flag of the statement that `Translate` builds are those of the
object; for every op code but DC and DS so is the value flag. -/
theorem Translate_contents_basic (i : Instruction) (errs : List String) (loc : Int)
    (T : SymbolTable) :
    (i.Translate errs loc T).1.m_Contents.m_OpCode = i.m_NumOpCode ∧
    (i.Translate errs loc T).1.m_Contents.m_InvalidOpCode = i.m_InvalidOpCode ∧
    (i.m_NumOpCode ≠ OC_DC → i.m_NumOpCode ≠ OC_DS →
      (i.Translate errs loc T).1.m_Contents.m_InvalidValue = i.m_InvalidValue) := by
  have hra := TranslateRegAddr_basic i errs loc T
  have hrr := RecordErrRegisterRegister_flags i errs
  have hdc := RecordErrDC_flags i errs
  have hds := RecordErrDS_flags i errs
  have hh := RecordErrHalt_fst i errs
  unfold Instruction.Translate
  cases hoc : i.m_NumOpCode <;> simp only [] <;>
    first
    | exact ⟨hra.1.trans hoc, hra.2.1, fun _ _ => hra.2.2.1⟩
    | exact ⟨hoc, rfl, fun _ _ => rfl⟩
    | exact ⟨hdc.2.1.trans hoc, hdc.1, fun h _ => absurd rfl h⟩
    | exact ⟨hds.2.trans hoc, hds.1, fun _ h => absurd rfl h⟩
    | (rw [hh]; exact ⟨hoc, rfl, fun _ _ => rfl⟩)
    | exact ⟨hrr.2.2.2.trans hoc, hrr.1, fun _ _ => hrr.2.1⟩

theorem lookup_none_iff (k : String) (l : List (String × SymbolicOpCode)) :
    l.lookup k = none ↔ ∀ p ∈ l, p.1 ≠ k := by
  induction l with
  | nil => simp [List.lookup]
  | cons p r ih =>
    obtain ⟨k1, v1⟩ := p
    simp only [List.lookup]
    by_cases hk : k = k1
    · subst hk
      simp
    · have hb : (k == k1) = false := by simpa using hk
      rw [hb]
      simp only [ih, List.mem_cons, forall_eq_or_imp, ne_eq]
      constructor
      · intro h; exact ⟨fun h2 => hk h2.symm, h⟩
      · intro h; exact h.2

theorem opCodeMap_keys : Instruction.opCodeMap.map Prod.fst = mnemonics := by decide

theorem mnemonics_upper : ∀ m ∈ mnemonics, m.data.map toupper = m.data := by decide

/-- A line is classified Error exactly when it has a token and its op code token equals none
of the 21 mnemonics, letter case ignored. -/
theorem classified_error_iff (i0 : Instruction) (errs0 : List String) (line : String)
    (st : InstructionType) (i : Instruction) (e : List String)
    (h : Instruction.ParseInstruction i0 errs0 line = some (st, i, e)) :
    st = ST_Error ↔
      (lineTokens line ≠ [] ∧
        ∀ m ∈ mnemonics, equalsIgnoringCase (opcodeToken line) m = false) := by
  obtain ⟨f, hr, hst, _⟩ := ParseInstruction_fields i0 errs0 line st i e h
  obtain ⟨_, _, _, _, hty, _, hcomm, hop, _⟩ := RecordFields_fields _ _ _ _ hr
  have hcls : st = ST_Error ↔ i.m_NumOpCode = OC_ERR := by
    rw [hst, hty]
    cases i.m_NumOpCode <;> simp [classOf]
  have htok : i.m_NumOpCode = OC_COMM ↔ lineTokens line = [] :=
    hcomm.trans (fields_empty_iff line)
  have hkey : ∀ m ∈ mnemonics,
      (equalsIgnoringCase (opcodeToken line) m = false ↔
        m ≠ String.mk ((opcodeToken line).data.map toupper)) := by
    intro m hm
    unfold equalsIgnoringCase
    rw [decide_eq_false_iff_not, mnemonics_upper m hm]
    constructor
    · intro hne heq
      apply hne
      rw [heq]
    · intro hne heq
      apply hne
      apply String.ext
      exact heq.symm
  rw [hcls]
  constructor
  · intro herr
    have hnc : i.m_NumOpCode ≠ OC_COMM := by rw [herr]; decide
    obtain ⟨ho, hn⟩ := hop hnc
    refine ⟨fun h0 => hnc (htok.mpr h0), ?_⟩
    intro m hm
    rw [hkey m hm]
    cases hl : List.lookup i.m_OpCode Instruction.opCodeMap with
    | some oc =>
      rw [hl] at hn
      exact absurd (hn.symm.trans herr) (opCodeMap_range _ _ hl).1
    | none =>
      rw [lookup_none_iff] at hl
      rw [← opCodeMap_keys] at hm
      obtain ⟨p, hp, hpm⟩ := List.mem_map.mp hm
      have := hl p hp
      rw [hpm, ho] at this
      exact this
  · rintro ⟨hne, hall⟩
    have hnc : i.m_NumOpCode ≠ OC_COMM := fun hc => hne (htok.mp hc)
    obtain ⟨ho, hn⟩ := hop hnc
    have hl : List.lookup i.m_OpCode Instruction.opCodeMap = none := by
      rw [lookup_none_iff]
      intro p hp
      have hm : p.1 ∈ mnemonics := by
        rw [← opCodeMap_keys]
        exact List.mem_map_of_mem _ hp
      have := (hkey p.1 hm).mp (hall p.1 hm)
      rw [ho]
      exact this
    rw [hn, hl]
    rfl

theorem GetContents_placeholder (c : Contents)
    (h : c.m_InvalidOpCode = true ∨ c.m_InvalidValue = true) :
    c.GetContents = "?????????" := by
  unfold Contents.GetContents
  rcases h with h | h <;> simp [h]

/-- The contents of a statement without op code and value flag whose op code has an ordinal
up to 17 begin with the two digits of the ordinal. -/
theorem GetContents_ML_head (c : Contents) (h1 : c.m_InvalidOpCode = false)
    (h2 : c.m_InvalidValue = false) (hml : c.m_OpCode.ord ≤ OC_HALT.ord) :
    ∃ rest : List Char, c.GetContents.data =
      (padLeft 2 '0' (natToStr c.m_OpCode.ord)).data ++ rest := by
  have hdc : c.m_OpCode ≠ OC_DC := by
    intro h; rw [h] at hml; revert hml; decide
  unfold Contents.GetContents
  simp only [h1, h2, Bool.or_self, Bool.false_eq_true, if_false, hdc, hml, if_true]
  refine ⟨((if c.m_InvalidReg1 = true then "?" else intToStr c.m_Reg1)
    ++ (if c.m_InvalidReg2 = true then "?" ++ "00000"
      else if c.m_Reg2 ≥ 0 then intToStr c.m_Reg2 ++ "00000" else "")
    ++ (if c.m_InvalidAddr = true then "??????"
      else if c.m_Addr ≥ 0 then padLeft 6 '0' (natToStr c.m_Addr.natAbs) else "")).data, ?_⟩
  simp only [String.data_append, List.append_assoc]
  rfl

/-- The contents of a statement without op code and value flag whose op code is beyond HALT
and not DC are empty. -/
theorem GetContents_empty (c : Contents) (h1 : c.m_InvalidOpCode = false)
    (h2 : c.m_InvalidValue = false) (hdc : c.m_OpCode ≠ OC_DC)
    (hml : ¬ c.m_OpCode.ord ≤ OC_HALT.ord) : c.GetContents = "" := by
  unfold Contents.GetContents
  simp only [h1, h2, Bool.or_self, Bool.false_eq_true, if_false, hdc, hml]
  rfl

/-- The contents of a DC statement without op code and value flag. -/
theorem GetContents_DC (c : Contents) (h1 : c.m_InvalidOpCode = false)
    (h2 : c.m_InvalidValue = false) (hdc : c.m_OpCode = OC_DC) :
    c.GetContents.data = (if c.m_Val < 0 then ['-'] else [])
      ++ (padLeft 9 '0' (intToStr (abs32 c.m_Val))).data := by
  have hnot : ¬ OC_DC.ord ≤ OC_HALT.ord := by decide
  unfold Contents.GetContents
  simp only [h1, h2, Bool.or_self, Bool.false_eq_true, if_false, hdc, if_true, hnot,
    String.data_append]
  split_ifs
  · rw [List.append_nil]
  · rw [List.append_nil]

/-- The text of `setw(w) << setfill('0') << n` consists of digits, at least one. -/
theorem padNat_digits (w n : Nat) :
    (padLeft w '0' (natToStr n)).data ≠ [] ∧
    (∀ c ∈ (padLeft w '0' (natToStr n)).data, isdigit c = true) := by
  obtain ⟨L, hL, hne, hdig, _, _⟩ := toDigitsCore_spec (n + 1) n [] (by omega)
  rw [List.append_nil] at hL
  have hdata : (padLeft w '0' (natToStr n)).data = List.replicate (w - L.length) '0' ++ L := by
    show (String.mk _ ++ natToStr n).data = _
    rw [String.data_append]
    show List.replicate (w - (Nat.toDigitsCore 10 (n + 1) n []).length) '0'
      ++ Nat.toDigitsCore 10 (n + 1) n [] = _
    rw [hL]
  rw [hdata]
  constructor
  · intro h0
    exact hne (List.append_eq_nil.mp h0).2
  · intro c hc
    rw [List.mem_append] at hc
    rcases hc with hc | hc
    · rw [(List.mem_replicate.mp hc).2]; decide
    · exact hdig c hc

theorem digits_ne_placeholder (l rest : List Char) (hne : l ≠ [])
    (hd : ∀ c ∈ l, isdigit c = true) : l ++ rest ≠ "?????????".data := by
  obtain ⟨c, cs, rfl⟩ := List.exists_cons_of_ne_nil hne
  intro h
  have hc := hd c (List.mem_cons_self _ _)
  have h1 : c = '?' := by
    have := congrArg List.head? h
    simpa using this
  rw [h1] at hc
  revert hc
  decide


/-- The five flags and the op code after a parse: the four operand flags are clear, the op
code flag is set exactly for the op code ERR. -/
theorem ParseInstruction_flags (i0 : Instruction) (errs0 : List String) (line : String)
    (st : InstructionType) (i : Instruction) (e : List String)
    (h : Instruction.ParseInstruction i0 errs0 line = some (st, i, e)) :
    i.m_InvalidReg1 = false ∧ i.m_InvalidReg2 = false ∧ i.m_InvalidAddr = false ∧
    i.m_InvalidValue = false ∧ i.m_InvalidOpCode = decide (i.m_NumOpCode = OC_ERR) ∧
    st = classOf i.m_NumOpCode := by
  obtain ⟨h1, h2, h3, h4, _⟩ := ParseInstruction_operands i0 errs0 line st i e h
  obtain ⟨f, hr, hst, _⟩ := ParseInstruction_fields i0 errs0 line st i e h
  obtain ⟨_, _, _, _, hty, hio, _, _, _⟩ := RecordFields_fields _ _ _ _ hr
  exact ⟨h1, h2, h3, h4, hio, hst.trans hty⟩

/-- C23, the claim as stated fails: the line " DC abc" has the known mnemonic DC as its op
code token and is classified AssemblerInstr, not Error, yet the contents of its translated
statement are "?????????": the invalid-value flag produces the placeholders as well. -/
theorem C23_dc_placeholder_without_err :
    Instruction.ParseInstruction {} [] " DC abc"
      = some (ST_AssemblerInstr, dcTextParse.2.1, dcTextParse.2.2) ∧
    opcodeToken " DC abc" = "DC" ∧ "DC" ∈ mnemonics ∧
    dcTextParse.2.1.m_NumOpCode = OC_DC ∧
    (dcTextParse.2.1.Translate dcTextParse.2.2 0 oneSymbolTable).1.m_Contents.GetContents
      = "?????????" := by
  refine ⟨rfl, ?_, ?_, rfl, ?_⟩ <;> decide

/-- C23 (placeholder contents, amended): whenever `ParseInstruction` returns, for every symbol
table the contents of the statement that `Translate` builds are "?????????" if and only if
the line is classified Error (its numeric op code is ERR: the line has a token and its op code
token is none of the 21 mnemonics), or the line is a DC or DS whose invalid-value flag
`Translate` sets. -/
theorem C23_placeholder_contents (i0 : Instruction) (errs0 : List String) (line : String)
    (st : InstructionType) (i : Instruction) (e : List String)
    (h : Instruction.ParseInstruction i0 errs0 line = some (st, i, e))
    (T : SymbolTable) (loc : Int) :
    ((i.Translate e loc T).1.m_Contents.GetContents = "?????????" ↔
      (st = ST_Error ∨ ((i.m_NumOpCode = OC_DC ∨ i.m_NumOpCode = OC_DS) ∧
        (i.Translate e loc T).1.m_Contents.m_InvalidValue = true))) ∧
    (st = ST_Error ↔ i.m_NumOpCode = OC_ERR) ∧
    (st = ST_Error ↔
      (lineTokens line ≠ [] ∧
        ∀ m ∈ mnemonics, equalsIgnoringCase (opcodeToken line) m = false)) := by
  obtain ⟨_, _, _, hV, hOpFlag, hst⟩ := ParseInstruction_flags i0 errs0 line st i e h
  obtain ⟨b1, b2, b3⟩ := Translate_contents_basic i e loc T
  have hcls : st = ST_Error ↔ i.m_NumOpCode = OC_ERR := by
    rw [hst]
    cases i.m_NumOpCode <;> simp [classOf]
  refine ⟨?_, hcls, classified_error_iff i0 errs0 line st i e h⟩
  rw [hcls]
  generalize (i.Translate e loc T).1.m_Contents = c at b1 b2 b3 ⊢
  constructor
  · intro hq
    by_cases herr : i.m_NumOpCode = OC_ERR
    · exact Or.inl herr
    · right
      have hio : c.m_InvalidOpCode = false := by
        rw [b2, hOpFlag]; exact decide_eq_false herr
      by_cases hdcds : i.m_NumOpCode = OC_DC ∨ i.m_NumOpCode = OC_DS
      · refine ⟨hdcds, ?_⟩
        cases hiv : c.m_InvalidValue with
        | true => rfl
        | false =>
          exfalso
          rcases hdcds with hdc | hds
          · have hg := GetContents_DC c hio hiv (b1.trans hdc)
            rw [hq] at hg
            by_cases hneg : c.m_Val < 0
            · rw [if_pos hneg] at hg
              have hh : some '?' = some '-' := congrArg List.head? hg
              exact absurd hh (by decide)
            · rw [if_neg hneg, List.nil_append] at hg
              have hmin : c.m_Val ≠ -2147483648 := by omega
              obtain ⟨n, hn⟩ := Int.eq_ofNat_of_zero_le (show 0 ≤ c.m_Val by omega)
              have habs : intToStr (abs32 c.m_Val) = natToStr n := by
                rw [abs32_eq _ hmin, hn, abs_of_nonneg (by omega), intToStr_nat]
              rw [habs] at hg
              obtain ⟨hne, hd⟩ := padNat_digits 9 n
              have := digits_ne_placeholder _ [] hne hd
              rw [List.append_nil] at this
              exact this hg.symm
          · have hg := GetContents_empty c hio hiv (by rw [b1, hds]; decide)
              (by rw [b1, hds]; decide)
            rw [hq] at hg
            exact absurd hg (by decide)
      · exfalso
        have hiv : c.m_InvalidValue = false := by
          rw [b3 (fun hx => hdcds (Or.inl hx)) (fun hx => hdcds (Or.inr hx))]
          exact hV
        by_cases hml : c.m_OpCode.ord ≤ OC_HALT.ord
        · obtain ⟨rest, hg⟩ := GetContents_ML_head c hio hiv hml
          rw [hq] at hg
          obtain ⟨hne, hd⟩ := padNat_digits 2 c.m_OpCode.ord
          exact digits_ne_placeholder _ rest hne hd hg.symm
        · have hg := GetContents_empty c hio hiv
            (by rw [b1]; exact fun hx => hdcds (Or.inl hx)) hml
          rw [hq] at hg
          exact absurd hg (by decide)
  · rintro (herr | ⟨_, hiv⟩)
    · exact GetContents_placeholder c (Or.inl (by rw [b2, hOpFlag]; exact decide_eq_true herr))
    · exact GetContents_placeholder c (Or.inr hiv)

/-- The statement of C23 at the line " JUMP 1 X", whose op code token is no mnemonic. -/
theorem C23_placeholder_contents_witness :
    Instruction.ParseInstruction {} [] " JUMP 1 X"
      = some (ST_Error, jumpLineParse.2.1, jumpLineParse.2.2) ∧
    (jumpLineParse.2.1.Translate jumpLineParse.2.2 0 oneSymbolTable).1.m_Contents.GetContents
      = "?????????" := by
  have hp : Instruction.ParseInstruction {} [] " JUMP 1 X"
      = some (ST_Error, jumpLineParse.2.1, jumpLineParse.2.2) := rfl
  exact ⟨hp, (C23_placeholder_contents {} [] " JUMP 1 X" _ _ _ hp oneSymbolTable 0).1.mpr
    (Or.inl rfl)⟩

/-! ### The numeric contents of a translated statement -/

/-- What `GetNumContents` returns for contents with a '?' and for empty contents. -/
theorem GetNumContents_special (s : TransStmt) :
    (s.m_Contents.GetContents.data.contains '?' = true → s.GetNumContents = some (-1)) ∧
    (s.m_Contents.GetContents.data = [] → s.GetNumContents = some 0) := by
  unfold TransStmt.GetNumContents
  constructor
  · intro hq
    have hne : s.m_Contents.GetContents.data.isEmpty = false := by
      cases hd : s.m_Contents.GetContents.data with
      | nil => rw [hd] at hq; cases hq
      | cons c cs => rfl
    simp only [hne, hq, Bool.false_eq_true, if_false, if_true]
  · intro he
    simp only [he, List.isEmpty_nil, if_true]

/-- The statement that `Translate` builds for a machine-language op code: no op code flag and
no value flag; a register whose flag is clear is a digit 0..9 (register 2 may also be the
unused -1); register 2 or the address is the unused -1. -/
theorem Translate_ML_shape (i0 : Instruction) (errs0 : List String) (line : String)
    (st : InstructionType) (i : Instruction) (e : List String)
    (h : Instruction.ParseInstruction i0 errs0 line = some (st, i, e))
    (hord : 1 ≤ i.m_NumOpCode.ord ∧ i.m_NumOpCode.ord ≤ 17) (T : SymbolTable) (loc : Int) :
    (i.Translate e loc T).1.m_Contents.m_OpCode = i.m_NumOpCode ∧
    (i.Translate e loc T).1.m_Contents.m_InvalidOpCode = false ∧
    (i.Translate e loc T).1.m_Contents.m_InvalidValue = false ∧
    ((i.Translate e loc T).1.m_Contents.m_InvalidReg1 = false →
      0 ≤ (i.Translate e loc T).1.m_Contents.m_Reg1 ∧
      (i.Translate e loc T).1.m_Contents.m_Reg1 ≤ 9) ∧
    ((i.Translate e loc T).1.m_Contents.m_InvalidReg2 = false →
      (i.Translate e loc T).1.m_Contents.m_Reg2 = -1 ∨
      (0 ≤ (i.Translate e loc T).1.m_Contents.m_Reg2 ∧
        (i.Translate e loc T).1.m_Contents.m_Reg2 ≤ 9)) ∧
    ((i.Translate e loc T).1.m_Contents.m_Reg2 = -1 ∨
      (i.Translate e loc T).1.m_Contents.m_Addr = -1) := by
  obtain ⟨hR1, hR2, hA, hV, hOpFlag, _⟩ := ParseInstruction_flags i0 errs0 line st i e h
  obtain ⟨b1, b2, b3⟩ := Translate_contents_basic i e loc T
  have herr : i.m_NumOpCode ≠ OC_ERR := by
    intro hc; rw [hc] at hord; revert hord; decide
  have hdc : i.m_NumOpCode ≠ OC_DC := by
    intro hc; rw [hc] at hord; revert hord; decide
  have hds : i.m_NumOpCode ≠ OC_DS := by
    intro hc; rw [hc] at hord; revert hord; decide
  have hio : (i.Translate e loc T).1.m_Contents.m_InvalidOpCode = false := by
    rw [b2, hOpFlag]; exact decide_eq_false herr
  have hiv : (i.Translate e loc T).1.m_Contents.m_InvalidValue = false := by
    rw [b3 hdc hds]; exact hV
  refine ⟨b1, hio, hiv, ?_⟩
  have hfam : isRegAddrOp i.m_NumOpCode = true ∨ isRegRegOp i.m_NumOpCode = true
      ∨ i.m_NumOpCode = OC_HALT := by
    revert hord
    cases i.m_NumOpCode <;> decide
  rcases hfam with hfam | hfam | hfam
  · rw [Translate_regAddr i e loc T hfam]
    obtain ⟨_, c2, _, _, c5, _, _, _, _⟩ := TranslateRegAddr_checks i e loc T hA hR1
    obtain ⟨_, _, _, d4, d5, _⟩ := TranslateRegAddr_basic i e loc T
    refine ⟨?_, fun _ => Or.inl d5, Or.inl d5⟩
    intro hfl
    rw [c5]
    constructor
    · by_contra hc
      have := c2.mpr (Or.inr (Or.inr (Or.inr (by omega))))
      rw [hfl] at this
      exact Bool.noConfusion this
    · by_contra hc
      have := c2.mpr (Or.inr (Or.inr (Or.inl (by omega))))
      rw [hfl] at this
      exact Bool.noConfusion this
  · rw [Translate_regReg i e loc T hfam]
    obtain ⟨c1, c2, _, _, _⟩ := RecordErrRegisterRegister_checks i e hR1 hR2
    obtain ⟨hs, _⟩ := RecordErrRegisterRegister_spec i e
    have hv1 : (i.RecordErrRegisterRegister e).1.m_Operand1NumericValue
        = i.m_Operand1NumericValue := hs.2.2.2.2.2.2.2.1
    have hv2 : (i.RecordErrRegisterRegister e).1.m_Operand2NumericValue
        = i.m_Operand2NumericValue := hs.2.2.2.2.2.2.2.2.2
    refine ⟨?_, ?_, Or.inr rfl⟩
    · intro hfl
      have hfl1 : (i.RecordErrRegisterRegister e).1.m_InvalidReg1 = false := hfl
      show 0 ≤ (i.RecordErrRegisterRegister e).1.m_Operand1NumericValue
        ∧ (i.RecordErrRegisterRegister e).1.m_Operand1NumericValue ≤ 9
      rw [hv1]
      constructor
      · by_contra hc
        have := c1.mpr (Or.inr (Or.inr (Or.inr (by omega))))
        rw [hfl1] at this
        exact Bool.noConfusion this
      · by_contra hc
        have := c1.mpr (Or.inr (Or.inr (Or.inl (by omega))))
        rw [hfl1] at this
        exact Bool.noConfusion this
    · intro hfl
      have hfl2 : (i.RecordErrRegisterRegister e).1.m_InvalidReg2 = false := hfl
      right
      show 0 ≤ (i.RecordErrRegisterRegister e).1.m_Operand2NumericValue
        ∧ (i.RecordErrRegisterRegister e).1.m_Operand2NumericValue ≤ 9
      rw [hv2]
      constructor
      · by_contra hc
        have := c2.mpr (Or.inr (Or.inr (Or.inr (by omega))))
        rw [hfl2] at this
        exact Bool.noConfusion this
      · by_contra hc
        have := c2.mpr (Or.inr (Or.inr (Or.inl (by omega))))
        rw [hfl2] at this
        exact Bool.noConfusion this
  · have ht : i.Translate e loc T =
        (i.mkStmt loc 0 (-1) 0 (-1), i, (i.RecordErrHalt e).2) := by
      unfold Instruction.Translate
      rw [hfam]
      simp only [RecordErrHalt_fst]
    rw [ht]
    have h0 : (i.mkStmt loc 0 (-1) 0 (-1)).m_Contents.m_Reg1 = 0 := rfl
    refine ⟨fun _ => ?_, fun _ => Or.inl rfl, Or.inl rfl⟩
    show 0 ≤ (i.mkStmt loc 0 (-1) 0 (-1)).m_Contents.m_Reg1
      ∧ (i.mkStmt loc 0 (-1) 0 (-1)).m_Contents.m_Reg1 ≤ 9
    rw [h0]
    exact ⟨by decide, by decide⟩

theorem digitVal_le (c : Char) (h : isdigit c = true) : digitVal c ≤ 9 := by
  simp only [isdigit, Bool.and_eq_true, decide_eq_true_eq] at h
  unfold digitVal
  omega

theorem digitsValue_lt (l : List Char) : ∀ acc : Nat, (∀ c ∈ l, isdigit c = true) →
    digitsValue acc l < (acc + 1) * 10 ^ l.length := by
  induction l with
  | nil => intro acc _; show acc < (acc + 1) * 10 ^ 0; omega
  | cons c cs ih =>
    intro acc hd
    have hc := digitVal_le c (hd c (List.mem_cons_self _ _))
    have := ih (acc * 10 + digitVal c) (fun x hx => hd x (List.mem_cons_of_mem _ hx))
    show digitsValue (acc * 10 + digitVal c) cs < _
    rw [List.length_cons, pow_succ]
    calc digitsValue (acc * 10 + digitVal c) cs
        < (acc * 10 + digitVal c + 1) * 10 ^ cs.length := this
      _ ≤ ((acc + 1) * 10) * 10 ^ cs.length := Nat.mul_le_mul_right _ (by omega)
      _ = (acc + 1) * (10 ^ cs.length * 10) := by ring

/-- The length of the text of `setw(w) << setfill('0') << n` for `n < 10 ^ k`. -/
theorem padNat_length (w k n : Nat) (hk : 0 < k) (hn : n < 10 ^ k) :
    (padLeft w '0' (natToStr n)).data.length ≤ max w k := by
  obtain ⟨L, hL, _, _, _, hlen⟩ := toDigitsCore_spec (n + 1) n [] (by omega)
  rw [List.append_nil] at hL
  have hdata : (padLeft w '0' (natToStr n)).data = List.replicate (w - L.length) '0' ++ L := by
    show (String.mk _ ++ natToStr n).data = _
    rw [String.data_append]
    show List.replicate (w - (Nat.toDigitsCore 10 (n + 1) n []).length) '0'
      ++ Nat.toDigitsCore 10 (n + 1) n [] = _
    rw [hL]
  have := hlen k hk hn
  rw [hdata, List.length_append, List.length_replicate]
  omega

/-- Numeric contents of digits only are not negative. -/
theorem getNumContents_digits_nonneg (t : TransStmt) (l : List Char)
    (h : t.m_Contents.GetContents.data = l) (hne : l ≠ [])
    (hd : ∀ c ∈ l, isdigit c = true) (v : Int) (hv : t.GetNumContents = some v) : 0 ≤ v := by
  subst h
  have hq : t.m_Contents.GetContents.data.contains '?' = false := by
    rw [List.contains_eq_any_beq, List.any_eq_false]
    intro c hc hb
    have := hd c hc
    rw [beq_iff_eq] at hb
    rw [← hb] at this
    revert this; decide
  have he : t.m_Contents.GetContents.data.isEmpty = false := by
    cases hl : t.m_Contents.GetContents.data with
    | nil => exact absurd hl hne
    | cons c cs => rfl
  unfold TransStmt.GetNumContents at hv
  simp only [he, hq, Bool.false_eq_true, if_false] at hv
  unfold stoll at hv
  rw [strtoInt_digits _ hne hd] at hv
  simp only at hv
  split_ifs at hv with hr
  cases hv
  exact Int.ofNat_nonneg _

/-- The contents of a statement without op code and value flag whose op code has an ordinal
up to 17: op code, register 1, register 2 and address parts. -/
theorem GetContents_ML_data (c : Contents) (h1 : c.m_InvalidOpCode = false)
    (h2 : c.m_InvalidValue = false) (hml : c.m_OpCode.ord ≤ OC_HALT.ord) :
    c.GetContents.data =
      (padLeft 2 '0' (natToStr c.m_OpCode.ord)).data
      ++ ((if c.m_InvalidReg1 = true then "?" else intToStr c.m_Reg1).data
      ++ ((if c.m_InvalidReg2 = true then "?" ++ "00000"
          else if c.m_Reg2 ≥ 0 then intToStr c.m_Reg2 ++ "00000" else "").data
      ++ (if c.m_InvalidAddr = true then "??????"
          else if c.m_Addr ≥ 0 then padLeft 6 '0' (natToStr c.m_Addr.natAbs) else "").data)) := by
  have hdc : c.m_OpCode ≠ OC_DC := by
    intro h; rw [h] at hml; revert hml; decide
  unfold Contents.GetContents
  simp only [h1, h2, Bool.or_self, Bool.false_eq_true, if_false, hdc, hml, if_true]
  simp only [String.data_append, List.append_assoc]
  rfl

/-- Numeric contents of a statement without op code and value flag whose op code has an
ordinal up to 17 and whose unflagged registers are digits: -1 exactly when a register or
address flag is set; without such a flag, and with an address that fits an `int`, a value
that is not negative. -/
theorem GetNumContents_ML (s : TransStmt) (h1 : s.m_Contents.m_InvalidOpCode = false)
    (h2 : s.m_Contents.m_InvalidValue = false) (hml : s.m_Contents.m_OpCode.ord ≤ OC_HALT.ord)
    (hr1 : s.m_Contents.m_InvalidReg1 = false →
      0 ≤ s.m_Contents.m_Reg1 ∧ s.m_Contents.m_Reg1 ≤ 9)
    (hr2 : s.m_Contents.m_InvalidReg2 = false →
      s.m_Contents.m_Reg2 = -1 ∨ (0 ≤ s.m_Contents.m_Reg2 ∧ s.m_Contents.m_Reg2 ≤ 9)) :
    (s.GetNumContents = some (-1) ↔
      (s.m_Contents.m_InvalidReg1 = true ∨ s.m_Contents.m_InvalidReg2 = true
        ∨ s.m_Contents.m_InvalidAddr = true)) ∧
    (s.m_Contents.m_InvalidReg1 = false → s.m_Contents.m_InvalidReg2 = false →
      s.m_Contents.m_InvalidAddr = false →
      s.m_Contents.m_Reg2 = -1 ∨ s.m_Contents.m_Addr = -1 →
      s.m_Contents.m_Addr ≤ 2147483647 →
      ∃ v, s.GetNumContents = some v ∧ 0 ≤ v) := by
  have hdata := GetContents_ML_data s.m_Contents h1 h2 hml
  have hq1 : '?' ∈ "?".data := by decide
  have hq2 : '?' ∈ ("?" ++ "00000").data := by decide
  have hq3 : '?' ∈ "??????".data := by decide
  have h5 : ∀ c ∈ "00000".data, isdigit c = true := by decide
  have hflag : (s.m_Contents.m_InvalidReg1 = true ∨ s.m_Contents.m_InvalidReg2 = true
      ∨ s.m_Contents.m_InvalidAddr = true) → s.GetNumContents = some (-1) := by
    intro hf
    apply (GetNumContents_special s).1
    rw [List.contains_eq_any_beq, List.any_eq_true]
    refine ⟨'?', ?_, beq_self_eq_true _⟩
    rw [hdata]
    rcases hf with hf | hf | hf
    · rw [if_pos hf]
      exact List.mem_append_right _ (List.mem_append_left _ hq1)
    · rw [if_pos hf]
      exact List.mem_append_right _ (List.mem_append_right _ (List.mem_append_left _ hq2))
    · rw [if_pos hf]
      exact List.mem_append_right _ (List.mem_append_right _ (List.mem_append_right _ hq3))
  -- the contents without flags
  have hclean : s.m_Contents.m_InvalidReg1 = false → s.m_Contents.m_InvalidReg2 = false →
      s.m_Contents.m_InvalidAddr = false →
      ∃ B C : List Char, s.m_Contents.GetContents.data =
          (padLeft 2 '0' (natToStr s.m_Contents.m_OpCode.ord)).data
            ++ ([Nat.digitChar s.m_Contents.m_Reg1.toNat] ++ (B ++ C)) ∧
        (∀ c ∈ B, isdigit c = true) ∧ (∀ c ∈ C, isdigit c = true) ∧ B.length ≤ 6 ∧
        (s.m_Contents.m_Reg2 = -1 → B = []) ∧ (s.m_Contents.m_Addr = -1 → C = []) ∧
        (s.m_Contents.m_Addr ≤ 2147483647 → C.length ≤ 10) := by
    intro f1 f2 f3
    obtain ⟨r1lo, r1hi⟩ := hr1 f1
    obtain ⟨r, hr⟩ := Int.eq_ofNat_of_zero_le r1lo
    have hA : (intToStr s.m_Contents.m_Reg1).data = [Nat.digitChar s.m_Contents.m_Reg1.toNat] := by
      rw [hr, intToStr_digit r (by omega)]
      rfl
    have hfalse : ∀ b : Bool, b = false → ¬ b = true := by
      intro b hb; rw [hb]; exact Bool.false_ne_true
    rw [if_neg (hfalse _ f1), if_neg (hfalse _ f2), if_neg (hfalse _ f3), hA] at hdata
    refine ⟨_, _, hdata, ?_, ?_, ?_, ?_, ?_, ?_⟩
    · intro c hc
      rcases hr2 f2 with h | ⟨lo, hi⟩
      · rw [h] at hc
        exact absurd hc (by simp)
      · obtain ⟨r2, hr2e⟩ := Int.eq_ofNat_of_zero_le lo
        rw [if_pos (by omega), String.data_append, hr2e, intToStr_digit r2 (by omega)] at hc
        rcases List.mem_append.mp hc with hc | hc
        · rw [List.mem_singleton] at hc
          rw [hc]
          exact (digitChar_spec r2 (by omega)).1
        · exact h5 c hc
    · intro c hc
      by_cases ha : s.m_Contents.m_Addr ≥ 0
      · rw [if_pos ha] at hc
        exact (padNat_digits 6 _).2 c hc
      · rw [if_neg ha] at hc
        exact absurd hc (by simp)
    · rcases hr2 f2 with h | ⟨lo, hi⟩
      · rw [h]
        decide
      · obtain ⟨r2, hr2e⟩ := Int.eq_ofNat_of_zero_le lo
        rw [if_pos (by omega), String.data_append, hr2e, intToStr_digit r2 (by omega),
          List.length_append, List.length_singleton]
        decide
    · intro h
      rw [h]
      rfl
    · intro h
      rw [h]
      rfl
    · intro hb
      by_cases ha : s.m_Contents.m_Addr ≥ 0
      · rw [if_pos ha]
        have := padNat_length 6 10 s.m_Contents.m_Addr.natAbs (by decide) (by omega)
        exact this.trans (by decide)
      · rw [if_neg ha]
        decide
  constructor
  · constructor
    · intro hm
      by_contra hno
      have f1 : s.m_Contents.m_InvalidReg1 = false := by
        cases hb : s.m_Contents.m_InvalidReg1 with
        | false => rfl
        | true => exact absurd (Or.inl hb) hno
      have f2 : s.m_Contents.m_InvalidReg2 = false := by
        cases hb : s.m_Contents.m_InvalidReg2 with
        | false => rfl
        | true => exact absurd (Or.inr (Or.inl hb)) hno
      have f3 : s.m_Contents.m_InvalidAddr = false := by
        cases hb : s.m_Contents.m_InvalidAddr with
        | false => rfl
        | true => exact absurd (Or.inr (Or.inr hb)) hno
      obtain ⟨B, C, hd, hB, hC, _⟩ := hclean f1 f2 f3
      obtain ⟨r1lo, r1hi⟩ := hr1 f1
      have hdig : ∀ c ∈ (padLeft 2 '0' (natToStr s.m_Contents.m_OpCode.ord)).data
          ++ ([Nat.digitChar s.m_Contents.m_Reg1.toNat] ++ (B ++ C)), isdigit c = true := by
        intro c hc
        rcases List.mem_append.mp hc with hc | hc
        · exact (padNat_digits 2 _).2 c hc
        · rcases List.mem_append.mp hc with hc | hc
          · rw [List.mem_singleton] at hc
            rw [hc]
            exact (digitChar_spec _ (by omega)).1
          · rcases List.mem_append.mp hc with hc | hc
            · exact hB c hc
            · exact hC c hc
      have hne : (padLeft 2 '0' (natToStr s.m_Contents.m_OpCode.ord)).data
          ++ ([Nat.digitChar s.m_Contents.m_Reg1.toNat] ++ (B ++ C)) ≠ [] := by
        intro h0
        exact (padNat_digits 2 _).1 (List.append_eq_nil.mp h0).1
      have := getNumContents_digits_nonneg s _ hd hne hdig (-1) hm
      omega
    · exact hflag
  · intro f1 f2 f3 hun hb
    obtain ⟨B, C, hd, hB, hC, hBl, hB0, hC0, hCl⟩ := hclean f1 f2 f3
    obtain ⟨r1lo, r1hi⟩ := hr1 f1
    have hdig : ∀ c ∈ (padLeft 2 '0' (natToStr s.m_Contents.m_OpCode.ord)).data
        ++ ([Nat.digitChar s.m_Contents.m_Reg1.toNat] ++ (B ++ C)), isdigit c = true := by
      intro c hc
      rcases List.mem_append.mp hc with hc | hc
      · exact (padNat_digits 2 _).2 c hc
      · rcases List.mem_append.mp hc with hc | hc
        · rw [List.mem_singleton] at hc
          rw [hc]
          exact (digitChar_spec _ (by omega)).1
        · rcases List.mem_append.mp hc with hc | hc
          · exact hB c hc
          · exact hC c hc
    have hne : (padLeft 2 '0' (natToStr s.m_Contents.m_OpCode.ord)).data
        ++ ([Nat.digitChar s.m_Contents.m_Reg1.toNat] ++ (B ++ C)) ≠ [] := by
      intro h0
      exact (padNat_digits 2 _).1 (List.append_eq_nil.mp h0).1
    have hlen2 : (padLeft 2 '0' (natToStr s.m_Contents.m_OpCode.ord)).data.length = 2 := by
      have hord : s.m_Contents.m_OpCode.ord < 10 ^ 2 := by
        have : s.m_Contents.m_OpCode.ord ≤ 17 := hml
        omega
      exact (field_spec 2 _ (by decide) hord).1
    have hlen : ((padLeft 2 '0' (natToStr s.m_Contents.m_OpCode.ord)).data
        ++ ([Nat.digitChar s.m_Contents.m_Reg1.toNat] ++ (B ++ C))).length ≤ 13 := by
      have hC10 := hCl hb
      simp only [List.length_append, List.length_singleton, hlen2]
      rcases hun with h | h
      · rw [hB0 h]
        simp only [List.length_nil]
        omega
      · rw [hC0 h]
        simp only [List.length_nil]
        omega
    have hval := digitsValue_lt _ 0 hdig
    have hpow : 10 ^ ((padLeft 2 '0' (natToStr s.m_Contents.m_OpCode.ord)).data
        ++ ([Nat.digitChar s.m_Contents.m_Reg1.toNat] ++ (B ++ C))).length ≤ 10 ^ 13 :=
      Nat.pow_le_pow_right (by decide) hlen
    refine ⟨_, getNumContents_digits s _ hd hne hdig ?_, Int.ofNat_nonneg _⟩
    have h13 : (10 : Nat) ^ 13 = 10000000000000 := by norm_num
    omega

/-- C24 (placeholder contents decode to -1): for every statement, `GetNumContents` returns -1
when the contents contain a '?' and 0 when the contents are empty; and for every line that
parses to a machine-language op code (ordinal 1..17) and every symbol table, `GetNumContents`
of the statement `Translate` builds returns -1 if and only if at least one validity flag is
set; when none is set (and the address fits an `int`) it returns a value that is not
negative. -/
theorem C24_placeholder_decodes (i0 : Instruction) (errs0 : List String) (line : String)
    (st : InstructionType) (i : Instruction) (e : List String)
    (h : Instruction.ParseInstruction i0 errs0 line = some (st, i, e))
    (hord : 1 ≤ i.m_NumOpCode.ord ∧ i.m_NumOpCode.ord ≤ 17) (T : SymbolTable) (loc : Int) :
    (∀ t : TransStmt,
      (t.m_Contents.GetContents.data.contains '?' = true → t.GetNumContents = some (-1)) ∧
      (t.m_Contents.GetContents.data = [] → t.GetNumContents = some 0)) ∧
    ((i.Translate e loc T).1.GetNumContents = some (-1) ↔
      ((i.Translate e loc T).1.m_Contents.m_InvalidOpCode = true
        ∨ (i.Translate e loc T).1.m_Contents.m_InvalidReg1 = true
        ∨ (i.Translate e loc T).1.m_Contents.m_InvalidReg2 = true
        ∨ (i.Translate e loc T).1.m_Contents.m_InvalidAddr = true
        ∨ (i.Translate e loc T).1.m_Contents.m_InvalidValue = true)) ∧
    ((i.Translate e loc T).1.m_Contents.m_InvalidReg1 = false →
      (i.Translate e loc T).1.m_Contents.m_InvalidReg2 = false →
      (i.Translate e loc T).1.m_Contents.m_InvalidAddr = false →
      (i.Translate e loc T).1.m_Contents.m_Addr ≤ 2147483647 →
      ∃ v, (i.Translate e loc T).1.GetNumContents = some v ∧ 0 ≤ v) := by
  obtain ⟨s1, s2, s3, s4, s5, s6⟩ := Translate_ML_shape i0 errs0 line st i e h hord T loc
  have hml : (i.Translate e loc T).1.m_Contents.m_OpCode.ord ≤ OC_HALT.ord := by
    rw [s1]; exact hord.2
  obtain ⟨g1, g2⟩ := GetNumContents_ML (i.Translate e loc T).1 s2 s3 hml s4 s5
  refine ⟨GetNumContents_special, ?_, fun f1 f2 f3 hb => g2 f1 f2 f3 s6 hb⟩
  rw [g1, s2, s3]
  constructor
  · rintro (hf | hf | hf)
    · exact Or.inr (Or.inl hf)
    · exact Or.inr (Or.inr (Or.inl hf))
    · exact Or.inr (Or.inr (Or.inr (Or.inl hf)))
  · rintro (hf | hf | hf | hf | hf)
    · exact absurd hf Bool.false_ne_true
    · exact Or.inl hf
    · exact Or.inr (Or.inl hf)
    · exact Or.inr (Or.inr hf)
    · exact absurd hf Bool.false_ne_true

/-- The statement of C24 at the line " LOAD 1 X", with a table that binds `X` to 5 and with
an empty table. -/
theorem C24_placeholder_decodes_witness :
    Instruction.ParseInstruction {} [] " LOAD 1 X"
      = some (loadLineParse.1, loadLineParse.2.1, loadLineParse.2.2) ∧
    (1 ≤ loadLineParse.2.1.m_NumOpCode.ord ∧ loadLineParse.2.1.m_NumOpCode.ord ≤ 17) ∧
    (loadLineParse.2.1.Translate loadLineParse.2.2 100 oneSymbolTable).1.GetNumContents
      = some 51000005 ∧
    (loadLineParse.2.1.Translate loadLineParse.2.2 100
      { multiplyDefinedSymbol := -999 }).1.GetNumContents = some (-1) := by
  have hp : Instruction.ParseInstruction {} [] " LOAD 1 X"
      = some (loadLineParse.1, loadLineParse.2.1, loadLineParse.2.2) := rfl
  have hord : 1 ≤ loadLineParse.2.1.m_NumOpCode.ord ∧ loadLineParse.2.1.m_NumOpCode.ord ≤ 17 :=
    by decide
  have h2 := (C24_placeholder_decodes {} [] " LOAD 1 X" _ _ _ hp hord
    { multiplyDefinedSymbol := -999 } 100).2.1
  exact ⟨hp, hord, by decide, h2.mpr (Or.inr (Or.inr (Or.inr (Or.inl (by decide)))))⟩

/-! ### Messages in an error text -/

theorem isPrefixOf_sep (sep : Char) (b : List Char) :
    ∀ (pat a : List Char), sep ∉ pat → pat.isPrefixOf (a ++ sep :: b) = true →
      pat.isPrefixOf a = true := by
  intro pat
  induction pat with
  | nil => intro a _ _; simp
  | cons p ps ih =>
    intro a hs h
    have hps : sep ∉ ps := fun hm => hs (List.mem_cons_of_mem _ hm)
    have hp : p ≠ sep := fun he => hs (by rw [he]; exact List.mem_cons_self _ _)
    cases a with
    | nil =>
      simp only [List.nil_append, List.isPrefixOf, Bool.and_eq_true, beq_iff_eq] at h
      exact absurd h.1 hp
    | cons x xs =>
      simp only [List.cons_append, List.isPrefixOf, Bool.and_eq_true, beq_iff_eq] at h ⊢
      exact ⟨h.1, ih xs hps h.2⟩

theorem occursIn_cons (pat : List Char) (c : Char) (cs : List Char)
    (h : occursIn pat cs = true) : occursIn pat (c :: cs) = true := by
  unfold occursIn
  rw [h, Bool.or_true]

/-- A text without the separator that occurs in two texts joined by the separator occurs in
one of them. -/
theorem occursIn_sep (pat : List Char) (sep : Char) (b : List Char) (hne : pat ≠ [])
    (hs : sep ∉ pat) : ∀ a : List Char, occursIn pat (a ++ sep :: b) = true →
      occursIn pat a = true ∨ occursIn pat b = true := by
  obtain ⟨p, ps, rfl⟩ := List.exists_cons_of_ne_nil hne
  have hp : p ≠ sep := fun he => hs (by rw [he]; exact List.mem_cons_self _ _)
  intro a
  induction a with
  | nil =>
    intro h
    rw [List.nil_append] at h
    unfold occursIn at h
    rw [Bool.or_eq_true] at h
    rcases h with h | h
    · simp only [List.isPrefixOf, Bool.and_eq_true, beq_iff_eq] at h
      exact absurd h.1 hp
    · exact Or.inr h
  | cons x xs ih =>
    intro h
    rw [List.cons_append] at h
    unfold occursIn at h
    rw [Bool.or_eq_true] at h
    rcases h with h | h
    · left
      have := isPrefixOf_sep sep b (p :: ps) (x :: xs) hs h
      unfold occursIn
      rw [this, Bool.true_or]
    · rcases ih h with h1 | h1
      · exact Or.inl (occursIn_cons _ _ _ h1)
      · exact Or.inr h1

/-- A text without a newline that occurs in the error text built from the sink occurs in one
of the recorded messages. -/
theorem occursIn_GetErrors (l : List String) (pat : String) (hne : pat.data ≠ [])
    (hnl : '\n' ∉ pat.data) (h : hasMsg (Errors.GetErrors l) pat = true) :
    ∃ m ∈ l, occursIn pat.data m.data = true := by
  induction l with
  | nil =>
    unfold hasMsg at h
    simp only [Errors.GetErrors] at h
    cases hp : pat.data with
    | nil => exact absurd hp hne
    | cons c cs =>
      rw [hp] at h
      exact absurd h (by simp [occursIn])
  | cons e es ih =>
    unfold hasMsg at h
    simp only [Errors.GetErrors, String.data_append] at h
    have hd : e.data ++ "\n".data ++ (Errors.GetErrors es).data
        = e.data ++ '\n' :: (Errors.GetErrors es).data := by
      rw [List.append_assoc]; rfl
    rw [hd] at h
    rcases occursIn_sep pat.data '\n' _ hne hnl e.data h with h1 | h1
    · exact ⟨e, List.mem_cons_self _ _, h1⟩
    · obtain ⟨m, hm, hmo⟩ := ih h1
      exact ⟨m, List.mem_cons_of_mem _ hm, hmo⟩

/-! ### The messages that a line can get -/

theorem KnownMsgs_base (errs : List String) : KnownMsgs errs errs :=
  fun _ hm => Or.inl hm

theorem KnownMsgs_record (errs l : List String) (a : String) (h : KnownMsgs errs l)
    (ha : a ∈ lineMsgs) : KnownMsgs errs (Errors.RecordError l a) := by
  intro m hm
  unfold Errors.RecordError at hm
  rcases List.mem_append.mp hm with hm | hm
  · exact h m hm
  · rw [List.mem_singleton] at hm
    rw [hm]
    exact Or.inr ha

theorem RecordErrRegisterAddress_msgs (i : Instruction) (errs : List String) :
    KnownMsgs errs (i.RecordErrRegisterAddress errs).2 := by
  unfold Instruction.RecordErrRegisterAddress
  simp only
  split_ifs <;>
    repeat' (first
      | exact KnownMsgs_base _
      | refine KnownMsgs_record _ _ _ ?_ (by decide))

theorem RecordErrRegisterRegister_msgs (i : Instruction) (errs : List String) :
    KnownMsgs errs (i.RecordErrRegisterRegister errs).2 := by
  unfold Instruction.RecordErrRegisterRegister
  simp only
  split_ifs <;>
    repeat' (first
      | exact KnownMsgs_base _
      | refine KnownMsgs_record _ _ _ ?_ (by decide))

theorem RecordErrHalt_msgs (i : Instruction) (errs : List String) :
    KnownMsgs errs (i.RecordErrHalt errs).2 := by
  unfold Instruction.RecordErrHalt
  split_ifs <;>
    repeat' (first
      | exact KnownMsgs_base _
      | refine KnownMsgs_record _ _ _ ?_ (by decide))

theorem RecordErrDC_msgs (i : Instruction) (errs : List String) :
    KnownMsgs errs (i.RecordErrDC errs).2 := by
  unfold Instruction.RecordErrDC
  simp only
  split_ifs <;>
    repeat' (first
      | exact KnownMsgs_base _
      | refine KnownMsgs_record _ _ _ ?_ (by decide))

theorem RecordErrDS_msgs (i : Instruction) (errs : List String) :
    KnownMsgs errs (i.RecordErrDS errs).2 := by
  unfold Instruction.RecordErrDS
  simp only
  split_ifs <;>
    repeat' (first
      | exact KnownMsgs_base _
      | refine KnownMsgs_record _ _ _ ?_ (by decide))

theorem TranslateRegAddr_msgs (i : Instruction) (errs : List String) (loc : Int)
    (T : SymbolTable) : KnownMsgs errs (i.TranslateRegAddr errs loc T).2.2 := by
  have h := RecordErrRegisterAddress_msgs i errs
  unfold Instruction.TranslateRegAddr
  generalize i.RecordErrRegisterAddress errs = r at h
  obtain ⟨i1, e1⟩ := r
  simp only at h ⊢
  split_ifs <;>
    repeat' (first
      | exact h
      | refine KnownMsgs_record _ _ _ ?_ (by decide))

/-- Every message in the sink after `Translate` was there before or is one of `lineMsgs`. -/
theorem Translate_msgs (i : Instruction) (errs : List String) (loc : Int) (T : SymbolTable) :
    KnownMsgs errs (i.Translate errs loc T).2.2 := by
  have hra := TranslateRegAddr_msgs i errs loc T
  have hrr := RecordErrRegisterRegister_msgs i errs
  have hh := RecordErrHalt_msgs i errs
  have hdc := RecordErrDC_msgs i errs
  have hds := RecordErrDS_msgs i errs
  unfold Instruction.Translate
  cases i.m_NumOpCode <;> simp only [] <;>
    first
    | exact hra
    | exact hrr
    | exact hh
    | exact hdc
    | exact hds
    | exact KnownMsgs_base _

/-- Every message in the sink after `parseLine` is one of `lineMsgs`. -/
theorem parseLine_msgs (line : String) (st : InstructionType) (i0 : Instruction)
    (e0 : List String) (h : parseLine line = some (st, i0, e0)) : KnownMsgs [] e0 := by
  obtain ⟨f, _, _, he⟩ := ParseInstruction_fields {} [] line st i0 e0 h
  rw [he]
  intro m hm
  right
  rw [List.nil_append] at hm
  rcases List.mem_append.mp hm with hm | hm
  · split_ifs at hm
    · rw [List.mem_singleton] at hm; rw [hm]; decide
    · cases hm
  · split_ifs at hm
    · rw [List.mem_singleton] at hm; rw [hm]; decide
    · cases hm

/-! ### The end-statement check of Pass II -/

/-- Which of the two end-statement messages occur in the error text of a line whose other
messages are among `lineMsgs`. -/
theorem endCheck_hasMsg (M : List String) (hM : KnownMsgs [] M) (st : InstructionType)
    (re : Bool) :
    (hasMsg (Errors.GetErrors (M ++ endCheckMsgs st re)) "Error: Multiple end statements."
        = true ↔ (re = true ∧ st = ST_End)) ∧
    (hasMsg (Errors.GetErrors (M ++ endCheckMsgs st re))
        "Error: Additional statement following end statement." = true
      ↔ (re = true ∧ st ≠ ST_End ∧ st ≠ ST_Comment)) := by
  have hk1 : ∀ m ∈ lineMsgs,
      occursIn "Error: Multiple end statements.".data m.data = false := by decide
  have hk2 : ∀ m ∈ lineMsgs,
      occursIn "Error: Additional statement following end statement.".data m.data = false := by
    decide
  have hx1 : occursIn "Error: Multiple end statements.".data
      "Error: Additional statement following end statement.".data = false := by decide
  have hx2 : occursIn "Error: Additional statement following end statement.".data
      "Error: Multiple end statements.".data = false := by decide
  have hs1 : occursIn "Error: Multiple end statements.".data
      "Error: Multiple end statements.".data = true := by decide
  have hs2 : occursIn "Error: Additional statement following end statement.".data
      "Error: Additional statement following end statement.".data = true := by decide
  have hmem : ∀ m ∈ M, m ∈ lineMsgs := by
    intro m hm
    rcases hM m hm with h | h
    · cases h
    · exact h
  constructor
  · constructor
    · intro h
      obtain ⟨m, hm, ho⟩ := occursIn_GetErrors _ _ (by decide) (by decide) h
      rcases List.mem_append.mp hm with hm | hm
      · rw [hk1 m (hmem m hm)] at ho; cases ho
      · unfold endCheckMsgs at hm
        split_ifs at hm with h1 h2 h3
        · rw [List.mem_singleton] at hm
          exact ⟨h2, h1⟩
        · cases hm
        · rw [List.mem_singleton] at hm
          rw [hm, hx1] at ho; cases ho
        · cases hm
    · rintro ⟨hre, hst⟩
      refine hasMsg_GetErrors _ "Error: Multiple end statements." _ ?_ hs1
      apply List.mem_append_right
      unfold endCheckMsgs
      rw [if_pos hst, if_pos hre]
      exact List.mem_singleton_self _
  · constructor
    · intro h
      obtain ⟨m, hm, ho⟩ := occursIn_GetErrors _ _ (by decide) (by decide) h
      rcases List.mem_append.mp hm with hm | hm
      · rw [hk2 m (hmem m hm)] at ho; cases ho
      · unfold endCheckMsgs at hm
        split_ifs at hm with h1 h2 h3
        · rw [List.mem_singleton] at hm
          rw [hm, hx2] at ho; cases ho
        · cases hm
        · exact ⟨h3.1, h1, h3.2⟩
        · cases hm
    · rintro ⟨hre, hst, hc⟩
      refine hasMsg_GetErrors _ "Error: Additional statement following end statement." _ ?_ hs2
      apply List.mem_append_right
      unfold endCheckMsgs
      rw [if_neg hst, if_pos ⟨hre, hc⟩]
      exact List.mem_singleton_self _

/-- The statements that the loop of `PassII` appends, with the state of the latch: the
statement of the `k`-th remaining line carries "Multiple end statements" exactly when the latch
is set on arrival (it was set at the start or one of the `k` lines before is an end statement)
and the line is an end statement; it carries "Additional statement following end statement"
exactly when the latch is set on arrival and the line is neither an end statement nor a
comment or blank line. -/
theorem PassIILoop_latch : ∀ (lines : List String) (a a1 : Assembler) (loc : Int)
    (re : Bool), a.m_ErrorMsgs = [] → a.PassIILoop loc re lines = some a1 →
    ∃ new, a1.m_trans = a.m_trans ++ new ∧ new.length = lines.length ∧
      ∀ (k : Nat) (line : String), lines[k]? = some line →
        ∃ s, new[k]? = some s ∧ s.m_OrigStmt = line ∧
          (hasMsg s.m_ErrorMsg "Error: Multiple end statements." = true ↔
            ((re || (lines.take k).any isEndLine) = true ∧ isEndLine line = true)) ∧
          (hasMsg s.m_ErrorMsg "Error: Additional statement following end statement." = true ↔
            ((re || (lines.take k).any isEndLine) = true ∧ isEndLine line = false
              ∧ isCommentLine line = false)) := by
  intro lines
  induction lines with
  | nil =>
    intro a a1 loc re _ h
    simp only [Assembler.PassIILoop, Option.some.injEq] at h
    subst h
    refine ⟨[], ?_, rfl, ?_⟩
    · split_ifs <;> simp
    · intro k line hk
      simp at hk
  | cons line rest ih =>
    intro a a1 loc re h0 h
    unfold Assembler.PassIILoop at h
    cases hs : a.PassIIStep loc re line with
    | none => rw [hs] at h; cases h
    | some r =>
      obtain ⟨a2, loc2, re2⟩ := r
      rw [hs] at h
      simp only at h
      obtain ⟨st, i0, e0, i1, hpl, _, hinst, _, htr, _, _, herr, _, _, _, hre2⟩ :=
        PassIIStep_spec _ _ _ _ _ _ _ h0 hs
      obtain ⟨new, hnew, hlen, hall⟩ := ih a2 a1 loc2 re2 herr h
      have hend : isEndLine line = decide (st = ST_End) := by
        unfold isEndLine; rw [hpl]
      have hcom : isCommentLine line = decide (st = ST_Comment) := by
        unfold isCommentLine; rw [hpl]
      have hknown : KnownMsgs [] (i1.Translate e0 loc a.m_symtab).2.2 := by
        intro m hm
        rcases Translate_msgs i1 e0 loc a.m_symtab m hm with hm | hm
        · exact parseLine_msgs line st i0 e0 hpl m hm
        · exact Or.inr hm
      obtain ⟨hm1, hm2⟩ := endCheck_hasMsg _ hknown st re
      refine ⟨(i1.Translate e0 loc a.m_symtab).1.SetErrorMsg
        (Errors.GetErrors ((i1.Translate e0 loc a.m_symtab).2.2 ++ endCheckMsgs st re)) :: new,
        ?_, ?_, ?_⟩
      · rw [hnew, htr, List.append_assoc]
        rfl
      · rw [List.length_cons, List.length_cons, hlen]
      · intro k l hk
        cases k with
        | zero =>
          rw [List.getElem?_cons_zero, Option.some.injEq] at hk
          subst hk
          refine ⟨_, List.getElem?_cons_zero, ?_, ?_, ?_⟩
          · show (i1.Translate e0 loc a.m_symtab).1.m_OrigStmt = line
            rw [(Translate_spec i1 e0 loc a.m_symtab).2.1, hinst]
          · show hasMsg (Errors.GetErrors _) _ = true ↔ _
            rw [hm1, hend]
            simp
          · show hasMsg (Errors.GetErrors _) _ = true ↔ _
            rw [hm2, hend, hcom]
            simp
        | succ k =>
          rw [List.getElem?_cons_succ] at hk
          obtain ⟨s, hs1, hs2, hs3, hs4⟩ := hall k l hk
          have hlatch : (re2 || (rest.take k).any isEndLine)
              = (re || ((line :: rest).take (k + 1)).any isEndLine) := by
            rw [hre2, List.take_succ_cons, List.any_cons, ← hend]
            cases re <;> cases isEndLine line <;> cases (rest.take k).any isEndLine <;> rfl
          rw [hlatch] at hs3 hs4
          exact ⟨s, by rw [List.getElem?_cons_succ]; exact hs1, hs2, hs3, hs4⟩

theorem isCommentLine_not_end (line : String) (h : isCommentLine line = true) :
    isEndLine line = false := by
  unfold isCommentLine at h
  unfold isEndLine
  cases hp : parseLine line with
  | none => rfl
  | some r =>
    obtain ⟨st, i, e⟩ := r
    rw [hp] at h
    simp only [decide_eq_true_eq] at h
    simp only [h]
    decide

/-- C30 (END latch in Pass II): for every source on whose lines `ParseInstruction` returns,
Pass II completes and appends one statement per line; the statement of a line carries
"Error: Multiple end statements." exactly when an earlier line is an end statement and the
line is an end statement itself, and carries "Error: Additional statement following end
statement." exactly when an earlier line is an end statement and the line is neither an end
statement nor a comment or blank line; a line with no end statement before it (any line up to
and including the first END) and a comment or blank line carry neither message. -/
theorem C30_end_latch (a : Assembler)
    (hparse : ∀ l ∈ a.m_facc, (parseLine l).isSome = true) :
    ∃ a1 new, a.PassII = some a1 ∧ a1.m_trans = a.m_trans ++ new ∧
      new.length = a.m_facc.length ∧
      ∀ (k : Nat) (line : String), a.m_facc[k]? = some line →
        ∃ s, new[k]? = some s ∧ s.m_OrigStmt = line ∧
          (hasMsg s.m_ErrorMsg "Error: Multiple end statements." = true ↔
            ((a.m_facc.take k).any isEndLine = true ∧ isEndLine line = true)) ∧
          (hasMsg s.m_ErrorMsg "Error: Additional statement following end statement." = true ↔
            ((a.m_facc.take k).any isEndLine = true ∧ isEndLine line = false
              ∧ isCommentLine line = false)) ∧
          ((a.m_facc.take k).any isEndLine = false ∨ isCommentLine line = true →
            hasMsg s.m_ErrorMsg "Error: Multiple end statements." = false ∧
            hasMsg s.m_ErrorMsg "Error: Additional statement following end statement."
              = false) := by
  obtain ⟨a1, ha1⟩ := PassIILoop_total a.m_facc { a with m_ErrorMsgs := [] } 0 false hparse
  obtain ⟨new, hnew, hlen, hall⟩ :=
    PassIILoop_latch a.m_facc { a with m_ErrorMsgs := [] } a1 0 false rfl ha1
  refine ⟨a1, new, ha1, hnew, hlen, ?_⟩
  intro k line hk
  obtain ⟨s, hs1, hs2, hs3, hs4⟩ := hall k line hk
  rw [Bool.false_or] at hs3 hs4
  refine ⟨s, hs1, hs2, hs3, hs4, ?_⟩
  intro hno
  constructor
  · cases hm : hasMsg s.m_ErrorMsg "Error: Multiple end statements." with
    | false => rfl
    | true =>
      have := hs3.mp hm
      rcases hno with hno | hno
      · rw [hno] at this; exact absurd this.1 Bool.false_ne_true
      · rw [isCommentLine_not_end line hno] at this
        exact absurd this.2 Bool.false_ne_true
  · cases hm : hasMsg s.m_ErrorMsg "Error: Additional statement following end statement." with
    | false => rfl
    | true =>
      have := hs4.mp hm
      rcases hno with hno | hno
      · rw [hno] at this; exact absurd this.1 Bool.false_ne_true
      · rw [hno] at this
        exact absurd this.2.2 (by decide)

/-- The statement of C30 at the source " HALT", " END", "; done", " END", " HALT": the second
END carries "Multiple end statements", the last line "Additional statement following end
statement", the comment between them neither. -/
theorem C30_end_latch_witness :
    (∀ l ∈ (Assembler.new (-999) twoEndSource).m_facc, (parseLine l).isSome = true) ∧
    ∃ a1 new, (Assembler.new (-999) twoEndSource).PassII = some a1 ∧ a1.m_trans = new ∧
      (∃ s, new[2]? = some s ∧ s.m_OrigStmt = "; done" ∧
        hasMsg s.m_ErrorMsg "Error: Multiple end statements." = false ∧
        hasMsg s.m_ErrorMsg "Error: Additional statement following end statement." = false) ∧
      (∃ s, new[3]? = some s ∧ s.m_OrigStmt = " END" ∧
        hasMsg s.m_ErrorMsg "Error: Multiple end statements." = true) ∧
      (∃ s, new[4]? = some s ∧ s.m_OrigStmt = " HALT" ∧
        hasMsg s.m_ErrorMsg "Error: Additional statement following end statement." = true) := by
  have hp : ∀ l ∈ (Assembler.new (-999) twoEndSource).m_facc, (parseLine l).isSome = true := by
    decide
  obtain ⟨a1, new, h1, h2, _, hall⟩ := C30_end_latch (Assembler.new (-999) twoEndSource) hp
  refine ⟨hp, a1, new, h1, h2, ?_, ?_, ?_⟩
  · obtain ⟨s, hs1, hs2, _, _, hs5⟩ := hall 2 "; done" rfl
    exact ⟨s, hs1, hs2, hs5 (Or.inr (by decide))⟩
  · obtain ⟨s, hs1, hs2, hs3, _, _⟩ := hall 3 " END" rfl
    exact ⟨s, hs1, hs2, hs3.mpr ⟨by decide, by decide⟩⟩
  · obtain ⟨s, hs1, hs2, _, hs4, _⟩ := hall 4 " HALT" rfl
    exact ⟨s, hs1, hs2, hs4.mpr ⟨by decide, by decide, by decide⟩⟩

/-! ### The numeric-string recogniser -/

/-- The characters that `isdigit` accepts are the ten decimal digits. -/
theorem isdigit_iff (c : Char) : isdigit c = true ↔ c ∈ "0123456789".data := by
  constructor
  · intro h
    unfold isdigit at h
    simp only [Bool.and_eq_true, decide_eq_true_eq] at h
    obtain ⟨h1, h2⟩ := h
    have hc : c = Char.ofNat c.toNat := (Char.ofNat_toNat c).symm
    generalize c.toNat = n at h1 h2 hc
    subst hc
    interval_cases n <;> decide
  · intro h
    revert c
    decide

/-- The strings that `Instruction::isStrNumber` accepts, with `isdigit` for the digits. -/
theorem isStrNumber_iff (s : String) :
    Instruction.isStrNumber s = true ↔
      ∃ sign digits : List Char, s.data = sign ++ digits ∧
        (sign = [] ∨ sign = ['+'] ∨ sign = ['-']) ∧
        digits ≠ [] ∧ ∀ c ∈ digits, isdigit c = true := by
  unfold Instruction.isStrNumber
  cases hs : s.data with
  | nil =>
    simp only [Bool.false_eq_true, false_iff]
    rintro ⟨sign, digits, h, _, hne, _⟩
    have := List.append_eq_nil.mp h.symm
    exact hne this.2
  | cons c cs =>
    simp only
    have hplus : isdigit '+' = false := by decide
    have hminus : isdigit '-' = false := by decide
    by_cases hc : c = '-' ∨ c = '+'
    · rw [if_pos hc]
      have hnd : isdigit c = false := by rcases hc with h | h <;> rw [h] <;> assumption
      cases cs with
      | nil =>
        simp only [List.length_singleton, Nat.one_lt_ofNat, if_true, Bool.false_eq_true,
          false_iff]
        rintro ⟨sign, digits, h, hsg, hne, hd⟩
        rcases hsg with rfl | rfl | rfl
        · rw [List.nil_append] at h
          rw [← h] at hd
          have := hd c (List.mem_singleton.mpr rfl)
          rw [hnd] at this
          exact Bool.noConfusion this
        · simp only [List.singleton_append, List.cons.injEq] at h
          exact hne h.2.symm
        · simp only [List.singleton_append, List.cons.injEq] at h
          exact hne h.2.symm
      | cons d ds =>
        have hl : ¬ (c :: d :: ds).length < 2 := by simp
        rw [if_neg hl, List.all_eq_true]
        constructor
        · intro h
          refine ⟨[c], d :: ds, rfl, ?_, List.cons_ne_nil _ _, h⟩
          rcases hc with h | h
          · exact Or.inr (Or.inr (by rw [h]))
          · exact Or.inr (Or.inl (by rw [h]))
        · rintro ⟨sign, digits, h, hsg, hne, hd⟩
          rcases hsg with rfl | rfl | rfl
          · rw [List.nil_append] at h
            rw [← h] at hd
            have := hd c (List.mem_cons_self _ _)
            rw [hnd] at this
            exact Bool.noConfusion this
          · simp only [List.singleton_append, List.cons.injEq] at h
            rw [h.2]
            exact hd
          · simp only [List.singleton_append, List.cons.injEq] at h
            rw [h.2]
            exact hd
    · rw [if_neg hc, List.all_eq_true]
      constructor
      · intro h
        exact ⟨[], c :: cs, rfl, Or.inl rfl, List.cons_ne_nil _ _, h⟩
      · rintro ⟨sign, digits, h, hsg, hne, hd⟩
        rcases hsg with rfl | rfl | rfl
        · rw [List.nil_append] at h
          rw [h]
          exact hd
        · simp only [List.singleton_append, List.cons.injEq] at h
          exact absurd (Or.inr h.1) hc
        · simp only [List.singleton_append, List.cons.injEq] at h
          exact absurd (Or.inl h.1) hc

/-- C40 (numeric-string recogniser): `Instruction::isStrNumber` accepts exactly the strings
made of an optional single leading `+` or `-` followed by one or more decimal digits and
nothing else, and `emulator::isStrNumber` returns the same result on every string. -/
theorem C40_numeric_string_recogniser (s : String) :
    (Instruction.isStrNumber s = true ↔
      ∃ sign digits : List Char, s.data = sign ++ digits ∧
        (sign = [] ∨ sign = ['+'] ∨ sign = ['-']) ∧
        digits ≠ [] ∧ ∀ c ∈ digits, c ∈ "0123456789".data) ∧
    emulator.isStrNumber s = Instruction.isStrNumber s := by
  refine ⟨?_, rfl⟩
  rw [isStrNumber_iff]
  constructor
  · rintro ⟨sign, digits, h1, h2, h3, h4⟩
    exact ⟨sign, digits, h1, h2, h3, fun c hc => (isdigit_iff c).mp (h4 c hc)⟩
  · rintro ⟨sign, digits, h1, h2, h3, h4⟩
    exact ⟨sign, digits, h1, h2, h3, fun c hc => (isdigit_iff c).mpr (h4 c hc)⟩

/-! ### Decoding a word -/

/-- `ExtractRegAddr` gives back the register and the address of an encoded word. -/
theorem ExtractRegAddr_encoded (o r a : Int) (ho : 0 ≤ o) (hr : 0 ≤ r ∧ r ≤ 9)
    (ha : 0 ≤ a ∧ a ≤ 999999) :
    emulator.ExtractRegAddr (o * 10000000 + r * 1000000 + a) = (r, a) := by
  unfold emulator.ExtractRegAddr
  have h1 : Int.tdiv (o * 10000000 + r * 1000000 + a) 1000000
      = (o * 10000000 + r * 1000000 + a) / 1000000 := Int.tdiv_eq_ediv (by omega) (by omega)
  have h2 : Int.tmod (o * 10000000 + r * 1000000 + a) 1000000
      = (o * 10000000 + r * 1000000 + a) % 1000000 := Int.tmod_eq_emod (by omega) (by omega)
  have h3 : Int.tmod ((o * 10000000 + r * 1000000 + a) / 1000000) 10
      = ((o * 10000000 + r * 1000000 + a) / 1000000) % 10 :=
    Int.tmod_eq_emod (by omega) (by omega)
  rw [h1, h2, h3]
  refine Prod.ext ?_ ?_ <;> simp only <;> omega

/-- C31 (branch semantics): the handlers `Branch`, `BranchMinus`, `BranchZero` and
`BranchPositive` return the emulator unchanged (no register, no memory cell is modified) with
the instruction pointer set to the address `a` (B always; BM when `c(r) < 0`; BZ when
`c(r) = 0`; BP when `c(r) > 0`) and to `ip + 1` otherwise; and `ExecuteInstruction` on the
word that encodes B, BM, BZ or BP with register `r` in 0..9 and address `a` in 0..999999
succeeds with exactly that result. -/
theorem C31_branch_semantics (e : emulator) (r a ip : Int) (hr : 0 ≤ r ∧ r ≤ 9)
    (ha : 0 ≤ a ∧ a ≤ 999999) :
    (e.Branch a ip = (e, a) ∧
     e.BranchMinus r a ip = (e, if e.m_registers r < 0 then a else ip + 1) ∧
     e.BranchZero r a ip = (e, if e.m_registers r = 0 then a else ip + 1) ∧
     e.BranchPositive r a ip = (e, if e.m_registers r > 0 then a else ip + 1)) ∧
    e.ExecuteInstruction OC_B (13 * 10000000 + r * 1000000 + a) ip = some (true, e, a) ∧
    e.ExecuteInstruction OC_BM (14 * 10000000 + r * 1000000 + a) ip
      = some (true, e, if e.m_registers r < 0 then a else ip + 1) ∧
    e.ExecuteInstruction OC_BZ (15 * 10000000 + r * 1000000 + a) ip
      = some (true, e, if e.m_registers r = 0 then a else ip + 1) ∧
    e.ExecuteInstruction OC_BP (16 * 10000000 + r * 1000000 + a) ip
      = some (true, e, if e.m_registers r > 0 then a else ip + 1) := by
  have hB : e.Branch a ip = (e, a) := rfl
  have hM : e.BranchMinus r a ip = (e, if e.m_registers r < 0 then a else ip + 1) := by
    unfold emulator.BranchMinus; split_ifs <;> rfl
  have hZ : e.BranchZero r a ip = (e, if e.m_registers r = 0 then a else ip + 1) := by
    unfold emulator.BranchZero; split_ifs <;> rfl
  have hP : e.BranchPositive r a ip = (e, if e.m_registers r > 0 then a else ip + 1) := by
    unfold emulator.BranchPositive; split_ifs <;> rfl
  refine ⟨⟨hB, hM, hZ, hP⟩, ?_, ?_, ?_, ?_⟩
  · unfold emulator.ExecuteInstruction
    simp only [ExtractRegAddr_encoded 13 r a (by decide) hr ha, hB, emulator.ok]
  · unfold emulator.ExecuteInstruction
    simp only [ExtractRegAddr_encoded 14 r a (by decide) hr ha, hM, emulator.ok]
  · unfold emulator.ExecuteInstruction
    simp only [ExtractRegAddr_encoded 15 r a (by decide) hr ha, hZ, emulator.ok]
  · unfold emulator.ExecuteInstruction
    simp only [ExtractRegAddr_encoded 16 r a (by decide) hr ha, hP, emulator.ok]

/-- Witness for C31: the word 143000200 (BM 3, 200) executed at 100 with -5 in register 3
branches to 200. -/
theorem C31_branch_semantics_witness :
    ((0 : Int) ≤ 3 ∧ (3 : Int) ≤ 9) ∧ ((0 : Int) ≤ 200 ∧ (200 : Int) ≤ 999999) ∧
    emulator.ExecuteInstruction { m_registers := fun _ => -5 } OC_BM
      (14 * 10000000 + 3 * 1000000 + 200) 100
      = some (true, { m_registers := fun _ => -5 },
          if (fun _ => (-5 : Int)) (3 : Int) < 0 then 200 else 100 + 1) :=
  ⟨by decide, by decide,
    (C31_branch_semantics { m_registers := fun _ => -5 } 3 200 100 (by decide)
      (by decide)).2.2.1⟩

/-- A positive word whose leading part, cast to the enumeration, is an op code from 1 to 17
is congruent to a nine-digit word: narrowed to an `int` it lies between 10000000 and
179999999. -/
theorem wrap32_checked (code : Int) (h : passesOpcodeCheck code = true) :
    10000000 ≤ wrap32 code ∧ wrap32 code ≤ 179999999 ∧
      wrap32 code % 1000000 = code % 1000000 := by
  unfold passesOpcodeCheck at h
  simp only [Bool.and_eq_true, decide_eq_true_eq] at h
  obtain ⟨⟨h0, h1⟩, h2⟩ := h
  have hd : Int.tdiv code 10000000 = code / 10000000 := Int.tdiv_eq_ediv (by omega) (by omega)
  rw [hd] at h1 h2
  obtain ⟨k, hk⟩ : ∃ k, code / 10000000 = 4294967296 * k + wrap32 (code / 10000000) :=
    ⟨(code / 10000000 + 2147483648) / 4294967296, by unfold wrap32; omega⟩
  generalize wrap32 (code / 10000000) = oc at h1 h2 hk
  have e1 : code + 2147483648
      = (10000000 * oc + code % 10000000 + 2147483648) + 4294967296 * (10000000 * k) := by
    omega
  have e2 : wrap32 code = 10000000 * oc + code % 10000000 := by
    unfold wrap32
    rw [e1, Int.add_mul_emod_self_left, Int.emod_eq_of_lt (by omega) (by omega)]
    omega
  rw [e2]
  omega

/-- A nine-digit word from 10000000 to 179999999 passes the test of the execution loop. -/
theorem passesOpcodeCheck_word (code : Int) (h : 10000000 ≤ code ∧ code ≤ 179999999) :
    passesOpcodeCheck code = true := by
  have hd : Int.tdiv code 10000000 = code / 10000000 := Int.tdiv_eq_ediv (by omega) (by omega)
  unfold passesOpcodeCheck
  simp only [Bool.and_eq_true, decide_eq_true_eq]
  rw [hd]
  unfold wrap32
  omega

/-- Every word that passes the test of the execution loop decodes to operands in range. -/
theorem decode_in_range (code : Int) (h : passesOpcodeCheck code = true) :
    (0 ≤ (emulator.ExtractRegAddr code).1 ∧ (emulator.ExtractRegAddr code).1 ≤ 9) ∧
    (0 ≤ (emulator.ExtractRegAddr code).2 ∧ (emulator.ExtractRegAddr code).2 ≤ 999999) ∧
    (0 ≤ (emulator.ExtractRegs code).1 ∧ (emulator.ExtractRegs code).1 ≤ 9) ∧
    (0 ≤ (emulator.ExtractRegs code).2 ∧ (emulator.ExtractRegs code).2 ≤ 9) := by
  obtain ⟨hw1, hw2, _⟩ := wrap32_checked code h
  unfold passesOpcodeCheck at h
  simp only [Bool.and_eq_true, decide_eq_true_eq] at h
  obtain ⟨⟨h0, _⟩, _⟩ := h
  unfold emulator.ExtractRegAddr emulator.ExtractRegs
  simp only
  have a1 : Int.tdiv code 1000000 = code / 1000000 := Int.tdiv_eq_ediv (by omega) (by omega)
  have a2 : Int.tmod (code / 1000000) 10 = (code / 1000000) % 10 :=
    Int.tmod_eq_emod (by omega) (by omega)
  have a3 : Int.tmod code 1000000 = code % 1000000 := Int.tmod_eq_emod (by omega) (by omega)
  have b1 : Int.tdiv (wrap32 code) 1000000 = wrap32 code / 1000000 :=
    Int.tdiv_eq_ediv (by omega) (by omega)
  have b2 : Int.tmod (wrap32 code / 1000000) 10 = (wrap32 code / 1000000) % 10 :=
    Int.tmod_eq_emod (by omega) (by omega)
  have b3 : Int.tdiv (wrap32 code) 100000 = wrap32 code / 100000 :=
    Int.tdiv_eq_ediv (by omega) (by omega)
  have b4 : Int.tmod (wrap32 code / 100000) 10 = (wrap32 code / 100000) % 10 :=
    Int.tmod_eq_emod (by omega) (by omega)
  rw [a1, a2, a3, b1, b2, b3, b4]
  omega

/-- C39 (decoded operands are in range): for every word from 10000000 to 179999999,
`ExtractRegAddr` yields a register index in 0..9 and an address in 0..999999, `ExtractRegs`
yields two register indices in 0..9, and for every op code every index at which the handler
dispatched by `ExecuteInstruction` subscripts the registers is in `[0, REGSZ)` and every index
at which it subscripts the memory is in `[0, MEMSZ)`. -/
theorem C39_decoded_operands_in_range (code : Int) (oc : SymbolicOpCode)
    (h : 10000000 ≤ code ∧ code ≤ 179999999) :
    (0 ≤ (emulator.ExtractRegAddr code).1 ∧ (emulator.ExtractRegAddr code).1 ≤ 9) ∧
    (0 ≤ (emulator.ExtractRegAddr code).2 ∧ (emulator.ExtractRegAddr code).2 ≤ 999999) ∧
    (0 ≤ (emulator.ExtractRegs code).1 ∧ (emulator.ExtractRegs code).1 ≤ 9) ∧
    (0 ≤ (emulator.ExtractRegs code).2 ∧ (emulator.ExtractRegs code).2 ≤ 9) ∧
    (∀ r ∈ regIndices oc code, 0 ≤ r ∧ r < emulator.REGSZ) ∧
    (∀ a ∈ memIndices oc code, 0 ≤ a ∧ a < emulator.MEMSZ) := by
  obtain ⟨h1, h2, h3, h4⟩ := decode_in_range code (passesOpcodeCheck_word code h)
  refine ⟨h1, h2, h3, h4, ?_, ?_⟩
  · intro r hr
    unfold emulator.REGSZ
    cases oc <;> simp only [regIndices, List.mem_cons, List.mem_singleton, List.not_mem_nil,
      or_false] at hr <;> first
      | exact hr.elim
      | (subst hr; omega)
      | (rcases hr with hr | hr <;> subst hr <;> omega)
  · intro a ha
    unfold emulator.MEMSZ
    cases oc <;> simp only [memIndices, List.mem_singleton, List.not_mem_nil] at ha <;> first
      | exact ha.elim
      | (subst ha; omega)

/-- Witness for C39: the word 71200000 (ADDR 1, 2). -/
theorem C39_decoded_operands_in_range_witness :
    ((10000000 : Int) ≤ 71200000 ∧ (71200000 : Int) ≤ 179999999) ∧
    emulator.ExtractRegs 71200000 = (1, 2) ∧
    (∀ r ∈ regIndices OC_ADDR 71200000, 0 ≤ r ∧ r < emulator.REGSZ) :=
  ⟨by decide, by decide,
    (C39_decoded_operands_in_range 71200000 OC_ADDR (by decide)).2.2.2.2.1⟩

/-! ### `emulator::Read` -/

/-- `strtoInt` on a plus sign followed by a non-empty run of digits. -/
theorem strtoInt_pos_digits (l : List Char) (hne : l ≠ [])
    (hd : ∀ c ∈ l, isdigit c = true) :
    strtoInt ('+' :: l) = some ((digitsValue 0 l : Nat) : Int) := by
  have h1 : List.dropWhile isspace ('+' :: l) = '+' :: l := by
    rw [List.dropWhile_cons_of_neg]
    decide
  have h2 : List.takeWhile isdigit l = l := List.takeWhile_eq_self_iff.mpr hd
  have h3 : l.isEmpty = false := by
    cases l with
    | nil => exact absurd rfl hne
    | cons c cs => rfl
  have h4 : ¬ (some '+' = some '-') := by decide
  unfold strtoInt
  simp only [h1, List.head?_cons, or_true, if_true, List.tail_cons, h2, h3, h4, decide_False,
    Bool.false_eq_true, if_false]

/-- The conversion of a token made of an optional sign and digits. -/
theorem strtoInt_signed (sign digits : List Char)
    (hsg : sign = [] ∨ sign = ['+'] ∨ sign = ['-']) (hne : digits ≠ [])
    (hd : ∀ c ∈ digits, isdigit c = true) :
    strtoInt (sign ++ digits) = some (signedValue sign digits) := by
  rcases hsg with rfl | rfl | rfl
  · rw [List.nil_append, strtoInt_digits _ hne hd]
    rfl
  · rw [List.singleton_append, strtoInt_pos_digits _ hne hd]
    rfl
  · rw [List.singleton_append, strtoInt_neg_digits _ hne hd]
    rfl

/-- What `emulator::Read` does with the next token `s`: a token that is not an optional sign
followed by digits is rejected; one that is, with value `v`, is stored when `v` is a word,
rejected when `v` is not a word but fits a `long long`, and makes `stoll` throw otherwise. -/
theorem Read_outcomes (e : emulator) (a loc : Int) :
    (emulator.isStrNumber (e.cin.headD "") = false →
      e.Read a loc = some (false, readRejected e, loc)) ∧
    (∀ sign digits : List Char, (e.cin.headD "").data = sign ++ digits →
      (sign = [] ∨ sign = ['+'] ∨ sign = ['-']) → digits ≠ [] →
      (∀ c ∈ digits, isdigit c = true) →
      (-999999999 ≤ signedValue sign digits ∧ signedValue sign digits ≤ 999999999 →
        e.Read a loc = some (true, readStored e a (signedValue sign digits), loc + 1)) ∧
      ((signedValue sign digits < -999999999 ∨ 999999999 < signedValue sign digits) →
        -9223372036854775808 ≤ signedValue sign digits →
        signedValue sign digits ≤ 9223372036854775807 →
        e.Read a loc = some (false, readRejected e, loc)) ∧
      ((signedValue sign digits < -9223372036854775808
          ∨ 9223372036854775807 < signedValue sign digits) →
        e.Read a loc = none)) := by
  constructor
  · intro h
    unfold emulator.Read
    simp only [h, Bool.not_false, if_true, Errors.RecordError]
    rfl
  · intro sign digits hs hsg hne hd
    have hnum : emulator.isStrNumber (e.cin.headD "") = true :=
      (isStrNumber_iff _).mpr ⟨sign, digits, hs, hsg, hne, hd⟩
    have hv : strtoInt (e.cin.headD "").data = some (signedValue sign digits) := by
      rw [hs]
      exact strtoInt_signed sign digits hsg hne hd
    generalize signedValue sign digits = v at hv
    refine ⟨?_, ?_, ?_⟩
    · intro hr
      have hst : stoll (e.cin.headD "") = some v := by
        unfold stoll
        rw [hv]
        simp only
        rw [if_pos (by constructor <;> omega)]
      have hc : ¬ (v > 999999999 ∨ v < -999999999) := by omega
      unfold emulator.Read
      simp only [hnum, Bool.not_true, Bool.false_eq_true, if_false, hst, hc]
      rfl
    · intro hr h1 h2
      have hst : stoll (e.cin.headD "") = some v := by
        unfold stoll
        rw [hv]
        simp only
        rw [if_pos ⟨h1, h2⟩]
      have hc : v > 999999999 ∨ v < -999999999 := by omega
      unfold emulator.Read
      simp only [hnum, Bool.not_true, Bool.false_eq_true, if_false, hst, hc, if_true,
        Errors.RecordError]
      rfl
    · intro hr
      have hst : stoll (e.cin.headD "") = none := by
        unfold stoll
        rw [hv]
        simp only
        rw [if_neg (by omega)]
      unfold emulator.Read
      simp only [hnum, Bool.not_true, Bool.false_eq_true, if_false, hst]

/-- C32 (READ validation): the next token of `longTokenState` is the digit string
"9223372036854775808", which `isStrNumber` accepts and whose value is not a word; `Read` does
not return false with an input error for it: `stoll` throws and no result is returned, for
every address and instruction pointer. -/
theorem C32_read_long_token_throws :
    emulator.isStrNumber (longTokenState.cin.headD "") = true ∧
    (∀ c ∈ (longTokenState.cin.headD "").data, c ∈ "0123456789".data) ∧
    ∀ a loc : Int, longTokenState.Read a loc = none := by
  refine ⟨by decide, by decide, ?_⟩
  intro a loc
  have hs : (longTokenState.cin.headD "").data = [] ++ "9223372036854775808".data := rfl
  have hd : ∀ c ∈ "9223372036854775808".data, isdigit c = true := by decide
  have hv : signedValue [] "9223372036854775808".data = 9223372036854775808 := by decide
  refine ((Read_outcomes longTokenState a loc).2 [] _ hs (Or.inl rfl) (by decide) hd).2.2 ?_
  rw [hv]
  decide

/-! ### What a reused `Instruction` object carries over -/

/-- On a line whose ORG or DS has a numeric operand 1, and on every line with another op code,
`ParseInstruction` followed by `LocationNextInstruction` gives the same location on any two
objects. -/
theorem parseThenLocation_numeric (i j : Instruction) (line : String) (loc : Int)
    (hnum : ∀ st i0 e0, parseLine line = some (st, i0, e0) →
      i0.m_NumOpCode = OC_ORG ∨ i0.m_NumOpCode = OC_DS → i0.m_IsNumericOperand1 = true) :
    parseThenLocation i line loc = parseThenLocation j line loc := by
  unfold parseThenLocation
  cases hi : Instruction.ParseInstruction i [] line with
  | none =>
    cases hj : Instruction.ParseInstruction j [] line with
    | none => rfl
    | some q =>
      obtain ⟨i0, e0, hp, _⟩ := parse_some j [] line q.1 q.2.1 q.2.2 hj
      obtain ⟨st, i1, e1, h1⟩ := parse_total i [] line (by rw [hp]; rfl)
      rw [hi] at h1
      cases h1
  | some p =>
    obtain ⟨i0, e0, hp, hsi, _⟩ := parse_some i [] line p.1 p.2.1 p.2.2 hi
    obtain ⟨st, j1, e1, hj⟩ := parse_total j [] line (by rw [hp]; rfl)
    obtain ⟨j0, f0, hq, hsj, _⟩ := parse_some j [] line st j1 e1 hj
    rw [hp] at hq
    simp only [Option.some.injEq, Prod.mk.injEq] at hq
    obtain ⟨_, hq2, _⟩ := hq
    subst hq2
    rw [hj]
    simp only [Option.map_some']
    exact congrArg some
      (LocationNextInstruction_sameParse p.2.1 j1 i0 loc hsi hsj (hnum _ _ _ hp))

/-- C33 (location advance and parsing history): the line " ORG" (an ORG without operand)
parsed at location 50 by an object that previously parsed " DC 7" advances the location to 7,
parsed by an object that previously parsed " DC 3" it advances the location to 3, and parsed
by a fresh object to 0: the result is not a function of the line and the location. -/
theorem C33_bare_org_depends_on_history :
    parseThenLocation (afterLine " DC 7") " ORG" 50 = some 7 ∧
    parseThenLocation (afterLine " DC 3") " ORG" 50 = some 3 ∧
    parseThenLocation {} " ORG" 50 = some 0 := by
  refine ⟨?_, ?_, ?_⟩ <;> rfl

/-- The contents string only uses a field whose error code is clear. -/
theorem GetContents_congr (c d : Contents) (hoc : c.m_OpCode = d.m_OpCode)
    (hf : errorCodes c = errorCodes d)
    (h1 : c.m_InvalidReg1 = false → c.m_Reg1 = d.m_Reg1)
    (h2 : c.m_InvalidReg2 = false → c.m_Reg2 = d.m_Reg2)
    (h3 : c.m_InvalidAddr = false → c.m_Addr = d.m_Addr)
    (h4 : c.m_InvalidValue = false → c.m_Val = d.m_Val) :
    c.GetContents = d.GetContents := by
  unfold errorCodes at hf
  simp only [Prod.mk.injEq] at hf
  obtain ⟨f1, f2, f3, f4, f5⟩ := hf
  unfold Contents.GetContents
  rw [← hoc, ← f1, ← f2, ← f3, ← f4, ← f5]
  cases g1 : c.m_InvalidOpCode
  · cases g5 : c.m_InvalidValue
    · rw [← h4 g5]
      cases g2 : c.m_InvalidReg1 <;> cases g3 : c.m_InvalidReg2 <;> cases g4 : c.m_InvalidAddr <;>
        simp only [Bool.false_eq_true, if_false, if_true, Bool.or_self] <;>
        (try rw [← h1 g2]) <;> (try rw [← h2 g3]) <;> (try rw [← h3 g4])
    · simp
  · simp

/-- The register-and-register checks on two objects that hold the same parse. -/
theorem RecordErrRegisterRegister_same (i j : Instruction) (errs : List String)
    (h : SameParse i j) (hc : i.m_NumOpCode ≠ OC_COMM) :
    (i.RecordErrRegisterRegister errs).2 = (j.RecordErrRegisterRegister errs).2 ∧
    validityFlags (i.RecordErrRegisterRegister errs).1
      = validityFlags (j.RecordErrRegisterRegister errs).1 ∧
    ((i.RecordErrRegisterRegister errs).1.m_InvalidReg1 = false →
      i.m_Operand1NumericValue = j.m_Operand1NumericValue) ∧
    ((i.RecordErrRegisterRegister errs).1.m_InvalidReg2 = false →
      i.m_Operand2NumericValue = j.m_Operand2NumericValue) := by
  obtain ⟨il, iop, i1, i2, ii, ic, it, in1, iv1, in2, iv2, f1, f2, f3, f4, f5⟩ := i
  obtain ⟨jl, jop, j1, j2, ji, jc, jt, jn1, jv1, jn2, jv2, g1, g2, g3, g4, g5⟩ := j
  unfold SameParse at h
  simp only at h hc
  obtain ⟨a1, a2, a3, a4, a5, a6, a7, b1, b2, b3, b4, b5, b6, b7, b8, a16⟩ := h
  obtain ⟨n1, n2, v1, v2⟩ := a16 hc
  subst a1 a2 a3 a4 a5 a6 a7 b1 b2 b3 b4 b5 b6 b7 b8 n1 n2
  unfold Instruction.RecordErrRegisterRegister Errors.RecordError validityFlags
  simp only
  cases in1 <;> cases in2 <;>
    simp only [forall_true_left, Bool.false_eq_true, false_implies] at v1 v2 <;>
    (try subst v1) <;> (try subst v2) <;>
    simp only [Bool.not_false, Bool.not_true, true_or, if_true, Bool.false_eq_true, false_or] <;>
    split_ifs <;> simp_all

/-- The register-and-address checks on two objects that hold the same parse. -/
theorem RecordErrRegisterAddress_same (i j : Instruction) (errs : List String)
    (h : SameParse i j) (hc : i.m_NumOpCode ≠ OC_COMM) :
    (i.RecordErrRegisterAddress errs).2 = (j.RecordErrRegisterAddress errs).2 ∧
    validityFlags (i.RecordErrRegisterAddress errs).1
      = validityFlags (j.RecordErrRegisterAddress errs).1 ∧
    ((i.RecordErrRegisterAddress errs).1.m_InvalidReg1 = false →
      i.m_Operand1NumericValue = j.m_Operand1NumericValue) := by
  obtain ⟨il, iop, i1, i2, ii, ic, it, in1, iv1, in2, iv2, f1, f2, f3, f4, f5⟩ := i
  obtain ⟨jl, jop, j1, j2, ji, jc, jt, jn1, jv1, jn2, jv2, g1, g2, g3, g4, g5⟩ := j
  unfold SameParse at h
  simp only at h hc
  obtain ⟨a1, a2, a3, a4, a5, a6, a7, b1, b2, b3, b4, b5, b6, b7, b8, a16⟩ := h
  obtain ⟨n1, n2, v1, v2⟩ := a16 hc
  subst a1 a2 a3 a4 a5 a6 a7 b1 b2 b3 b4 b5 b6 b7 b8 n1 n2
  unfold Instruction.RecordErrRegisterAddress Errors.RecordError validityFlags
  simp only
  cases in1 <;>
    simp only [forall_true_left, Bool.false_eq_true, false_implies] at v1 <;>
    (try subst v1) <;>
    split_ifs <;> simp_all

/-- The register-and-address cases of `Translate` on two objects that hold the same parse:
the same messages, flags and error codes, and the same value in every field whose error code
is clear. -/
theorem TranslateRegAddr_same (i j : Instruction) (errs : List String) (loc : Int)
    (T : SymbolTable) (h : SameParse i j) (hc : i.m_NumOpCode ≠ OC_COMM) :
    (i.TranslateRegAddr errs loc T).2.2 = (j.TranslateRegAddr errs loc T).2.2 ∧
    validityFlags (i.TranslateRegAddr errs loc T).2.1
      = validityFlags (j.TranslateRegAddr errs loc T).2.1 ∧
    errorCodes (i.TranslateRegAddr errs loc T).1.m_Contents
      = errorCodes (j.TranslateRegAddr errs loc T).1.m_Contents ∧
    (i.TranslateRegAddr errs loc T).1.m_Contents.m_OpCode
      = (j.TranslateRegAddr errs loc T).1.m_Contents.m_OpCode ∧
    ((i.TranslateRegAddr errs loc T).1.m_Contents.m_InvalidReg1 = false →
      (i.TranslateRegAddr errs loc T).1.m_Contents.m_Reg1
        = (j.TranslateRegAddr errs loc T).1.m_Contents.m_Reg1) ∧
    (i.TranslateRegAddr errs loc T).1.m_Contents.m_Reg2
      = (j.TranslateRegAddr errs loc T).1.m_Contents.m_Reg2 ∧
    (i.TranslateRegAddr errs loc T).1.m_Contents.m_Addr
      = (j.TranslateRegAddr errs loc T).1.m_Contents.m_Addr ∧
    (i.TranslateRegAddr errs loc T).1.m_Contents.m_Val
      = (j.TranslateRegAddr errs loc T).1.m_Contents.m_Val := by
  obtain ⟨hm, hf, hv⟩ := RecordErrRegisterAddress_same i j errs h hc
  obtain ⟨hsi, _⟩ := RecordErrRegisterAddress_spec i errs
  obtain ⟨hsj, _⟩ := RecordErrRegisterAddress_spec j errs
  have hop : i.m_Operand2 = j.m_Operand2 := h.2.2.2.1
  have hoc : i.m_NumOpCode = j.m_NumOpCode := h.2.2.2.2.1
  unfold Instruction.TranslateRegAddr
  generalize i.RecordErrRegisterAddress errs = ri at hm hf hv hsi
  generalize j.RecordErrRegisterAddress errs = rj at hm hf hsj
  obtain ⟨i1, e1⟩ := ri
  obtain ⟨j1, e2⟩ := rj
  unfold SameButFlags at hsi hsj
  simp only at hm hf hv hsi hsj
  subst hm
  have k2 : j1.m_Operand2 = i1.m_Operand2 := by rw [hsj.2.2.1, hsi.2.2.1, hop]
  have kc : j1.m_NumOpCode = i1.m_NumOpCode := by rw [hsj.2.2.2.2.1, hsi.2.2.2.2.1, hoc]
  have kv : i1.m_InvalidReg1 = false → i1.m_Operand1NumericValue = j1.m_Operand1NumericValue := by
    intro hfl
    rw [hsi.2.2.2.2.2.2.2.1, hsj.2.2.2.2.2.2.2.1]
    exact hv hfl
  clear hsi hsj hv hop hoc h hc
  obtain ⟨il, iop, i1, i2, ii, ic, it, in1, iv1, in2, iv2, f1, f2, f3, f4, f5⟩ := i1
  obtain ⟨jl, jop, j1, j2, ji, jc, jt, jn1, jv1, jn2, jv2, g1, g2, g3, g4, g5⟩ := j1
  unfold validityFlags at hf
  simp only [Prod.mk.injEq] at hf k2 kc kv
  obtain ⟨h1, h2, h3, h4, h5⟩ := hf
  subst h1 h2 h3 h4 h5 k2 kc
  unfold Errors.RecordError validityFlags errorCodes Instruction.mkStmt TransStmt.new
    TransStmt.SetErrorCodes Contents.SetErrorCodes SymbolTable.LookupSymbol
  simp only
  split_ifs <;> simp_all

/-- The DC and DS checks and the HALT check on two objects that hold the same parse. -/
theorem RecordErrDirective_same (i j : Instruction) (errs : List String)
    (h : SameParse i j) (hc : i.m_NumOpCode ≠ OC_COMM) :
    ((i.RecordErrDC errs).2 = (j.RecordErrDC errs).2 ∧
      validityFlags (i.RecordErrDC errs).1 = validityFlags (j.RecordErrDC errs).1 ∧
      ((i.RecordErrDC errs).1.m_InvalidValue = false →
        i.m_Operand1NumericValue = j.m_Operand1NumericValue)) ∧
    ((i.RecordErrDS errs).2 = (j.RecordErrDS errs).2 ∧
      validityFlags (i.RecordErrDS errs).1 = validityFlags (j.RecordErrDS errs).1) ∧
    ((i.RecordErrHalt errs).2 = (j.RecordErrHalt errs).2 ∧
      validityFlags (i.RecordErrHalt errs).1 = validityFlags (j.RecordErrHalt errs).1) := by
  obtain ⟨il, iop, i1, i2, ii, ic, it, in1, iv1, in2, iv2, f1, f2, f3, f4, f5⟩ := i
  obtain ⟨jl, jop, j1, j2, ji, jc, jt, jn1, jv1, jn2, jv2, g1, g2, g3, g4, g5⟩ := j
  unfold SameParse at h
  simp only at h hc
  obtain ⟨a1, a2, a3, a4, a5, a6, a7, b1, b2, b3, b4, b5, b6, b7, b8, a16⟩ := h
  obtain ⟨n1, n2, v1, v2⟩ := a16 hc
  subst a1 a2 a3 a4 a5 a6 a7 b1 b2 b3 b4 b5 b6 b7 b8 n1 n2
  unfold Instruction.RecordErrDC Instruction.RecordErrDS Instruction.RecordErrHalt
    Errors.RecordError validityFlags
  simp only
  cases in1 <;>
    simp only [forall_true_left, Bool.false_eq_true, false_implies] at v1 <;>
    (try subst v1) <;>
    refine ⟨?_, ?_, ?_⟩ <;> split_ifs <;> simp_all

/-- The members of a statement built by `mkStmt`. -/
theorem mkStmt_contents (i : Instruction) (loc r1 r2 ad v : Int) :
    errorCodes (i.mkStmt loc r1 r2 ad v).m_Contents = validityFlags i ∧
    (i.mkStmt loc r1 r2 ad v).m_Contents.m_OpCode = i.m_NumOpCode ∧
    (i.mkStmt loc r1 r2 ad v).m_Contents.m_Reg1 = r1 ∧
    (i.mkStmt loc r1 r2 ad v).m_Contents.m_Reg2 = r2 ∧
    (i.mkStmt loc r1 r2 ad v).m_Contents.m_Addr = ad ∧
    (i.mkStmt loc r1 r2 ad v).m_Contents.m_Val = v ∧
    (i.mkStmt loc r1 r2 ad v).m_Contents.m_InvalidReg1 = i.m_InvalidReg1 ∧
    (i.mkStmt loc r1 r2 ad v).m_Contents.m_InvalidReg2 = i.m_InvalidReg2 ∧
    (i.mkStmt loc r1 r2 ad v).m_Contents.m_InvalidValue = i.m_InvalidValue :=
  ⟨rfl, rfl, rfl, rfl, rfl, rfl, rfl, rfl, rfl⟩

/-- `Translate` on two objects that hold the same parse of a line delivers the same contents
string, error codes, validity flags and messages. -/
theorem Translate_same (i j : Instruction) (errs : List String) (loc : Int) (T : SymbolTable)
    (h : SameParse i j) :
    translationView (i.Translate errs loc T) = translationView (j.Translate errs loc T) := by
  have hoc : i.m_NumOpCode = j.m_NumOpCode := h.2.2.2.2.1
  have hfl : validityFlags i = validityFlags j := by
    obtain ⟨_, _, _, _, _, _, a7, b1, b2, b3, b4, b5, b6, b7, b8, _⟩ := h
    unfold validityFlags
    rw [a7, b1, b2, b3, b4, b5, b6, b7, b8]
  by_cases hc : i.m_NumOpCode = OC_COMM
  · have hj : j.m_NumOpCode = OC_COMM := hoc ▸ hc
    unfold Instruction.Translate translationView
    rw [hc, hj]
    simp only [mkStmt_contents, hfl, Prod.mk.injEq, and_true, true_and]
    exact GetContents_congr _ _ (by simp only [mkStmt_contents, hc, hj])
      (by simp only [mkStmt_contents, hfl]) (fun _ => rfl) (fun _ => rfl) (fun _ => rfl)
      (fun _ => rfl)
  · obtain ⟨ra1, ra2, ra3, ra4, ra5, ra6, ra7, ra8⟩ := TranslateRegAddr_same i j errs loc T h hc
    obtain ⟨rr1, rr2, rr3, rr4⟩ := RecordErrRegisterRegister_same i j errs h hc
    obtain ⟨⟨dc1, dc2, dc3⟩, ⟨ds1, ds2⟩, ⟨ht1, ht2⟩⟩ := RecordErrDirective_same i j errs h hc
    have sRR := (RecordErrRegisterRegister_spec i errs).1
    have tRR := (RecordErrRegisterRegister_spec j errs).1
    have sDC := (RecordErrDC_spec i errs).1
    have tDC := (RecordErrDC_spec j errs).1
    have sDS := (RecordErrDS_spec i errs).1
    have tDS := (RecordErrDS_spec j errs).1
    have sH := (RecordErrHalt_spec i errs).1
    have tH := (RecordErrHalt_spec j errs).1
    unfold SameButFlags at sRR tRR sDC tDC sDS tDS sH tH
    unfold Instruction.Translate translationView
    rw [← hoc]
    cases hop : i.m_NumOpCode <;> simp only [] <;>
      first
      | exact absurd hop hc
      | (refine Prod.ext ?_ (Prod.ext ra3 (Prod.ext ra2 ra1))
         exact GetContents_congr _ _ ra4 ra3 ra5 (fun _ => ra6) (fun _ => ra7) (fun _ => ra8))
      | (simp only [mkStmt_contents, hfl, Prod.mk.injEq, and_true, true_and]
         exact GetContents_congr _ _ (by simp only [mkStmt_contents, hoc])
           (by simp only [mkStmt_contents, hfl]) (fun _ => rfl) (fun _ => rfl) (fun _ => rfl)
           (fun _ => rfl))
      | (simp only [mkStmt_contents, rr1, rr2, Prod.mk.injEq, and_true, true_and]
         refine GetContents_congr _ _ ?_ ?_ ?_ ?_ (fun _ => rfl) (fun _ => rfl)
         · simp only [mkStmt_contents, sRR.2.2.2.2.1, tRR.2.2.2.2.1, hoc]
         · simp only [mkStmt_contents, rr2]
         · simp only [mkStmt_contents, sRR.2.2.2.2.2.2.2.1, tRR.2.2.2.2.2.2.2.1]
           exact rr3
         · simp only [mkStmt_contents, sRR.2.2.2.2.2.2.2.2.2, tRR.2.2.2.2.2.2.2.2.2]
           exact rr4)
      | (simp only [mkStmt_contents, ht1, ht2, Prod.mk.injEq, and_true, true_and]
         refine GetContents_congr _ _ ?_ ?_ (fun _ => rfl) (fun _ => rfl) (fun _ => rfl)
           (fun _ => rfl)
         · simp only [mkStmt_contents, sH.2.2.2.2.1, tH.2.2.2.2.1, hoc]
         · simp only [mkStmt_contents, ht2])
      | (simp only [mkStmt_contents, dc1, dc2, Prod.mk.injEq, and_true, true_and]
         refine GetContents_congr _ _ ?_ ?_ (fun _ => rfl) (fun _ => rfl) (fun _ => rfl) ?_
         · simp only [mkStmt_contents, sDC.2.2.2.2.1, tDC.2.2.2.2.1, hoc]
         · simp only [mkStmt_contents, dc2]
         · simp only [mkStmt_contents, sDC.2.2.2.2.2.2.2.1, tDC.2.2.2.2.2.2.2.1]
           exact dc3)
      | (simp only [mkStmt_contents, ds1, ds2, Prod.mk.injEq, and_true, true_and]
         refine GetContents_congr _ _ ?_ ?_ (fun _ => rfl) (fun _ => rfl) (fun _ => rfl)
           (fun _ => rfl)
         · simp only [mkStmt_contents, sDS.2.2.2.2.1, tDS.2.2.2.2.1, hoc]
         · simp only [mkStmt_contents, ds2])


/-- C35 (translation output does not depend on stale instruction state): for every line,
location, symbol table and error sink, `ParseInstruction` followed by `Translate` delivers
the same contents string, the same five error codes in the statement, the same five validity
flags in the object and the same recorded messages on any two `Instruction` objects, whatever
their members held before (and `stoi` throws on the one exactly when it throws on the
other). -/
theorem C35_translation_ignores_stale_state (i j : Instruction) (errs : List String)
    (line : String) (loc : Int) (T : SymbolTable) :
    translateLine i errs line loc T = translateLine j errs line loc T := by
  unfold translateLine
  cases hi : Instruction.ParseInstruction i errs line with
  | none =>
    cases hj : Instruction.ParseInstruction j errs line with
    | none => rfl
    | some q =>
      obtain ⟨i0, e0, hp, _⟩ := parse_some j errs line q.1 q.2.1 q.2.2 hj
      obtain ⟨st, i1, e1, h1⟩ := parse_total i errs line (by rw [hp]; rfl)
      rw [hi] at h1
      cases h1
  | some p =>
    obtain ⟨i0, e0, hp, hsi, hei, _⟩ := parse_some i errs line p.1 p.2.1 p.2.2 hi
    obtain ⟨st, j1, e1, hj⟩ := parse_total j errs line (by rw [hp]; rfl)
    obtain ⟨j0, f0, hq, hsj, hej, _⟩ := parse_some j errs line st j1 e1 hj
    rw [hp] at hq
    simp only [Option.some.injEq, Prod.mk.injEq] at hq
    obtain ⟨_, hq2, hq3⟩ := hq
    subst hq2 hq3
    rw [hj]
    simp only [Option.map_some']
    rw [hei, hej, Translate_same p.2.1 i0 _ loc T hsi, Translate_same j1 i0 _ loc T hsj]


/-! ### The messages that Pass II attaches to a line -/

/-- The checks of `Translate` leave an object that does not depend on the sink, and append
their messages to the sink. -/
theorem RecordErr_appends (i : Instruction) (errs : List String) :
    i.RecordErrRegisterAddress errs
      = ((i.RecordErrRegisterAddress []).1, errs ++ (i.RecordErrRegisterAddress []).2) ∧
    i.RecordErrRegisterRegister errs
      = ((i.RecordErrRegisterRegister []).1, errs ++ (i.RecordErrRegisterRegister []).2) ∧
    i.RecordErrHalt errs = ((i.RecordErrHalt []).1, errs ++ (i.RecordErrHalt []).2) ∧
    i.RecordErrDC errs = ((i.RecordErrDC []).1, errs ++ (i.RecordErrDC []).2) ∧
    i.RecordErrDS errs = ((i.RecordErrDS []).1, errs ++ (i.RecordErrDS []).2) := by
  obtain ⟨il, iop, i1, i2, ii, ic, it, in1, iv1, in2, iv2, f1, f2, f3, f4, f5⟩ := i
  refine ⟨?_, ?_, ?_, ?_, ?_⟩
  · unfold Instruction.RecordErrRegisterAddress Errors.RecordError
    simp only
    split_ifs <;> simp_all
  · unfold Instruction.RecordErrRegisterRegister Errors.RecordError
    simp only
    split_ifs <;> simp_all
  · unfold Instruction.RecordErrHalt Errors.RecordError
    split_ifs <;> simp_all
  · unfold Instruction.RecordErrDC Errors.RecordError
    simp only
    split_ifs <;> simp_all
  · unfold Instruction.RecordErrDS Errors.RecordError
    simp only
    split_ifs <;> simp_all

/-- The messages that `Translate` records do not depend on the sink or on the location: they
are appended to the sink. -/
theorem Translate_appends (i : Instruction) (errs : List String) (loc : Int) (T : SymbolTable) :
    (i.Translate errs loc T).2.2 = errs ++ (i.Translate [] 0 T).2.2 := by
  obtain ⟨h1, h2, h3, h4, h5⟩ := RecordErr_appends i errs
  have hRA : (i.TranslateRegAddr errs loc T).2.2 = errs ++ (i.TranslateRegAddr [] 0 T).2.2 := by
    unfold Instruction.TranslateRegAddr
    rw [h1]
    generalize i.RecordErrRegisterAddress [] = r
    obtain ⟨j, e⟩ := r
    simp only [Errors.RecordError]
    split_ifs <;> simp
  unfold Instruction.Translate
  cases i.m_NumOpCode <;> simp only [] <;>
    first
    | exact hRA
    | simp
    | exact congrArg Prod.snd h2
    | exact congrArg Prod.snd h3
    | exact congrArg Prod.snd h4
    | exact congrArg Prod.snd h5


/-- Pass II appends one statement per line; the error text of the statement of a line is the
text of the messages recorded for that line alone. -/
theorem PassIILoop_errors : ∀ (lines : List String) (a a1 : Assembler) (loc : Int)
    (re : Bool), a.m_ErrorMsgs = [] → a.PassIILoop loc re lines = some a1 →
    ∃ new, a1.m_trans = a.m_trans ++ new ∧ new.length = lines.length ∧
      ∀ (k : Nat) (line : String), lines[k]? = some line →
        ∃ s, new[k]? = some s ∧ s.m_OrigStmt = line ∧
          s.m_ErrorMsg = Errors.GetErrors
            (lineErrors a.m_symtab (re || (lines.take k).any isEndLine) line) := by
  intro lines
  induction lines with
  | nil =>
    intro a a1 loc re _ h
    simp only [Assembler.PassIILoop, Option.some.injEq] at h
    subst h
    refine ⟨[], ?_, rfl, ?_⟩
    · split_ifs <;> simp
    · intro k line hk
      simp at hk
  | cons line rest ih =>
    intro a a1 loc re h0 h
    unfold Assembler.PassIILoop at h
    cases hs : a.PassIIStep loc re line with
    | none => rw [hs] at h; cases h
    | some r =>
      obtain ⟨a2, loc2, re2⟩ := r
      rw [hs] at h
      simp only at h
      obtain ⟨st, i0, e0, i1, hpl, hsame, hinst, _, htr, _, hsym, herr, _, _, _, hre2⟩ :=
        PassIIStep_spec _ _ _ _ _ _ _ h0 hs
      obtain ⟨new, hnew, hlen, hall⟩ := ih a2 a1 loc2 re2 herr h
      have hend : isEndLine line = decide (st = ST_End) := by
        unfold isEndLine; rw [hpl]
      have hmsgs : (i1.Translate e0 loc a.m_symtab).2.2 ++ endCheckMsgs st re
          = lineErrors a.m_symtab re line := by
        have h1 : (i1.Translate e0 loc a.m_symtab).2.2 = (i0.Translate e0 loc a.m_symtab).2.2 :=
          congrArg (fun v => v.2.2.2) (Translate_same i1 i0 e0 loc a.m_symtab hsame)
        unfold lineErrors parseMsgs translateMsgs endMsgs
        rw [hpl, h1, Translate_appends i0 e0 loc a.m_symtab]
      refine ⟨(i1.Translate e0 loc a.m_symtab).1.SetErrorMsg
        (Errors.GetErrors ((i1.Translate e0 loc a.m_symtab).2.2 ++ endCheckMsgs st re)) :: new,
        ?_, ?_, ?_⟩
      · rw [hnew, htr, List.append_assoc]
        rfl
      · rw [List.length_cons, List.length_cons, hlen]
      · intro k l hk
        cases k with
        | zero =>
          rw [List.getElem?_cons_zero, Option.some.injEq] at hk
          subst hk
          refine ⟨_, List.getElem?_cons_zero, ?_, ?_⟩
          · show (i1.Translate e0 loc a.m_symtab).1.m_OrigStmt = line
            rw [(Translate_spec i1 e0 loc a.m_symtab).2.1, hinst]
          · show Errors.GetErrors _ = _
            rw [hmsgs]
            simp
        | succ k =>
          rw [List.getElem?_cons_succ] at hk
          obtain ⟨s, hs1, hs2, hs3⟩ := hall k l hk
          have hlatch : (re2 || (rest.take k).any isEndLine)
              = (re || ((line :: rest).take (k + 1)).any isEndLine) := by
            rw [hre2, List.take_succ_cons, List.any_cons, ← hend]
            cases re <;> cases isEndLine line <;> cases (rest.take k).any isEndLine <;> rfl
          rw [hlatch, hsym] at hs3
          exact ⟨s, by rw [List.getElem?_cons_succ]; exact hs1, hs2, hs3⟩

/-- C34 (errors never bleed across lines): for every source on whose lines `ParseInstruction`
returns, Pass II completes, whatever the error sink holds when it starts (the messages of
Pass I), and appends one statement per line; the error text of the statement of line `k` is
exactly the text of the messages recorded while parsing that line, then while translating it,
then by the end-statement check made for it (whose latch tells whether an end statement
precedes the line), every message followed by a newline, in that order. -/
theorem C34_errors_per_line (a : Assembler)
    (hparse : ∀ l ∈ a.m_facc, (parseLine l).isSome = true) :
    ∃ a1 new, a.PassII = some a1 ∧ a1.m_trans = a.m_trans ++ new ∧
      new.length = a.m_facc.length ∧
      ∀ (k : Nat) (line : String), a.m_facc[k]? = some line →
        ∃ s, new[k]? = some s ∧ s.m_OrigStmt = line ∧
          s.m_ErrorMsg = Errors.GetErrors
            (parseMsgs line ++ translateMsgs a.m_symtab line
              ++ endMsgs ((a.m_facc.take k).any isEndLine) line) := by
  obtain ⟨a1, ha1⟩ := PassIILoop_total a.m_facc { a with m_ErrorMsgs := [] } 0 false hparse
  obtain ⟨new, hnew, hlen, hall⟩ :=
    PassIILoop_errors a.m_facc { a with m_ErrorMsgs := [] } a1 0 false rfl ha1
  refine ⟨a1, new, ha1, hnew, hlen, ?_⟩
  intro k line hk
  obtain ⟨s, hs1, hs2, hs3⟩ := hall k line hk
  rw [Bool.false_or] at hs3
  exact ⟨s, hs1, hs2, hs3⟩

/-- The statement of C34 at `mixedErrorState`: the second line carries "extra operands" alone
(once, though Pass I recorded it too), the third line its two translation messages in order,
the line after the END its parse message followed by the message of the end-statement check,
and the first line no message. -/
theorem C34_errors_per_line_witness :
    (∀ l ∈ mixedErrorState.m_facc, (parseLine l).isSome = true) ∧
    ∃ a1 new, mixedErrorState.PassII = some a1 ∧ a1.m_trans = new ∧
      (∃ s, new[0]? = some s ∧ s.m_OrigStmt = "X DC 1" ∧ s.m_ErrorMsg = "") ∧
      (∃ s, new[1]? = some s ∧ s.m_OrigStmt = "X DC 2 3 4" ∧
        s.m_ErrorMsg = "Error: extra operands.\nError: extra operands.\n") ∧
      (∃ s, new[2]? = some s ∧ s.m_OrigStmt = " LOAD 12 X" ∧
        s.m_ErrorMsg = "Error: Operand 1 must be a register number between 0 and 9.\n"
          ++ "Error: multiply defined symbol.\n") ∧
      (∃ s, new[4]? = some s ∧ s.m_OrigStmt = " FOO" ∧
        s.m_ErrorMsg = "Error: invalid operation.\n"
          ++ "Error: Additional statement following end statement.\n") := by
  have hp : ∀ l ∈ mixedErrorState.m_facc, (parseLine l).isSome = true := by decide
  obtain ⟨a1, new, h1, h2, _, hall⟩ := C34_errors_per_line mixedErrorState hp
  refine ⟨hp, a1, new, h1, h2, ?_, ?_, ?_, ?_⟩
  · obtain ⟨s, hs1, hs2, hs3⟩ := hall 0 "X DC 1" rfl
    exact ⟨s, hs1, hs2, hs3.trans (by decide)⟩
  · obtain ⟨s, hs1, hs2, hs3⟩ := hall 1 "X DC 2 3 4" rfl
    exact ⟨s, hs1, hs2, hs3.trans (by decide)⟩
  · obtain ⟨s, hs1, hs2, hs3⟩ := hall 2 " LOAD 12 X" rfl
    exact ⟨s, hs1, hs2, hs3.trans (by decide)⟩
  · obtain ⟨s, hs1, hs2, hs3⟩ := hall 4 " FOO" rfl
    exact ⟨s, hs1, hs2, hs3.trans (by decide)⟩

/-! ### Locations outside the memory -/

/-- `insertMemory` refuses a location from `MEMSZ` on, leaving the memory as it was, and
otherwise assigns the cell at the location, whatever its sign. -/
theorem insertMemory_outcomes (e : emulator) (loc c : Int) :
    (emulator.MEMSZ ≤ loc →
      (e.insertMemory loc c).1 = false ∧ (e.insertMemory loc c).2.m_memory = e.m_memory) ∧
    (loc < emulator.MEMSZ →
      e.insertMemory loc c = (true, { e with m_memory := emulator.assign e.m_memory loc c })) := by
  unfold emulator.insertMemory
  constructor
  · intro h
    rw [if_pos h]
    exact ⟨rfl, rfl⟩
  · intro h
    rw [if_neg (by omega)]

/-- A successful `Read` advances the instruction pointer by one. -/
theorem Read_pointer (e e1 : emulator) (a loc loc1 : Int)
    (h : e.Read a loc = some (true, e1, loc1)) : loc1 = loc + 1 := by
  unfold emulator.Read at h
  simp only at h
  split_ifs at h with h1
  · simp at h
  · cases hs : stoll (e.cin.headD "") with
    | none => rw [hs] at h; simp at h
    | some v =>
      rw [hs] at h
      simp only at h
      split_ifs at h with h2
      · simp at h
      · simp only [Option.some.injEq, Prod.mk.injEq, true_and] at h
        exact h.2.symm

/-- A successful `Divide` or `DivReg` advances the instruction pointer by one. -/
theorem Divide_pointer (e e1 : emulator) (r a loc loc1 : Int) :
    (e.Divide r a loc = (true, e1, loc1) → loc1 = loc + 1) ∧
    (e.DivReg r a loc = (true, e1, loc1) → loc1 = loc + 1) := by
  unfold emulator.Divide emulator.DivReg
  simp only
  constructor <;> intro h <;> split_ifs at h <;>
    simp only [Prod.mk.injEq, Bool.false_eq_true, false_and, true_and] at h <;>
    exact h.2.symm

/-- After an instruction that executes successfully at an instruction pointer in
`[0, MEMSZ)`, the instruction pointer is in `[0, MEMSZ]`: a branch sets it to an address below
`MEMSZ`, every other instruction advances it by one (DIV by two). -/
theorem ExecuteInstruction_pointer (e e1 : emulator) (oc : SymbolicOpCode) (code ip ip1 : Int)
    (hc : passesOpcodeCheck code = true) (hip : 0 ≤ ip ∧ ip < emulator.MEMSZ)
    (hx : e.ExecuteInstruction oc code ip = some (true, e1, ip1)) :
    0 ≤ ip1 ∧ ip1 ≤ emulator.MEMSZ + 1 ∧
      (oc ≠ OC_DIV → ip1 ≤ emulator.MEMSZ) ∧
      (oc = OC_B ∨ oc = OC_BM ∨ oc = OC_BZ ∨ oc = OC_BP → ip1 < emulator.MEMSZ ∨ ip1 = ip + 1) := by
  obtain ⟨_, ⟨ha1, ha2⟩, _, _⟩ := decode_in_range code hc
  unfold emulator.MEMSZ at hip ⊢
  unfold emulator.ExecuteInstruction at hx
  cases oc <;>
    simp only [emulator.ok, emulator.Add, emulator.Subtract, emulator.Multiply, emulator.Load,
      emulator.Store, emulator.Write, emulator.Branch, emulator.AddReg, emulator.SubReg,
      emulator.MultReg, Option.some.injEq, Prod.mk.injEq, true_and] at hx
  all_goals first
    | (obtain ⟨_, h2⟩ := hx; omega)
    | (unfold emulator.BranchMinus at hx; split_ifs at hx <;> (obtain ⟨_, h2⟩ := hx; omega))
    | (unfold emulator.BranchZero at hx; split_ifs at hx <;> (obtain ⟨_, h2⟩ := hx; omega))
    | (unfold emulator.BranchPositive at hx; split_ifs at hx <;> (obtain ⟨_, h2⟩ := hx; omega))
    | (cases hd : e.Divide (emulator.ExtractRegAddr code).1 (emulator.ExtractRegAddr code).2
           ip with
       | mk b r =>
         obtain ⟨e2, l2⟩ := r
         rw [hd] at hx
         cases b
         · simp at hx
         · simp only [emulator.ok, emulator.Load, Option.some.injEq, Prod.mk.injEq,
             true_and] at hx
           have := (Divide_pointer _ _ _ _ _ _).1 hd
           obtain ⟨_, h2⟩ := hx
           refine ⟨by omega, by omega, fun h => absurd rfl h, ?_⟩
           rintro (h | h | h | h) <;> cases h)
    | (cases hd : e.DivReg (emulator.ExtractRegs code).1 (emulator.ExtractRegs code).2 ip with
       | mk b r =>
         obtain ⟨e2, l2⟩ := r
         rw [hd] at hx
         cases b
         · simp at hx
         · simp only [Option.some.injEq, Prod.mk.injEq, true_and] at hx
           have := (Divide_pointer _ _ _ _ _ _).2 hd
           obtain ⟨_, h2⟩ := hx
           omega)
    | (cases hr : e.Read (emulator.ExtractRegAddr code).2 ip with
       | none => rw [hr] at hx; simp at hx
       | some r =>
         obtain ⟨b, e2, l2⟩ := r
         rw [hr] at hx
         cases b
         · simp at hx
         · simp only [Option.some.injEq, Prod.mk.injEq, true_and] at hx
           have := Read_pointer _ _ _ _ _ hr
           obtain ⟨_, h2⟩ := hx
           omega)

/-- C36 (fixed-width contents): the machine-language line " LOAD 1 X" (op code ordinal 5) gets
the ten characters "0511000000" when the symbol table binds `X` to 1000000 and the three
characters "051" when it binds `X` to -5, with no validity flag set; nine characters only for
a location from 0 to 999999 (here 999999).  Such a table arises from the source
" ORG 1000000", "X DS 1", " ORG 100", " LOAD 1 X", " HALT", " END". -/
theorem C36_contents_width_varies :
    parseLine " LOAD 1 X" = some loadLineParse ∧
    loadLineParse.2.1.m_NumOpCode.ord = 5 ∧
    translateLine {} [] " LOAD 1 X" 100 farSymbolTable
      = some ("0511000000", (false, false, false, false, false),
          (false, false, false, false, false), []) ∧
    "0511000000".length = 10 ∧
    translateLine {} [] " LOAD 1 X" 100 negSymbolTable
      = some ("051", (false, false, false, false, false),
          (false, false, false, false, false), []) ∧
    translateLine {} [] " LOAD 1 X" 100
        { multiplyDefinedSymbol := -999, m_symbolTable := [("X", 999999)] }
      = some ("051999999", (false, false, false, false, false),
          (false, false, false, false, false), []) ∧
    (Assembler.assemble (-999) farLabelSource).map
        (fun a => (a.m_symtab.m_symbolTable,
          a.m_trans.map (fun s => (s.m_Loc, s.m_Contents.GetContents, s.m_ErrorMsg))))
      = some ([("X", 1000000)],
          [(0, "", ""), (1000000, "", ""), (1000001, "", ""), (100, "0511000000", ""),
           (101, "170000000", ""), (102, "", "")]) := by
  refine ⟨rfl, rfl, rfl, rfl, rfl, rfl, ?_⟩
  decide

/-- C37 (load never writes outside memory): `insertMemory` with the location -5 returns true
and assigns the cell with index -5, which is not in `[0, MEMSZ)`; the source " ORG -5",
" DC 7", " END" assembles without error text into a translation whose statement with non-zero
contents 7 has the location -5, and the load phase of `runProgram` succeeds on it and writes 7
at index -5. -/
theorem C37_negative_location_is_written :
    (∀ (e : emulator) (c : Int),
      e.insertMemory (-5) c = (true, { e with m_memory := emulator.assign e.m_memory (-5) c })) ∧
    (emulator.assign (fun _ => 0) (-5) 7) (-5) = 7 ∧
    ¬ (0 ≤ (-5 : Int) ∧ (-5 : Int) < emulator.MEMSZ) ∧
    (Assembler.assemble (-999) negOrgSource).map
        (fun a => (loadList a.m_trans, a.m_trans.map (fun s => s.m_ErrorMsg)))
      = some ([(0, some 0), (-5, some 7), (-4, some 0)], ["", "", ""]) ∧
    ((Assembler.assemble (-999) negOrgSource).bind
        (fun a => emulator.loadLoop {} a.m_trans)).map (fun r => (r.1, r.2.m_memory (-5)))
      = some (true, 7) := by
  refine ⟨fun e c => rfl, ?_, ?_, ?_, ?_⟩ <;> decide

/-- C38 (instruction pointer stays inside memory): with the word `010000000` (ADD 0, 0) in the
last cell 999999 and the instruction pointer there, which is in `[0, MEMSZ)`, the instruction
executes successfully and the loop goes on with the instruction pointer 1000000, which is not
in `[0, MEMSZ)`; the source " ORG 100", " B 0 X", " ORG 999999", "X ADD 0 X", " END" assembles
without error text, loads, and after its two instructions the run goes on with the
instruction pointer 1000000, where the next fetch reads. -/
theorem C38_pointer_leaves_memory :
    (0 ≤ (999999 : Int) ∧ (999999 : Int) < emulator.MEMSZ) ∧
    lastCellState.ExecuteInstruction OC_ADD 10000000 999999
      = some (true, (lastCellState.Add 0 0 999999).1, 1000000) ∧
    (lastCellState.fetchExecute 999999).map (fun r => r.elim (fun _ => none) (fun p => some p.2))
      = some (some 1000000) ∧
    ¬ ((1000000 : Int) < emulator.MEMSZ) ∧
    (Assembler.assemble (-999) lastCellSource).map
        (fun a => (loadList a.m_trans, a.m_trans.map (fun s => s.m_ErrorMsg)))
      = some ([(0, some 0), (100, some 130999999), (101, some 0), (999999, some 10999999),
          (1000000, some 0)], ["", "", "", "", ""]) ∧
    (Assembler.assemble (-999) lastCellSource).map
        (fun a => runPointer (emulator.runProgram {} a.m_trans 2))
      = some (some 1000000) := by
  refine ⟨by decide, rfl, ?_, by decide, ?_, ?_⟩ <;> decide

end VC8000
